import Mathlib

/-!
# Integer data-processing emitters of the x64 backend

A shallow embedding of `src/backend_x64/emit_x64_data_processing.cpp`.

Every `code.<mnemonic>(...)` call of an emitter is embedded as a function on the
host state `X64State` (general-purpose registers, status flags, memory), so an
emitter becomes the composition of the host instructions it appends to the code
buffer, in program order; the local labels and jumps of an emitter become
`if`-expressions on the host flags.  Register-allocator calls are embedded with
the register the allocator hands out supplied by the caller, so that statements
hold for every allocation that keeps live registers apart.
-/

namespace Dynarmic.BackendX64

/-! ## Host locations and IR operands -/

/-- The sixteen general-purpose host registers (`HostLoc::RAX` .. `HostLoc::R15`). -/
inductive HostLoc where
  | RAX | RCX | RDX | RBX | RSP | RBP | RSI | RDI
  | R8 | R9 | R10 | R11 | R12 | R13 | R14 | R15
  deriving DecidableEq, Repr

/-- IR value types that occur as operands of the integer emitters. -/
inductive IRType where
  | U1 | U8 | U16 | U32 | U64 | Cond
  deriving DecidableEq, Repr

/-- A resolved operand (`Argument`): an immediate, or an SSA value.  `raw` is the
immediate itself, respectively the full 64-bit content of the host location that
holds the SSA value (bits above the width of the type are arbitrary). -/
inductive Argument where
  | imm (ty : IRType) (raw : Nat)
  | val (ty : IRType) (raw : Nat)
  deriving DecidableEq, Repr

/-- `Argument::IsImmediate`. -/
def Argument.IsImmediate : Argument → Bool
  | .imm _ _ => true
  | .val _ _ => false

/-- `Argument::GetType`. -/
def Argument.GetType : Argument → IRType
  | .imm ty _ => ty
  | .val ty _ => ty

/-- The 64-bit quantity the register allocator materialises for the operand. -/
def Argument.raw : Argument → Nat
  | .imm _ v => v
  | .val _ v => v

/-- `Argument::GetImmediateU1`. -/
def Argument.GetImmediateU1 (a : Argument) : Bool := a.raw % 2 = 1

/-- `Argument::GetImmediateU8`. -/
def Argument.GetImmediateU8 (a : Argument) : Nat := a.raw % 2 ^ 8

/-- `Argument::GetImmediateU32`. -/
def Argument.GetImmediateU32 (a : Argument) : Nat := a.raw % 2 ^ 32

/-- Guest condition codes (`IR::Cond`), in encoding order. -/
inductive Cond where
  | EQ | NE | CS | CC | MI | PL | VS | VC | HI | LS | GE | LT | GT | LE | AL | NV
  deriving DecidableEq, Repr

/-- `Argument::GetImmediateCond`: the condition code an immediate encodes; `none`
for a value outside the enumeration. -/
def Argument.GetImmediateCond (a : Argument) : Option Cond :=
  match a.raw with
  | 0 => some .EQ | 1 => some .NE | 2 => some .CS | 3 => some .CC
  | 4 => some .MI | 5 => some .PL | 6 => some .VS | 7 => some .VC
  | 8 => some .HI | 9 => some .LS | 10 => some .GE | 11 => some .LT
  | 12 => some .GT | 13 => some .LE | 14 => some .AL | 15 => some .NV
  | _ => none

/-- Encoding of a guest condition code. -/
def Cond.toNat : Cond → Nat
  | .EQ => 0 | .NE => 1 | .CS => 2 | .CC => 3 | .MI => 4 | .PL => 5 | .VS => 6 | .VC => 7
  | .HI => 8 | .LS => 9 | .GE => 10 | .LT => 11 | .GT => 12 | .LE => 13 | .AL => 14
  | .NV => 15

/-- Width in bits of an IR type as held in a host register. -/
def IRType.bits : IRType → Nat
  | .U1 => 1
  | .U8 => 8
  | .U16 => 16
  | .U32 => 32
  | .U64 => 64
  | .Cond => 4

/-- The IR nodes an emitter can define: the primary instruction and the
pseudo-operations attached to it. -/
inductive IRNode where
  | inst | carry_inst | overflow_inst | nzcv_inst
  deriving DecidableEq, Repr

/-- An IR instruction as seen by an emitter: its three operand slots and which
pseudo-operations `GetAssociatedPseudoOperation` finds attached. -/
structure Inst where
  arg0 : Argument
  arg1 : Argument
  arg2 : Argument
  carry_inst : Bool
  overflow_inst : Bool
  nzcv_inst : Bool
  deriving DecidableEq, Repr

/-- The sixteen XMM registers of the host. -/
inductive Xmm where
  | XMM0 | XMM1 | XMM2 | XMM3 | XMM4 | XMM5 | XMM6 | XMM7
  | XMM8 | XMM9 | XMM10 | XMM11 | XMM12 | XMM13 | XMM14 | XMM15
  deriving DecidableEq, Repr

/-- A call made by an emitter to bind or to retire an IR node. -/
inductive RACall where
  | define (node : IRNode)
  | erase (node : IRNode)
  deriving DecidableEq, Repr

/-- An `OpArg`: a register or a memory operand `[base + disp]`. -/
inductive OpArg where
  | reg (r : HostLoc)
  | mem (base : HostLoc) (disp : Nat)
  deriving DecidableEq, Repr

/-! ## Host machine state -/

/-- State of the host while the emitted code runs, together with the log of
`DefineValue` / `EraseInstruction` calls made by the emitter.  `undef` and `tick`
supply the values of flags and registers that an instruction leaves undefined;
`divs` counts executed `div`/`idiv` instructions; `xmm` holds the 128-bit vector
registers; `calls` records the `DefineValue` and `EraseInstruction` calls in the
order in which they were made. -/
structure X64State where
  gpr : HostLoc → Nat
  CF : Bool
  PF : Bool
  AF : Bool
  ZF : Bool
  SF : Bool
  OF : Bool
  mem : Nat → Nat
  undef : Nat → Nat
  tick : Nat
  divs : Nat
  defined : List (IRNode × HostLoc)
  erased : List IRNode
  xmm : Xmm → Nat
  definedXmm : List (IRNode × Xmm)
  calls : List RACall

/-- Most significant bit of a `w`-bit quantity. -/
def msb (w x : Nat) : Bool := x / 2 ^ (w - 1) % 2 = 1

/-- Bit `i` of `x`. -/
def bit (x i : Nat) : Bool := x / 2 ^ i % 2 = 1

/-- Two's-complement reading of a `w`-bit quantity. -/
def toSigned (w x : Nat) : Int :=
  if x % 2 ^ w < 2 ^ (w - 1) then (x % 2 ^ w : Nat) else ((x % 2 ^ w : Nat) : Int) - 2 ^ w

/-- Host parity flag of a result: set when the low byte has an even number of ones. -/
def parity8 (x : Nat) : Bool :=
  (x % 2 + x / 2 % 2 + x / 4 % 2 + x / 8 % 2 + x / 16 % 2 + x / 32 % 2 + x / 64 % 2
    + x / 128 % 2) % 2 = 0

/-- The `k`-th value left undefined by the instruction being executed. -/
def X64State.havoc (s : X64State) (k : Nat) : Bool := s.undef (s.tick + k) % 2 = 1

/-- Read the low `w` bits of a register. -/
@[simp] def X64State.readGpr (s : X64State) (w : Nat) (r : HostLoc) : Nat := s.gpr r % 2 ^ w

/-- New content of a 64-bit register holding `old` after a `w`-bit write of `v`: 64-
and 32-bit writes replace the whole register (a 32-bit write zero-extends), 16- and
8-bit writes keep the bits above. -/
def regWrite (w old v : Nat) : Nat :=
  if w = 64 then v % 2 ^ 64 else if w = 32 then v % 2 ^ 32
  else old % 2 ^ 64 / 2 ^ w * 2 ^ w + v % 2 ^ w

/-- Write the low `w` bits of a register. -/
def X64State.writeGpr (s : X64State) (w : Nat) (r : HostLoc) (v : Nat) : X64State :=
  { s with gpr := fun q => if q = r then regWrite w (s.gpr r) v else s.gpr q }

/-- Effective address of `[base + disp]`. -/
@[simp] def X64State.ea (s : X64State) (base : HostLoc) (disp : Nat) : Nat :=
  (s.gpr base + disp) % 2 ^ 64

/-- Source operands of host instructions. -/
inductive Operand where
  | reg (r : HostLoc)
  | imm (v : Nat)
  | mem (base : HostLoc) (disp : Nat)
  deriving DecidableEq, Repr

/-- Registers an `OpArg` occupies. -/
def OpArg.regs : OpArg → List HostLoc
  | .reg r => [r]
  | .mem _ _ => []

/-- An `OpArg` used as a source operand (`*op_arg`). -/
@[simp] def OpArg.deref : OpArg → Operand
  | .reg r => .reg r
  | .mem b d => .mem b d

/-- Value of a source operand at width `w`; a 32-bit immediate of a 64-bit
instruction is sign-extended, as the host encoding does. -/
@[simp] def X64State.readOp (s : X64State) (w : Nat) : Operand → Nat
  | .reg r => s.readGpr w r
  | .imm v =>
      if w = 64 then
        (if v % 2 ^ 32 < 2 ^ 31 then v % 2 ^ 32 else v % 2 ^ 32 + (2 ^ 64 - 2 ^ 32))
      else v % 2 ^ w
  | .mem b d => s.mem (s.ea b d) % 2 ^ w

/-- SF, ZF and PF as every arithmetic or logical instruction sets them from its result. -/
def X64State.setSZP (s : X64State) (w r : Nat) : X64State :=
  { s with SF := msb w r, ZF := (r % 2 ^ w = 0), PF := parity8 r }

/-- The fourteen host condition suffixes used by `cmovcc`, `setcc` and `jcc`. -/
inductive CC where
  | o | no | c | nc | z | nz | na | a | s | ns | l | ge | le | g
  deriving DecidableEq, Repr

/-- Whether a host condition holds on the current flags. -/
@[simp] def CC.holds (s : X64State) : CC → Bool
  | .o => s.OF
  | .no => !s.OF
  | .c => s.CF
  | .nc => !s.CF
  | .z => s.ZF
  | .nz => !s.ZF
  | .na => s.CF || s.ZF
  | .a => !s.CF && !s.ZF
  | .s => s.SF
  | .ns => !s.SF
  | .l => s.SF != s.OF
  | .ge => s.SF == s.OF
  | .le => s.ZF || (s.SF != s.OF)
  | .g => !s.ZF && (s.SF == s.OF)

/-! ## Host instructions

One function per mnemonic the emitters call on the assembler.  The first argument
of a sized instruction is the operand width in bits. -/

namespace code

/-- Sum part shared by `add` and `adc`: destination, flags CF, OF, AF, SF, ZF, PF. -/
def addWithCarry (w : Nat) (dst : HostLoc) (src : Operand) (cin : Nat) (s : X64State) :
    X64State :=
  let a := s.readGpr w dst
  let b := s.readOp w src
  let sum := a + b + cin
  let r := sum % 2 ^ w
  let s1 : X64State :=
    { s with CF := (2 ^ w ≤ sum),
             OF := (msb w a == msb w b) && (msb w r != msb w a),
             AF := (16 ≤ a % 16 + b % 16 + cin) }
  (s1.setSZP w r).writeGpr w dst r

/-- Difference part shared by `sub`, `sbb` and `cmp`: the result and the flags. -/
def subFlags (w a b cin : Nat) (s : X64State) : Nat × X64State :=
  let r := (a + 2 ^ w - (b + cin)) % 2 ^ w
  let s1 : X64State :=
    { s with CF := (a < b + cin),
             OF := (msb w a != msb w b) && (msb w r != msb w a),
             AF := (a % 16 < b % 16 + cin) }
  (r, s1.setSZP w r)

/-- Instruction `add dst, src`. -/
def add (w : Nat) (dst : HostLoc) (src : Operand) (s : X64State) : X64State :=
  addWithCarry w dst src 0 s

/-- Instruction `adc dst, src`: adds the carry flag as well. -/
def adc (w : Nat) (dst : HostLoc) (src : Operand) (s : X64State) : X64State :=
  addWithCarry w dst src s.CF.toNat s

/-- Difference part shared by `sub` and `sbb`: destination and flags. -/
def subWithBorrow (w : Nat) (dst : HostLoc) (src : Operand) (cin : Nat) (s : X64State) :
    X64State :=
  let p := subFlags w (s.readGpr w dst) (s.readOp w src) cin s
  p.2.writeGpr w dst p.1

/-- Instruction `sub dst, src`. -/
def sub (w : Nat) (dst : HostLoc) (src : Operand) (s : X64State) : X64State :=
  subWithBorrow w dst src 0 s

/-- Instruction `sbb dst, src`: subtracts the carry flag as well. -/
def sbb (w : Nat) (dst : HostLoc) (src : Operand) (s : X64State) : X64State :=
  subWithBorrow w dst src s.CF.toNat s

/-- Instruction `cmp a, b`: the flags of `sub` without the write. -/
def cmp (w : Nat) (a : HostLoc) (b : Operand) (s : X64State) : X64State :=
  (subFlags w (s.readGpr w a) (s.readOp w b) 0 s).2

/-- Flags of the logical instructions: CF and OF cleared, AF undefined. -/
def logicFlags (w r : Nat) (s : X64State) : X64State :=
  ({ s with CF := false, OF := false, AF := s.havoc 0, tick := s.tick + 1 }).setSZP w r

/-- Instruction `and dst, src`. -/
def and_ (w : Nat) (dst : HostLoc) (src : Operand) (s : X64State) : X64State :=
  let r := s.readGpr w dst &&& s.readOp w src
  (logicFlags w r s).writeGpr w dst r

/-- Instruction `or dst, src`. -/
def or_ (w : Nat) (dst : HostLoc) (src : Operand) (s : X64State) : X64State :=
  let r := s.readGpr w dst ||| s.readOp w src
  (logicFlags w r s).writeGpr w dst r

/-- Instruction `xor dst, src`. -/
def xor_ (w : Nat) (dst : HostLoc) (src : Operand) (s : X64State) : X64State :=
  let r := s.readGpr w dst ^^^ s.readOp w src
  (logicFlags w r s).writeGpr w dst r

/-- Instruction `test a, b`: the flags of `and` without the write. -/
def test (w : Nat) (a : HostLoc) (b : Operand) (s : X64State) : X64State :=
  logicFlags w (s.readGpr w a &&& s.readOp w b) s

/-- Instruction `mov dst, src`; flags are untouched. -/
def mov (w : Nat) (dst : HostLoc) (src : Operand) (s : X64State) : X64State :=
  s.writeGpr w dst (s.readOp w src)

/-- Instruction `stc`. -/
def stc (s : X64State) : X64State := { s with CF := true }

/-- Instruction `cmc`. -/
def cmc (s : X64State) : X64State := { s with CF := !s.CF }

/-- Instruction `bt r, imm8`: CF receives the selected bit (index taken modulo the
width); ZF is kept; OF, SF, AF and PF are undefined. -/
def bt (w : Nat) (r : HostLoc) (i : Nat) (s : X64State) : X64State :=
  { s with CF := bit (s.readGpr w r) (i % w),
           OF := s.havoc 0, SF := s.havoc 1, AF := s.havoc 2, PF := s.havoc 3,
           tick := s.tick + 4 }

/-- Instruction `setcc r8`. -/
def setcc (cc : CC) (r : HostLoc) (s : X64State) : X64State :=
  s.writeGpr 8 r (cc.holds s).toNat

/-- Instruction `cmovcc dst, src`; the 32-bit form zero-extends the destination
whether or not the move happens. -/
def cmovcc (cc : CC) (w : Nat) (dst src : HostLoc) (s : X64State) : X64State :=
  s.writeGpr w dst (if cc.holds s then s.readGpr w src else s.readGpr w dst)

/-- The byte `lahf` stores: SF:ZF:0:AF:0:PF:1:CF. -/
def lahfByte (s : X64State) : Nat :=
  s.SF.toNat * 128 + s.ZF.toNat * 64 + s.AF.toNat * 16 + s.PF.toNat * 4 + 2 + s.CF.toNat

/-- Instruction `lahf`: AH receives SF:ZF:0:AF:0:PF:1:CF. -/
def lahf (s : X64State) : X64State :=
  let old := s.gpr .RAX % 2 ^ 64
  { s with gpr := fun q => if q = .RAX then old / 2 ^ 16 * 2 ^ 16 + lahfByte s * 256 + old % 256
                           else s.gpr q }

/-- Instruction `sahf`: SF, ZF, AF, PF and CF are loaded from AH; OF is kept. -/
def sahf (s : X64State) : X64State :=
  let ah := s.gpr .RAX / 256 % 256
  { s with SF := bit ah 7, ZF := bit ah 6, AF := bit ah 4, PF := bit ah 2, CF := bit ah 0 }

/-- Count mask of the shift and rotate instructions: 6 bits for 64-bit operands,
5 bits otherwise. -/
def countMask (w c : Nat) : Nat := if w = 64 then c % 64 else c % 32

/-- A shift or rotate whose masked count is zero: the flags are kept, and so is a 64-,
16- or 8-bit destination; a 32-bit destination is still written, which clears bits
63..32 of the register. -/
def zeroCount (w : Nat) (dst : HostLoc) (s : X64State) : X64State :=
  if w = 32 then s.writeGpr 32 dst (s.readGpr 32 dst) else s

/-- Instruction `shl dst, count`.  A masked count of zero changes no flag (see
`zeroCount` for the destination); otherwise
CF is the last bit shifted out, OF is defined for a count of one only, AF is
undefined. -/
def shl (w : Nat) (dst : HostLoc) (count : Nat) (s : X64State) : X64State :=
  let c := countMask w count
  if c = 0 then zeroCount w dst s else
    let a := s.readGpr w dst
    let r := a * 2 ^ c % 2 ^ w
    let cf := bit a (w - c)
    let s1 : X64State :=
      { s with CF := cf, OF := if c = 1 then (msb w r != cf) else s.havoc 0,
               AF := s.havoc 1, tick := s.tick + 2 }
    (s1.setSZP w r).writeGpr w dst r

/-- Instruction `shr dst, count`. -/
def shr (w : Nat) (dst : HostLoc) (count : Nat) (s : X64State) : X64State :=
  let c := countMask w count
  if c = 0 then zeroCount w dst s else
    let a := s.readGpr w dst
    let r := a / 2 ^ c
    let s1 : X64State :=
      { s with CF := bit a (c - 1), OF := if c = 1 then msb w a else s.havoc 0,
               AF := s.havoc 1, tick := s.tick + 2 }
    (s1.setSZP w r).writeGpr w dst r

/-- Three-operand `imul dst, src, imm`: the low `w` bits of the signed product; CF
and OF tell whether the product was truncated; SF, ZF, AF and PF are undefined. -/
def imul3 (w : Nat) (dst : HostLoc) (src : Operand) (k : Nat) (s : X64State) : X64State :=
  let p : Int := toSigned w (s.readOp w src) * toSigned w (s.readOp w (.imm k))
  let r := (p % 2 ^ w).toNat
  let trunc : Bool := toSigned w r ≠ p
  { s with CF := trunc, OF := trunc, SF := s.havoc 0, ZF := s.havoc 1, AF := s.havoc 2,
           PF := s.havoc 3, tick := s.tick + 4 }.writeGpr w dst r

/-- Instruction `shl dst, cl`. -/
def shl_cl (w : Nat) (dst : HostLoc) (s : X64State) : X64State :=
  shl w dst (s.readGpr 8 .RCX) s

/-- Instruction `shr dst, cl`. -/
def shr_cl (w : Nat) (dst : HostLoc) (s : X64State) : X64State :=
  shr w dst (s.readGpr 8 .RCX) s

/-- Instruction `cdq` (`w = 32`) or `cqo` (`w = 64`): the data-high register receives
the sign of the accumulator in every bit. -/
def signExtendAcc (w : Nat) (s : X64State) : X64State :=
  s.writeGpr w .RDX (if msb w (s.readGpr w .RAX) then 2 ^ w - 1 else 0)

/-- Instruction `cdq`. -/
def cdq (s : X64State) : X64State := signExtendAcc 32 s

/-- Instruction `cqo`. -/
def cqo (s : X64State) : X64State := signExtendAcc 64 s

/-- State after a `div`/`idiv` that did not fault: quotient in the accumulator,
remainder in the data-high register, all six status flags undefined. -/
def divWrite (w q r : Nat) (s : X64State) : X64State :=
  let s1 : X64State :=
    { s with CF := s.havoc 0, OF := s.havoc 1, SF := s.havoc 2, ZF := s.havoc 3,
             AF := s.havoc 4, PF := s.havoc 5, tick := s.tick + 6, divs := s.divs + 1 }
  (s1.writeGpr w .RAX q).writeGpr w .RDX r

/-- Instruction `div src`: unsigned division of the double-width DATA_HIGH:ACC by
`src`.  Returns `none` when the host raises a divide error: a zero divisor, or a
quotient that does not fit in `w` bits. -/
def div (w : Nat) (src : HostLoc) (s : X64State) : Option X64State :=
  let d := s.readGpr w src
  let n := s.readGpr w .RDX * 2 ^ w + s.readGpr w .RAX
  if d = 0 then none
  else if 2 ^ w ≤ n / d then none
  else some (divWrite w (n / d) (n % d) s)

/-- Instruction `idiv src`: signed division, truncating toward zero, of the
double-width DATA_HIGH:ACC by `src`.  Returns `none` when the host raises a divide
error: a zero divisor, or a quotient outside the signed `w`-bit range. -/
def idiv (w : Nat) (src : HostLoc) (s : X64State) : Option X64State :=
  let d : Int := toSigned w (s.readGpr w src)
  let n : Int := toSigned (2 * w) (s.readGpr w .RDX * 2 ^ w + s.readGpr w .RAX)
  if d = 0 then none
  else if Int.tdiv n d < -(2 ^ (w - 1)) ∨ 2 ^ (w - 1) ≤ Int.tdiv n d then none
  else some (divWrite w (Int.tdiv n d % 2 ^ w).toNat (Int.tmod n d % 2 ^ w).toNat s)

end code

/-! ## Register allocator interface

`RegAlloc` is not part of the translated file.  Its acquisition calls are embedded
as the state change they guarantee to the emitter, with the location the allocator
picks passed in explicitly. -/

/-- Modelled from the spec: `RegAlloc::UseScratchGpr(arg)` is missing from the
sources; it "materializes `arg` into a GPR that the emitter may clobber".  The
register chosen is `r`; afterwards it holds the operand. -/
def UseScratchGpr (arg : Argument) (r : HostLoc) (s : X64State) : X64State :=
  { s with gpr := fun q => if q = r then arg.raw % 2 ^ 64 else s.gpr q }

/-- Modelled from the spec: `RegAlloc::UseGpr(arg)` is missing from the sources; it
"materializes `arg` into some GPR", read-only for the emitter.  The register chosen
is `r`. -/
def UseGpr (arg : Argument) (r : HostLoc) (s : X64State) : X64State :=
  { s with gpr := fun q => if q = r then arg.raw % 2 ^ 64 else s.gpr q }

/-- Modelled from the spec: `RegAlloc::Use(arg, LOC)` and `UseScratch(arg, LOC)` are
missing from the sources; they materialise `arg` "into a specific fixed host
location". -/
def Use (arg : Argument) (loc : HostLoc) (s : X64State) : X64State :=
  { s with gpr := fun q => if q = loc then arg.raw % 2 ^ 64 else s.gpr q }

/-- Modelled from the spec: `RegAlloc::UseOpArg(arg)` is missing from the sources; it
"yields either a register or a memory operand".  The operand chosen is `op`;
afterwards it holds the value. -/
def UseOpArg (arg : Argument) (op : OpArg) (s : X64State) : X64State :=
  match op with
  | .reg r => { s with gpr := fun q => if q = r then arg.raw % 2 ^ 64 else s.gpr q }
  | .mem b d =>
      { s with mem := fun a => if a = s.ea b d then arg.raw % 2 ^ 64 else s.mem a }

/-- Modelled from the spec: `RegAlloc::DefineValue(inst, loc)` is missing from the
sources; it "binds `inst`'s SSA output to `loc`".  The call is logged. -/
def DefineValue (node : IRNode) (loc : HostLoc) (s : X64State) : X64State :=
  { s with defined := s.defined ++ [(node, loc)], calls := s.calls ++ [.define node] }

/-- Modelled from the spec: `EmitContext::EraseInstruction(inst)` is missing from the
sources; it "marks a pseudo-operation as consumed".  The call is logged. -/
def EraseInstruction (node : IRNode) (s : X64State) : X64State :=
  { s with erased := s.erased ++ [node], calls := s.calls ++ [.erase node] }

/-- Host location an IR node was last bound to by `DefineValue`. -/
def X64State.locOf (s : X64State) (node : IRNode) : Option HostLoc :=
  (s.defined.reverse.find? (fun p => p.1 = node)).map (fun p => p.2)

/-- Value of an IR node after the emitted code has run: the low `w` bits of the host
location it was defined as.  One-bit values (carry, overflow) are read at `w = 8`,
the byte that `setcc` writes. -/
def X64State.valueOf (s : X64State) (node : IRNode) (w : Nat) : Option Nat :=
  (s.locOf node).map (fun r => s.readGpr w r)

/-! ## Arithmetic emitters -/

/-- `DoCarry`: the register that will hold the carry.  An immediate carry-in needs
at most a fresh scratch register; a dynamic one is materialised into `carry`. -/
def DoCarry (carry_in : Argument) (carry_out : Bool) (carry : HostLoc) (s : X64State) :
    X64State :=
  if carry_in.IsImmediate then
    s
  else
    if carry_out then UseScratchGpr carry_in carry s else UseGpr carry_in carry s

/-- `DoNZCV`: when the NZCV pseudo-operation is attached, RAX is taken as scratch
and cleared. -/
def DoNZCV (nzcv_out : Bool) (s : X64State) : X64State :=
  if !nzcv_out then
    s
  else
    code.xor_ 32 .RAX (.reg .RAX) s

/-- `EmitAdd`.  `result`, `carry`, `overflow` and `op` are the locations
the register allocator returns for `UseScratchGpr(args[0])`, `DoCarry`,
`ScratchGpr()` and `UseOpArg(args[1])`. -/
def EmitAdd (bitsize : Nat) (inst : Inst) (result carry overflow : HostLoc) (op : OpArg)
    (s : X64State) : X64State :=
  let carry_inst := inst.carry_inst
  let overflow_inst := inst.overflow_inst
  let nzcv_inst := inst.nzcv_inst
  let carry_in := inst.arg2
  let s := DoNZCV nzcv_inst s
  let s := UseScratchGpr inst.arg0 result s
  let s := DoCarry carry_in carry_inst carry s
  let s :=
    if inst.arg1.IsImmediate && inst.arg1.GetType = IRType.U32 then
      let op_arg := inst.arg1.GetImmediateU32
      if carry_in.IsImmediate then
        if carry_in.GetImmediateU1 then
          s |> code.stc |> code.adc bitsize result (.imm op_arg)
        else
          s |> code.add bitsize result (.imm op_arg)
      else
        s |> code.bt 32 carry 0 |> code.adc bitsize result (.imm op_arg)
    else
      let s := UseOpArg inst.arg1 op s
      if carry_in.IsImmediate then
        if carry_in.GetImmediateU1 then
          s |> code.stc |> code.adc bitsize result op.deref
        else
          s |> code.add bitsize result op.deref
      else
        s |> code.bt 32 carry 0 |> code.adc bitsize result op.deref
  let s :=
    if nzcv_inst then
      s |> code.lahf |> code.setcc .o .RAX |> DefineValue .nzcv_inst .RAX
        |> EraseInstruction .nzcv_inst
    else s
  let s :=
    if carry_inst then
      s |> code.setcc .c carry |> DefineValue .carry_inst carry
        |> EraseInstruction .carry_inst
    else s
  let s :=
    if overflow_inst then
      s |> code.setcc .o overflow |> DefineValue .overflow_inst overflow
        |> EraseInstruction .overflow_inst
    else s
  DefineValue .inst result s

/-- `EmitSub`; the parameters are as for `EmitAdd`.  The host CF
after `sub`/`sbb` is the inverse of the guest carry. -/
def EmitSub (bitsize : Nat) (inst : Inst) (result carry overflow : HostLoc) (op : OpArg)
    (s : X64State) : X64State :=
  let carry_inst := inst.carry_inst
  let overflow_inst := inst.overflow_inst
  let nzcv_inst := inst.nzcv_inst
  let carry_in := inst.arg2
  let s := DoNZCV nzcv_inst s
  let s := UseScratchGpr inst.arg0 result s
  let s := DoCarry carry_in carry_inst carry s
  let s :=
    if inst.arg1.IsImmediate && inst.arg1.GetType = IRType.U32 then
      let op_arg := inst.arg1.GetImmediateU32
      if carry_in.IsImmediate then
        if carry_in.GetImmediateU1 then
          s |> code.sub bitsize result (.imm op_arg)
        else
          s |> code.stc |> code.sbb bitsize result (.imm op_arg)
      else
        s |> code.bt 32 carry 0 |> code.cmc |> code.sbb bitsize result (.imm op_arg)
    else
      let s := UseOpArg inst.arg1 op s
      if carry_in.IsImmediate then
        if carry_in.GetImmediateU1 then
          s |> code.sub bitsize result op.deref
        else
          s |> code.stc |> code.sbb bitsize result op.deref
      else
        s |> code.bt 32 carry 0 |> code.cmc |> code.sbb bitsize result op.deref
  let s :=
    if nzcv_inst then
      s |> code.cmc |> code.lahf |> code.setcc .o .RAX |> DefineValue .nzcv_inst .RAX
        |> EraseInstruction .nzcv_inst
    else s
  let s :=
    if carry_inst then
      s |> code.setcc .nc carry |> DefineValue .carry_inst carry
        |> EraseInstruction .carry_inst
    else s
  let s :=
    if overflow_inst then
      s |> code.setcc .o overflow |> DefineValue .overflow_inst overflow
        |> EraseInstruction .overflow_inst
    else s
  DefineValue .inst result s

/-! ## Conditional select -/

/-- `EmitConditionalSelect`.  `then_` and `else_` are the registers
returned by `UseGpr(args[1])` and `UseScratchGpr(args[2])`; `offsetof_CPSR_nzcv` is
the offset supplied by the JIT state descriptor.  The result is `none` when the
`default:` assertion of the `switch` fires. -/
def EmitConditionalSelect (bitsize : Nat) (inst : Inst) (then_ else_ : HostLoc)
    (offsetof_CPSR_nzcv : Nat) (s : X64State) : Option X64State :=
  let nzcv := HostLoc.RAX
  let s := UseGpr inst.arg1 then_ s
  let s := UseScratchGpr inst.arg2 else_ s
  let s := code.mov 32 nzcv (.mem .R15 offsetof_CPSR_nzcv) s
  let s := code.shr 32 nzcv 28 s
  let s := code.imul3 32 nzcv (.reg nzcv) 0b0001000010000001 s
  let s := code.and_ 8 nzcv (.imm 1) s
  let s := code.add 8 nzcv (.imm 0x7F) s
  let s := code.sahf s
  let r : Option X64State :=
    match inst.arg0.GetImmediateCond with
    | some .EQ => some (code.cmovcc .z bitsize else_ then_ s)
    | some .NE => some (code.cmovcc .nz bitsize else_ then_ s)
    | some .CS => some (code.cmovcc .c bitsize else_ then_ s)
    | some .CC => some (code.cmovcc .nc bitsize else_ then_ s)
    | some .MI => some (code.cmovcc .s bitsize else_ then_ s)
    | some .PL => some (code.cmovcc .ns bitsize else_ then_ s)
    | some .VS => some (code.cmovcc .o bitsize else_ then_ s)
    | some .VC => some (code.cmovcc .no bitsize else_ then_ s)
    | some .HI => some (s |> code.cmc |> code.cmovcc .a bitsize else_ then_)
    | some .LS => some (s |> code.cmc |> code.cmovcc .na bitsize else_ then_)
    | some .GE => some (code.cmovcc .ge bitsize else_ then_ s)
    | some .LT => some (code.cmovcc .l bitsize else_ then_ s)
    | some .GT => some (code.cmovcc .g bitsize else_ then_ s)
    | some .LE => some (code.cmovcc .le bitsize else_ then_ s)
    | some .AL => some (code.mov bitsize else_ (.reg then_) s)
    | some .NV => some (code.mov bitsize else_ (.reg then_) s)
    | none => none
  r.map (DefineValue .inst else_)

/-- `EmitX64::EmitConditionalSelect32`. -/
def EmitConditionalSelect32 (inst : Inst) (then_ else_ : HostLoc) (off : Nat)
    (s : X64State) : Option X64State :=
  EmitConditionalSelect 32 inst then_ else_ off s

/-- `EmitX64::EmitConditionalSelect64`. -/
def EmitConditionalSelect64 (inst : Inst) (then_ else_ : HostLoc) (off : Nat)
    (s : X64State) : Option X64State :=
  EmitConditionalSelect 64 inst then_ else_ off s

/-! ## Division -/

/-- `EmitX64::EmitUnsignedDiv32`.  `dividend` and `divisor` are the registers
returned by `UseGpr`; RAX and RDX are taken as scratch.  `none` is a host divide
error. -/
def EmitUnsignedDiv32 (inst : Inst) (dividend divisor : HostLoc) (s : X64State) :
    Option X64State :=
  let s := UseGpr inst.arg0 dividend s
  let s := UseGpr inst.arg1 divisor s
  let s := code.xor_ 32 .RAX (.reg .RAX) s
  let s := code.test 32 divisor (.reg divisor) s
  let r : Option X64State :=
    if CC.z.holds s then
      some s
    else
      s |> code.mov 32 .RAX (.reg dividend) |> code.xor_ 32 .RDX (.reg .RDX)
        |> code.div 32 divisor
  r.map (DefineValue .inst .RAX)

/-- `EmitX64::EmitUnsignedDiv64`. -/
def EmitUnsignedDiv64 (inst : Inst) (dividend divisor : HostLoc) (s : X64State) :
    Option X64State :=
  let s := UseGpr inst.arg0 dividend s
  let s := UseGpr inst.arg1 divisor s
  let s := code.xor_ 32 .RAX (.reg .RAX) s
  let s := code.test 64 divisor (.reg divisor) s
  let r : Option X64State :=
    if CC.z.holds s then
      some s
    else
      s |> code.mov 64 .RAX (.reg dividend) |> code.xor_ 32 .RDX (.reg .RDX)
        |> code.div 64 divisor
  r.map (DefineValue .inst .RAX)

/-- `EmitX64::EmitSignedDiv32`. -/
def EmitSignedDiv32 (inst : Inst) (dividend divisor : HostLoc) (s : X64State) :
    Option X64State :=
  let s := UseGpr inst.arg0 dividend s
  let s := UseGpr inst.arg1 divisor s
  let s := code.xor_ 32 .RAX (.reg .RAX) s
  let s := code.test 32 divisor (.reg divisor) s
  let r : Option X64State :=
    if CC.z.holds s then
      some s
    else
      s |> code.mov 32 .RAX (.reg dividend) |> code.cdq |> code.idiv 32 divisor
  r.map (DefineValue .inst .RAX)

/-- `EmitX64::EmitSignedDiv64`. -/
def EmitSignedDiv64 (inst : Inst) (dividend divisor : HostLoc) (s : X64State) :
    Option X64State :=
  let s := UseGpr inst.arg0 dividend s
  let s := UseGpr inst.arg1 divisor s
  let s := code.xor_ 32 .RAX (.reg .RAX) s
  let s := code.test 64 divisor (.reg divisor) s
  let r : Option X64State :=
    if CC.z.holds s then
      some s
    else
      s |> code.mov 64 .RAX (.reg dividend) |> code.cqo |> code.idiv 64 divisor
  r.map (DefineValue .inst .RAX)

/-! ## Shifts -/

/-- `EmitX64::EmitLogicalShiftLeft32`.  `result`, `carry` and `zero`
are the registers returned by `UseScratchGpr(operand_arg)`,
`UseScratchGpr(carry_arg)` and `ScratchGpr()`; a register shift count is placed in
RCX. -/
def EmitLogicalShiftLeft32 (inst : Inst) (result carry zero : HostLoc) (s : X64State) :
    X64State :=
  let carry_inst := inst.carry_inst
  let operand_arg := inst.arg0
  let shift_arg := inst.arg1
  let carry_arg := inst.arg2
  if !carry_inst then
    if shift_arg.IsImmediate then
      let s := UseScratchGpr operand_arg result s
      let shift := shift_arg.GetImmediateU8
      let s :=
        if shift ≤ 31 then
          code.shl 32 result shift s
        else
          code.xor_ 32 result (.reg result) s
      DefineValue .inst result s
    else
      let s := Use shift_arg .RCX s
      let s := UseScratchGpr operand_arg result s
      let s := code.shl_cl 32 result s
      let s := code.xor_ 32 zero (.reg zero) s
      let s := code.cmp 8 .RCX (.imm 32) s
      let s := code.cmovcc .nc 32 result zero s
      DefineValue .inst result s
  else
    if shift_arg.IsImmediate then
      let shift := shift_arg.GetImmediateU8
      let s := UseScratchGpr operand_arg result s
      let s := UseScratchGpr carry_arg carry s
      let s :=
        if shift = 0 then
          s
        else if shift < 32 then
          s |> code.bt 32 carry 0 |> code.shl 32 result shift |> code.setcc .c carry
        else if shift > 32 then
          s |> code.xor_ 32 result (.reg result) |> code.xor_ 32 carry (.reg carry)
        else
          s |> code.mov 32 carry (.reg result) |> code.xor_ 32 result (.reg result)
            |> code.and_ 32 carry (.imm 1)
      s |> DefineValue .carry_inst carry |> EraseInstruction .carry_inst
        |> DefineValue .inst result
    else
      let s := Use shift_arg .RCX s
      let s := UseScratchGpr operand_arg result s
      let s := UseScratchGpr carry_arg carry s
      let s := code.cmp 8 .RCX (.imm 32) s
      let s :=
        if CC.a.holds s then
          s |> code.xor_ 32 result (.reg result) |> code.xor_ 32 carry (.reg carry)
        else if CC.z.holds s then
          s |> code.mov 32 carry (.reg result) |> code.and_ 32 carry (.imm 1)
            |> code.xor_ 32 result (.reg result)
        else
          s |> code.bt 32 carry 0 |> code.shl_cl 32 result |> code.setcc .c carry
      s |> DefineValue .carry_inst carry |> EraseInstruction .carry_inst
        |> DefineValue .inst result

/-- `EmitX64::EmitLogicalShiftRight32`; the parameters are as for
`EmitLogicalShiftLeft32`. -/
def EmitLogicalShiftRight32 (inst : Inst) (result carry zero : HostLoc) (s : X64State) :
    X64State :=
  let carry_inst := inst.carry_inst
  let operand_arg := inst.arg0
  let shift_arg := inst.arg1
  let carry_arg := inst.arg2
  if !carry_inst then
    if shift_arg.IsImmediate then
      let s := UseScratchGpr operand_arg result s
      let shift := shift_arg.GetImmediateU8
      let s :=
        if shift ≤ 31 then
          code.shr 32 result shift s
        else
          code.xor_ 32 result (.reg result) s
      DefineValue .inst result s
    else
      let s := Use shift_arg .RCX s
      let s := UseScratchGpr operand_arg result s
      let s := code.shr_cl 32 result s
      let s := code.xor_ 32 zero (.reg zero) s
      let s := code.cmp 8 .RCX (.imm 32) s
      let s := code.cmovcc .nc 32 result zero s
      DefineValue .inst result s
  else
    if shift_arg.IsImmediate then
      let shift := shift_arg.GetImmediateU8
      let s := UseScratchGpr operand_arg result s
      let s := UseScratchGpr carry_arg carry s
      let s :=
        if shift = 0 then
          s
        else if shift < 32 then
          s |> code.shr 32 result shift |> code.setcc .c carry
        else if shift = 32 then
          s |> code.bt 32 result 31 |> code.setcc .c carry |> code.mov 32 result (.imm 0)
        else
          s |> code.xor_ 32 result (.reg result) |> code.xor_ 32 carry (.reg carry)
      s |> DefineValue .carry_inst carry |> EraseInstruction .carry_inst
        |> DefineValue .inst result
    else
      let s := Use shift_arg .RCX s
      let s := UseScratchGpr operand_arg result s
      let s := UseScratchGpr carry_arg carry s
      let s := code.cmp 8 .RCX (.imm 32) s
      let s :=
        if CC.a.holds s then
          s |> code.xor_ 32 result (.reg result) |> code.xor_ 32 carry (.reg carry)
        else if CC.z.holds s then
          s |> code.bt 32 result 31 |> code.setcc .c carry
            |> code.xor_ 32 result (.reg result)
        else
          let s := code.test 8 .RCX (.reg .RCX) s
          if CC.z.holds s then
            s
          else
            s |> code.shr_cl 32 result |> code.setcc .c carry
      s |> DefineValue .carry_inst carry |> EraseInstruction .carry_inst
        |> DefineValue .inst result

/-- An all-zero host state, used to run emitted code on concrete inputs. -/
def X64State.zero : X64State :=
  { gpr := fun _ => 0, CF := false, PF := false, AF := false, ZF := false, SF := false,
    OF := false, mem := fun _ => 0, undef := fun _ => 0, tick := 0, divs := 0,
    defined := [], erased := [], xmm := fun _ => 0, definedXmm := [], calls := [] }

/-! ## Blocks of the arithmetic emitters

The straight-line blocks `EmitAdd` and `EmitSub` are made of, named so that
each can be characterised once.  `EmitAdd_eq_blocks` and `EmitSub_eq_blocks` state
that the emitters are exactly the composition of their blocks. -/

/-- Operand acquisition at the head of `EmitAdd`/`EmitSub`: `DoNZCV`,
`UseScratchGpr(args[0])`, `DoCarry`. -/
def arithSetup (inst : Inst) (result carry : HostLoc) (s : X64State) : X64State :=
  DoCarry inst.arg2 inst.carry_inst carry
    (UseScratchGpr inst.arg0 result (DoNZCV inst.nzcv_inst s))

/-- The addition proper for one source operand: `add`, `stc; adc` or `bt; adc`
depending on the carry-in. -/
def addBlock (bitsize : Nat) (carry_in : Argument) (result carry : HostLoc) (src : Operand)
    (s : X64State) : X64State :=
  if carry_in.IsImmediate then
    if carry_in.GetImmediateU1 then
      s |> code.stc |> code.adc bitsize result src
    else
      s |> code.add bitsize result src
  else
    s |> code.bt 32 carry 0 |> code.adc bitsize result src

/-- The subtraction proper for one source operand: `sub`, `stc; sbb` or
`bt; cmc; sbb` depending on the carry-in. -/
def subBlock (bitsize : Nat) (carry_in : Argument) (result carry : HostLoc) (src : Operand)
    (s : X64State) : X64State :=
  if carry_in.IsImmediate then
    if carry_in.GetImmediateU1 then
      s |> code.sub bitsize result src
    else
      s |> code.stc |> code.sbb bitsize result src
  else
    s |> code.bt 32 carry 0 |> code.cmc |> code.sbb bitsize result src

/-- Choice of the source operand of the arithmetic instruction: a 32-bit immediate
is folded into the instruction, anything else goes through `UseOpArg`. -/
def withSource (inst : Inst) (op : OpArg) (block : Operand → X64State → X64State)
    (s : X64State) : X64State :=
  if inst.arg1.IsImmediate && inst.arg1.GetType = IRType.U32 then
    block (.imm inst.arg1.GetImmediateU32) s
  else
    block op.deref (UseOpArg inst.arg1 op s)

/-- Capture of the packed flags: `lahf; seto al` (after a `cmc` for subtraction),
when the NZCV pseudo-operation is attached. -/
def nzcvOutput (inst : Inst) (invert : Bool) (s : X64State) : X64State :=
  if inst.nzcv_inst then
    (if invert then code.cmc s else s) |> code.lahf |> code.setcc .o .RAX
      |> DefineValue .nzcv_inst .RAX |> EraseInstruction .nzcv_inst
  else s

/-- Capture of carry-out and overflow-out and definition of the result. -/
def flagOutputs (inst : Inst) (ccCarry : CC) (result carry overflow : HostLoc)
    (s : X64State) : X64State :=
  let s :=
    if inst.carry_inst then
      s |> code.setcc ccCarry carry |> DefineValue .carry_inst carry
        |> EraseInstruction .carry_inst
    else s
  let s :=
    if inst.overflow_inst then
      s |> code.setcc .o overflow |> DefineValue .overflow_inst overflow
        |> EraseInstruction .overflow_inst
    else s
  DefineValue .inst result s

/-- Carry-in bit as the arithmetic blocks consume it: the immediate, or bit 0 of the
carry register. -/
def cinOf (carry_in : Argument) (carry : HostLoc) (s : X64State) : Nat :=
  if carry_in.IsImmediate then carry_in.raw % 2 else s.gpr carry % 2

/-! ## Guest-level reference values -/

/-- Guest carry of `a + b + c` at width `w`: the unsigned sum does not fit. -/
def carryOut (w a b c : Nat) : Bool := 2 ^ w ≤ a + b + c

/-- Guest overflow of a signed result `v` at width `w`: it lies outside the signed
`w`-bit range. -/
def signedOverflow (w : Nat) (v : Int) : Bool := v < -(2 ^ (w - 1)) ∨ 2 ^ (w - 1) ≤ v

/-- Allocation constraint of the arithmetic emitters: RAX, the result, carry and
overflow registers and the registers of the source operand are pairwise distinct. -/
def ArithAlloc (result carry overflow : HostLoc) (op : OpArg) : Prop :=
  (HostLoc.RAX :: result :: carry :: overflow :: op.regs).Nodup

/-! ## Blocks of conditional select -/

/-- Flag synthesis at the head of `EmitConditionalSelect`: load the packed NZCV
word, `shr 28; imul; and al, 1; add al, 0x7F; sahf`. -/
def restoreFlags (offsetof_CPSR_nzcv : Nat) (s : X64State) : X64State :=
  s |> code.mov 32 .RAX (.mem .R15 offsetof_CPSR_nzcv) |> code.shr 32 .RAX 28
    |> code.imul3 32 .RAX (.reg .RAX) 0b0001000010000001 |> code.and_ 8 .RAX (.imm 1)
    |> code.add 8 .RAX (.imm 0x7F) |> code.sahf

/-- The `switch` of `EmitConditionalSelect`: one conditional move per guest
condition; `none` is the `default:` assertion. -/
def condMove (bitsize : Nat) (cond : Option Cond) (then_ else_ : HostLoc) (s : X64State) :
    Option X64State :=
  match cond with
  | some .EQ => some (code.cmovcc .z bitsize else_ then_ s)
  | some .NE => some (code.cmovcc .nz bitsize else_ then_ s)
  | some .CS => some (code.cmovcc .c bitsize else_ then_ s)
  | some .CC => some (code.cmovcc .nc bitsize else_ then_ s)
  | some .MI => some (code.cmovcc .s bitsize else_ then_ s)
  | some .PL => some (code.cmovcc .ns bitsize else_ then_ s)
  | some .VS => some (code.cmovcc .o bitsize else_ then_ s)
  | some .VC => some (code.cmovcc .no bitsize else_ then_ s)
  | some .HI => some (s |> code.cmc |> code.cmovcc .a bitsize else_ then_)
  | some .LS => some (s |> code.cmc |> code.cmovcc .na bitsize else_ then_)
  | some .GE => some (code.cmovcc .ge bitsize else_ then_ s)
  | some .LT => some (code.cmovcc .l bitsize else_ then_ s)
  | some .GT => some (code.cmovcc .g bitsize else_ then_ s)
  | some .LE => some (code.cmovcc .le bitsize else_ then_ s)
  | some .AL => some (code.mov bitsize else_ (.reg then_) s)
  | some .NV => some (code.mov bitsize else_ (.reg then_) s)
  | none => none

/-- The guest condition table: whether condition `c` holds on the flags
(N, Z, C, V).  AL and NV always hold. -/
def condHolds (c : Cond) (N Z C V : Bool) : Bool :=
  match c with
  | .EQ => Z
  | .NE => !Z
  | .CS => C
  | .CC => !C
  | .MI => N
  | .PL => !N
  | .VS => V
  | .VC => !V
  | .HI => C && !Z
  | .LS => !C || Z
  | .GE => N == V
  | .LT => N != V
  | .GT => !Z && (N == V)
  | .LE => Z || (N != V)
  | .AL => true
  | .NV => true

/-- Allocation constraint of conditional select: RAX (scratch), the JIT state pointer
R15 and the two operand registers are pairwise distinct. -/
def SelectAlloc (then_ else_ : HostLoc) : Prop :=
  [HostLoc.RAX, HostLoc.R15, then_, else_].Nodup

/-- The packed NZCV word the conditional select loads from the JIT state. -/
def X64State.cpsr_nzcv (s : X64State) (offsetof_CPSR_nzcv : Nat) : Nat :=
  s.mem ((s.gpr .R15 + offsetof_CPSR_nzcv) % 2 ^ 64) % 2 ^ 32

/-- Allocation constraint of the division emitters: RAX and RDX are taken as scratch
before the operands are acquired, so neither operand register is RAX or RDX; the two
operands share a register only when they are the same value. -/
def DivAlloc (inst : Inst) (dividend divisor : HostLoc) : Prop :=
  HostLoc.RAX ≠ dividend ∧ HostLoc.RAX ≠ divisor ∧ HostLoc.RDX ≠ dividend
    ∧ HostLoc.RDX ≠ divisor ∧ (dividend = divisor → inst.arg0.raw = inst.arg1.raw)

/-! ## Guest shift semantics -/

/-- Guest LSL of a 32-bit operand by an 8-bit count with carry: (result, carry-out). -/
def lsl32WithCarry (x s cin : Nat) : Nat × Nat :=
  if s = 0 then (x, cin)
  else if s ≤ 31 then (x * 2 ^ s % 2 ^ 32, x / 2 ^ (32 - s) % 2)
  else if s = 32 then (0, x % 2)
  else (0, 0)

/-- Guest LSR of a 32-bit operand by an 8-bit count with carry: (result, carry-out). -/
def lsr32WithCarry (x s cin : Nat) : Nat × Nat :=
  if s = 0 then (x, cin)
  else if s ≤ 31 then (x / 2 ^ s, x / 2 ^ (s - 1) % 2)
  else if s = 32 then (0, x / 2 ^ 31 % 2)
  else (0, 0)

/-- Allocation constraint of the 32-bit shift emitters with carry: the shift-count
register RCX, the result register and the carry register are pairwise distinct. -/
def ShiftAlloc (result carry : HostLoc) : Prop :=
  [HostLoc.RCX, result, carry].Nodup

/-! ## Further host instructions -/

/-- Number of leading zero bits among the low `w` bits of `x`, scanning from bit
`w - 1` downwards. -/
def clz : Nat → Nat → Nat
  | 0, _ => 0
  | n + 1, x => if x / 2 ^ n % 2 = 1 then 0 else clz n x + 1

/-- Index of the most significant set bit among the low `w` bits of `x`. -/
def bsrIdx : Nat → Nat → Nat
  | 0, _ => 0
  | n + 1, x => if x / 2 ^ n % 2 = 1 then n else bsrIdx n x

/-- Right shift of the `w`-bit pattern `a` by `c` places in which the vacated places
receive the sign bit. -/
def sarVal (w a c : Nat) : Nat :=
  a / 2 ^ c + (if msb w a then 2 ^ w - 2 ^ (w - c) else 0)

/-- Rotation of the `w`-bit pattern `a` to the right by `k < w` places. -/
def rotateRight (w a k : Nat) : Nat :=
  a / 2 ^ k + a % 2 ^ k * 2 ^ (w - k)

/-- One step of a rotation to the right through the carry flag. -/
def rcrStep (w : Nat) (p : Nat × Bool) : Nat × Bool :=
  (p.2.toNat * 2 ^ (w - 1) + p.1 / 2, bit p.1 0)

namespace code

/-- Instruction `sar dst, count`.  A masked count of zero changes no flag (see
`zeroCount` for the destination); otherwise
CF is the last bit shifted out, OF is cleared for a count of one and undefined
otherwise, AF is undefined. -/
def sar (w : Nat) (dst : HostLoc) (count : Nat) (s : X64State) : X64State :=
  let c := countMask w count
  if c = 0 then zeroCount w dst s else
    let a := s.readGpr w dst
    let r := sarVal w a c
    let s1 : X64State :=
      { s with CF := bit a (c - 1), OF := if c = 1 then false else s.havoc 0,
               AF := s.havoc 1, tick := s.tick + 2 }
    (s1.setSZP w r).writeGpr w dst r

/-- Instruction `sar dst, cl`. -/
def sar_cl (w : Nat) (dst : HostLoc) (s : X64State) : X64State :=
  sar w dst (s.readGpr 8 .RCX) s

/-- Instruction `ror dst, count`.  The count is masked, then taken modulo the
width.  A masked count of zero changes no flag (see `zeroCount` for the
destination); otherwise CF is the most
significant bit of the result and OF is defined for a count of one only.  The
other flags are kept. -/
def ror (w : Nat) (dst : HostLoc) (count : Nat) (s : X64State) : X64State :=
  let c := countMask w count
  if c = 0 then zeroCount w dst s else
    let a := s.readGpr w dst
    let r := rotateRight w a (c % w)
    { s with CF := msb w r,
             OF := if c = 1 then (msb w r != bit r (w - 2)) else s.havoc 0,
             tick := s.tick + 1 }.writeGpr w dst r

/-- Instruction `ror dst, cl`. -/
def ror_cl (w : Nat) (dst : HostLoc) (s : X64State) : X64State :=
  ror w dst (s.readGpr 8 .RCX) s

/-- Instruction `rcr dst, count`: rotation to the right through CF.  The masked
count is taken modulo `w + 1`; OF is defined for a count of one only, where it is
the exclusive or of the old sign bit and the old CF.  The other flags are kept. -/
def rcr (w : Nat) (dst : HostLoc) (count : Nat) (s : X64State) : X64State :=
  let c := countMask w count % (w + 1)
  if c = 0 then zeroCount w dst s else
    let a := s.readGpr w dst
    let p := (rcrStep w)^[c] (a, s.CF)
    { s with CF := p.2, OF := if c = 1 then (msb w a != s.CF) else s.havoc 0,
             tick := s.tick + 1 }.writeGpr w dst p.1

/-- Instruction `movzx dst, src` from a `ws`-bit source to a `wd`-bit destination. -/
def movzx (wd ws : Nat) (dst src : HostLoc) (s : X64State) : X64State :=
  s.writeGpr wd dst (s.readGpr ws src)

/-- Instruction `neg dst`: the flags are those of subtracting the operand from
zero. -/
def neg (w : Nat) (dst : HostLoc) (s : X64State) : X64State :=
  let p := subFlags w 0 (s.readGpr w dst) 0 s
  p.2.writeGpr w dst p.1

/-- Instruction `bsr dst, src`.  For a zero source ZF is set and the destination is
undefined; otherwise ZF is cleared and the destination receives the index of the
most significant set bit.  CF, OF, SF, AF and PF are undefined. -/
def bsr (w : Nat) (dst src : HostLoc) (s : X64State) : X64State :=
  let a := s.readGpr w src
  let s1 : X64State :=
    { s with ZF := (a = 0), CF := s.havoc 0, OF := s.havoc 1, SF := s.havoc 2,
             AF := s.havoc 3, PF := s.havoc 4, tick := s.tick + 6 }
  if a = 0 then
    { s1 with gpr := fun q => if q = dst then s.undef (s.tick + 5) % 2 ^ 64 else s.gpr q }
  else
    s1.writeGpr w dst (bsrIdx w a)

/-- Instruction `lzcnt dst, src`: CF tells whether the source was zero, ZF whether
the count is zero; OF, SF, PF and AF are undefined. -/
def lzcnt (w : Nat) (dst src : HostLoc) (s : X64State) : X64State :=
  let a := s.readGpr w src
  let r := clz w a
  { s with CF := (a = 0), ZF := (r = 0), OF := s.havoc 0, SF := s.havoc 1,
           PF := s.havoc 2, AF := s.havoc 3, tick := s.tick + 4 }.writeGpr w dst r

/-- Instruction `pinsrq xmm, r64, imm8`: lane `imm8 mod 2` receives the register,
the other lane is kept. -/
def pinsrq (dst : Xmm) (src : HostLoc) (lane : Nat) (s : X64State) : X64State :=
  let old := s.xmm dst % 2 ^ 128
  let v := s.readGpr 64 src
  { s with xmm := fun q =>
      if q = dst then
        (if lane % 2 = 0 then old / 2 ^ 64 * 2 ^ 64 + v else old % 2 ^ 64 + v * 2 ^ 64)
      else s.xmm q }

/-- Instruction `punpcklqdq dst, src`: the high lane of the destination receives
the low lane of the source, the low lane of the destination is kept. -/
def punpcklqdq (dst src : Xmm) (s : X64State) : X64State :=
  { s with xmm := fun q =>
      if q = dst then s.xmm dst % 2 ^ 64 + s.xmm src % 2 ^ 64 * 2 ^ 64 else s.xmm q }

end code

/-- Modelled from the spec: the overload of `RegAlloc::DefineValue` taking an XMM
register is missing from the sources; it "binds `inst`'s SSA output to `loc`".
The call is logged. -/
def DefineValueXmm (node : IRNode) (loc : Xmm) (s : X64State) : X64State :=
  { s with definedXmm := s.definedXmm ++ [(node, loc)], calls := s.calls ++ [.define node] }

/-- `EmitX64::EmitPack2x32To1x64`; `lo` and `hi` are the registers returned by the
two `UseScratchGpr` calls. -/
def EmitPack2x32To1x64 (inst : Inst) (lo hi : HostLoc) (s : X64State) : X64State :=
  let s := UseScratchGpr inst.arg0 lo s
  let s := UseScratchGpr inst.arg1 hi s
  let s := code.shl 64 hi 32 s
  let s := code.mov 32 lo (.reg lo) s
  let s := code.or_ 64 lo (.reg hi) s
  DefineValue .inst lo s

/-- `EmitX64::EmitMostSignificantWord`; `result` is the register returned by
`UseScratchGpr`, `carry` the one returned by `ScratchGpr()`. -/
def EmitMostSignificantWord (inst : Inst) (result carry : HostLoc) (s : X64State) :
    X64State :=
  let carry_inst := inst.carry_inst
  let s := UseScratchGpr inst.arg0 result s
  let s := code.shr 64 result 32 s
  let s :=
    if carry_inst then
      s |> code.setcc .c carry |> DefineValue .carry_inst carry
        |> EraseInstruction .carry_inst
    else s
  DefineValue .inst result s

/-! ## Further shifts and rotations -/

/-- `EmitX64::EmitLogicalShiftLeft64`; `zero` is the register returned by
`ScratchGpr()`. -/
def EmitLogicalShiftLeft64 (inst : Inst) (result zero : HostLoc) (s : X64State) :
    X64State :=
  let operand_arg := inst.arg0
  let shift_arg := inst.arg1
  if shift_arg.IsImmediate then
    let s := UseScratchGpr operand_arg result s
    let shift := shift_arg.GetImmediateU8
    let s :=
      if shift < 64 then
        code.shl 64 result shift s
      else
        code.xor_ 32 result (.reg result) s
    DefineValue .inst result s
  else
    let s := Use shift_arg .RCX s
    let s := UseScratchGpr operand_arg result s
    let s := code.shl_cl 64 result s
    let s := code.xor_ 32 zero (.reg zero) s
    let s := code.cmp 8 .RCX (.imm 64) s
    let s := code.cmovcc .nc 64 result zero s
    DefineValue .inst result s

/-- `EmitX64::EmitLogicalShiftRight64`. -/
def EmitLogicalShiftRight64 (inst : Inst) (result zero : HostLoc) (s : X64State) :
    X64State :=
  let operand_arg := inst.arg0
  let shift_arg := inst.arg1
  if shift_arg.IsImmediate then
    let s := UseScratchGpr operand_arg result s
    let shift := shift_arg.GetImmediateU8
    let s :=
      if shift < 64 then
        code.shr 64 result shift s
      else
        code.xor_ 32 result (.reg result) s
    DefineValue .inst result s
  else
    let s := Use shift_arg .RCX s
    let s := UseScratchGpr operand_arg result s
    let s := code.shr_cl 64 result s
    let s := code.xor_ 32 zero (.reg zero) s
    let s := code.cmp 8 .RCX (.imm 64) s
    let s := code.cmovcc .nc 64 result zero s
    DefineValue .inst result s

/-- `EmitX64::EmitArithmeticShiftRight32`; `const31` is the register returned by
`ScratchGpr()` on the path without carry and a register count. -/
def EmitArithmeticShiftRight32 (inst : Inst) (result carry const31 : HostLoc)
    (s : X64State) : X64State :=
  let carry_inst := inst.carry_inst
  let operand_arg := inst.arg0
  let shift_arg := inst.arg1
  let carry_arg := inst.arg2
  if !carry_inst then
    if shift_arg.IsImmediate then
      let shift := shift_arg.GetImmediateU8
      let s := UseScratchGpr operand_arg result s
      let s := code.sar 32 result (if shift < 31 then shift else 31) s
      DefineValue .inst result s
    else
      let s := Use shift_arg .RCX s
      let s := UseScratchGpr operand_arg result s
      let s := code.mov 32 const31 (.imm 31) s
      let s := code.movzx 32 8 .RCX .RCX s
      let s := code.cmp 32 .RCX (.imm 31) s
      let s := code.cmovcc .g 32 .RCX const31 s
      let s := code.sar_cl 32 result s
      DefineValue .inst result s
  else
    if shift_arg.IsImmediate then
      let shift := shift_arg.GetImmediateU8
      let s := UseScratchGpr operand_arg result s
      let s := UseScratchGpr carry_arg carry s
      let s :=
        if shift = 0 then
          s
        else if shift ≤ 31 then
          s |> code.sar 32 result shift |> code.setcc .c carry
        else
          s |> code.sar 32 result 31 |> code.bt 32 result 31 |> code.setcc .c carry
      s |> DefineValue .carry_inst carry |> EraseInstruction .carry_inst
        |> DefineValue .inst result
    else
      let s := Use shift_arg .RCX s
      let s := UseScratchGpr operand_arg result s
      let s := UseScratchGpr carry_arg carry s
      let s := code.cmp 8 .RCX (.imm 31) s
      let s :=
        if CC.a.holds s then
          s |> code.sar 32 result 31 |> code.bt 32 result 31 |> code.setcc .c carry
        else
          let s := code.test 8 .RCX (.reg .RCX) s
          if CC.z.holds s then
            s
          else
            s |> code.sar_cl 32 result |> code.setcc .c carry
      s |> DefineValue .carry_inst carry |> EraseInstruction .carry_inst
        |> DefineValue .inst result

/-- `EmitX64::EmitArithmeticShiftRight64`; `const63` is the register returned by
`ScratchGpr()`.  The conditional move is written with the destination `ecx`. -/
def EmitArithmeticShiftRight64 (inst : Inst) (result const63 : HostLoc) (s : X64State) :
    X64State :=
  let operand_arg := inst.arg0
  let shift_arg := inst.arg1
  if shift_arg.IsImmediate then
    let shift := shift_arg.GetImmediateU8
    let s := UseScratchGpr operand_arg result s
    let s := code.sar 64 result (if shift < 63 then shift else 63) s
    DefineValue .inst result s
  else
    let s := Use shift_arg .RCX s
    let s := UseScratchGpr operand_arg result s
    let s := code.mov 64 const63 (.imm 63) s
    let s := code.movzx 32 8 .RCX .RCX s
    let s := code.cmp 32 .RCX (.imm 63) s
    let s := code.cmovcc .g 32 .RCX const63 s
    let s := code.sar_cl 64 result s
    DefineValue .inst result s

/-- `EmitX64::EmitRotateRight32`. -/
def EmitRotateRight32 (inst : Inst) (result carry : HostLoc) (s : X64State) : X64State :=
  let carry_inst := inst.carry_inst
  let operand_arg := inst.arg0
  let shift_arg := inst.arg1
  let carry_arg := inst.arg2
  if !carry_inst then
    if shift_arg.IsImmediate then
      let shift := shift_arg.GetImmediateU8
      let s := UseScratchGpr operand_arg result s
      let s := code.ror 32 result (shift % 32) s
      DefineValue .inst result s
    else
      let s := Use shift_arg .RCX s
      let s := UseScratchGpr operand_arg result s
      let s := code.ror_cl 32 result s
      DefineValue .inst result s
  else
    if shift_arg.IsImmediate then
      let shift := shift_arg.GetImmediateU8
      let s := UseScratchGpr operand_arg result s
      let s := UseScratchGpr carry_arg carry s
      let s :=
        if shift = 0 then
          s
        else if shift % 32 = 0 then
          s |> code.bt 32 result 31 |> code.setcc .c carry
        else
          s |> code.ror 32 result shift |> code.setcc .c carry
      s |> DefineValue .carry_inst carry |> EraseInstruction .carry_inst
        |> DefineValue .inst result
    else
      let s := Use shift_arg .RCX s
      let s := UseScratchGpr operand_arg result s
      let s := UseScratchGpr carry_arg carry s
      let s := code.test 8 .RCX (.reg .RCX) s
      let s :=
        if CC.z.holds s then
          s
        else
          let s := code.and_ 32 .RCX (.imm 0x1F) s
          if CC.z.holds s then
            s |> code.bt 32 result 31 |> code.setcc .c carry
          else
            s |> code.ror_cl 32 result |> code.setcc .c carry
      s |> DefineValue .carry_inst carry |> EraseInstruction .carry_inst
        |> DefineValue .inst result

/-- `EmitX64::EmitRotateRight64`. -/
def EmitRotateRight64 (inst : Inst) (result : HostLoc) (s : X64State) : X64State :=
  let operand_arg := inst.arg0
  let shift_arg := inst.arg1
  if shift_arg.IsImmediate then
    let shift := shift_arg.GetImmediateU8
    let s := UseScratchGpr operand_arg result s
    let s := code.ror 64 result (shift % 64) s
    DefineValue .inst result s
  else
    let s := Use shift_arg .RCX s
    let s := UseScratchGpr operand_arg result s
    let s := code.ror_cl 64 result s
    DefineValue .inst result s

/-- `EmitX64::EmitRotateRightExtended`; `result` and `carry` are the registers
returned by `UseScratchGpr` for the operand and for the carry-in. -/
def EmitRotateRightExtended (inst : Inst) (result carry : HostLoc) (s : X64State) :
    X64State :=
  let carry_inst := inst.carry_inst
  let s := UseScratchGpr inst.arg0 result s
  let s := UseScratchGpr inst.arg1 carry s
  let s := code.bt 32 carry 0 s
  let s := code.rcr 32 result 1 s
  let s :=
    if carry_inst then
      s |> code.setcc .c carry |> DefineValue .carry_inst carry
        |> EraseInstruction .carry_inst
    else s
  DefineValue .inst result s

/-! ## Count leading zeros -/

/-- `EmitX64::EmitCountLeadingZeros32`; `has_lzcnt` is `DoesCpuSupport(tLZCNT)`,
`source` is the register returned by `UseGpr` or `UseScratchGpr`, `result` the one
returned by `ScratchGpr()`. -/
def EmitCountLeadingZeros32 (has_lzcnt : Bool) (inst : Inst) (source result : HostLoc)
    (s : X64State) : X64State :=
  if has_lzcnt then
    let s := UseGpr inst.arg0 source s
    let s := code.lzcnt 32 result source s
    DefineValue .inst result s
  else
    let s := UseScratchGpr inst.arg0 source s
    let s := code.bsr 32 result source s
    let s := code.mov 32 source (.imm 0xFFFFFFFF) s
    let s := code.cmovcc .z 32 result source s
    let s := code.neg 32 result s
    let s := code.add 32 result (.imm 31) s
    DefineValue .inst result s

/-- `EmitX64::EmitCountLeadingZeros64`. -/
def EmitCountLeadingZeros64 (has_lzcnt : Bool) (inst : Inst) (source result : HostLoc)
    (s : X64State) : X64State :=
  if has_lzcnt then
    let s := UseGpr inst.arg0 source s
    let s := code.lzcnt 64 result source s
    DefineValue .inst result s
  else
    let s := UseScratchGpr inst.arg0 source s
    let s := code.bsr 64 result source s
    let s := code.mov 32 source (.imm 0xFFFFFFFF) s
    let s := code.cmovcc .z 32 result source s
    let s := code.neg 32 result s
    let s := code.add 32 result (.imm 63) s
    DefineValue .inst result s

/-! ## Minimum and maximum -/

/-- `EmitX64::EmitMaxSigned32`; `x` is the register returned by `UseGpr`, `y` the
one returned by `UseScratchGpr`. -/
def EmitMaxSigned32 (inst : Inst) (x y : HostLoc) (s : X64State) : X64State :=
  let s := UseGpr inst.arg0 x s
  let s := UseScratchGpr inst.arg1 y s
  let s := code.cmp 32 x (.reg y) s
  let s := code.cmovcc .ge 32 y x s
  DefineValue .inst y s

/-- `EmitX64::EmitMaxSigned64`. -/
def EmitMaxSigned64 (inst : Inst) (x y : HostLoc) (s : X64State) : X64State :=
  let s := UseGpr inst.arg0 x s
  let s := UseScratchGpr inst.arg1 y s
  let s := code.cmp 64 x (.reg y) s
  let s := code.cmovcc .ge 64 y x s
  DefineValue .inst y s

/-- `EmitX64::EmitMaxUnsigned32`. -/
def EmitMaxUnsigned32 (inst : Inst) (x y : HostLoc) (s : X64State) : X64State :=
  let s := UseGpr inst.arg0 x s
  let s := UseScratchGpr inst.arg1 y s
  let s := code.cmp 32 x (.reg y) s
  let s := code.cmovcc .a 32 y x s
  DefineValue .inst y s

/-- `EmitX64::EmitMaxUnsigned64`. -/
def EmitMaxUnsigned64 (inst : Inst) (x y : HostLoc) (s : X64State) : X64State :=
  let s := UseGpr inst.arg0 x s
  let s := UseScratchGpr inst.arg1 y s
  let s := code.cmp 64 x (.reg y) s
  let s := code.cmovcc .a 64 y x s
  DefineValue .inst y s

/-- `EmitX64::EmitMinSigned32`. -/
def EmitMinSigned32 (inst : Inst) (x y : HostLoc) (s : X64State) : X64State :=
  let s := UseGpr inst.arg0 x s
  let s := UseScratchGpr inst.arg1 y s
  let s := code.cmp 32 x (.reg y) s
  let s := code.cmovcc .le 32 y x s
  DefineValue .inst y s

/-- `EmitX64::EmitMinSigned64`. -/
def EmitMinSigned64 (inst : Inst) (x y : HostLoc) (s : X64State) : X64State :=
  let s := UseGpr inst.arg0 x s
  let s := UseScratchGpr inst.arg1 y s
  let s := code.cmp 64 x (.reg y) s
  let s := code.cmovcc .le 64 y x s
  DefineValue .inst y s

/-- `EmitX64::EmitMinUnsigned32`; `cmovb` is the move on CF set. -/
def EmitMinUnsigned32 (inst : Inst) (x y : HostLoc) (s : X64State) : X64State :=
  let s := UseGpr inst.arg0 x s
  let s := UseScratchGpr inst.arg1 y s
  let s := code.cmp 32 x (.reg y) s
  let s := code.cmovcc .c 32 y x s
  DefineValue .inst y s

/-- `EmitX64::EmitMinUnsigned64`. -/
def EmitMinUnsigned64 (inst : Inst) (x y : HostLoc) (s : X64State) : X64State :=
  let s := UseGpr inst.arg0 x s
  let s := UseScratchGpr inst.arg1 y s
  let s := code.cmp 64 x (.reg y) s
  let s := code.cmovcc .c 64 y x s
  DefineValue .inst y s

/-! ## Guest-level reference values of the shifts and rotations -/

/-- Arithmetic shift right of a `w`-bit value: the signed value divided by `2 ^ n`,
rounded towards minus infinity, as a `w`-bit pattern. -/
def asr (w x n : Nat) : Nat := (Int.fdiv (toSigned w x) (2 ^ n) % 2 ^ w).toNat

/-- Guest ASR of a 32-bit operand by an 8-bit count with carry: (result, carry-out). -/
def asr32WithCarry (x s cin : Nat) : Nat × Nat :=
  if s = 0 then (x, cin)
  else if s ≤ 31 then (asr 32 x s, x / 2 ^ (s - 1) % 2)
  else (if x / 2 ^ 31 % 2 = 1 then 0xFFFFFFFF else 0, x / 2 ^ 31 % 2)

/-! ## Blocks and reference values of the further emitters -/

/-- Body of `EmitArithmeticShiftRight32` with a carry-out and an immediate count. -/
def asr32ImmBody (sh : Nat) (result carry : HostLoc) (t : X64State) : X64State :=
  if sh = 0 then
    t
  else if sh ≤ 31 then
    t |> code.sar 32 result sh |> code.setcc .c carry
  else
    t |> code.sar 32 result 31 |> code.bt 32 result 31 |> code.setcc .c carry

/-- Body of `EmitArithmeticShiftRight32` with a carry-out and the count in CL. -/
def asr32RegBody (result carry : HostLoc) (t : X64State) : X64State :=
  let s := code.cmp 8 .RCX (.imm 31) t
  if CC.a.holds s then
    s |> code.sar 32 result 31 |> code.bt 32 result 31 |> code.setcc .c carry
  else
    let s := code.test 8 .RCX (.reg .RCX) s
    if CC.z.holds s then
      s
    else
      s |> code.sar_cl 32 result |> code.setcc .c carry

/-- Guest ROR of a 32-bit operand by an 8-bit count with carry: (result, carry-out). -/
def ror32WithCarry (x s cin : Nat) : Nat × Nat :=
  let r := rotateRight 32 x (s % 32)
  (r, if s = 0 then cin else r / 2 ^ 31 % 2)

/-- Body of `EmitRotateRight32` with a carry-out and an immediate count. -/
def ror32ImmBody (sh : Nat) (result carry : HostLoc) (t : X64State) : X64State :=
  if sh = 0 then
    t
  else if sh % 32 = 0 then
    t |> code.bt 32 result 31 |> code.setcc .c carry
  else
    t |> code.ror 32 result sh |> code.setcc .c carry

/-- Body of `EmitRotateRight32` with a carry-out and the count in CL. -/
def ror32RegBody (result carry : HostLoc) (t : X64State) : X64State :=
  let s := code.test 8 .RCX (.reg .RCX) t
  if CC.z.holds s then
    s
  else
    let s := code.and_ 32 .RCX (.imm 0x1F) s
    if CC.z.holds s then
      s |> code.bt 32 result 31 |> code.setcc .c carry
    else
      s |> code.ror_cl 32 result |> code.setcc .c carry

/-- Allocation constraint of the 64-bit shift emitters with a register count: the
shift-count register RCX, the result register and the scratch register are pairwise
distinct. -/
def Shift64Alloc (result scratch : HostLoc) : Prop :=
  [HostLoc.RCX, result, scratch].Nodup

/-- Body of the fallback path of `EmitCountLeadingZeros32` and
`EmitCountLeadingZeros64`, after the operand has been acquired; `k` is 31 or 63. -/
def clzFallbackBody (w k : Nat) (source result : HostLoc) (t : X64State) : X64State :=
  t |> code.bsr w result source |> code.mov 32 source (.imm 0xFFFFFFFF)
    |> code.cmovcc .z 32 result source |> code.neg 32 result
    |> code.add 32 result (.imm k)

/-- The calls an emitter makes for a pseudo-operation: `DefineValue` then
`EraseInstruction` when it is attached, nothing otherwise. -/
def pseudoCalls (attached : Bool) (node : IRNode) : List RACall :=
  if attached then [.define node, .erase node] else []

/-- The pseudo-operations found by an emitter that looks up the carry only. -/
def carryOnly (carry_inst : Bool) : IRNode → Bool
  | .carry_inst => carry_inst
  | _ => false

/-- The pseudo-operations found by an emitter that looks up carry, overflow and NZCV. -/
def carryOverflowNzcv (inst : Inst) : IRNode → Bool
  | .inst => false
  | .carry_inst => inst.carry_inst
  | .overflow_inst => inst.overflow_inst
  | .nzcv_inst => inst.nzcv_inst

/-- Hygiene of a sequence of calls with respect to the attached pseudo-operations:
the primary instruction is defined exactly once; an attached pseudo-operation is
defined exactly once and erased exactly once, in this order; one that is not
attached is neither defined nor erased. -/
def Hygienic (attached : IRNode → Bool) (calls : List RACall) : Prop :=
  calls.count (.define .inst) = 1
  ∧ ∀ p ∈ [IRNode.carry_inst, IRNode.overflow_inst, IRNode.nzcv_inst],
      if attached p then
        calls.count (.define p) = 1 ∧ calls.count (.erase p) = 1
          ∧ calls.indexOf (.define p) < calls.indexOf (.erase p)
      else
        calls.count (.define p) = 0 ∧ calls.count (.erase p) = 0

/-- Hygiene is decidable. -/
instance Hygienic.decidable (attached : IRNode → Bool) (calls : List RACall) :
    Decidable (Hygienic attached calls) := by
  unfold Hygienic
  infer_instance

/-- An emitter run from `before` to `after` added a hygienic sequence of calls. -/
def HygienicRun (attached : IRNode → Bool) (before after : X64State) : Prop :=
  ∃ calls, after.calls = before.calls ++ calls ∧ Hygienic attached calls

/-- The larger of two `w`-bit patterns under the two's-complement order. -/
def maxSigned (w a b : Nat) : Nat := if toSigned w b ≤ toSigned w a then a else b

/-- The smaller of two `w`-bit patterns under the two's-complement order. -/
def minSigned (w a b : Nat) : Nat := if toSigned w a ≤ toSigned w b then a else b

/-! ## Multiplication, double shift, complement and sign extension -/

/-- Modelled from the spec: `Argument::FitsInImmediateS32` is missing from the
sources; the 64-bit logical emitters fold the operand "only when the immediate fits
in a signed 32-bit field". -/
def Argument.FitsInImmediateS32 (a : Argument) : Bool :=
  a.IsImmediate && (a.raw % 2 ^ 64 < 2 ^ 31 || 2 ^ 64 - 2 ^ 31 ≤ a.raw % 2 ^ 64)

/-- `u32(Argument::GetImmediateS32())`: the low 32 bits of the immediate. -/
def Argument.GetImmediateS32 (a : Argument) : Nat := a.raw % 2 ^ 32

/-- `Argument::GetImmediateU64`. -/
def Argument.GetImmediateU64 (a : Argument) : Nat := a.raw % 2 ^ 64

namespace code

/-- Instruction `shrd dst, src, imm8`: `dst` is shifted right, the vacated places
receive the low bits of `src`.  A masked count of zero changes no flag (see
`zeroCount` for the destination); otherwise CF is the
last bit shifted out, OF is defined for a count of one only, AF is undefined. -/
def shrd (w : Nat) (dst src : HostLoc) (count : Nat) (s : X64State) : X64State :=
  let c := countMask w count
  if c = 0 then zeroCount w dst s else
    let a := s.readGpr w dst
    let b := s.readGpr w src
    let r := a / 2 ^ c + b % 2 ^ c * 2 ^ (w - c)
    let s1 : X64State :=
      { s with CF := bit a (c - 1), OF := if c = 1 then (msb w r != msb w a) else s.havoc 0,
               AF := s.havoc 1, tick := s.tick + 2 }
    (s1.setSZP w r).writeGpr w dst r

/-- Two-operand `imul dst, src`: the low `w` bits of the signed product; CF and OF
tell whether the product was truncated; SF, ZF, AF and PF are undefined. -/
def imul2 (w : Nat) (dst : HostLoc) (src : Operand) (s : X64State) : X64State :=
  let p : Int := toSigned w (s.readGpr w dst) * toSigned w (s.readOp w src)
  let r := (p % 2 ^ w).toNat
  let trunc : Bool := toSigned w r ≠ p
  { s with CF := trunc, OF := trunc, SF := s.havoc 0, ZF := s.havoc 1, AF := s.havoc 2,
           PF := s.havoc 3, tick := s.tick + 4 }.writeGpr w dst r

/-- One-operand `mul src`: the unsigned product of the accumulator and `src`, low
half in RAX, high half in RDX; CF and OF tell whether the high half is non-zero. -/
def mul (w : Nat) (src : Operand) (s : X64State) : X64State :=
  let p := s.readGpr w .RAX * s.readOp w src
  let hi : Bool := p / 2 ^ w ≠ 0
  ({ s with CF := hi, OF := hi, SF := s.havoc 0, ZF := s.havoc 1, AF := s.havoc 2,
            PF := s.havoc 3, tick := s.tick + 4 }.writeGpr w .RAX (p % 2 ^ w)).writeGpr w .RDX
    (p / 2 ^ w)

/-- One-operand `imul src`: the signed product of the accumulator and `src`, low
half in RAX, high half in RDX; CF and OF tell whether the product does not fit the
low half. -/
def imul (w : Nat) (src : Operand) (s : X64State) : X64State :=
  let p : Int := toSigned w (s.readGpr w .RAX) * toSigned w (s.readOp w src)
  let lo := (p % 2 ^ w).toNat
  let trunc : Bool := toSigned w lo ≠ p
  ({ s with CF := trunc, OF := trunc, SF := s.havoc 0, ZF := s.havoc 1, AF := s.havoc 2,
            PF := s.havoc 3, tick := s.tick + 4 }.writeGpr w .RAX lo).writeGpr w .RDX
    ((p / 2 ^ w) % 2 ^ w).toNat

/-- Instruction `not dst`; no flag is affected. -/
def not_ (w : Nat) (dst : HostLoc) (s : X64State) : X64State :=
  s.writeGpr w dst (2 ^ w - 1 - s.readGpr w dst)

/-- Instruction `mov r64, imm64`: the register receives the 64-bit immediate. -/
def mov_imm64 (dst : HostLoc) (v : Nat) (s : X64State) : X64State :=
  s.writeGpr 64 dst (v % 2 ^ 64)

/-- Instruction `movsx dst, src` (`movsxd` for a 32-bit source): the `ws`-bit source
is sign-extended to `wd` bits. -/
def movsx (wd ws : Nat) (dst src : HostLoc) (s : X64State) : X64State :=
  s.writeGpr wd dst ((toSigned ws (s.readGpr ws src)) % 2 ^ wd).toNat

end code

/-- `EmitExtractRegister`; `result` and `operand` are the registers returned by the
two `UseScratchGpr` calls. -/
def EmitExtractRegister (bit_size : Nat) (inst : Inst) (result operand : HostLoc)
    (s : X64State) : X64State :=
  let s := UseScratchGpr inst.arg0 result s
  let s := UseScratchGpr inst.arg1 operand s
  let lsb := inst.arg2.GetImmediateU8
  let s := code.shrd bit_size result operand lsb s
  DefineValue .inst result s

/-- `EmitX64::EmitExtractRegister32`. -/
def EmitExtractRegister32 (inst : Inst) (result operand : HostLoc) (s : X64State) :
    X64State :=
  EmitExtractRegister 32 inst result operand s

/-- `EmitX64::EmitExtractRegister64`. -/
def EmitExtractRegister64 (inst : Inst) (result operand : HostLoc) (s : X64State) :
    X64State :=
  EmitExtractRegister 64 inst result operand s

/-- `EmitX64::EmitMul32`; `op` is the operand returned by `UseOpArg`. -/
def EmitMul32 (inst : Inst) (result : HostLoc) (op : OpArg) (s : X64State) : X64State :=
  let s := UseScratchGpr inst.arg0 result s
  let s :=
    if inst.arg1.IsImmediate then
      code.imul3 32 result (.reg result) inst.arg1.GetImmediateU32 s
    else
      let s := UseOpArg inst.arg1 op s
      code.imul2 32 result op.deref s
  DefineValue .inst result s

/-- `EmitX64::EmitMul64`. -/
def EmitMul64 (inst : Inst) (result : HostLoc) (op : OpArg) (s : X64State) : X64State :=
  let s := UseScratchGpr inst.arg0 result s
  let s := UseOpArg inst.arg1 op s
  let s := code.imul2 64 result op.deref s
  DefineValue .inst result s

/-- `EmitX64::EmitUnsignedMultiplyHigh64`; RDX is taken as scratch, the first operand
is placed in RAX. -/
def EmitUnsignedMultiplyHigh64 (inst : Inst) (op : OpArg) (s : X64State) : X64State :=
  let s := Use inst.arg0 .RAX s
  let s := UseOpArg inst.arg1 op s
  let s := code.mul 64 op.deref s
  DefineValue .inst .RDX s

/-- `EmitX64::EmitSignedMultiplyHigh64`. -/
def EmitSignedMultiplyHigh64 (inst : Inst) (op : OpArg) (s : X64State) : X64State :=
  let s := Use inst.arg0 .RAX s
  let s := UseOpArg inst.arg1 op s
  let s := code.imul 64 op.deref s
  DefineValue .inst .RDX s

/-! ## Logical operations -/

/-- `EmitX64::EmitAnd32`. -/
def EmitAnd32 (inst : Inst) (result : HostLoc) (op : OpArg) (s : X64State) : X64State :=
  let s := UseScratchGpr inst.arg0 result s
  let s :=
    if inst.arg1.IsImmediate then
      code.and_ 32 result (.imm inst.arg1.GetImmediateU32) s
    else
      let s := UseOpArg inst.arg1 op s
      code.and_ 32 result op.deref s
  DefineValue .inst result s

/-- `EmitX64::EmitAnd64`. -/
def EmitAnd64 (inst : Inst) (result : HostLoc) (op : OpArg) (s : X64State) : X64State :=
  let s := UseScratchGpr inst.arg0 result s
  let s :=
    if inst.arg1.FitsInImmediateS32 then
      code.and_ 64 result (.imm inst.arg1.GetImmediateS32) s
    else
      let s := UseOpArg inst.arg1 op s
      code.and_ 64 result op.deref s
  DefineValue .inst result s

/-- `EmitX64::EmitEor32`. -/
def EmitEor32 (inst : Inst) (result : HostLoc) (op : OpArg) (s : X64State) : X64State :=
  let s := UseScratchGpr inst.arg0 result s
  let s :=
    if inst.arg1.IsImmediate then
      code.xor_ 32 result (.imm inst.arg1.GetImmediateU32) s
    else
      let s := UseOpArg inst.arg1 op s
      code.xor_ 32 result op.deref s
  DefineValue .inst result s

/-- `EmitX64::EmitEor64`. -/
def EmitEor64 (inst : Inst) (result : HostLoc) (op : OpArg) (s : X64State) : X64State :=
  let s := UseScratchGpr inst.arg0 result s
  let s :=
    if inst.arg1.FitsInImmediateS32 then
      code.xor_ 64 result (.imm inst.arg1.GetImmediateS32) s
    else
      let s := UseOpArg inst.arg1 op s
      code.xor_ 64 result op.deref s
  DefineValue .inst result s

/-- `EmitX64::EmitOr32`. -/
def EmitOr32 (inst : Inst) (result : HostLoc) (op : OpArg) (s : X64State) : X64State :=
  let s := UseScratchGpr inst.arg0 result s
  let s :=
    if inst.arg1.IsImmediate then
      code.or_ 32 result (.imm inst.arg1.GetImmediateU32) s
    else
      let s := UseOpArg inst.arg1 op s
      code.or_ 32 result op.deref s
  DefineValue .inst result s

/-- `EmitX64::EmitOr64`. -/
def EmitOr64 (inst : Inst) (result : HostLoc) (op : OpArg) (s : X64State) : X64State :=
  let s := UseScratchGpr inst.arg0 result s
  let s :=
    if inst.arg1.FitsInImmediateS32 then
      code.or_ 64 result (.imm inst.arg1.GetImmediateS32) s
    else
      let s := UseOpArg inst.arg1 op s
      code.or_ 64 result op.deref s
  DefineValue .inst result s

/-- `EmitX64::EmitNot32`; `result` is the register returned by `ScratchGpr()` or by
`UseScratchGpr`. -/
def EmitNot32 (inst : Inst) (result : HostLoc) (s : X64State) : X64State :=
  let s :=
    if inst.arg0.IsImmediate then
      code.mov 32 result (.imm (2 ^ 32 - 1 - inst.arg0.GetImmediateU32)) s
    else
      let s := UseScratchGpr inst.arg0 result s
      code.not_ 32 result s
  DefineValue .inst result s

/-- `EmitX64::EmitNot64`. -/
def EmitNot64 (inst : Inst) (result : HostLoc) (s : X64State) : X64State :=
  let s :=
    if inst.arg0.IsImmediate then
      code.mov_imm64 result (2 ^ 64 - 1 - inst.arg0.GetImmediateU64) s
    else
      let s := UseScratchGpr inst.arg0 result s
      code.not_ 64 result s
  DefineValue .inst result s

/-! ## Sign and zero extension -/

/-- `EmitX64::EmitSignExtendByteToWord`. -/
def EmitSignExtendByteToWord (inst : Inst) (result : HostLoc) (s : X64State) : X64State :=
  let s := UseScratchGpr inst.arg0 result s
  let s := code.movsx 32 8 result result s
  DefineValue .inst result s

/-- `EmitX64::EmitSignExtendHalfToWord`. -/
def EmitSignExtendHalfToWord (inst : Inst) (result : HostLoc) (s : X64State) : X64State :=
  let s := UseScratchGpr inst.arg0 result s
  let s := code.movsx 32 16 result result s
  DefineValue .inst result s

/-- `EmitX64::EmitSignExtendByteToLong`. -/
def EmitSignExtendByteToLong (inst : Inst) (result : HostLoc) (s : X64State) : X64State :=
  let s := UseScratchGpr inst.arg0 result s
  let s := code.movsx 64 8 result result s
  DefineValue .inst result s

/-- `EmitX64::EmitSignExtendHalfToLong`. -/
def EmitSignExtendHalfToLong (inst : Inst) (result : HostLoc) (s : X64State) : X64State :=
  let s := UseScratchGpr inst.arg0 result s
  let s := code.movsx 64 16 result result s
  DefineValue .inst result s

/-- `EmitX64::EmitSignExtendWordToLong`. -/
def EmitSignExtendWordToLong (inst : Inst) (result : HostLoc) (s : X64State) : X64State :=
  let s := UseScratchGpr inst.arg0 result s
  let s := code.movsx 64 32 result result s
  DefineValue .inst result s

/-- `EmitX64::EmitZeroExtendByteToWord`. -/
def EmitZeroExtendByteToWord (inst : Inst) (result : HostLoc) (s : X64State) : X64State :=
  let s := UseScratchGpr inst.arg0 result s
  let s := code.movzx 32 8 result result s
  DefineValue .inst result s

/-- `EmitX64::EmitZeroExtendHalfToWord`. -/
def EmitZeroExtendHalfToWord (inst : Inst) (result : HostLoc) (s : X64State) : X64State :=
  let s := UseScratchGpr inst.arg0 result s
  let s := code.movzx 32 16 result result s
  DefineValue .inst result s

/-- `EmitX64::EmitZeroExtendByteToLong`. -/
def EmitZeroExtendByteToLong (inst : Inst) (result : HostLoc) (s : X64State) : X64State :=
  EmitZeroExtendByteToWord inst result s

/-- `EmitX64::EmitZeroExtendHalfToLong`. -/
def EmitZeroExtendHalfToLong (inst : Inst) (result : HostLoc) (s : X64State) : X64State :=
  EmitZeroExtendHalfToWord inst result s

/-- `EmitX64::EmitZeroExtendWordToLong`. -/
def EmitZeroExtendWordToLong (inst : Inst) (result : HostLoc) (s : X64State) : X64State :=
  let s := UseScratchGpr inst.arg0 result s
  let s := code.mov 32 result (.reg result) s
  DefineValue .inst result s

/-! ## Stages of the flag synthesis of conditional select -/

/-- State after the multiplication of the flag synthesis: the packed NZCV word is
loaded, shifted right by 28 places and multiplied by the constant. -/
def nzcvProduct (offsetof_CPSR_nzcv : Nat) (s : X64State) : X64State :=
  s |> code.mov 32 .RAX (.mem .R15 offsetof_CPSR_nzcv) |> code.shr 32 .RAX 28
    |> code.imul3 32 .RAX (.reg .RAX) 0b0001000010000001

/-- State after `and al, 1` of the flag synthesis. -/
def nzcvMasked (offsetof_CPSR_nzcv : Nat) (s : X64State) : X64State :=
  code.and_ 8 .RAX (.imm 1) (nzcvProduct offsetof_CPSR_nzcv s)

/-- State after `add al, 0x7F` of the flag synthesis. -/
def nzcvAdded (offsetof_CPSR_nzcv : Nat) (s : X64State) : X64State :=
  code.add 8 .RAX (.imm 0x7F) (nzcvMasked offsetof_CPSR_nzcv s)

/-- State in which the flag synthesis of `EmitConditionalSelect` starts: both operands
have been placed in their registers (`UseGpr(args[1])`, `UseScratchGpr(args[2])`). -/
def selectOperands (inst : Inst) (then_ else_ : HostLoc) (s : X64State) : X64State :=
  UseScratchGpr inst.arg2 else_ (UseGpr inst.arg1 then_ s)

/-! ## Reference value of the sign extensions -/

/-- Sign extension of the low `ws` bits of `x` to a `wd`-bit pattern: the bits from
`ws` up to `wd` are copies of bit `ws - 1`. -/
def signExtendTo (wd ws x : Nat) : Nat :=
  x % 2 ^ ws + (if x % 2 ^ ws < 2 ^ (ws - 1) then 0 else 2 ^ wd - 2 ^ ws)

/-! ## Byte reversal, zero test and bit test -/

/-- The low `n` bytes of `x` in reverse order. -/
def byteSwap : Nat → Nat → Nat
  | 0, _ => 0
  | n + 1, x => x % 256 * 256 ^ n + byteSwap n (x / 256)

/-- Rotation of the `w`-bit pattern `a` to the left by `k < w` places. -/
def rotateLeft (w a k : Nat) : Nat :=
  a * 2 ^ k % 2 ^ w + a / 2 ^ (w - k)

namespace code

/-- Instruction `bswap dst`: the bytes of the operand are reversed; no flag is
affected. -/
def bswap (w : Nat) (dst : HostLoc) (s : X64State) : X64State :=
  s.writeGpr w dst (byteSwap (w / 8) (s.readGpr w dst))

/-- Instruction `rol dst, count`.  The count is masked, then taken modulo the
width.  A masked count of zero changes no flag (see `zeroCount` for the
destination); otherwise CF is the least
significant bit of the result and OF is defined for a count of one only.  The other
flags are kept. -/
def rol (w : Nat) (dst : HostLoc) (count : Nat) (s : X64State) : X64State :=
  let c := countMask w count
  if c = 0 then zeroCount w dst s else
    let a := s.readGpr w dst
    let r := rotateLeft w a (c % w)
    { s with CF := bit r 0,
             OF := if c = 1 then (msb w r != bit r 0) else s.havoc 0,
             tick := s.tick + 1 }.writeGpr w dst r

end code

/-- `EmitX64::EmitByteReverseWord`. -/
def EmitByteReverseWord (inst : Inst) (result : HostLoc) (s : X64State) : X64State :=
  let s := UseScratchGpr inst.arg0 result s
  let s := code.bswap 32 result s
  DefineValue .inst result s

/-- `EmitX64::EmitByteReverseHalf`. -/
def EmitByteReverseHalf (inst : Inst) (result : HostLoc) (s : X64State) : X64State :=
  let s := UseScratchGpr inst.arg0 result s
  let s := code.rol 16 result 8 s
  DefineValue .inst result s

/-- `EmitX64::EmitByteReverseDual`. -/
def EmitByteReverseDual (inst : Inst) (result : HostLoc) (s : X64State) : X64State :=
  let s := UseScratchGpr inst.arg0 result s
  let s := code.bswap 64 result s
  DefineValue .inst result s

/-- `EmitX64::EmitIsZero32`. -/
def EmitIsZero32 (inst : Inst) (result : HostLoc) (s : X64State) : X64State :=
  let s := UseScratchGpr inst.arg0 result s
  let s := code.test 32 result (.reg result) s
  let s := code.setcc .z result s
  let s := code.movzx 32 8 result result s
  DefineValue .inst result s

/-- `EmitX64::EmitIsZero64`. -/
def EmitIsZero64 (inst : Inst) (result : HostLoc) (s : X64State) : X64State :=
  let s := UseScratchGpr inst.arg0 result s
  let s := code.test 64 result (.reg result) s
  let s := code.setcc .z result s
  let s := code.movzx 64 8 result result s
  DefineValue .inst result s

/-- `EmitX64::EmitTestBit`.  The result is `none` when the assertion that the bit
index is an immediate fails. -/
def EmitTestBit (inst : Inst) (result : HostLoc) (s : X64State) : Option X64State :=
  let s := UseScratchGpr inst.arg0 result s
  if !inst.arg1.IsImmediate then none
  else
    let s := code.bt 64 result inst.arg1.GetImmediateU8 s
    let s := code.setcc .c result s
    some (DefineValue .inst result s)

/-! ## Reference values of the signed division -/

/-- The one pair of operands whose signed quotient leaves the signed `w`-bit range:
the most negative value divided by minus one. -/
def sdivOverflows (w a d : Nat) : Bool :=
  a % 2 ^ w = 2 ^ (w - 1) ∧ d % 2 ^ w = 2 ^ w - 1

/-! ## Host feature detection from the auxiliary vector (oaknut) -/

namespace oaknut

/-- Modelled from the spec: `CpuFeature` (cpu_feature.hpp) is missing from the
sources; these are the enumerators that `detect_features_via_hwcap` names. -/
inductive CpuFeature where
  | FP | ASIMD | AES | PMULL | SHA1 | SHA256 | CRC32 | LSE | FP16Conv | FP16 | RDM | JSCVT
  | FCMA | LRCPC | DPB | SHA3 | SM3 | SM4 | DotProd | SHA512 | SVE | FHM | DIT | LSE2
  | LRCPC2 | FlagM | SSBS | SB | PACA | PACG
  | DPB2 | SVE2 | SVE_AES | SVE_PMULL128 | SVE_BITPERM | SVE_SHA3 | SVE_SM4 | FlagM2
  | FRINTTS | SVE_I8MM | SVE_F32MM | SVE_F64MM | SVE_BF16 | I8MM | BF16 | DGH | RNG | BTI
  | MTE | ECV | AFP | RPRES | MTE3 | SME | SME_I16I64 | SME_F64F64 | SME_I8I32
  | SME_F16F32 | SME_B16F32 | SME_F32F32 | SME_FA64 | WFxT | EBF16 | SVE_EBF16 | CSSC
  | RPRFM | SVE2p1 | SME2 | SME2p1 | SME_I16I32 | SME_BI32I32 | SME_B16B16 | SME_F16F16
  | MOPS | HBC
  deriving DecidableEq, Repr

/-- Modelled from the spec: `CpuFeatures` (cpu_feature.hpp) is missing from the
sources; it is the set of reported features, here its membership test. -/
abbrev CpuFeatures := CpuFeature → Bool

/-- Modelled from the spec: the default-constructed `CpuFeatures`, which is missing
from the sources: the empty set. -/
def CpuFeatures.empty : CpuFeatures := fun _ => false

/-- Modelled from the spec: `CpuFeatures::operator|=` with a one-feature set, which
is missing from the sources: the feature becomes a member. -/
def CpuFeatures.add (result : CpuFeatures) (feat : CpuFeature) : CpuFeatures :=
  fun g => decide (g = feat) || result g

/-- `detail::bit_test<bits...>(value)`: the conjunction of `(value >> bit) & 1` over
the listed bits; `value` is a 64-bit `unsigned long`. -/
def bit_test (bits : List Nat) (value : Nat) : Bool :=
  bits.all (fun b => ((value % 2 ^ 64) >>> b) &&& 1 != 0)

/-- One expansion of `OAKNUT_DETECT_CAP` / `OAKNUT_DETECT_CAP2` on the word `cap`. -/
def OAKNUT_DETECT_CAP (feat : CpuFeature) (bits : List Nat) (cap : Nat)
    (result : CpuFeatures) : CpuFeatures :=
  if bit_test bits cap then result.add feat else result

/-- `detect_features_via_hwcap`. -/
def detect_features_via_hwcap (hwcap hwcap2 : Nat) : CpuFeatures :=
  CpuFeatures.empty
    |> OAKNUT_DETECT_CAP .FP [0] hwcap
    |> OAKNUT_DETECT_CAP .ASIMD [1] hwcap
    |> OAKNUT_DETECT_CAP .AES [3] hwcap
    |> OAKNUT_DETECT_CAP .PMULL [4] hwcap
    |> OAKNUT_DETECT_CAP .SHA1 [5] hwcap
    |> OAKNUT_DETECT_CAP .SHA256 [6] hwcap
    |> OAKNUT_DETECT_CAP .CRC32 [7] hwcap
    |> OAKNUT_DETECT_CAP .LSE [8] hwcap
    |> OAKNUT_DETECT_CAP .FP16Conv [9, 10] hwcap
    |> OAKNUT_DETECT_CAP .FP16 [9, 10] hwcap
    |> OAKNUT_DETECT_CAP .RDM [12] hwcap
    |> OAKNUT_DETECT_CAP .JSCVT [13] hwcap
    |> OAKNUT_DETECT_CAP .FCMA [14] hwcap
    |> OAKNUT_DETECT_CAP .LRCPC [15] hwcap
    |> OAKNUT_DETECT_CAP .DPB [16] hwcap
    |> OAKNUT_DETECT_CAP .SHA3 [17] hwcap
    |> OAKNUT_DETECT_CAP .SM3 [18] hwcap
    |> OAKNUT_DETECT_CAP .SM4 [19] hwcap
    |> OAKNUT_DETECT_CAP .DotProd [20] hwcap
    |> OAKNUT_DETECT_CAP .SHA512 [21] hwcap
    |> OAKNUT_DETECT_CAP .SVE [22] hwcap
    |> OAKNUT_DETECT_CAP .FHM [23] hwcap
    |> OAKNUT_DETECT_CAP .DIT [24] hwcap
    |> OAKNUT_DETECT_CAP .LSE2 [25] hwcap
    |> OAKNUT_DETECT_CAP .LRCPC2 [26] hwcap
    |> OAKNUT_DETECT_CAP .FlagM [27] hwcap
    |> OAKNUT_DETECT_CAP .SSBS [28] hwcap
    |> OAKNUT_DETECT_CAP .SB [29] hwcap
    |> OAKNUT_DETECT_CAP .PACA [30] hwcap
    |> OAKNUT_DETECT_CAP .PACG [31] hwcap
    |> OAKNUT_DETECT_CAP .DPB2 [0] hwcap2
    |> OAKNUT_DETECT_CAP .SVE2 [1] hwcap2
    |> OAKNUT_DETECT_CAP .SVE_AES [2] hwcap2
    |> OAKNUT_DETECT_CAP .SVE_PMULL128 [3] hwcap2
    |> OAKNUT_DETECT_CAP .SVE_BITPERM [4] hwcap2
    |> OAKNUT_DETECT_CAP .SVE_SHA3 [5] hwcap2
    |> OAKNUT_DETECT_CAP .SVE_SM4 [6] hwcap2
    |> OAKNUT_DETECT_CAP .FlagM2 [7] hwcap2
    |> OAKNUT_DETECT_CAP .FRINTTS [8] hwcap2
    |> OAKNUT_DETECT_CAP .SVE_I8MM [9] hwcap2
    |> OAKNUT_DETECT_CAP .SVE_F32MM [10] hwcap2
    |> OAKNUT_DETECT_CAP .SVE_F64MM [11] hwcap2
    |> OAKNUT_DETECT_CAP .SVE_BF16 [12] hwcap2
    |> OAKNUT_DETECT_CAP .I8MM [13] hwcap2
    |> OAKNUT_DETECT_CAP .BF16 [14] hwcap2
    |> OAKNUT_DETECT_CAP .DGH [15] hwcap2
    |> OAKNUT_DETECT_CAP .RNG [16] hwcap2
    |> OAKNUT_DETECT_CAP .BTI [17] hwcap2
    |> OAKNUT_DETECT_CAP .MTE [18] hwcap2
    |> OAKNUT_DETECT_CAP .ECV [19] hwcap2
    |> OAKNUT_DETECT_CAP .AFP [20] hwcap2
    |> OAKNUT_DETECT_CAP .RPRES [21] hwcap2
    |> OAKNUT_DETECT_CAP .MTE3 [22] hwcap2
    |> OAKNUT_DETECT_CAP .SME [23] hwcap2
    |> OAKNUT_DETECT_CAP .SME_I16I64 [24] hwcap2
    |> OAKNUT_DETECT_CAP .SME_F64F64 [25] hwcap2
    |> OAKNUT_DETECT_CAP .SME_I8I32 [26] hwcap2
    |> OAKNUT_DETECT_CAP .SME_F16F32 [27] hwcap2
    |> OAKNUT_DETECT_CAP .SME_B16F32 [28] hwcap2
    |> OAKNUT_DETECT_CAP .SME_F32F32 [29] hwcap2
    |> OAKNUT_DETECT_CAP .SME_FA64 [30] hwcap2
    |> OAKNUT_DETECT_CAP .WFxT [31] hwcap2
    |> OAKNUT_DETECT_CAP .EBF16 [32] hwcap2
    |> OAKNUT_DETECT_CAP .SVE_EBF16 [33] hwcap2
    |> OAKNUT_DETECT_CAP .CSSC [34] hwcap2
    |> OAKNUT_DETECT_CAP .RPRFM [35] hwcap2
    |> OAKNUT_DETECT_CAP .SVE2p1 [36] hwcap2
    |> OAKNUT_DETECT_CAP .SME2 [37] hwcap2
    |> OAKNUT_DETECT_CAP .SME2p1 [38] hwcap2
    |> OAKNUT_DETECT_CAP .SME_I16I32 [39] hwcap2
    |> OAKNUT_DETECT_CAP .SME_BI32I32 [40] hwcap2
    |> OAKNUT_DETECT_CAP .SME_B16B16 [41] hwcap2
    |> OAKNUT_DETECT_CAP .SME_F16F16 [42] hwcap2
    |> OAKNUT_DETECT_CAP .MOPS [43] hwcap2
    |> OAKNUT_DETECT_CAP .HBC [44] hwcap2

/-- Reference table: whether a feature is looked up in `hwcap2` rather than `hwcap`. -/
def inHwcap2 : CpuFeature → Bool
  | .FP | .ASIMD | .AES | .PMULL | .SHA1 | .SHA256 | .CRC32 | .LSE | .FP16Conv | .FP16
  | .RDM | .JSCVT | .FCMA | .LRCPC | .DPB | .SHA3 | .SM3 | .SM4 | .DotProd | .SHA512
  | .SVE | .FHM | .DIT | .LSE2 | .LRCPC2 | .FlagM | .SSBS | .SB | .PACA | .PACG => false
  | _ => true

/-- Reference table: the bits listed for a feature. -/
def listedBits : CpuFeature → List Nat
  | .FP => [0] | .ASIMD => [1] | .AES => [3] | .PMULL => [4] | .SHA1 => [5]
  | .SHA256 => [6] | .CRC32 => [7] | .LSE => [8] | .FP16Conv => [9, 10] | .FP16 => [9, 10]
  | .RDM => [12] | .JSCVT => [13] | .FCMA => [14] | .LRCPC => [15] | .DPB => [16]
  | .SHA3 => [17] | .SM3 => [18] | .SM4 => [19] | .DotProd => [20] | .SHA512 => [21]
  | .SVE => [22] | .FHM => [23] | .DIT => [24] | .LSE2 => [25] | .LRCPC2 => [26]
  | .FlagM => [27] | .SSBS => [28] | .SB => [29] | .PACA => [30] | .PACG => [31]
  | .DPB2 => [0] | .SVE2 => [1] | .SVE_AES => [2] | .SVE_PMULL128 => [3]
  | .SVE_BITPERM => [4] | .SVE_SHA3 => [5] | .SVE_SM4 => [6] | .FlagM2 => [7]
  | .FRINTTS => [8] | .SVE_I8MM => [9] | .SVE_F32MM => [10] | .SVE_F64MM => [11]
  | .SVE_BF16 => [12] | .I8MM => [13] | .BF16 => [14] | .DGH => [15] | .RNG => [16]
  | .BTI => [17] | .MTE => [18] | .ECV => [19] | .AFP => [20] | .RPRES => [21]
  | .MTE3 => [22] | .SME => [23] | .SME_I16I64 => [24] | .SME_F64F64 => [25]
  | .SME_I8I32 => [26] | .SME_F16F32 => [27] | .SME_B16F32 => [28] | .SME_F32F32 => [29]
  | .SME_FA64 => [30] | .WFxT => [31] | .EBF16 => [32] | .SVE_EBF16 => [33] | .CSSC => [34]
  | .RPRFM => [35] | .SVE2p1 => [36] | .SME2 => [37] | .SME2p1 => [38]
  | .SME_I16I32 => [39] | .SME_BI32I32 => [40] | .SME_B16B16 => [41]
  | .SME_F16F16 => [42] | .MOPS => [43] | .HBC => [44]

end oaknut

/-! # Theorems

## Effect of each host instruction and allocator call

For every state transformer, what it does to the registers, the six status flags,
memory, the `DefineValue`/`EraseInstruction` log and the divide counter. -/

/-- Effect of `UseScratchGpr` on each component of the state. -/
@[simp] theorem UseScratchGpr_eff (arg : Argument) (r : HostLoc) (s : X64State) :
    (∀ q, (UseScratchGpr arg r s).gpr q = (if q = r then arg.raw % 2 ^ 64 else s.gpr q))
    ∧ (UseScratchGpr arg r s).CF = (s.CF)
    ∧ (UseScratchGpr arg r s).PF = (s.PF)
    ∧ (UseScratchGpr arg r s).AF = (s.AF)
    ∧ (UseScratchGpr arg r s).ZF = (s.ZF)
    ∧ (UseScratchGpr arg r s).SF = (s.SF)
    ∧ (UseScratchGpr arg r s).OF = (s.OF)
    ∧ (UseScratchGpr arg r s).mem = (s.mem)
    ∧ (UseScratchGpr arg r s).defined = (s.defined)
    ∧ (UseScratchGpr arg r s).erased = (s.erased)
    ∧ (UseScratchGpr arg r s).divs = (s.divs) := by
  exact ⟨fun _ => rfl, rfl, rfl, rfl, rfl, rfl, rfl, rfl, rfl, rfl, rfl⟩

/-- Effect of `UseGpr` on each component of the state. -/
@[simp] theorem UseGpr_eff (arg : Argument) (r : HostLoc) (s : X64State) :
    (∀ q, (UseGpr arg r s).gpr q = (if q = r then arg.raw % 2 ^ 64 else s.gpr q))
    ∧ (UseGpr arg r s).CF = (s.CF)
    ∧ (UseGpr arg r s).PF = (s.PF)
    ∧ (UseGpr arg r s).AF = (s.AF)
    ∧ (UseGpr arg r s).ZF = (s.ZF)
    ∧ (UseGpr arg r s).SF = (s.SF)
    ∧ (UseGpr arg r s).OF = (s.OF)
    ∧ (UseGpr arg r s).mem = (s.mem)
    ∧ (UseGpr arg r s).defined = (s.defined)
    ∧ (UseGpr arg r s).erased = (s.erased)
    ∧ (UseGpr arg r s).divs = (s.divs) := by
  exact ⟨fun _ => rfl, rfl, rfl, rfl, rfl, rfl, rfl, rfl, rfl, rfl, rfl⟩

/-- Effect of `Use` on each component of the state. -/
@[simp] theorem Use_eff (arg : Argument) (r : HostLoc) (s : X64State) :
    (∀ q, (Use arg r s).gpr q = (if q = r then arg.raw % 2 ^ 64 else s.gpr q))
    ∧ (Use arg r s).CF = (s.CF)
    ∧ (Use arg r s).PF = (s.PF)
    ∧ (Use arg r s).AF = (s.AF)
    ∧ (Use arg r s).ZF = (s.ZF)
    ∧ (Use arg r s).SF = (s.SF)
    ∧ (Use arg r s).OF = (s.OF)
    ∧ (Use arg r s).mem = (s.mem)
    ∧ (Use arg r s).defined = (s.defined)
    ∧ (Use arg r s).erased = (s.erased)
    ∧ (Use arg r s).divs = (s.divs) := by
  exact ⟨fun _ => rfl, rfl, rfl, rfl, rfl, rfl, rfl, rfl, rfl, rfl, rfl⟩

/-- Effect of `UseOpArg` when the operand is a register. -/
@[simp] theorem UseOpArg_reg_eff (arg : Argument) (r : HostLoc) (s : X64State) :
    (∀ q, (UseOpArg arg (.reg r) s).gpr q = (if q = r then arg.raw % 2 ^ 64 else s.gpr q))
    ∧ (UseOpArg arg (.reg r) s).CF = (s.CF)
    ∧ (UseOpArg arg (.reg r) s).PF = (s.PF)
    ∧ (UseOpArg arg (.reg r) s).AF = (s.AF)
    ∧ (UseOpArg arg (.reg r) s).ZF = (s.ZF)
    ∧ (UseOpArg arg (.reg r) s).SF = (s.SF)
    ∧ (UseOpArg arg (.reg r) s).OF = (s.OF)
    ∧ (UseOpArg arg (.reg r) s).mem = (s.mem)
    ∧ (UseOpArg arg (.reg r) s).defined = (s.defined)
    ∧ (UseOpArg arg (.reg r) s).erased = (s.erased)
    ∧ (UseOpArg arg (.reg r) s).divs = (s.divs) := by
  exact ⟨fun _ => rfl, rfl, rfl, rfl, rfl, rfl, rfl, rfl, rfl, rfl, rfl⟩

/-- Effect of `UseOpArg` when the operand is a memory operand. -/
@[simp] theorem UseOpArg_mem_eff (arg : Argument) (b : HostLoc) (d : Nat) (s : X64State) :
    (∀ q, (UseOpArg arg (.mem b d) s).gpr q = (s.gpr q))
    ∧ (UseOpArg arg (.mem b d) s).CF = (s.CF)
    ∧ (UseOpArg arg (.mem b d) s).PF = (s.PF)
    ∧ (UseOpArg arg (.mem b d) s).AF = (s.AF)
    ∧ (UseOpArg arg (.mem b d) s).ZF = (s.ZF)
    ∧ (UseOpArg arg (.mem b d) s).SF = (s.SF)
    ∧ (UseOpArg arg (.mem b d) s).OF = (s.OF)
    ∧ (UseOpArg arg (.mem b d) s).mem = (fun a => if a = s.ea b d then arg.raw % 2 ^ 64 else s.mem a)
    ∧ (UseOpArg arg (.mem b d) s).defined = (s.defined)
    ∧ (UseOpArg arg (.mem b d) s).erased = (s.erased)
    ∧ (UseOpArg arg (.mem b d) s).divs = (s.divs) := by
  exact ⟨fun _ => rfl, rfl, rfl, rfl, rfl, rfl, rfl, rfl, rfl, rfl, rfl⟩

/-- Effect of `DefineValue` on each component of the state. -/
@[simp] theorem DefineValue_eff (node : IRNode) (loc : HostLoc) (s : X64State) :
    (∀ q, (DefineValue node loc s).gpr q = (s.gpr q))
    ∧ (DefineValue node loc s).CF = (s.CF)
    ∧ (DefineValue node loc s).PF = (s.PF)
    ∧ (DefineValue node loc s).AF = (s.AF)
    ∧ (DefineValue node loc s).ZF = (s.ZF)
    ∧ (DefineValue node loc s).SF = (s.SF)
    ∧ (DefineValue node loc s).OF = (s.OF)
    ∧ (DefineValue node loc s).mem = (s.mem)
    ∧ (DefineValue node loc s).defined = (s.defined ++ [(node, loc)])
    ∧ (DefineValue node loc s).erased = (s.erased)
    ∧ (DefineValue node loc s).divs = (s.divs) := by
  exact ⟨fun _ => rfl, rfl, rfl, rfl, rfl, rfl, rfl, rfl, rfl, rfl, rfl⟩

/-- Effect of `EraseInstruction` on each component of the state. -/
@[simp] theorem EraseInstruction_eff (node : IRNode) (s : X64State) :
    (∀ q, (EraseInstruction node s).gpr q = (s.gpr q))
    ∧ (EraseInstruction node s).CF = (s.CF)
    ∧ (EraseInstruction node s).PF = (s.PF)
    ∧ (EraseInstruction node s).AF = (s.AF)
    ∧ (EraseInstruction node s).ZF = (s.ZF)
    ∧ (EraseInstruction node s).SF = (s.SF)
    ∧ (EraseInstruction node s).OF = (s.OF)
    ∧ (EraseInstruction node s).mem = (s.mem)
    ∧ (EraseInstruction node s).defined = (s.defined)
    ∧ (EraseInstruction node s).erased = (s.erased ++ [node])
    ∧ (EraseInstruction node s).divs = (s.divs) := by
  exact ⟨fun _ => rfl, rfl, rfl, rfl, rfl, rfl, rfl, rfl, rfl, rfl, rfl⟩

/-- Effect of the adder shared by `add` and `adc` on each component of the state. -/
@[simp] theorem addWithCarry_eff (w : Nat) (dst : HostLoc) (src : Operand) (cin : Nat) (s : X64State) :
    (∀ q, (code.addWithCarry w dst src cin s).gpr q = (if q = dst then regWrite w (s.gpr dst) ((s.readGpr w dst + s.readOp w src + cin) % 2 ^ w) else s.gpr q))
    ∧ (code.addWithCarry w dst src cin s).CF = (decide (2 ^ w ≤ s.readGpr w dst + s.readOp w src + cin))
    ∧ (code.addWithCarry w dst src cin s).PF = (parity8 ((s.readGpr w dst + s.readOp w src + cin) % 2 ^ w))
    ∧ (code.addWithCarry w dst src cin s).AF = (decide (16 ≤ s.readGpr w dst % 16 + s.readOp w src % 16 + cin))
    ∧ (code.addWithCarry w dst src cin s).ZF = (decide ((s.readGpr w dst + s.readOp w src + cin) % 2 ^ w % 2 ^ w = 0))
    ∧ (code.addWithCarry w dst src cin s).SF = (msb w ((s.readGpr w dst + s.readOp w src + cin) % 2 ^ w))
    ∧ (code.addWithCarry w dst src cin s).OF = (((msb w (s.readGpr w dst) == msb w (s.readOp w src)) && (msb w ((s.readGpr w dst + s.readOp w src + cin) % 2 ^ w) != msb w (s.readGpr w dst))))
    ∧ (code.addWithCarry w dst src cin s).mem = (s.mem)
    ∧ (code.addWithCarry w dst src cin s).defined = (s.defined)
    ∧ (code.addWithCarry w dst src cin s).erased = (s.erased)
    ∧ (code.addWithCarry w dst src cin s).divs = (s.divs) := by
  exact ⟨fun _ => rfl, rfl, rfl, rfl, rfl, rfl, rfl, rfl, rfl, rfl, rfl⟩

/-- Effect of the subtracter shared by `sub` and `sbb` on each component of the state. -/
@[simp] theorem subWithBorrow_eff (w : Nat) (dst : HostLoc) (src : Operand) (cin : Nat) (s : X64State) :
    (∀ q, (code.subWithBorrow w dst src cin s).gpr q = (if q = dst then regWrite w (s.gpr dst) ((s.readGpr w dst + 2 ^ w - (s.readOp w src + cin)) % 2 ^ w) else s.gpr q))
    ∧ (code.subWithBorrow w dst src cin s).CF = (decide (s.readGpr w dst < s.readOp w src + cin))
    ∧ (code.subWithBorrow w dst src cin s).PF = (parity8 ((s.readGpr w dst + 2 ^ w - (s.readOp w src + cin)) % 2 ^ w))
    ∧ (code.subWithBorrow w dst src cin s).AF = (decide (s.readGpr w dst % 16 < s.readOp w src % 16 + cin))
    ∧ (code.subWithBorrow w dst src cin s).ZF = (decide ((s.readGpr w dst + 2 ^ w - (s.readOp w src + cin)) % 2 ^ w % 2 ^ w = 0))
    ∧ (code.subWithBorrow w dst src cin s).SF = (msb w ((s.readGpr w dst + 2 ^ w - (s.readOp w src + cin)) % 2 ^ w))
    ∧ (code.subWithBorrow w dst src cin s).OF = (((msb w (s.readGpr w dst) != msb w (s.readOp w src)) && (msb w ((s.readGpr w dst + 2 ^ w - (s.readOp w src + cin)) % 2 ^ w) != msb w (s.readGpr w dst))))
    ∧ (code.subWithBorrow w dst src cin s).mem = (s.mem)
    ∧ (code.subWithBorrow w dst src cin s).defined = (s.defined)
    ∧ (code.subWithBorrow w dst src cin s).erased = (s.erased)
    ∧ (code.subWithBorrow w dst src cin s).divs = (s.divs) := by
  exact ⟨fun _ => rfl, rfl, rfl, rfl, rfl, rfl, rfl, rfl, rfl, rfl, rfl⟩

/-- Effect of `add` on each component of the state. -/
@[simp] theorem add_eff (w : Nat) (dst : HostLoc) (src : Operand) (s : X64State) :
    (∀ q, (code.add w dst src s).gpr q = (if q = dst then regWrite w (s.gpr dst) ((s.readGpr w dst + s.readOp w src + 0) % 2 ^ w) else s.gpr q))
    ∧ (code.add w dst src s).CF = (decide (2 ^ w ≤ s.readGpr w dst + s.readOp w src + 0))
    ∧ (code.add w dst src s).PF = (parity8 ((s.readGpr w dst + s.readOp w src + 0) % 2 ^ w))
    ∧ (code.add w dst src s).AF = (decide (16 ≤ s.readGpr w dst % 16 + s.readOp w src % 16 + 0))
    ∧ (code.add w dst src s).ZF = (decide ((s.readGpr w dst + s.readOp w src + 0) % 2 ^ w % 2 ^ w = 0))
    ∧ (code.add w dst src s).SF = (msb w ((s.readGpr w dst + s.readOp w src + 0) % 2 ^ w))
    ∧ (code.add w dst src s).OF = (((msb w (s.readGpr w dst) == msb w (s.readOp w src)) && (msb w ((s.readGpr w dst + s.readOp w src + 0) % 2 ^ w) != msb w (s.readGpr w dst))))
    ∧ (code.add w dst src s).mem = (s.mem)
    ∧ (code.add w dst src s).defined = (s.defined)
    ∧ (code.add w dst src s).erased = (s.erased)
    ∧ (code.add w dst src s).divs = (s.divs) := by
  exact ⟨fun _ => rfl, rfl, rfl, rfl, rfl, rfl, rfl, rfl, rfl, rfl, rfl⟩

/-- Effect of `adc` on each component of the state. -/
@[simp] theorem adc_eff (w : Nat) (dst : HostLoc) (src : Operand) (s : X64State) :
    (∀ q, (code.adc w dst src s).gpr q = (if q = dst then regWrite w (s.gpr dst) ((s.readGpr w dst + s.readOp w src + s.CF.toNat) % 2 ^ w) else s.gpr q))
    ∧ (code.adc w dst src s).CF = (decide (2 ^ w ≤ s.readGpr w dst + s.readOp w src + s.CF.toNat))
    ∧ (code.adc w dst src s).PF = (parity8 ((s.readGpr w dst + s.readOp w src + s.CF.toNat) % 2 ^ w))
    ∧ (code.adc w dst src s).AF = (decide (16 ≤ s.readGpr w dst % 16 + s.readOp w src % 16 + s.CF.toNat))
    ∧ (code.adc w dst src s).ZF = (decide ((s.readGpr w dst + s.readOp w src + s.CF.toNat) % 2 ^ w % 2 ^ w = 0))
    ∧ (code.adc w dst src s).SF = (msb w ((s.readGpr w dst + s.readOp w src + s.CF.toNat) % 2 ^ w))
    ∧ (code.adc w dst src s).OF = (((msb w (s.readGpr w dst) == msb w (s.readOp w src)) && (msb w ((s.readGpr w dst + s.readOp w src + s.CF.toNat) % 2 ^ w) != msb w (s.readGpr w dst))))
    ∧ (code.adc w dst src s).mem = (s.mem)
    ∧ (code.adc w dst src s).defined = (s.defined)
    ∧ (code.adc w dst src s).erased = (s.erased)
    ∧ (code.adc w dst src s).divs = (s.divs) := by
  exact ⟨fun _ => rfl, rfl, rfl, rfl, rfl, rfl, rfl, rfl, rfl, rfl, rfl⟩

/-- Effect of `sub` on each component of the state. -/
@[simp] theorem sub_eff (w : Nat) (dst : HostLoc) (src : Operand) (s : X64State) :
    (∀ q, (code.sub w dst src s).gpr q = (if q = dst then regWrite w (s.gpr dst) ((s.readGpr w dst + 2 ^ w - (s.readOp w src + 0)) % 2 ^ w) else s.gpr q))
    ∧ (code.sub w dst src s).CF = (decide (s.readGpr w dst < s.readOp w src + 0))
    ∧ (code.sub w dst src s).PF = (parity8 ((s.readGpr w dst + 2 ^ w - (s.readOp w src + 0)) % 2 ^ w))
    ∧ (code.sub w dst src s).AF = (decide (s.readGpr w dst % 16 < s.readOp w src % 16 + 0))
    ∧ (code.sub w dst src s).ZF = (decide ((s.readGpr w dst + 2 ^ w - (s.readOp w src + 0)) % 2 ^ w % 2 ^ w = 0))
    ∧ (code.sub w dst src s).SF = (msb w ((s.readGpr w dst + 2 ^ w - (s.readOp w src + 0)) % 2 ^ w))
    ∧ (code.sub w dst src s).OF = (((msb w (s.readGpr w dst) != msb w (s.readOp w src)) && (msb w ((s.readGpr w dst + 2 ^ w - (s.readOp w src + 0)) % 2 ^ w) != msb w (s.readGpr w dst))))
    ∧ (code.sub w dst src s).mem = (s.mem)
    ∧ (code.sub w dst src s).defined = (s.defined)
    ∧ (code.sub w dst src s).erased = (s.erased)
    ∧ (code.sub w dst src s).divs = (s.divs) := by
  exact ⟨fun _ => rfl, rfl, rfl, rfl, rfl, rfl, rfl, rfl, rfl, rfl, rfl⟩

/-- Effect of `sbb` on each component of the state. -/
@[simp] theorem sbb_eff (w : Nat) (dst : HostLoc) (src : Operand) (s : X64State) :
    (∀ q, (code.sbb w dst src s).gpr q = (if q = dst then regWrite w (s.gpr dst) ((s.readGpr w dst + 2 ^ w - (s.readOp w src + s.CF.toNat)) % 2 ^ w) else s.gpr q))
    ∧ (code.sbb w dst src s).CF = (decide (s.readGpr w dst < s.readOp w src + s.CF.toNat))
    ∧ (code.sbb w dst src s).PF = (parity8 ((s.readGpr w dst + 2 ^ w - (s.readOp w src + s.CF.toNat)) % 2 ^ w))
    ∧ (code.sbb w dst src s).AF = (decide (s.readGpr w dst % 16 < s.readOp w src % 16 + s.CF.toNat))
    ∧ (code.sbb w dst src s).ZF = (decide ((s.readGpr w dst + 2 ^ w - (s.readOp w src + s.CF.toNat)) % 2 ^ w % 2 ^ w = 0))
    ∧ (code.sbb w dst src s).SF = (msb w ((s.readGpr w dst + 2 ^ w - (s.readOp w src + s.CF.toNat)) % 2 ^ w))
    ∧ (code.sbb w dst src s).OF = (((msb w (s.readGpr w dst) != msb w (s.readOp w src)) && (msb w ((s.readGpr w dst + 2 ^ w - (s.readOp w src + s.CF.toNat)) % 2 ^ w) != msb w (s.readGpr w dst))))
    ∧ (code.sbb w dst src s).mem = (s.mem)
    ∧ (code.sbb w dst src s).defined = (s.defined)
    ∧ (code.sbb w dst src s).erased = (s.erased)
    ∧ (code.sbb w dst src s).divs = (s.divs) := by
  exact ⟨fun _ => rfl, rfl, rfl, rfl, rfl, rfl, rfl, rfl, rfl, rfl, rfl⟩

/-- Effect of `cmp` on each component of the state. -/
@[simp] theorem cmp_eff (w : Nat) (dst : HostLoc) (src : Operand) (s : X64State) :
    (∀ q, (code.cmp w dst src s).gpr q = (s.gpr q))
    ∧ (code.cmp w dst src s).CF = (decide (s.readGpr w dst < s.readOp w src + 0))
    ∧ (code.cmp w dst src s).PF = (parity8 ((s.readGpr w dst + 2 ^ w - (s.readOp w src + 0)) % 2 ^ w))
    ∧ (code.cmp w dst src s).AF = (decide (s.readGpr w dst % 16 < s.readOp w src % 16 + 0))
    ∧ (code.cmp w dst src s).ZF = (decide ((s.readGpr w dst + 2 ^ w - (s.readOp w src + 0)) % 2 ^ w % 2 ^ w = 0))
    ∧ (code.cmp w dst src s).SF = (msb w ((s.readGpr w dst + 2 ^ w - (s.readOp w src + 0)) % 2 ^ w))
    ∧ (code.cmp w dst src s).OF = (((msb w (s.readGpr w dst) != msb w (s.readOp w src)) && (msb w ((s.readGpr w dst + 2 ^ w - (s.readOp w src + 0)) % 2 ^ w) != msb w (s.readGpr w dst))))
    ∧ (code.cmp w dst src s).mem = (s.mem)
    ∧ (code.cmp w dst src s).defined = (s.defined)
    ∧ (code.cmp w dst src s).erased = (s.erased)
    ∧ (code.cmp w dst src s).divs = (s.divs) := by
  exact ⟨fun _ => rfl, rfl, rfl, rfl, rfl, rfl, rfl, rfl, rfl, rfl, rfl⟩

/-- Effect of `and` on each component of the state. -/
@[simp] theorem and_eff (w : Nat) (dst : HostLoc) (src : Operand) (s : X64State) :
    (∀ q, (code.and_ w dst src s).gpr q = (if q = dst then regWrite w (s.gpr dst) (s.readGpr w dst &&& s.readOp w src) else s.gpr q))
    ∧ (code.and_ w dst src s).CF = (false)
    ∧ (code.and_ w dst src s).PF = (parity8 (s.readGpr w dst &&& s.readOp w src))
    ∧ (code.and_ w dst src s).AF = (s.havoc 0)
    ∧ (code.and_ w dst src s).ZF = (decide ((s.readGpr w dst &&& s.readOp w src) % 2 ^ w = 0))
    ∧ (code.and_ w dst src s).SF = (msb w (s.readGpr w dst &&& s.readOp w src))
    ∧ (code.and_ w dst src s).OF = (false)
    ∧ (code.and_ w dst src s).mem = (s.mem)
    ∧ (code.and_ w dst src s).defined = (s.defined)
    ∧ (code.and_ w dst src s).erased = (s.erased)
    ∧ (code.and_ w dst src s).divs = (s.divs) := by
  exact ⟨fun _ => rfl, rfl, rfl, rfl, rfl, rfl, rfl, rfl, rfl, rfl, rfl⟩

/-- Effect of `or` on each component of the state. -/
@[simp] theorem or_eff (w : Nat) (dst : HostLoc) (src : Operand) (s : X64State) :
    (∀ q, (code.or_ w dst src s).gpr q = (if q = dst then regWrite w (s.gpr dst) (s.readGpr w dst ||| s.readOp w src) else s.gpr q))
    ∧ (code.or_ w dst src s).CF = (false)
    ∧ (code.or_ w dst src s).PF = (parity8 (s.readGpr w dst ||| s.readOp w src))
    ∧ (code.or_ w dst src s).AF = (s.havoc 0)
    ∧ (code.or_ w dst src s).ZF = (decide ((s.readGpr w dst ||| s.readOp w src) % 2 ^ w = 0))
    ∧ (code.or_ w dst src s).SF = (msb w (s.readGpr w dst ||| s.readOp w src))
    ∧ (code.or_ w dst src s).OF = (false)
    ∧ (code.or_ w dst src s).mem = (s.mem)
    ∧ (code.or_ w dst src s).defined = (s.defined)
    ∧ (code.or_ w dst src s).erased = (s.erased)
    ∧ (code.or_ w dst src s).divs = (s.divs) := by
  exact ⟨fun _ => rfl, rfl, rfl, rfl, rfl, rfl, rfl, rfl, rfl, rfl, rfl⟩

/-- Effect of `xor` on each component of the state. -/
@[simp] theorem xor_eff (w : Nat) (dst : HostLoc) (src : Operand) (s : X64State) :
    (∀ q, (code.xor_ w dst src s).gpr q = (if q = dst then regWrite w (s.gpr dst) (s.readGpr w dst ^^^ s.readOp w src) else s.gpr q))
    ∧ (code.xor_ w dst src s).CF = (false)
    ∧ (code.xor_ w dst src s).PF = (parity8 (s.readGpr w dst ^^^ s.readOp w src))
    ∧ (code.xor_ w dst src s).AF = (s.havoc 0)
    ∧ (code.xor_ w dst src s).ZF = (decide ((s.readGpr w dst ^^^ s.readOp w src) % 2 ^ w = 0))
    ∧ (code.xor_ w dst src s).SF = (msb w (s.readGpr w dst ^^^ s.readOp w src))
    ∧ (code.xor_ w dst src s).OF = (false)
    ∧ (code.xor_ w dst src s).mem = (s.mem)
    ∧ (code.xor_ w dst src s).defined = (s.defined)
    ∧ (code.xor_ w dst src s).erased = (s.erased)
    ∧ (code.xor_ w dst src s).divs = (s.divs) := by
  exact ⟨fun _ => rfl, rfl, rfl, rfl, rfl, rfl, rfl, rfl, rfl, rfl, rfl⟩

/-- Effect of `test` on each component of the state. -/
@[simp] theorem test_eff (w : Nat) (dst : HostLoc) (src : Operand) (s : X64State) :
    (∀ q, (code.test w dst src s).gpr q = (s.gpr q))
    ∧ (code.test w dst src s).CF = (false)
    ∧ (code.test w dst src s).PF = (parity8 (s.readGpr w dst &&& s.readOp w src))
    ∧ (code.test w dst src s).AF = (s.havoc 0)
    ∧ (code.test w dst src s).ZF = (decide ((s.readGpr w dst &&& s.readOp w src) % 2 ^ w = 0))
    ∧ (code.test w dst src s).SF = (msb w (s.readGpr w dst &&& s.readOp w src))
    ∧ (code.test w dst src s).OF = (false)
    ∧ (code.test w dst src s).mem = (s.mem)
    ∧ (code.test w dst src s).defined = (s.defined)
    ∧ (code.test w dst src s).erased = (s.erased)
    ∧ (code.test w dst src s).divs = (s.divs) := by
  exact ⟨fun _ => rfl, rfl, rfl, rfl, rfl, rfl, rfl, rfl, rfl, rfl, rfl⟩

/-- Effect of `mov` on each component of the state. -/
@[simp] theorem mov_eff (w : Nat) (dst : HostLoc) (src : Operand) (s : X64State) :
    (∀ q, (code.mov w dst src s).gpr q = (if q = dst then regWrite w (s.gpr dst) (s.readOp w src) else s.gpr q))
    ∧ (code.mov w dst src s).CF = (s.CF)
    ∧ (code.mov w dst src s).PF = (s.PF)
    ∧ (code.mov w dst src s).AF = (s.AF)
    ∧ (code.mov w dst src s).ZF = (s.ZF)
    ∧ (code.mov w dst src s).SF = (s.SF)
    ∧ (code.mov w dst src s).OF = (s.OF)
    ∧ (code.mov w dst src s).mem = (s.mem)
    ∧ (code.mov w dst src s).defined = (s.defined)
    ∧ (code.mov w dst src s).erased = (s.erased)
    ∧ (code.mov w dst src s).divs = (s.divs) := by
  exact ⟨fun _ => rfl, rfl, rfl, rfl, rfl, rfl, rfl, rfl, rfl, rfl, rfl⟩

/-- Effect of `stc` on each component of the state. -/
@[simp] theorem stc_eff (s : X64State) :
    (∀ q, (code.stc s).gpr q = (s.gpr q))
    ∧ (code.stc s).CF = (true)
    ∧ (code.stc s).PF = (s.PF)
    ∧ (code.stc s).AF = (s.AF)
    ∧ (code.stc s).ZF = (s.ZF)
    ∧ (code.stc s).SF = (s.SF)
    ∧ (code.stc s).OF = (s.OF)
    ∧ (code.stc s).mem = (s.mem)
    ∧ (code.stc s).defined = (s.defined)
    ∧ (code.stc s).erased = (s.erased)
    ∧ (code.stc s).divs = (s.divs) := by
  exact ⟨fun _ => rfl, rfl, rfl, rfl, rfl, rfl, rfl, rfl, rfl, rfl, rfl⟩

/-- Effect of `cmc` on each component of the state. -/
@[simp] theorem cmc_eff (s : X64State) :
    (∀ q, (code.cmc s).gpr q = (s.gpr q))
    ∧ (code.cmc s).CF = (!s.CF)
    ∧ (code.cmc s).PF = (s.PF)
    ∧ (code.cmc s).AF = (s.AF)
    ∧ (code.cmc s).ZF = (s.ZF)
    ∧ (code.cmc s).SF = (s.SF)
    ∧ (code.cmc s).OF = (s.OF)
    ∧ (code.cmc s).mem = (s.mem)
    ∧ (code.cmc s).defined = (s.defined)
    ∧ (code.cmc s).erased = (s.erased)
    ∧ (code.cmc s).divs = (s.divs) := by
  exact ⟨fun _ => rfl, rfl, rfl, rfl, rfl, rfl, rfl, rfl, rfl, rfl, rfl⟩

/-- Effect of `bt` on each component of the state. -/
@[simp] theorem bt_eff (w : Nat) (r : HostLoc) (i : Nat) (s : X64State) :
    (∀ q, (code.bt w r i s).gpr q = (s.gpr q))
    ∧ (code.bt w r i s).CF = (bit (s.readGpr w r) (i % w))
    ∧ (code.bt w r i s).PF = (s.havoc 3)
    ∧ (code.bt w r i s).AF = (s.havoc 2)
    ∧ (code.bt w r i s).ZF = (s.ZF)
    ∧ (code.bt w r i s).SF = (s.havoc 1)
    ∧ (code.bt w r i s).OF = (s.havoc 0)
    ∧ (code.bt w r i s).mem = (s.mem)
    ∧ (code.bt w r i s).defined = (s.defined)
    ∧ (code.bt w r i s).erased = (s.erased)
    ∧ (code.bt w r i s).divs = (s.divs) := by
  exact ⟨fun _ => rfl, rfl, rfl, rfl, rfl, rfl, rfl, rfl, rfl, rfl, rfl⟩

/-- Effect of `setcc` on each component of the state. -/
@[simp] theorem setcc_eff (cc : CC) (r : HostLoc) (s : X64State) :
    (∀ q, (code.setcc cc r s).gpr q = (if q = r then regWrite 8 (s.gpr r) (cc.holds s).toNat else s.gpr q))
    ∧ (code.setcc cc r s).CF = (s.CF)
    ∧ (code.setcc cc r s).PF = (s.PF)
    ∧ (code.setcc cc r s).AF = (s.AF)
    ∧ (code.setcc cc r s).ZF = (s.ZF)
    ∧ (code.setcc cc r s).SF = (s.SF)
    ∧ (code.setcc cc r s).OF = (s.OF)
    ∧ (code.setcc cc r s).mem = (s.mem)
    ∧ (code.setcc cc r s).defined = (s.defined)
    ∧ (code.setcc cc r s).erased = (s.erased)
    ∧ (code.setcc cc r s).divs = (s.divs) := by
  exact ⟨fun _ => rfl, rfl, rfl, rfl, rfl, rfl, rfl, rfl, rfl, rfl, rfl⟩

/-- Effect of `cmovcc` on each component of the state. -/
@[simp] theorem cmovcc_eff (cc : CC) (w : Nat) (dst src : HostLoc) (s : X64State) :
    (∀ q, (code.cmovcc cc w dst src s).gpr q = (if q = dst then regWrite w (s.gpr dst) (if cc.holds s then s.readGpr w src else s.readGpr w dst) else s.gpr q))
    ∧ (code.cmovcc cc w dst src s).CF = (s.CF)
    ∧ (code.cmovcc cc w dst src s).PF = (s.PF)
    ∧ (code.cmovcc cc w dst src s).AF = (s.AF)
    ∧ (code.cmovcc cc w dst src s).ZF = (s.ZF)
    ∧ (code.cmovcc cc w dst src s).SF = (s.SF)
    ∧ (code.cmovcc cc w dst src s).OF = (s.OF)
    ∧ (code.cmovcc cc w dst src s).mem = (s.mem)
    ∧ (code.cmovcc cc w dst src s).defined = (s.defined)
    ∧ (code.cmovcc cc w dst src s).erased = (s.erased)
    ∧ (code.cmovcc cc w dst src s).divs = (s.divs) := by
  exact ⟨fun _ => rfl, rfl, rfl, rfl, rfl, rfl, rfl, rfl, rfl, rfl, rfl⟩

/-- Effect of `lahf` on each component of the state. -/
@[simp] theorem lahf_eff (s : X64State) :
    (∀ q, (code.lahf s).gpr q = (if q = .RAX then s.gpr .RAX % 2 ^ 64 / 2 ^ 16 * 2 ^ 16 + code.lahfByte s * 256 + s.gpr .RAX % 2 ^ 64 % 256 else s.gpr q))
    ∧ (code.lahf s).CF = (s.CF)
    ∧ (code.lahf s).PF = (s.PF)
    ∧ (code.lahf s).AF = (s.AF)
    ∧ (code.lahf s).ZF = (s.ZF)
    ∧ (code.lahf s).SF = (s.SF)
    ∧ (code.lahf s).OF = (s.OF)
    ∧ (code.lahf s).mem = (s.mem)
    ∧ (code.lahf s).defined = (s.defined)
    ∧ (code.lahf s).erased = (s.erased)
    ∧ (code.lahf s).divs = (s.divs) := by
  exact ⟨fun _ => rfl, rfl, rfl, rfl, rfl, rfl, rfl, rfl, rfl, rfl, rfl⟩

/-- Effect of `sahf` on each component of the state. -/
@[simp] theorem sahf_eff (s : X64State) :
    (∀ q, (code.sahf s).gpr q = (s.gpr q))
    ∧ (code.sahf s).CF = (bit (s.gpr .RAX / 256 % 256) 0)
    ∧ (code.sahf s).PF = (bit (s.gpr .RAX / 256 % 256) 2)
    ∧ (code.sahf s).AF = (bit (s.gpr .RAX / 256 % 256) 4)
    ∧ (code.sahf s).ZF = (bit (s.gpr .RAX / 256 % 256) 6)
    ∧ (code.sahf s).SF = (bit (s.gpr .RAX / 256 % 256) 7)
    ∧ (code.sahf s).OF = (s.OF)
    ∧ (code.sahf s).mem = (s.mem)
    ∧ (code.sahf s).defined = (s.defined)
    ∧ (code.sahf s).erased = (s.erased)
    ∧ (code.sahf s).divs = (s.divs) := by
  exact ⟨fun _ => rfl, rfl, rfl, rfl, rfl, rfl, rfl, rfl, rfl, rfl, rfl⟩

/-- A shift or rotate with a masked count of zero keeps everything but the
destination register. -/
theorem zeroCount_eff (w : Nat) (dst : HostLoc) (s : X64State) :
    (code.zeroCount w dst s).CF = (s.CF)
    ∧ (code.zeroCount w dst s).PF = (s.PF)
    ∧ (code.zeroCount w dst s).AF = (s.AF)
    ∧ (code.zeroCount w dst s).ZF = (s.ZF)
    ∧ (code.zeroCount w dst s).SF = (s.SF)
    ∧ (code.zeroCount w dst s).OF = (s.OF)
    ∧ (code.zeroCount w dst s).mem = (s.mem)
    ∧ (code.zeroCount w dst s).defined = (s.defined)
    ∧ (code.zeroCount w dst s).erased = (s.erased)
    ∧ (code.zeroCount w dst s).divs = (s.divs)
    ∧ (code.zeroCount w dst s).xmm = (s.xmm)
    ∧ (code.zeroCount w dst s).definedXmm = (s.definedXmm)
    ∧ (code.zeroCount w dst s).calls = (s.calls) := by
  unfold code.zeroCount
  by_cases hw : w = 32
  · rw [if_pos hw]
    exact ⟨rfl, rfl, rfl, rfl, rfl, rfl, rfl, rfl, rfl, rfl, rfl, rfl, rfl⟩
  · rw [if_neg hw]
    exact ⟨rfl, rfl, rfl, rfl, rfl, rfl, rfl, rfl, rfl, rfl, rfl, rfl, rfl⟩

/-- With a masked count of zero a 32-bit destination is zero-extended. -/
@[simp] theorem zeroCount_32 (dst : HostLoc) (s : X64State) (q : HostLoc) :
    (code.zeroCount 32 dst s).gpr q = (if q = dst then s.gpr dst % 4294967296 else s.gpr q) := by
  unfold code.zeroCount X64State.writeGpr regWrite
  by_cases h : q = dst <;> simp [h]

/-- With a masked count of zero a 64-bit instruction changes nothing. -/
@[simp] theorem zeroCount_64 (dst : HostLoc) (s : X64State) : code.zeroCount 64 dst s = s := by
  rfl

/-- With a masked count of zero a 16-bit instruction changes nothing. -/
@[simp] theorem zeroCount_16 (dst : HostLoc) (s : X64State) : code.zeroCount 16 dst s = s := by
  rfl

/-- With a masked count of zero an 8-bit instruction changes nothing. -/
@[simp] theorem zeroCount_8 (dst : HostLoc) (s : X64State) : code.zeroCount 8 dst s = s := by
  rfl

/-- Read at the operand width, the destination of a shift or rotate with a masked
count of zero is what it was. -/
theorem zeroCount_read (w : Nat) (dst : HostLoc) (s : X64State) :
    (code.zeroCount w dst s).gpr dst % 2 ^ w = s.gpr dst % 2 ^ w := by
  unfold code.zeroCount
  by_cases hw : w = 32
  · subst hw
    simp [X64State.writeGpr, regWrite]
  · rw [if_neg hw]

/-- A shift or rotate with a masked count of zero keeps every other register. -/
theorem zeroCount_other (w : Nat) (dst : HostLoc) (s : X64State) (q : HostLoc) (h : q ≠ dst) :
    (code.zeroCount w dst s).gpr q = s.gpr q := by
  unfold code.zeroCount
  by_cases hw : w = 32
  · rw [if_pos hw]
    simp [X64State.writeGpr, h]
  · rw [if_neg hw]

/-- Effect of `shl` on each component of the state. -/
@[simp] theorem shl_eff (w : Nat) (dst : HostLoc) (count : Nat) (s : X64State) :
    (∀ q, (code.shl w dst count s).gpr q = (if code.countMask w count = 0 then (code.zeroCount w dst s).gpr q else (if q = dst then regWrite w (s.gpr dst) (s.readGpr w dst * 2 ^ code.countMask w count % 2 ^ w) else s.gpr q)))
    ∧ (code.shl w dst count s).CF = (if code.countMask w count = 0 then s.CF else (bit (s.readGpr w dst) (w - code.countMask w count)))
    ∧ (code.shl w dst count s).PF = (if code.countMask w count = 0 then s.PF else (parity8 (s.readGpr w dst * 2 ^ code.countMask w count % 2 ^ w)))
    ∧ (code.shl w dst count s).AF = (if code.countMask w count = 0 then s.AF else (s.havoc 1))
    ∧ (code.shl w dst count s).ZF = (if code.countMask w count = 0 then s.ZF else (decide ((s.readGpr w dst * 2 ^ code.countMask w count % 2 ^ w) % 2 ^ w = 0)))
    ∧ (code.shl w dst count s).SF = (if code.countMask w count = 0 then s.SF else (msb w (s.readGpr w dst * 2 ^ code.countMask w count % 2 ^ w)))
    ∧ (code.shl w dst count s).OF = (if code.countMask w count = 0 then s.OF else (if code.countMask w count = 1 then (msb w (s.readGpr w dst * 2 ^ code.countMask w count % 2 ^ w) != bit (s.readGpr w dst) (w - code.countMask w count)) else s.havoc 0))
    ∧ (code.shl w dst count s).mem = (s.mem)
    ∧ (code.shl w dst count s).defined = (s.defined)
    ∧ (code.shl w dst count s).erased = (s.erased)
    ∧ (code.shl w dst count s).divs = (s.divs) := by
  unfold code.shl
  by_cases h : code.countMask w count = 0
  · obtain ⟨z1, z2, z3, z4, z5, z6, z7, z8, z9, z10, -⟩ := zeroCount_eff w dst s
    simp only [h, if_true]
    exact ⟨fun _ => trivial, z1, z2, z3, z4, z5, z6, z7, z8, z9, z10⟩
  · simp only [h, if_false]
    exact ⟨fun _ => rfl, rfl, rfl, rfl, rfl, rfl, rfl, rfl, rfl, rfl, rfl⟩

/-- Effect of `shr` on each component of the state. -/
@[simp] theorem shr_eff (w : Nat) (dst : HostLoc) (count : Nat) (s : X64State) :
    (∀ q, (code.shr w dst count s).gpr q = (if code.countMask w count = 0 then (code.zeroCount w dst s).gpr q else (if q = dst then regWrite w (s.gpr dst) (s.readGpr w dst / 2 ^ code.countMask w count) else s.gpr q)))
    ∧ (code.shr w dst count s).CF = (if code.countMask w count = 0 then s.CF else (bit (s.readGpr w dst) (code.countMask w count - 1)))
    ∧ (code.shr w dst count s).PF = (if code.countMask w count = 0 then s.PF else (parity8 (s.readGpr w dst / 2 ^ code.countMask w count)))
    ∧ (code.shr w dst count s).AF = (if code.countMask w count = 0 then s.AF else (s.havoc 1))
    ∧ (code.shr w dst count s).ZF = (if code.countMask w count = 0 then s.ZF else (decide ((s.readGpr w dst / 2 ^ code.countMask w count) % 2 ^ w = 0)))
    ∧ (code.shr w dst count s).SF = (if code.countMask w count = 0 then s.SF else (msb w (s.readGpr w dst / 2 ^ code.countMask w count)))
    ∧ (code.shr w dst count s).OF = (if code.countMask w count = 0 then s.OF else (if code.countMask w count = 1 then msb w (s.readGpr w dst) else s.havoc 0))
    ∧ (code.shr w dst count s).mem = (s.mem)
    ∧ (code.shr w dst count s).defined = (s.defined)
    ∧ (code.shr w dst count s).erased = (s.erased)
    ∧ (code.shr w dst count s).divs = (s.divs) := by
  unfold code.shr
  by_cases h : code.countMask w count = 0
  · obtain ⟨z1, z2, z3, z4, z5, z6, z7, z8, z9, z10, -⟩ := zeroCount_eff w dst s
    simp only [h, if_true]
    exact ⟨fun _ => trivial, z1, z2, z3, z4, z5, z6, z7, z8, z9, z10⟩
  · simp only [h, if_false]
    exact ⟨fun _ => rfl, rfl, rfl, rfl, rfl, rfl, rfl, rfl, rfl, rfl, rfl⟩

/-- Effect of the three-operand `imul` on each component of the state. -/
@[simp] theorem imul3_eff (w : Nat) (dst : HostLoc) (src : Operand) (k : Nat) (s : X64State) :
    (∀ q, (code.imul3 w dst src k s).gpr q = (if q = dst then regWrite w (s.gpr dst) ((toSigned w (s.readOp w src) * toSigned w (s.readOp w (.imm k))) % 2 ^ w).toNat else s.gpr q))
    ∧ (code.imul3 w dst src k s).CF = (decide (toSigned w ((toSigned w (s.readOp w src) * toSigned w (s.readOp w (.imm k))) % 2 ^ w).toNat ≠ (toSigned w (s.readOp w src) * toSigned w (s.readOp w (.imm k)))))
    ∧ (code.imul3 w dst src k s).PF = (s.havoc 3)
    ∧ (code.imul3 w dst src k s).AF = (s.havoc 2)
    ∧ (code.imul3 w dst src k s).ZF = (s.havoc 1)
    ∧ (code.imul3 w dst src k s).SF = (s.havoc 0)
    ∧ (code.imul3 w dst src k s).OF = (decide (toSigned w ((toSigned w (s.readOp w src) * toSigned w (s.readOp w (.imm k))) % 2 ^ w).toNat ≠ (toSigned w (s.readOp w src) * toSigned w (s.readOp w (.imm k)))))
    ∧ (code.imul3 w dst src k s).mem = (s.mem)
    ∧ (code.imul3 w dst src k s).defined = (s.defined)
    ∧ (code.imul3 w dst src k s).erased = (s.erased)
    ∧ (code.imul3 w dst src k s).divs = (s.divs) := by
  exact ⟨fun _ => rfl, rfl, rfl, rfl, rfl, rfl, rfl, rfl, rfl, rfl, rfl⟩

/-- Effect of `cdq`/`cqo` on each component of the state. -/
@[simp] theorem signExtendAcc_eff (w : Nat) (s : X64State) :
    (∀ q, (code.signExtendAcc w s).gpr q = (if q = .RDX then regWrite w (s.gpr .RDX) (if msb w (s.readGpr w .RAX) then 2 ^ w - 1 else 0) else s.gpr q))
    ∧ (code.signExtendAcc w s).CF = (s.CF)
    ∧ (code.signExtendAcc w s).PF = (s.PF)
    ∧ (code.signExtendAcc w s).AF = (s.AF)
    ∧ (code.signExtendAcc w s).ZF = (s.ZF)
    ∧ (code.signExtendAcc w s).SF = (s.SF)
    ∧ (code.signExtendAcc w s).OF = (s.OF)
    ∧ (code.signExtendAcc w s).mem = (s.mem)
    ∧ (code.signExtendAcc w s).defined = (s.defined)
    ∧ (code.signExtendAcc w s).erased = (s.erased)
    ∧ (code.signExtendAcc w s).divs = (s.divs) := by
  exact ⟨fun _ => rfl, rfl, rfl, rfl, rfl, rfl, rfl, rfl, rfl, rfl, rfl⟩

/-- Effect of `sar` on each component of the state. -/
@[simp] theorem sar_eff (w : Nat) (dst : HostLoc) (count : Nat) (s : X64State) :
    (∀ q, (code.sar w dst count s).gpr q = (if code.countMask w count = 0 then (code.zeroCount w dst s).gpr q else (if q = dst then regWrite w (s.gpr dst) (sarVal w (s.readGpr w dst) (code.countMask w count)) else s.gpr q)))
    ∧ (code.sar w dst count s).CF = (if code.countMask w count = 0 then s.CF else (bit (s.readGpr w dst) (code.countMask w count - 1)))
    ∧ (code.sar w dst count s).PF = (if code.countMask w count = 0 then s.PF else (parity8 (sarVal w (s.readGpr w dst) (code.countMask w count))))
    ∧ (code.sar w dst count s).AF = (if code.countMask w count = 0 then s.AF else (s.havoc 1))
    ∧ (code.sar w dst count s).ZF = (if code.countMask w count = 0 then s.ZF else (decide ((sarVal w (s.readGpr w dst) (code.countMask w count)) % 2 ^ w = 0)))
    ∧ (code.sar w dst count s).SF = (if code.countMask w count = 0 then s.SF else (msb w (sarVal w (s.readGpr w dst) (code.countMask w count))))
    ∧ (code.sar w dst count s).OF = (if code.countMask w count = 0 then s.OF else (if code.countMask w count = 1 then false else s.havoc 0))
    ∧ (code.sar w dst count s).mem = (s.mem)
    ∧ (code.sar w dst count s).defined = (s.defined)
    ∧ (code.sar w dst count s).erased = (s.erased)
    ∧ (code.sar w dst count s).divs = (s.divs) := by
  unfold code.sar
  by_cases h : code.countMask w count = 0
  · obtain ⟨z1, z2, z3, z4, z5, z6, z7, z8, z9, z10, -⟩ := zeroCount_eff w dst s
    simp only [h, if_true]
    exact ⟨fun _ => trivial, z1, z2, z3, z4, z5, z6, z7, z8, z9, z10⟩
  · simp only [h, if_false]
    exact ⟨fun _ => rfl, rfl, rfl, rfl, rfl, rfl, rfl, rfl, rfl, rfl, rfl⟩

/-- Effect of `ror` on each component of the state. -/
@[simp] theorem ror_eff (w : Nat) (dst : HostLoc) (count : Nat) (s : X64State) :
    (∀ q, (code.ror w dst count s).gpr q = (if code.countMask w count = 0 then (code.zeroCount w dst s).gpr q else (if q = dst then regWrite w (s.gpr dst) (rotateRight w (s.readGpr w dst) (code.countMask w count % w)) else s.gpr q)))
    ∧ (code.ror w dst count s).CF = (if code.countMask w count = 0 then s.CF else (msb w (rotateRight w (s.readGpr w dst) (code.countMask w count % w))))
    ∧ (code.ror w dst count s).PF = (s.PF)
    ∧ (code.ror w dst count s).AF = (s.AF)
    ∧ (code.ror w dst count s).ZF = (s.ZF)
    ∧ (code.ror w dst count s).SF = (s.SF)
    ∧ (code.ror w dst count s).OF = (if code.countMask w count = 0 then s.OF else (if code.countMask w count = 1 then (msb w (rotateRight w (s.readGpr w dst) (code.countMask w count % w)) != bit (rotateRight w (s.readGpr w dst) (code.countMask w count % w)) (w - 2)) else s.havoc 0))
    ∧ (code.ror w dst count s).mem = (s.mem)
    ∧ (code.ror w dst count s).defined = (s.defined)
    ∧ (code.ror w dst count s).erased = (s.erased)
    ∧ (code.ror w dst count s).divs = (s.divs) := by
  unfold code.ror
  by_cases h : code.countMask w count = 0
  · obtain ⟨z1, z2, z3, z4, z5, z6, z7, z8, z9, z10, -⟩ := zeroCount_eff w dst s
    simp only [h, if_true]
    exact ⟨fun _ => trivial, z1, z2, z3, z4, z5, z6, z7, z8, z9, z10⟩
  · simp only [h, if_false]
    exact ⟨fun _ => rfl, rfl, rfl, rfl, rfl, rfl, rfl, rfl, rfl, rfl, rfl⟩

/-- Effect of a 32-bit `rcr` by one place on each component of the state. -/
@[simp] theorem rcr_one_eff (dst : HostLoc) (s : X64State) :
    (∀ q, (code.rcr 32 dst 1 s).gpr q = (if q = dst then regWrite 32 (s.gpr dst) (s.CF.toNat * 2 ^ 31 + s.readGpr 32 dst / 2) else s.gpr q))
    ∧ (code.rcr 32 dst 1 s).CF = (bit (s.readGpr 32 dst) 0)
    ∧ (code.rcr 32 dst 1 s).PF = (s.PF)
    ∧ (code.rcr 32 dst 1 s).AF = (s.AF)
    ∧ (code.rcr 32 dst 1 s).ZF = (s.ZF)
    ∧ (code.rcr 32 dst 1 s).SF = (s.SF)
    ∧ (code.rcr 32 dst 1 s).OF = ((msb 32 (s.readGpr 32 dst) != s.CF))
    ∧ (code.rcr 32 dst 1 s).mem = (s.mem)
    ∧ (code.rcr 32 dst 1 s).defined = (s.defined)
    ∧ (code.rcr 32 dst 1 s).erased = (s.erased)
    ∧ (code.rcr 32 dst 1 s).divs = (s.divs) := by
  exact ⟨fun _ => rfl, rfl, rfl, rfl, rfl, rfl, rfl, rfl, rfl, rfl, rfl⟩

/-- Effect of `movzx` on each component of the state. -/
@[simp] theorem movzx_eff (wd ws : Nat) (dst src : HostLoc) (s : X64State) :
    (∀ q, (code.movzx wd ws dst src s).gpr q = (if q = dst then regWrite wd (s.gpr dst) (s.readGpr ws src) else s.gpr q))
    ∧ (code.movzx wd ws dst src s).CF = (s.CF)
    ∧ (code.movzx wd ws dst src s).PF = (s.PF)
    ∧ (code.movzx wd ws dst src s).AF = (s.AF)
    ∧ (code.movzx wd ws dst src s).ZF = (s.ZF)
    ∧ (code.movzx wd ws dst src s).SF = (s.SF)
    ∧ (code.movzx wd ws dst src s).OF = (s.OF)
    ∧ (code.movzx wd ws dst src s).mem = (s.mem)
    ∧ (code.movzx wd ws dst src s).defined = (s.defined)
    ∧ (code.movzx wd ws dst src s).erased = (s.erased)
    ∧ (code.movzx wd ws dst src s).divs = (s.divs) := by
  exact ⟨fun _ => rfl, rfl, rfl, rfl, rfl, rfl, rfl, rfl, rfl, rfl, rfl⟩

/-- Effect of `neg` on each component of the state. -/
@[simp] theorem neg_eff (w : Nat) (dst : HostLoc) (s : X64State) :
    (∀ q, (code.neg w dst s).gpr q = (if q = dst then regWrite w (s.gpr dst) ((0 + 2 ^ w - (s.readGpr w dst + 0)) % 2 ^ w) else s.gpr q))
    ∧ (code.neg w dst s).CF = (decide (0 < s.readGpr w dst + 0))
    ∧ (code.neg w dst s).PF = (parity8 ((0 + 2 ^ w - (s.readGpr w dst + 0)) % 2 ^ w))
    ∧ (code.neg w dst s).AF = (decide (0 % 16 < s.readGpr w dst % 16 + 0))
    ∧ (code.neg w dst s).ZF = (decide (((0 + 2 ^ w - (s.readGpr w dst + 0)) % 2 ^ w) % 2 ^ w = 0))
    ∧ (code.neg w dst s).SF = (msb w ((0 + 2 ^ w - (s.readGpr w dst + 0)) % 2 ^ w))
    ∧ (code.neg w dst s).OF = (((msb w 0 != msb w (s.readGpr w dst)) && (msb w ((0 + 2 ^ w - (s.readGpr w dst + 0)) % 2 ^ w) != msb w 0)))
    ∧ (code.neg w dst s).mem = (s.mem)
    ∧ (code.neg w dst s).defined = (s.defined)
    ∧ (code.neg w dst s).erased = (s.erased)
    ∧ (code.neg w dst s).divs = (s.divs) := by
  exact ⟨fun _ => rfl, rfl, rfl, rfl, rfl, rfl, rfl, rfl, rfl, rfl, rfl⟩

/-- Effect of `bsr` on each component of the state. -/
@[simp] theorem bsr_eff (w : Nat) (dst src : HostLoc) (s : X64State) :
    (∀ q, (code.bsr w dst src s).gpr q = (if q = dst then (if s.readGpr w src = 0 then s.undef (s.tick + 5) % 2 ^ 64 else regWrite w (s.gpr dst) (bsrIdx w (s.readGpr w src))) else s.gpr q))
    ∧ (code.bsr w dst src s).CF = (s.havoc 0)
    ∧ (code.bsr w dst src s).PF = (s.havoc 4)
    ∧ (code.bsr w dst src s).AF = (s.havoc 3)
    ∧ (code.bsr w dst src s).ZF = (decide (s.readGpr w src = 0))
    ∧ (code.bsr w dst src s).SF = (s.havoc 2)
    ∧ (code.bsr w dst src s).OF = (s.havoc 1)
    ∧ (code.bsr w dst src s).mem = (s.mem)
    ∧ (code.bsr w dst src s).defined = (s.defined)
    ∧ (code.bsr w dst src s).erased = (s.erased)
    ∧ (code.bsr w dst src s).divs = (s.divs) := by
  unfold code.bsr
  by_cases h : s.readGpr w src = 0
  · simp only [h, if_true]
    exact ⟨fun _ => trivial, trivial, trivial, trivial, trivial, trivial, trivial, trivial, trivial, trivial, trivial⟩
  · simp only [h, if_false]
    exact ⟨fun _ => rfl, rfl, rfl, rfl, rfl, rfl, rfl, rfl, rfl, rfl, rfl⟩

/-- Effect of `lzcnt` on each component of the state. -/
@[simp] theorem lzcnt_eff (w : Nat) (dst src : HostLoc) (s : X64State) :
    (∀ q, (code.lzcnt w dst src s).gpr q = (if q = dst then regWrite w (s.gpr dst) (clz w (s.readGpr w src)) else s.gpr q))
    ∧ (code.lzcnt w dst src s).CF = (decide (s.readGpr w src = 0))
    ∧ (code.lzcnt w dst src s).PF = (s.havoc 2)
    ∧ (code.lzcnt w dst src s).AF = (s.havoc 3)
    ∧ (code.lzcnt w dst src s).ZF = (decide (clz w (s.readGpr w src) = 0))
    ∧ (code.lzcnt w dst src s).SF = (s.havoc 1)
    ∧ (code.lzcnt w dst src s).OF = (s.havoc 0)
    ∧ (code.lzcnt w dst src s).mem = (s.mem)
    ∧ (code.lzcnt w dst src s).defined = (s.defined)
    ∧ (code.lzcnt w dst src s).erased = (s.erased)
    ∧ (code.lzcnt w dst src s).divs = (s.divs) := by
  exact ⟨fun _ => rfl, rfl, rfl, rfl, rfl, rfl, rfl, rfl, rfl, rfl, rfl⟩

/-- Effect of `pinsrq` on the general-purpose part of the state. -/
@[simp] theorem pinsrq_eff (dst : Xmm) (src : HostLoc) (lane : Nat) (s : X64State) :
    (∀ q, (code.pinsrq dst src lane s).gpr q = (s.gpr q))
    ∧ (code.pinsrq dst src lane s).CF = (s.CF)
    ∧ (code.pinsrq dst src lane s).PF = (s.PF)
    ∧ (code.pinsrq dst src lane s).AF = (s.AF)
    ∧ (code.pinsrq dst src lane s).ZF = (s.ZF)
    ∧ (code.pinsrq dst src lane s).SF = (s.SF)
    ∧ (code.pinsrq dst src lane s).OF = (s.OF)
    ∧ (code.pinsrq dst src lane s).mem = (s.mem)
    ∧ (code.pinsrq dst src lane s).defined = (s.defined)
    ∧ (code.pinsrq dst src lane s).erased = (s.erased)
    ∧ (code.pinsrq dst src lane s).divs = (s.divs) := by
  exact ⟨fun _ => rfl, rfl, rfl, rfl, rfl, rfl, rfl, rfl, rfl, rfl, rfl⟩

/-- Effect of `punpcklqdq` on the general-purpose part of the state. -/
@[simp] theorem punpcklqdq_eff (dst src : Xmm) (s : X64State) :
    (∀ q, (code.punpcklqdq dst src s).gpr q = (s.gpr q))
    ∧ (code.punpcklqdq dst src s).CF = (s.CF)
    ∧ (code.punpcklqdq dst src s).PF = (s.PF)
    ∧ (code.punpcklqdq dst src s).AF = (s.AF)
    ∧ (code.punpcklqdq dst src s).ZF = (s.ZF)
    ∧ (code.punpcklqdq dst src s).SF = (s.SF)
    ∧ (code.punpcklqdq dst src s).OF = (s.OF)
    ∧ (code.punpcklqdq dst src s).mem = (s.mem)
    ∧ (code.punpcklqdq dst src s).defined = (s.defined)
    ∧ (code.punpcklqdq dst src s).erased = (s.erased)
    ∧ (code.punpcklqdq dst src s).divs = (s.divs) := by
  exact ⟨fun _ => rfl, rfl, rfl, rfl, rfl, rfl, rfl, rfl, rfl, rfl, rfl⟩

/-- Effect of `DefineValue` with a vector register on the general-purpose part of the state. -/
@[simp] theorem DefineValueXmm_eff (node : IRNode) (loc : Xmm) (s : X64State) :
    (∀ q, (DefineValueXmm node loc s).gpr q = (s.gpr q))
    ∧ (DefineValueXmm node loc s).CF = (s.CF)
    ∧ (DefineValueXmm node loc s).PF = (s.PF)
    ∧ (DefineValueXmm node loc s).AF = (s.AF)
    ∧ (DefineValueXmm node loc s).ZF = (s.ZF)
    ∧ (DefineValueXmm node loc s).SF = (s.SF)
    ∧ (DefineValueXmm node loc s).OF = (s.OF)
    ∧ (DefineValueXmm node loc s).mem = (s.mem)
    ∧ (DefineValueXmm node loc s).defined = (s.defined)
    ∧ (DefineValueXmm node loc s).erased = (s.erased)
    ∧ (DefineValueXmm node loc s).divs = (s.divs) := by
  exact ⟨fun _ => rfl, rfl, rfl, rfl, rfl, rfl, rfl, rfl, rfl, rfl, rfl⟩

/-- `UseScratchGpr` and the vector registers, vector bindings and call log. -/
@[simp] theorem UseScratchGpr_aux (arg : Argument) (r : HostLoc) (s : X64State) :
    (UseScratchGpr arg r s).xmm = (s.xmm)
    ∧ (UseScratchGpr arg r s).definedXmm = (s.definedXmm)
    ∧ (UseScratchGpr arg r s).calls = (s.calls) := by
  exact ⟨rfl, rfl, rfl⟩

/-- `UseGpr` and the vector registers, vector bindings and call log. -/
@[simp] theorem UseGpr_aux (arg : Argument) (r : HostLoc) (s : X64State) :
    (UseGpr arg r s).xmm = (s.xmm)
    ∧ (UseGpr arg r s).definedXmm = (s.definedXmm)
    ∧ (UseGpr arg r s).calls = (s.calls) := by
  exact ⟨rfl, rfl, rfl⟩

/-- `Use` and the vector registers, vector bindings and call log. -/
@[simp] theorem Use_aux (arg : Argument) (r : HostLoc) (s : X64State) :
    (Use arg r s).xmm = (s.xmm)
    ∧ (Use arg r s).definedXmm = (s.definedXmm)
    ∧ (Use arg r s).calls = (s.calls) := by
  exact ⟨rfl, rfl, rfl⟩

/-- `UseOpArg` and the vector registers, vector bindings and call log. -/
@[simp] theorem UseOpArg_aux (arg : Argument) (op : OpArg) (s : X64State) :
    (UseOpArg arg op s).xmm = (s.xmm)
    ∧ (UseOpArg arg op s).definedXmm = (s.definedXmm)
    ∧ (UseOpArg arg op s).calls = (s.calls) := by
  cases op <;> exact ⟨rfl, rfl, rfl⟩

/-- `DefineValue` and the vector registers, vector bindings and call log. -/
@[simp] theorem DefineValue_aux (node : IRNode) (loc : HostLoc) (s : X64State) :
    (DefineValue node loc s).xmm = (s.xmm)
    ∧ (DefineValue node loc s).definedXmm = (s.definedXmm)
    ∧ (DefineValue node loc s).calls = (s.calls ++ [.define node]) := by
  exact ⟨rfl, rfl, rfl⟩

/-- `EraseInstruction` and the vector registers, vector bindings and call log. -/
@[simp] theorem EraseInstruction_aux (node : IRNode) (s : X64State) :
    (EraseInstruction node s).xmm = (s.xmm)
    ∧ (EraseInstruction node s).definedXmm = (s.definedXmm)
    ∧ (EraseInstruction node s).calls = (s.calls ++ [.erase node]) := by
  exact ⟨rfl, rfl, rfl⟩

/-- The shared adder and the vector registers, vector bindings and call log. -/
@[simp] theorem addWithCarry_aux (w : Nat) (dst : HostLoc) (src : Operand) (cin : Nat) (s : X64State) :
    (code.addWithCarry w dst src cin s).xmm = (s.xmm)
    ∧ (code.addWithCarry w dst src cin s).definedXmm = (s.definedXmm)
    ∧ (code.addWithCarry w dst src cin s).calls = (s.calls) := by
  exact ⟨rfl, rfl, rfl⟩

/-- The shared subtracter and the vector registers, vector bindings and call log. -/
@[simp] theorem subWithBorrow_aux (w : Nat) (dst : HostLoc) (src : Operand) (cin : Nat) (s : X64State) :
    (code.subWithBorrow w dst src cin s).xmm = (s.xmm)
    ∧ (code.subWithBorrow w dst src cin s).definedXmm = (s.definedXmm)
    ∧ (code.subWithBorrow w dst src cin s).calls = (s.calls) := by
  exact ⟨rfl, rfl, rfl⟩

/-- `add` and the vector registers, vector bindings and call log. -/
@[simp] theorem add_aux (w : Nat) (dst : HostLoc) (src : Operand) (s : X64State) :
    (code.add w dst src s).xmm = (s.xmm)
    ∧ (code.add w dst src s).definedXmm = (s.definedXmm)
    ∧ (code.add w dst src s).calls = (s.calls) := by
  exact ⟨rfl, rfl, rfl⟩

/-- `adc` and the vector registers, vector bindings and call log. -/
@[simp] theorem adc_aux (w : Nat) (dst : HostLoc) (src : Operand) (s : X64State) :
    (code.adc w dst src s).xmm = (s.xmm)
    ∧ (code.adc w dst src s).definedXmm = (s.definedXmm)
    ∧ (code.adc w dst src s).calls = (s.calls) := by
  exact ⟨rfl, rfl, rfl⟩

/-- `sub` and the vector registers, vector bindings and call log. -/
@[simp] theorem sub_aux (w : Nat) (dst : HostLoc) (src : Operand) (s : X64State) :
    (code.sub w dst src s).xmm = (s.xmm)
    ∧ (code.sub w dst src s).definedXmm = (s.definedXmm)
    ∧ (code.sub w dst src s).calls = (s.calls) := by
  exact ⟨rfl, rfl, rfl⟩

/-- `sbb` and the vector registers, vector bindings and call log. -/
@[simp] theorem sbb_aux (w : Nat) (dst : HostLoc) (src : Operand) (s : X64State) :
    (code.sbb w dst src s).xmm = (s.xmm)
    ∧ (code.sbb w dst src s).definedXmm = (s.definedXmm)
    ∧ (code.sbb w dst src s).calls = (s.calls) := by
  exact ⟨rfl, rfl, rfl⟩

/-- `cmp` and the vector registers, vector bindings and call log. -/
@[simp] theorem cmp_aux (w : Nat) (dst : HostLoc) (src : Operand) (s : X64State) :
    (code.cmp w dst src s).xmm = (s.xmm)
    ∧ (code.cmp w dst src s).definedXmm = (s.definedXmm)
    ∧ (code.cmp w dst src s).calls = (s.calls) := by
  exact ⟨rfl, rfl, rfl⟩

/-- `and` and the vector registers, vector bindings and call log. -/
@[simp] theorem and_aux (w : Nat) (dst : HostLoc) (src : Operand) (s : X64State) :
    (code.and_ w dst src s).xmm = (s.xmm)
    ∧ (code.and_ w dst src s).definedXmm = (s.definedXmm)
    ∧ (code.and_ w dst src s).calls = (s.calls) := by
  exact ⟨rfl, rfl, rfl⟩

/-- `or` and the vector registers, vector bindings and call log. -/
@[simp] theorem or_aux (w : Nat) (dst : HostLoc) (src : Operand) (s : X64State) :
    (code.or_ w dst src s).xmm = (s.xmm)
    ∧ (code.or_ w dst src s).definedXmm = (s.definedXmm)
    ∧ (code.or_ w dst src s).calls = (s.calls) := by
  exact ⟨rfl, rfl, rfl⟩

/-- `xor` and the vector registers, vector bindings and call log. -/
@[simp] theorem xor_aux (w : Nat) (dst : HostLoc) (src : Operand) (s : X64State) :
    (code.xor_ w dst src s).xmm = (s.xmm)
    ∧ (code.xor_ w dst src s).definedXmm = (s.definedXmm)
    ∧ (code.xor_ w dst src s).calls = (s.calls) := by
  exact ⟨rfl, rfl, rfl⟩

/-- `test` and the vector registers, vector bindings and call log. -/
@[simp] theorem test_aux (w : Nat) (dst : HostLoc) (src : Operand) (s : X64State) :
    (code.test w dst src s).xmm = (s.xmm)
    ∧ (code.test w dst src s).definedXmm = (s.definedXmm)
    ∧ (code.test w dst src s).calls = (s.calls) := by
  exact ⟨rfl, rfl, rfl⟩

/-- `mov` and the vector registers, vector bindings and call log. -/
@[simp] theorem mov_aux (w : Nat) (dst : HostLoc) (src : Operand) (s : X64State) :
    (code.mov w dst src s).xmm = (s.xmm)
    ∧ (code.mov w dst src s).definedXmm = (s.definedXmm)
    ∧ (code.mov w dst src s).calls = (s.calls) := by
  exact ⟨rfl, rfl, rfl⟩

/-- `stc` and the vector registers, vector bindings and call log. -/
@[simp] theorem stc_aux (s : X64State) :
    (code.stc s).xmm = (s.xmm)
    ∧ (code.stc s).definedXmm = (s.definedXmm)
    ∧ (code.stc s).calls = (s.calls) := by
  exact ⟨rfl, rfl, rfl⟩

/-- `cmc` and the vector registers, vector bindings and call log. -/
@[simp] theorem cmc_aux (s : X64State) :
    (code.cmc s).xmm = (s.xmm)
    ∧ (code.cmc s).definedXmm = (s.definedXmm)
    ∧ (code.cmc s).calls = (s.calls) := by
  exact ⟨rfl, rfl, rfl⟩

/-- `bt` and the vector registers, vector bindings and call log. -/
@[simp] theorem bt_aux (w : Nat) (r : HostLoc) (i : Nat) (s : X64State) :
    (code.bt w r i s).xmm = (s.xmm)
    ∧ (code.bt w r i s).definedXmm = (s.definedXmm)
    ∧ (code.bt w r i s).calls = (s.calls) := by
  exact ⟨rfl, rfl, rfl⟩

/-- `setcc` and the vector registers, vector bindings and call log. -/
@[simp] theorem setcc_aux (cc : CC) (r : HostLoc) (s : X64State) :
    (code.setcc cc r s).xmm = (s.xmm)
    ∧ (code.setcc cc r s).definedXmm = (s.definedXmm)
    ∧ (code.setcc cc r s).calls = (s.calls) := by
  exact ⟨rfl, rfl, rfl⟩

/-- `cmovcc` and the vector registers, vector bindings and call log. -/
@[simp] theorem cmovcc_aux (cc : CC) (w : Nat) (dst src : HostLoc) (s : X64State) :
    (code.cmovcc cc w dst src s).xmm = (s.xmm)
    ∧ (code.cmovcc cc w dst src s).definedXmm = (s.definedXmm)
    ∧ (code.cmovcc cc w dst src s).calls = (s.calls) := by
  exact ⟨rfl, rfl, rfl⟩

/-- `lahf` and the vector registers, vector bindings and call log. -/
@[simp] theorem lahf_aux (s : X64State) :
    (code.lahf s).xmm = (s.xmm)
    ∧ (code.lahf s).definedXmm = (s.definedXmm)
    ∧ (code.lahf s).calls = (s.calls) := by
  exact ⟨rfl, rfl, rfl⟩

/-- `sahf` and the vector registers, vector bindings and call log. -/
@[simp] theorem sahf_aux (s : X64State) :
    (code.sahf s).xmm = (s.xmm)
    ∧ (code.sahf s).definedXmm = (s.definedXmm)
    ∧ (code.sahf s).calls = (s.calls) := by
  exact ⟨rfl, rfl, rfl⟩

/-- `shl` and the vector registers, vector bindings and call log. -/
@[simp] theorem shl_aux (w : Nat) (dst : HostLoc) (count : Nat) (s : X64State) :
    (code.shl w dst count s).xmm = (s.xmm)
    ∧ (code.shl w dst count s).definedXmm = (s.definedXmm)
    ∧ (code.shl w dst count s).calls = (s.calls) := by
  unfold code.shl
  by_cases h : code.countMask w count = 0
  · obtain ⟨-, -, -, -, -, -, -, -, -, -, z11, z12, z13⟩ := zeroCount_eff w dst s
    simp only [h, if_true]
    exact ⟨z11, z12, z13⟩
  · simp only [h, if_false]
    exact ⟨rfl, rfl, rfl⟩

/-- `shr` and the vector registers, vector bindings and call log. -/
@[simp] theorem shr_aux (w : Nat) (dst : HostLoc) (count : Nat) (s : X64State) :
    (code.shr w dst count s).xmm = (s.xmm)
    ∧ (code.shr w dst count s).definedXmm = (s.definedXmm)
    ∧ (code.shr w dst count s).calls = (s.calls) := by
  unfold code.shr
  by_cases h : code.countMask w count = 0
  · obtain ⟨-, -, -, -, -, -, -, -, -, -, z11, z12, z13⟩ := zeroCount_eff w dst s
    simp only [h, if_true]
    exact ⟨z11, z12, z13⟩
  · simp only [h, if_false]
    exact ⟨rfl, rfl, rfl⟩

/-- `sar` and the vector registers, vector bindings and call log. -/
@[simp] theorem sar_aux (w : Nat) (dst : HostLoc) (count : Nat) (s : X64State) :
    (code.sar w dst count s).xmm = (s.xmm)
    ∧ (code.sar w dst count s).definedXmm = (s.definedXmm)
    ∧ (code.sar w dst count s).calls = (s.calls) := by
  unfold code.sar
  by_cases h : code.countMask w count = 0
  · obtain ⟨-, -, -, -, -, -, -, -, -, -, z11, z12, z13⟩ := zeroCount_eff w dst s
    simp only [h, if_true]
    exact ⟨z11, z12, z13⟩
  · simp only [h, if_false]
    exact ⟨rfl, rfl, rfl⟩

/-- `ror` and the vector registers, vector bindings and call log. -/
@[simp] theorem ror_aux (w : Nat) (dst : HostLoc) (count : Nat) (s : X64State) :
    (code.ror w dst count s).xmm = (s.xmm)
    ∧ (code.ror w dst count s).definedXmm = (s.definedXmm)
    ∧ (code.ror w dst count s).calls = (s.calls) := by
  unfold code.ror
  by_cases h : code.countMask w count = 0
  · obtain ⟨-, -, -, -, -, -, -, -, -, -, z11, z12, z13⟩ := zeroCount_eff w dst s
    simp only [h, if_true]
    exact ⟨z11, z12, z13⟩
  · simp only [h, if_false]
    exact ⟨rfl, rfl, rfl⟩

/-- `shl` by CL and the vector registers, vector bindings and call log. -/
@[simp] theorem shl_cl_aux (w : Nat) (dst : HostLoc) (s : X64State) :
    (code.shl_cl w dst s).xmm = (s.xmm)
    ∧ (code.shl_cl w dst s).definedXmm = (s.definedXmm)
    ∧ (code.shl_cl w dst s).calls = (s.calls) := by
  exact shl_aux w dst _ s

/-- `shr` by CL and the vector registers, vector bindings and call log. -/
@[simp] theorem shr_cl_aux (w : Nat) (dst : HostLoc) (s : X64State) :
    (code.shr_cl w dst s).xmm = (s.xmm)
    ∧ (code.shr_cl w dst s).definedXmm = (s.definedXmm)
    ∧ (code.shr_cl w dst s).calls = (s.calls) := by
  exact shr_aux w dst _ s

/-- `sar` by CL and the vector registers, vector bindings and call log. -/
@[simp] theorem sar_cl_aux (w : Nat) (dst : HostLoc) (s : X64State) :
    (code.sar_cl w dst s).xmm = (s.xmm)
    ∧ (code.sar_cl w dst s).definedXmm = (s.definedXmm)
    ∧ (code.sar_cl w dst s).calls = (s.calls) := by
  exact sar_aux w dst _ s

/-- `ror` by CL and the vector registers, vector bindings and call log. -/
@[simp] theorem ror_cl_aux (w : Nat) (dst : HostLoc) (s : X64State) :
    (code.ror_cl w dst s).xmm = (s.xmm)
    ∧ (code.ror_cl w dst s).definedXmm = (s.definedXmm)
    ∧ (code.ror_cl w dst s).calls = (s.calls) := by
  exact ror_aux w dst _ s

/-- A 32-bit `rcr` by one place and the vector registers, vector bindings and call log. -/
@[simp] theorem rcr_one_aux (dst : HostLoc) (s : X64State) :
    (code.rcr 32 dst 1 s).xmm = (s.xmm)
    ∧ (code.rcr 32 dst 1 s).definedXmm = (s.definedXmm)
    ∧ (code.rcr 32 dst 1 s).calls = (s.calls) := by
  exact ⟨rfl, rfl, rfl⟩

/-- `movzx` and the vector registers, vector bindings and call log. -/
@[simp] theorem movzx_aux (wd ws : Nat) (dst src : HostLoc) (s : X64State) :
    (code.movzx wd ws dst src s).xmm = (s.xmm)
    ∧ (code.movzx wd ws dst src s).definedXmm = (s.definedXmm)
    ∧ (code.movzx wd ws dst src s).calls = (s.calls) := by
  exact ⟨rfl, rfl, rfl⟩

/-- `neg` and the vector registers, vector bindings and call log. -/
@[simp] theorem neg_aux (w : Nat) (dst : HostLoc) (s : X64State) :
    (code.neg w dst s).xmm = (s.xmm)
    ∧ (code.neg w dst s).definedXmm = (s.definedXmm)
    ∧ (code.neg w dst s).calls = (s.calls) := by
  exact ⟨rfl, rfl, rfl⟩

/-- `bsr` and the vector registers, vector bindings and call log. -/
@[simp] theorem bsr_aux (w : Nat) (dst src : HostLoc) (s : X64State) :
    (code.bsr w dst src s).xmm = (s.xmm)
    ∧ (code.bsr w dst src s).definedXmm = (s.definedXmm)
    ∧ (code.bsr w dst src s).calls = (s.calls) := by
  unfold code.bsr
  by_cases h : s.readGpr w src = 0
  · simp only [h, if_true]
    exact ⟨trivial, trivial, trivial⟩
  · simp only [h, if_false]
    exact ⟨rfl, rfl, rfl⟩

/-- `lzcnt` and the vector registers, vector bindings and call log. -/
@[simp] theorem lzcnt_aux (w : Nat) (dst src : HostLoc) (s : X64State) :
    (code.lzcnt w dst src s).xmm = (s.xmm)
    ∧ (code.lzcnt w dst src s).definedXmm = (s.definedXmm)
    ∧ (code.lzcnt w dst src s).calls = (s.calls) := by
  exact ⟨rfl, rfl, rfl⟩

/-- The three-operand `imul` and the vector registers, vector bindings and call log. -/
@[simp] theorem imul3_aux (w : Nat) (dst : HostLoc) (src : Operand) (k : Nat) (s : X64State) :
    (code.imul3 w dst src k s).xmm = (s.xmm)
    ∧ (code.imul3 w dst src k s).definedXmm = (s.definedXmm)
    ∧ (code.imul3 w dst src k s).calls = (s.calls) := by
  exact ⟨rfl, rfl, rfl⟩

/-- `cdq`/`cqo` and the vector registers, vector bindings and call log. -/
@[simp] theorem signExtendAcc_aux (w : Nat) (s : X64State) :
    (code.signExtendAcc w s).xmm = (s.xmm)
    ∧ (code.signExtendAcc w s).definedXmm = (s.definedXmm)
    ∧ (code.signExtendAcc w s).calls = (s.calls) := by
  exact ⟨rfl, rfl, rfl⟩

/-- Effect of `shrd` on each component of the state. -/
@[simp] theorem shrd_eff (w : Nat) (dst src : HostLoc) (count : Nat) (s : X64State) :
    (∀ q, (code.shrd w dst src count s).gpr q = (if code.countMask w count = 0 then (code.zeroCount w dst s).gpr q else (if q = dst then regWrite w (s.gpr dst) (s.readGpr w dst / 2 ^ code.countMask w count + s.readGpr w src % 2 ^ code.countMask w count * 2 ^ (w - code.countMask w count)) else s.gpr q)))
    ∧ (code.shrd w dst src count s).CF = (if code.countMask w count = 0 then s.CF else (bit (s.readGpr w dst) (code.countMask w count - 1)))
    ∧ (code.shrd w dst src count s).PF = (if code.countMask w count = 0 then s.PF else (parity8 (s.readGpr w dst / 2 ^ code.countMask w count + s.readGpr w src % 2 ^ code.countMask w count * 2 ^ (w - code.countMask w count))))
    ∧ (code.shrd w dst src count s).AF = (if code.countMask w count = 0 then s.AF else (s.havoc 1))
    ∧ (code.shrd w dst src count s).ZF = (if code.countMask w count = 0 then s.ZF else (decide ((s.readGpr w dst / 2 ^ code.countMask w count + s.readGpr w src % 2 ^ code.countMask w count * 2 ^ (w - code.countMask w count)) % 2 ^ w = 0)))
    ∧ (code.shrd w dst src count s).SF = (if code.countMask w count = 0 then s.SF else (msb w (s.readGpr w dst / 2 ^ code.countMask w count + s.readGpr w src % 2 ^ code.countMask w count * 2 ^ (w - code.countMask w count))))
    ∧ (code.shrd w dst src count s).OF = (if code.countMask w count = 0 then s.OF else (if code.countMask w count = 1 then (msb w (s.readGpr w dst / 2 ^ code.countMask w count + s.readGpr w src % 2 ^ code.countMask w count * 2 ^ (w - code.countMask w count)) != msb w (s.readGpr w dst)) else s.havoc 0))
    ∧ (code.shrd w dst src count s).mem = (s.mem)
    ∧ (code.shrd w dst src count s).defined = (s.defined)
    ∧ (code.shrd w dst src count s).erased = (s.erased)
    ∧ (code.shrd w dst src count s).divs = (s.divs) := by
  unfold code.shrd
  by_cases h : code.countMask w count = 0
  · obtain ⟨z1, z2, z3, z4, z5, z6, z7, z8, z9, z10, -⟩ := zeroCount_eff w dst s
    simp only [h, if_true]
    exact ⟨fun _ => trivial, z1, z2, z3, z4, z5, z6, z7, z8, z9, z10⟩
  · simp only [h, if_false]
    exact ⟨fun _ => rfl, rfl, rfl, rfl, rfl, rfl, rfl, rfl, rfl, rfl, rfl⟩

/-- `shrd` and the vector registers, vector bindings and call log. -/
@[simp] theorem shrd_aux (w : Nat) (dst src : HostLoc) (count : Nat) (s : X64State) :
    (code.shrd w dst src count s).xmm = (s.xmm)
    ∧ (code.shrd w dst src count s).definedXmm = (s.definedXmm)
    ∧ (code.shrd w dst src count s).calls = (s.calls) := by
  unfold code.shrd
  by_cases h : code.countMask w count = 0
  · obtain ⟨-, -, -, -, -, -, -, -, -, -, z11, z12, z13⟩ := zeroCount_eff w dst s
    simp only [h, if_true]
    exact ⟨z11, z12, z13⟩
  · simp only [h, if_false]
    exact ⟨rfl, rfl, rfl⟩

/-- Effect of the two-operand `imul` on each component of the state. -/
@[simp] theorem imul2_eff (w : Nat) (dst : HostLoc) (src : Operand) (s : X64State) :
    (∀ q, (code.imul2 w dst src s).gpr q = (if q = dst then regWrite w (s.gpr dst) ((toSigned w (s.readGpr w dst) * toSigned w (s.readOp w src)) % 2 ^ w).toNat else s.gpr q))
    ∧ (code.imul2 w dst src s).CF = (decide (toSigned w ((toSigned w (s.readGpr w dst) * toSigned w (s.readOp w src)) % 2 ^ w).toNat ≠ (toSigned w (s.readGpr w dst) * toSigned w (s.readOp w src))))
    ∧ (code.imul2 w dst src s).PF = (s.havoc 3)
    ∧ (code.imul2 w dst src s).AF = (s.havoc 2)
    ∧ (code.imul2 w dst src s).ZF = (s.havoc 1)
    ∧ (code.imul2 w dst src s).SF = (s.havoc 0)
    ∧ (code.imul2 w dst src s).OF = (decide (toSigned w ((toSigned w (s.readGpr w dst) * toSigned w (s.readOp w src)) % 2 ^ w).toNat ≠ (toSigned w (s.readGpr w dst) * toSigned w (s.readOp w src))))
    ∧ (code.imul2 w dst src s).mem = (s.mem)
    ∧ (code.imul2 w dst src s).defined = (s.defined)
    ∧ (code.imul2 w dst src s).erased = (s.erased)
    ∧ (code.imul2 w dst src s).divs = (s.divs) := by
  exact ⟨fun _ => rfl, rfl, rfl, rfl, rfl, rfl, rfl, rfl, rfl, rfl, rfl⟩

/-- The two-operand `imul` and the vector registers, vector bindings and call log. -/
@[simp] theorem imul2_aux (w : Nat) (dst : HostLoc) (src : Operand) (s : X64State) :
    (code.imul2 w dst src s).xmm = (s.xmm)
    ∧ (code.imul2 w dst src s).definedXmm = (s.definedXmm)
    ∧ (code.imul2 w dst src s).calls = (s.calls) := by
  exact ⟨rfl, rfl, rfl⟩

/-- Effect of the one-operand `mul` on each component of the state. -/
@[simp] theorem mul_eff (w : Nat) (src : Operand) (s : X64State) :
    (∀ q, (code.mul w src s).gpr q = (if q = .RDX then regWrite w (s.gpr .RDX) ((s.readGpr w .RAX * s.readOp w src) / 2 ^ w) else if q = .RAX then regWrite w (s.gpr .RAX) ((s.readGpr w .RAX * s.readOp w src) % 2 ^ w) else s.gpr q))
    ∧ (code.mul w src s).CF = (decide ((s.readGpr w .RAX * s.readOp w src) / 2 ^ w ≠ 0))
    ∧ (code.mul w src s).PF = (s.havoc 3)
    ∧ (code.mul w src s).AF = (s.havoc 2)
    ∧ (code.mul w src s).ZF = (s.havoc 1)
    ∧ (code.mul w src s).SF = (s.havoc 0)
    ∧ (code.mul w src s).OF = (decide ((s.readGpr w .RAX * s.readOp w src) / 2 ^ w ≠ 0))
    ∧ (code.mul w src s).mem = (s.mem)
    ∧ (code.mul w src s).defined = (s.defined)
    ∧ (code.mul w src s).erased = (s.erased)
    ∧ (code.mul w src s).divs = (s.divs) := by
  exact ⟨fun _ => rfl, rfl, rfl, rfl, rfl, rfl, rfl, rfl, rfl, rfl, rfl⟩

/-- The one-operand `mul` and the vector registers, vector bindings and call log. -/
@[simp] theorem mul_aux (w : Nat) (src : Operand) (s : X64State) :
    (code.mul w src s).xmm = (s.xmm)
    ∧ (code.mul w src s).definedXmm = (s.definedXmm)
    ∧ (code.mul w src s).calls = (s.calls) := by
  exact ⟨rfl, rfl, rfl⟩

/-- Effect of the one-operand `imul` on each component of the state. -/
@[simp] theorem imul_eff (w : Nat) (src : Operand) (s : X64State) :
    (∀ q, (code.imul w src s).gpr q = (if q = .RDX then regWrite w (s.gpr .RDX) (((toSigned w (s.readGpr w .RAX) * toSigned w (s.readOp w src)) / 2 ^ w) % 2 ^ w).toNat else if q = .RAX then regWrite w (s.gpr .RAX) ((toSigned w (s.readGpr w .RAX) * toSigned w (s.readOp w src)) % 2 ^ w).toNat else s.gpr q))
    ∧ (code.imul w src s).CF = (decide (toSigned w ((toSigned w (s.readGpr w .RAX) * toSigned w (s.readOp w src)) % 2 ^ w).toNat ≠ (toSigned w (s.readGpr w .RAX) * toSigned w (s.readOp w src))))
    ∧ (code.imul w src s).PF = (s.havoc 3)
    ∧ (code.imul w src s).AF = (s.havoc 2)
    ∧ (code.imul w src s).ZF = (s.havoc 1)
    ∧ (code.imul w src s).SF = (s.havoc 0)
    ∧ (code.imul w src s).OF = (decide (toSigned w ((toSigned w (s.readGpr w .RAX) * toSigned w (s.readOp w src)) % 2 ^ w).toNat ≠ (toSigned w (s.readGpr w .RAX) * toSigned w (s.readOp w src))))
    ∧ (code.imul w src s).mem = (s.mem)
    ∧ (code.imul w src s).defined = (s.defined)
    ∧ (code.imul w src s).erased = (s.erased)
    ∧ (code.imul w src s).divs = (s.divs) := by
  exact ⟨fun _ => rfl, rfl, rfl, rfl, rfl, rfl, rfl, rfl, rfl, rfl, rfl⟩

/-- The one-operand `imul` and the vector registers, vector bindings and call log. -/
@[simp] theorem imul_aux (w : Nat) (src : Operand) (s : X64State) :
    (code.imul w src s).xmm = (s.xmm)
    ∧ (code.imul w src s).definedXmm = (s.definedXmm)
    ∧ (code.imul w src s).calls = (s.calls) := by
  exact ⟨rfl, rfl, rfl⟩

/-- Effect of `not` on each component of the state. -/
@[simp] theorem not_eff (w : Nat) (dst : HostLoc) (s : X64State) :
    (∀ q, (code.not_ w dst s).gpr q = (if q = dst then regWrite w (s.gpr dst) (2 ^ w - 1 - s.readGpr w dst) else s.gpr q))
    ∧ (code.not_ w dst s).CF = (s.CF)
    ∧ (code.not_ w dst s).PF = (s.PF)
    ∧ (code.not_ w dst s).AF = (s.AF)
    ∧ (code.not_ w dst s).ZF = (s.ZF)
    ∧ (code.not_ w dst s).SF = (s.SF)
    ∧ (code.not_ w dst s).OF = (s.OF)
    ∧ (code.not_ w dst s).mem = (s.mem)
    ∧ (code.not_ w dst s).defined = (s.defined)
    ∧ (code.not_ w dst s).erased = (s.erased)
    ∧ (code.not_ w dst s).divs = (s.divs) := by
  exact ⟨fun _ => rfl, rfl, rfl, rfl, rfl, rfl, rfl, rfl, rfl, rfl, rfl⟩

/-- `not` and the vector registers, vector bindings and call log. -/
@[simp] theorem not_aux (w : Nat) (dst : HostLoc) (s : X64State) :
    (code.not_ w dst s).xmm = (s.xmm)
    ∧ (code.not_ w dst s).definedXmm = (s.definedXmm)
    ∧ (code.not_ w dst s).calls = (s.calls) := by
  exact ⟨rfl, rfl, rfl⟩

/-- Effect of `mov` with a 64-bit immediate on each component of the state. -/
@[simp] theorem mov_imm64_eff (dst : HostLoc) (v : Nat) (s : X64State) :
    (∀ q, (code.mov_imm64 dst v s).gpr q = (if q = dst then regWrite 64 (s.gpr dst) (v % 2 ^ 64) else s.gpr q))
    ∧ (code.mov_imm64 dst v s).CF = (s.CF)
    ∧ (code.mov_imm64 dst v s).PF = (s.PF)
    ∧ (code.mov_imm64 dst v s).AF = (s.AF)
    ∧ (code.mov_imm64 dst v s).ZF = (s.ZF)
    ∧ (code.mov_imm64 dst v s).SF = (s.SF)
    ∧ (code.mov_imm64 dst v s).OF = (s.OF)
    ∧ (code.mov_imm64 dst v s).mem = (s.mem)
    ∧ (code.mov_imm64 dst v s).defined = (s.defined)
    ∧ (code.mov_imm64 dst v s).erased = (s.erased)
    ∧ (code.mov_imm64 dst v s).divs = (s.divs) := by
  exact ⟨fun _ => rfl, rfl, rfl, rfl, rfl, rfl, rfl, rfl, rfl, rfl, rfl⟩

/-- `mov` with a 64-bit immediate and the vector registers, vector bindings and call log. -/
@[simp] theorem mov_imm64_aux (dst : HostLoc) (v : Nat) (s : X64State) :
    (code.mov_imm64 dst v s).xmm = (s.xmm)
    ∧ (code.mov_imm64 dst v s).definedXmm = (s.definedXmm)
    ∧ (code.mov_imm64 dst v s).calls = (s.calls) := by
  exact ⟨rfl, rfl, rfl⟩

/-- Effect of `movsx` on each component of the state. -/
@[simp] theorem movsx_eff (wd ws : Nat) (dst src : HostLoc) (s : X64State) :
    (∀ q, (code.movsx wd ws dst src s).gpr q = (if q = dst then regWrite wd (s.gpr dst) ((toSigned ws (s.readGpr ws src)) % 2 ^ wd).toNat else s.gpr q))
    ∧ (code.movsx wd ws dst src s).CF = (s.CF)
    ∧ (code.movsx wd ws dst src s).PF = (s.PF)
    ∧ (code.movsx wd ws dst src s).AF = (s.AF)
    ∧ (code.movsx wd ws dst src s).ZF = (s.ZF)
    ∧ (code.movsx wd ws dst src s).SF = (s.SF)
    ∧ (code.movsx wd ws dst src s).OF = (s.OF)
    ∧ (code.movsx wd ws dst src s).mem = (s.mem)
    ∧ (code.movsx wd ws dst src s).defined = (s.defined)
    ∧ (code.movsx wd ws dst src s).erased = (s.erased)
    ∧ (code.movsx wd ws dst src s).divs = (s.divs) := by
  exact ⟨fun _ => rfl, rfl, rfl, rfl, rfl, rfl, rfl, rfl, rfl, rfl, rfl⟩

/-- `movsx` and the vector registers, vector bindings and call log. -/
@[simp] theorem movsx_aux (wd ws : Nat) (dst src : HostLoc) (s : X64State) :
    (code.movsx wd ws dst src s).xmm = (s.xmm)
    ∧ (code.movsx wd ws dst src s).definedXmm = (s.definedXmm)
    ∧ (code.movsx wd ws dst src s).calls = (s.calls) := by
  exact ⟨rfl, rfl, rfl⟩

/-! ## Effect of the byte-reversal instructions -/

/-- Effect of `bswap` on each component of the state. -/
@[simp] theorem bswap_eff (w : Nat) (dst : HostLoc) (s : X64State) :
    (∀ q, (code.bswap w dst s).gpr q = (if q = dst then regWrite w (s.gpr dst) (byteSwap (w / 8) (s.readGpr w dst)) else s.gpr q))
    ∧ (code.bswap w dst s).CF = (s.CF)
    ∧ (code.bswap w dst s).PF = (s.PF)
    ∧ (code.bswap w dst s).AF = (s.AF)
    ∧ (code.bswap w dst s).ZF = (s.ZF)
    ∧ (code.bswap w dst s).SF = (s.SF)
    ∧ (code.bswap w dst s).OF = (s.OF)
    ∧ (code.bswap w dst s).mem = (s.mem)
    ∧ (code.bswap w dst s).defined = (s.defined)
    ∧ (code.bswap w dst s).erased = (s.erased)
    ∧ (code.bswap w dst s).divs = (s.divs) := by
  exact ⟨fun _ => rfl, rfl, rfl, rfl, rfl, rfl, rfl, rfl, rfl, rfl, rfl⟩

/-- `bswap` and the vector registers, vector bindings and call log. -/
@[simp] theorem bswap_aux (w : Nat) (dst : HostLoc) (s : X64State) :
    (code.bswap w dst s).xmm = (s.xmm)
    ∧ (code.bswap w dst s).definedXmm = (s.definedXmm)
    ∧ (code.bswap w dst s).calls = (s.calls) := by
  exact ⟨rfl, rfl, rfl⟩

/-- Effect of `rol` on each component of the state. -/
@[simp] theorem rol_eff (w : Nat) (dst : HostLoc) (count : Nat) (s : X64State) :
    (∀ q, (code.rol w dst count s).gpr q = (if code.countMask w count = 0 then (code.zeroCount w dst s).gpr q else (if q = dst then regWrite w (s.gpr dst) (rotateLeft w (s.readGpr w dst) (code.countMask w count % w)) else s.gpr q)))
    ∧ (code.rol w dst count s).CF = (if code.countMask w count = 0 then s.CF else (bit (rotateLeft w (s.readGpr w dst) (code.countMask w count % w)) 0))
    ∧ (code.rol w dst count s).PF = (s.PF)
    ∧ (code.rol w dst count s).AF = (s.AF)
    ∧ (code.rol w dst count s).ZF = (s.ZF)
    ∧ (code.rol w dst count s).SF = (s.SF)
    ∧ (code.rol w dst count s).OF = (if code.countMask w count = 0 then s.OF else (if code.countMask w count = 1 then (msb w (rotateLeft w (s.readGpr w dst) (code.countMask w count % w)) != bit (rotateLeft w (s.readGpr w dst) (code.countMask w count % w)) 0) else s.havoc 0))
    ∧ (code.rol w dst count s).mem = (s.mem)
    ∧ (code.rol w dst count s).defined = (s.defined)
    ∧ (code.rol w dst count s).erased = (s.erased)
    ∧ (code.rol w dst count s).divs = (s.divs) := by
  unfold code.rol
  by_cases h : code.countMask w count = 0
  · obtain ⟨z1, z2, z3, z4, z5, z6, z7, z8, z9, z10, -⟩ := zeroCount_eff w dst s
    simp only [h, if_true]
    exact ⟨fun _ => trivial, z1, z2, z3, z4, z5, z6, z7, z8, z9, z10⟩
  · simp only [h, if_false]
    exact ⟨fun _ => rfl, rfl, rfl, rfl, rfl, rfl, rfl, rfl, rfl, rfl, rfl⟩

/-- `rol` and the vector registers, vector bindings and call log. -/
@[simp] theorem rol_aux (w : Nat) (dst : HostLoc) (count : Nat) (s : X64State) :
    (code.rol w dst count s).xmm = (s.xmm)
    ∧ (code.rol w dst count s).definedXmm = (s.definedXmm)
    ∧ (code.rol w dst count s).calls = (s.calls) := by
  unfold code.rol
  by_cases h : code.countMask w count = 0
  · obtain ⟨-, -, -, -, -, -, -, -, -, -, z11, z12, z13⟩ := zeroCount_eff w dst s
    simp only [h, if_true]
    exact ⟨z11, z12, z13⟩
  · simp only [h, if_false]
    exact ⟨rfl, rfl, rfl⟩

/-! ## Auxiliary facts -/

/-- Two distinct registers are unequal in either order. -/
theorem regs_ne {a b : HostLoc} (h : a ≠ b) : (a = b) = False ∧ (b = a) = False := by
  constructor <;> simp [h, Ne.symm h]

/-- Bit 0 as a number is the value modulo two. -/
theorem bit_zero_toNat (x : Nat) : (bit x 0).toNat = x % 2 := by
  unfold bit
  rcases Nat.mod_two_eq_zero_or_one x with h | h <;> simp [h]

/-- A 64-bit write replaces the register. -/
@[simp] theorem regWrite_64 (old v : Nat) : regWrite 64 old v = v % 18446744073709551616 := by
  simp [regWrite]

/-- A 32-bit write zero-extends. -/
@[simp] theorem regWrite_32 (old v : Nat) : regWrite 32 old v = v % 4294967296 := by
  simp [regWrite]

/-- The low byte after an 8-bit write is the byte written. -/
@[simp] theorem regWrite_8_low (old v : Nat) : regWrite 8 old v % 256 = v % 256 := by
  simp only [regWrite]
  norm_num
  omega

/-- Projections commute with `if`. -/
@[simp] theorem ite_eff (c : Prop) [Decidable c] (a b : X64State) :
    (∀ q, (if c then a else b).gpr q = if c then a.gpr q else b.gpr q)
    ∧ (if c then a else b).CF = (if c then a.CF else b.CF)
    ∧ (if c then a else b).PF = (if c then a.PF else b.PF)
    ∧ (if c then a else b).AF = (if c then a.AF else b.AF)
    ∧ (if c then a else b).ZF = (if c then a.ZF else b.ZF)
    ∧ (if c then a else b).SF = (if c then a.SF else b.SF)
    ∧ (if c then a else b).OF = (if c then a.OF else b.OF)
    ∧ (if c then a else b).mem = (if c then a.mem else b.mem)
    ∧ (if c then a else b).defined = (if c then a.defined else b.defined)
    ∧ (if c then a else b).erased = (if c then a.erased else b.erased)
    ∧ (if c then a else b).divs = (if c then a.divs else b.divs) := by
  by_cases h : c <;> simp [h]

/-! ## Blocks of the arithmetic emitters -/

/-- `EmitAdd` is the composition of its blocks. -/
theorem EmitAdd_eq_blocks (bitsize : Nat) (inst : Inst) (result carry overflow : HostLoc)
    (op : OpArg) (s : X64State) :
    EmitAdd bitsize inst result carry overflow op s =
      flagOutputs inst .c result carry overflow (nzcvOutput inst false
        (withSource inst op (addBlock bitsize inst.arg2 result carry)
          (arithSetup inst result carry s))) := by
  rfl

/-- `EmitSub` is the composition of its blocks. -/
theorem EmitSub_eq_blocks (bitsize : Nat) (inst : Inst) (result carry overflow : HostLoc)
    (op : OpArg) (s : X64State) :
    EmitSub bitsize inst result carry overflow op s =
      flagOutputs inst .nc result carry overflow (nzcvOutput inst true
        (withSource inst op (subBlock bitsize inst.arg2 result carry)
          (arithSetup inst result carry s))) := by
  rfl

/-- The adder reads only registers and memory of the incoming state. -/
theorem addWithCarry_frame (w : Nat) (dst : HostLoc) (src : Operand) (cin : Nat)
    (s t : X64State) (hg : t.gpr = s.gpr) (hm : t.mem = s.mem) (hd : t.defined = s.defined)
    (he : t.erased = s.erased) (hv : t.divs = s.divs) :
    (∀ q, (code.addWithCarry w dst src cin t).gpr q = (code.addWithCarry w dst src cin s).gpr q)
    ∧ (code.addWithCarry w dst src cin t).CF = (code.addWithCarry w dst src cin s).CF
    ∧ (code.addWithCarry w dst src cin t).PF = (code.addWithCarry w dst src cin s).PF
    ∧ (code.addWithCarry w dst src cin t).AF = (code.addWithCarry w dst src cin s).AF
    ∧ (code.addWithCarry w dst src cin t).ZF = (code.addWithCarry w dst src cin s).ZF
    ∧ (code.addWithCarry w dst src cin t).SF = (code.addWithCarry w dst src cin s).SF
    ∧ (code.addWithCarry w dst src cin t).OF = (code.addWithCarry w dst src cin s).OF
    ∧ (code.addWithCarry w dst src cin t).mem = s.mem
    ∧ (code.addWithCarry w dst src cin t).defined = s.defined
    ∧ (code.addWithCarry w dst src cin t).erased = s.erased
    ∧ (code.addWithCarry w dst src cin t).divs = s.divs := by
  cases s; cases t
  simp only at hg hm hd he hv
  subst hg hm hd he hv
  exact ⟨fun _ => rfl, rfl, rfl, rfl, rfl, rfl, rfl, rfl, rfl, rfl, rfl⟩

/-- The subtracter reads only registers and memory of the incoming state. -/
theorem subWithBorrow_frame (w : Nat) (dst : HostLoc) (src : Operand) (cin : Nat)
    (s t : X64State) (hg : t.gpr = s.gpr) (hm : t.mem = s.mem) (hd : t.defined = s.defined)
    (he : t.erased = s.erased) (hv : t.divs = s.divs) :
    (∀ q, (code.subWithBorrow w dst src cin t).gpr q = (code.subWithBorrow w dst src cin s).gpr q)
    ∧ (code.subWithBorrow w dst src cin t).CF = (code.subWithBorrow w dst src cin s).CF
    ∧ (code.subWithBorrow w dst src cin t).PF = (code.subWithBorrow w dst src cin s).PF
    ∧ (code.subWithBorrow w dst src cin t).AF = (code.subWithBorrow w dst src cin s).AF
    ∧ (code.subWithBorrow w dst src cin t).ZF = (code.subWithBorrow w dst src cin s).ZF
    ∧ (code.subWithBorrow w dst src cin t).SF = (code.subWithBorrow w dst src cin s).SF
    ∧ (code.subWithBorrow w dst src cin t).OF = (code.subWithBorrow w dst src cin s).OF
    ∧ (code.subWithBorrow w dst src cin t).mem = s.mem
    ∧ (code.subWithBorrow w dst src cin t).defined = s.defined
    ∧ (code.subWithBorrow w dst src cin t).erased = s.erased
    ∧ (code.subWithBorrow w dst src cin t).divs = s.divs := by
  cases s; cases t
  simp only at hg hm hd he hv
  subst hg hm hd he hv
  exact ⟨fun _ => rfl, rfl, rfl, rfl, rfl, rfl, rfl, rfl, rfl, rfl, rfl⟩

/-- The addition block acts as one adder fed with the guest carry-in. -/
@[simp] theorem addBlock_eff (w : Nat) (carry_in : Argument) (result carry : HostLoc)
    (src : Operand) (s : X64State) :
    (∀ q, (addBlock w carry_in result carry src s).gpr q
        = (code.addWithCarry w result src (cinOf carry_in carry s) s).gpr q)
    ∧ (addBlock w carry_in result carry src s).CF
        = (code.addWithCarry w result src (cinOf carry_in carry s) s).CF
    ∧ (addBlock w carry_in result carry src s).PF
        = (code.addWithCarry w result src (cinOf carry_in carry s) s).PF
    ∧ (addBlock w carry_in result carry src s).AF
        = (code.addWithCarry w result src (cinOf carry_in carry s) s).AF
    ∧ (addBlock w carry_in result carry src s).ZF
        = (code.addWithCarry w result src (cinOf carry_in carry s) s).ZF
    ∧ (addBlock w carry_in result carry src s).SF
        = (code.addWithCarry w result src (cinOf carry_in carry s) s).SF
    ∧ (addBlock w carry_in result carry src s).OF
        = (code.addWithCarry w result src (cinOf carry_in carry s) s).OF
    ∧ (addBlock w carry_in result carry src s).mem = s.mem
    ∧ (addBlock w carry_in result carry src s).defined = s.defined
    ∧ (addBlock w carry_in result carry src s).erased = s.erased
    ∧ (addBlock w carry_in result carry src s).divs = s.divs := by
  unfold addBlock cinOf
  by_cases h1 : carry_in.IsImmediate = true
  · by_cases h2 : carry_in.GetImmediateU1 = true
    · have h3 : carry_in.raw % 2 = 1 := by simpa [Argument.GetImmediateU1] using h2
      rw [if_pos h1, if_pos h2, if_pos h1, h3]
      exact addWithCarry_frame w result src 1 s (code.stc s) rfl rfl rfl rfl rfl
    · have h3 : carry_in.raw % 2 = 0 := by
        have : ¬ carry_in.raw % 2 = 1 := by simpa [Argument.GetImmediateU1] using h2
        omega
      rw [if_pos h1, if_neg h2, if_pos h1, h3]
      exact addWithCarry_frame w result src 0 s s rfl rfl rfl rfl rfl
  · have hb : s.gpr carry % 2 = (bit (s.readGpr 32 carry) (0 % 32)).toNat := by
      rw [bit_zero_toNat]; simp only [X64State.readGpr]; omega
    rw [if_neg h1, if_neg h1, hb]
    exact addWithCarry_frame w result src _ s (code.bt 32 carry 0 s) rfl rfl rfl rfl rfl

/-- The subtraction block acts as one subtracter whose borrow-in is the inverse of
the guest carry-in. -/
@[simp] theorem subBlock_eff (w : Nat) (carry_in : Argument) (result carry : HostLoc)
    (src : Operand) (s : X64State) :
    (∀ q, (subBlock w carry_in result carry src s).gpr q
        = (code.subWithBorrow w result src (1 - cinOf carry_in carry s) s).gpr q)
    ∧ (subBlock w carry_in result carry src s).CF
        = (code.subWithBorrow w result src (1 - cinOf carry_in carry s) s).CF
    ∧ (subBlock w carry_in result carry src s).PF
        = (code.subWithBorrow w result src (1 - cinOf carry_in carry s) s).PF
    ∧ (subBlock w carry_in result carry src s).AF
        = (code.subWithBorrow w result src (1 - cinOf carry_in carry s) s).AF
    ∧ (subBlock w carry_in result carry src s).ZF
        = (code.subWithBorrow w result src (1 - cinOf carry_in carry s) s).ZF
    ∧ (subBlock w carry_in result carry src s).SF
        = (code.subWithBorrow w result src (1 - cinOf carry_in carry s) s).SF
    ∧ (subBlock w carry_in result carry src s).OF
        = (code.subWithBorrow w result src (1 - cinOf carry_in carry s) s).OF
    ∧ (subBlock w carry_in result carry src s).mem = s.mem
    ∧ (subBlock w carry_in result carry src s).defined = s.defined
    ∧ (subBlock w carry_in result carry src s).erased = s.erased
    ∧ (subBlock w carry_in result carry src s).divs = s.divs := by
  unfold subBlock cinOf
  by_cases h1 : carry_in.IsImmediate = true
  · by_cases h2 : carry_in.GetImmediateU1 = true
    · have h3 : carry_in.raw % 2 = 1 := by simpa [Argument.GetImmediateU1] using h2
      rw [if_pos h1, if_pos h2, if_pos h1, h3]
      exact subWithBorrow_frame w result src 0 s s rfl rfl rfl rfl rfl
    · have h3 : carry_in.raw % 2 = 0 := by
        have : ¬ carry_in.raw % 2 = 1 := by simpa [Argument.GetImmediateU1] using h2
        omega
      rw [if_pos h1, if_neg h2, if_pos h1, h3]
      exact subWithBorrow_frame w result src 1 s (code.stc s) rfl rfl rfl rfl rfl
  · have hb : 1 - s.gpr carry % 2 = (!(bit (s.readGpr 32 carry) (0 % 32))).toNat := by
      have h0 := bit_zero_toNat (s.readGpr 32 carry)
      simp only [X64State.readGpr] at h0 ⊢
      cases hbit : bit (s.gpr carry % 2 ^ 32) (0 % 32) <;>
        simp only [Nat.zero_mod, hbit, Bool.toNat_false, Bool.toNat_true, Bool.not_false,
          Bool.not_true] at h0 ⊢ <;> omega
    rw [if_neg h1, if_neg h1, hb]
    exact subWithBorrow_frame w result src _ s (code.cmc (code.bt 32 carry 0 s))
      rfl rfl rfl rfl rfl

/-- What the operand acquisition leaves in the registers; memory and the logs are
untouched. -/
@[simp] theorem arithSetup_eff (inst : Inst) (result carry : HostLoc) (s : X64State) :
    (∀ q, (arithSetup inst result carry s).gpr q
        = if inst.arg2.IsImmediate = false ∧ q = carry then inst.arg2.raw % 2 ^ 64
          else if q = result then inst.arg0.raw % 2 ^ 64
          else if inst.nzcv_inst = true ∧ q = .RAX then 0 else s.gpr q)
    ∧ (arithSetup inst result carry s).mem = s.mem
    ∧ (arithSetup inst result carry s).defined = s.defined
    ∧ (arithSetup inst result carry s).erased = s.erased
    ∧ (arithSetup inst result carry s).divs = s.divs := by
  unfold arithSetup DoCarry DoNZCV
  cases inst.arg2.IsImmediate <;> cases inst.carry_inst <;> cases inst.nzcv_inst <;>
    simp

/-- For a positive width, the modulus is twice the weight of the sign bit. -/
theorem two_pow_split (w : Nat) (hw : 0 < w) : 2 ^ w = 2 * 2 ^ (w - 1) := by
  obtain ⟨k, rfl⟩ : ∃ k, w = k + 1 := ⟨w - 1, by omega⟩
  simp [pow_succ, Nat.mul_comm]

/-- The sign bit of an in-range value is set exactly when the value reaches half the
modulus. -/
theorem msb_eq_le (w a : Nat) (hw : 0 < w) (ha : a < 2 ^ w) :
    msb w a = decide (2 ^ (w - 1) ≤ a) := by
  have hM := two_pow_split w hw
  have hH : 0 < 2 ^ (w - 1) := by positivity
  unfold msb
  by_cases h : 2 ^ (w - 1) ≤ a
  · have h1 : a / 2 ^ (w - 1) = 1 := by
      apply Nat.div_eq_of_lt_le <;> omega
    simp [h1, h]
  · have h1 : a / 2 ^ (w - 1) = 0 := Nat.div_eq_of_lt (by omega)
    simp [h1, h]

/-- Two's-complement reading of an in-range value. -/
theorem toSigned_eq (w a : Nat) (ha : a < 2 ^ w) :
    toSigned w a = if a < 2 ^ (w - 1) then (a : Int) else (a : Int) - ((2 ^ w : Nat) : Int) := by
  unfold toSigned
  rw [Nat.mod_eq_of_lt ha]
  push_cast
  rfl

/-- The host overflow flag of an addition is the guest signed overflow. -/
theorem add_OF_eq (w : Nat) (hw : w = 32 ∨ w = 64) (a b c : Nat) (ha : a < 2 ^ w)
    (hb : b < 2 ^ w) (hc : c ≤ 1) :
    ((msb w a == msb w b) && (msb w ((a + b + c) % 2 ^ w) != msb w a))
      = signedOverflow w (toSigned w a + toSigned w b + c) := by
  have hw0 : 0 < w := by omega
  have hM := two_pow_split w hw0
  have hr : (a + b + c) % 2 ^ w < 2 ^ w := Nat.mod_lt _ (by positivity)
  have hcase : (a + b + c) % 2 ^ w = a + b + c ∨ (a + b + c) % 2 ^ w + 2 ^ w = a + b + c := by
    by_cases h : a + b + c < 2 ^ w
    · exact Or.inl (Nat.mod_eq_of_lt h)
    · right
      have := Nat.mod_add_div (a + b + c) (2 ^ w)
      have hq : (a + b + c) / 2 ^ w = 1 := by
        apply Nat.div_eq_of_lt_le <;> omega
      rw [hq] at this
      omega
  have hI : ((2 : Int) ^ (w - 1)) = ((2 ^ (w - 1) : Nat) : Int) := by push_cast; rfl
  rw [msb_eq_le w a hw0 ha, msb_eq_le w b hw0 hb, msb_eq_le w _ hw0 hr, toSigned_eq w a ha,
    toSigned_eq w b hb]
  unfold signedOverflow
  rw [hI]
  generalize (a + b + c) % 2 ^ w = r at *
  generalize 2 ^ (w - 1) = H at *
  generalize 2 ^ w = M at *
  subst hM
  rw [Bool.eq_iff_iff]
  simp only [Bool.and_eq_true, beq_iff_eq, bne_iff_ne, ne_eq, decide_eq_decide, decide_eq_true_eq]
  split_ifs <;> omega

/-- The host overflow flag of a subtraction is the guest signed overflow. -/
theorem sub_OF_eq (w : Nat) (hw : w = 32 ∨ w = 64) (a b c : Nat) (ha : a < 2 ^ w)
    (hb : b < 2 ^ w) (hc : c ≤ 1) :
    ((msb w a != msb w b) && (msb w ((a + 2 ^ w - (b + c)) % 2 ^ w) != msb w a))
      = signedOverflow w (toSigned w a - toSigned w b - c) := by
  have hw0 : 0 < w := by omega
  have hM := two_pow_split w hw0
  have hr : (a + 2 ^ w - (b + c)) % 2 ^ w < 2 ^ w := Nat.mod_lt _ (by positivity)
  have hcase : (a + 2 ^ w - (b + c)) % 2 ^ w + (b + c) = a + 2 ^ w
      ∨ (a + 2 ^ w - (b + c)) % 2 ^ w + (b + c) = a := by
    by_cases h : a + 2 ^ w - (b + c) < 2 ^ w
    · exact Or.inl (by rw [Nat.mod_eq_of_lt h]; omega)
    · right
      have := Nat.mod_add_div (a + 2 ^ w - (b + c)) (2 ^ w)
      have hq : (a + 2 ^ w - (b + c)) / 2 ^ w = 1 := by
        apply Nat.div_eq_of_lt_le <;> omega
      rw [hq] at this
      omega
  have hI : ((2 : Int) ^ (w - 1)) = ((2 ^ (w - 1) : Nat) : Int) := by push_cast; rfl
  rw [msb_eq_le w a hw0 ha, msb_eq_le w b hw0 hb, msb_eq_le w _ hw0 hr, toSigned_eq w a ha,
    toSigned_eq w b hb]
  unfold signedOverflow
  rw [hI]
  generalize (a + 2 ^ w - (b + c)) % 2 ^ w = r at *
  generalize 2 ^ (w - 1) = H at *
  generalize 2 ^ w = M at *
  subst hM
  rw [Bool.eq_iff_iff]
  simp only [Bool.and_eq_true, beq_iff_eq, bne_iff_ne, ne_eq, decide_eq_decide, decide_eq_true_eq]
  split_ifs <;> omega

/-- Either way of supplying the source operand, the block runs on a state in which
the operand reads as the second IR operand and the registers outside `op` are as
before. -/
theorem withSource_cases (w : Nat) (hw : w = 32 ∨ w = 64) (inst : Inst) (op : OpArg)
    (block : Operand → X64State → X64State) (t : X64State)
    (hty : w = 64 → inst.arg1.GetType ≠ IRType.U32) :
    ∃ src t', withSource inst op block t = block src t'
      ∧ t'.readOp w src = inst.arg1.raw % 2 ^ w
      ∧ (∀ q, q ∉ op.regs → t'.gpr q = t.gpr q)
      ∧ t'.defined = t.defined ∧ t'.erased = t.erased ∧ t'.divs = t.divs := by
  unfold withSource
  by_cases h : (inst.arg1.IsImmediate && decide (inst.arg1.GetType = IRType.U32)) = true
  · rw [if_pos h]
    refine ⟨_, t, rfl, ?_, fun _ _ => rfl, rfl, rfl, rfl⟩
    have h32 : w = 32 := by
      rcases hw with h1 | h1
      · exact h1
      · simp [hty h1] at h
    subst h32
    simp [Argument.GetImmediateU32]
  · rw [if_neg h]
    refine ⟨_, UseOpArg inst.arg1 op t, rfl, ?_, ?_, ?_, ?_, ?_⟩
    · rcases hw with rfl | rfl <;> cases op <;> simp <;> omega
    · intro q hq
      cases op <;> simp_all [OpArg.regs]
    all_goals cases op <;> simp

/-- Effect of the NZCV capture block. -/
@[simp] theorem nzcvOutput_eff (inst : Inst) (invert : Bool) (s : X64State) :
    (∀ q, q ≠ .RAX → (nzcvOutput inst invert s).gpr q = s.gpr q)
    ∧ (nzcvOutput inst invert s).CF
        = (if inst.nzcv_inst = true ∧ invert = true then !s.CF else s.CF)
    ∧ (nzcvOutput inst invert s).OF = s.OF
    ∧ (inst.nzcv_inst = false → (nzcvOutput inst invert s).defined = s.defined) := by
  unfold nzcvOutput
  cases inst.nzcv_inst <;> cases invert <;> simp +contextual

/-- A flag written by `setcc` reads back unchanged from the low byte. -/
@[simp] theorem toNat_mod_256 (b : Bool) : b.toNat % 256 = b.toNat := by
  cases b <;> rfl

/-- Values defined by the output block, in terms of the state it starts from. -/
theorem flagOutputs_values (inst : Inst) (cc : CC) (result carry overflow : HostLoc)
    (u : X64State) (w : Nat) (h1 : result ≠ carry) (h2 : result ≠ overflow)
    (h3 : carry ≠ overflow) :
    (flagOutputs inst cc result carry overflow u).valueOf .inst w = some (u.gpr result % 2 ^ w)
    ∧ (inst.carry_inst = true →
        (flagOutputs inst cc result carry overflow u).valueOf .carry_inst 8
          = some (cc.holds u).toNat)
    ∧ (inst.overflow_inst = true →
        (flagOutputs inst cc result carry overflow u).valueOf .overflow_inst 8
          = some u.OF.toNat) := by
  have e1 := regs_ne h1; have e2 := regs_ne h2; have e3 := regs_ne h3
  unfold flagOutputs
  cases inst.carry_inst <;> cases inst.overflow_inst <;>
    simp only [X64State.valueOf, X64State.locOf, e1, e2, e3, setcc_eff, DefineValue_eff,
      EraseInstruction_eff, List.reverse_append, List.reverse_cons, List.reverse_nil,
      List.nil_append, List.cons_append, List.find?_cons, Option.map_some', if_true, if_false,
      Bool.false_eq_true, decide_True, decide_False, reduceCtorEq, X64State.readGpr,
      Nat.reducePow, regWrite_8_low, toNat_mod_256, CC.holds, true_implies, false_implies,
      and_self, implies_true, decide_eq_true_eq]

/-- State after the addition proper: result register and flags as functions of the
three IR operands. -/
theorem addCore_spec (w : Nat) (hw : w = 32 ∨ w = 64) (inst : Inst)
    (result carry : HostLoc) (op : OpArg) (s : X64State)
    (hty : w = 64 → inst.arg1.GetType ≠ IRType.U32)
    (h1 : result ≠ carry) (h2 : result ∉ op.regs) (h3 : carry ∉ op.regs) :
    (withSource inst op (addBlock w inst.arg2 result carry)
        (arithSetup inst result carry s)).gpr result % 2 ^ w
      = (inst.arg0.raw % 2 ^ w + inst.arg1.raw % 2 ^ w + inst.arg2.raw % 2) % 2 ^ w
    ∧ (withSource inst op (addBlock w inst.arg2 result carry)
        (arithSetup inst result carry s)).CF
      = carryOut w (inst.arg0.raw % 2 ^ w) (inst.arg1.raw % 2 ^ w) (inst.arg2.raw % 2)
    ∧ (withSource inst op (addBlock w inst.arg2 result carry)
        (arithSetup inst result carry s)).OF
      = signedOverflow w (toSigned w (inst.arg0.raw % 2 ^ w)
          + toSigned w (inst.arg1.raw % 2 ^ w) + (inst.arg2.raw % 2 : Nat))
    ∧ (withSource inst op (addBlock w inst.arg2 result carry)
        (arithSetup inst result carry s)).SF
      = msb w ((inst.arg0.raw % 2 ^ w + inst.arg1.raw % 2 ^ w + inst.arg2.raw % 2) % 2 ^ w)
    ∧ (withSource inst op (addBlock w inst.arg2 result carry)
        (arithSetup inst result carry s)).ZF
      = decide ((inst.arg0.raw % 2 ^ w + inst.arg1.raw % 2 ^ w + inst.arg2.raw % 2) % 2 ^ w
          = 0) := by
  obtain ⟨src, t', hEq, hsrc, hgpr, -, -, -⟩ :=
    withSource_cases w hw inst op (addBlock w inst.arg2 result carry)
      (arithSetup inst result carry s) hty
  have e1 := regs_ne h1
  have hr : t'.gpr result % 2 ^ w = inst.arg0.raw % 2 ^ w := by
    rw [hgpr result h2]
    rcases hw with rfl | rfl <;> simp [e1] <;> omega
  have hc : cinOf inst.arg2 carry t' = inst.arg2.raw % 2 := by
    unfold cinOf
    rw [hgpr carry h3]
    cases h : inst.arg2.IsImmediate <;> simp [h, e1] <;> omega
  rw [hEq]
  refine ⟨?_, ?_, ?_, ?_, ?_⟩
  · simp only [addBlock_eff, addWithCarry_eff, X64State.readGpr, hr, hsrc, hc, if_true]
    rcases hw with rfl | rfl <;> simp
  · simp only [addBlock_eff, addWithCarry_eff, X64State.readGpr, hr, hsrc, hc, carryOut]
  · simp only [addBlock_eff, addWithCarry_eff, X64State.readGpr, hr, hsrc, hc]
    exact add_OF_eq w hw _ _ _ (Nat.mod_lt _ (by positivity)) (Nat.mod_lt _ (by positivity))
      (by omega)
  · simp only [addBlock_eff, addWithCarry_eff, X64State.readGpr, hr, hsrc, hc]
  · simp only [addBlock_eff, addWithCarry_eff, X64State.readGpr, hr, hsrc, hc, Nat.mod_mod]

/-- State after the subtraction proper: result register and flags as functions of
the three IR operands.  The host CF is the borrow, the inverse of the guest carry. -/
theorem subCore_spec (w : Nat) (hw : w = 32 ∨ w = 64) (inst : Inst)
    (result carry : HostLoc) (op : OpArg) (s : X64State)
    (hty : w = 64 → inst.arg1.GetType ≠ IRType.U32)
    (h1 : result ≠ carry) (h2 : result ∉ op.regs) (h3 : carry ∉ op.regs) :
    (withSource inst op (subBlock w inst.arg2 result carry)
        (arithSetup inst result carry s)).gpr result % 2 ^ w
      = (inst.arg0.raw % 2 ^ w + (2 ^ w - 1 - inst.arg1.raw % 2 ^ w) + inst.arg2.raw % 2)
          % 2 ^ w
    ∧ (withSource inst op (subBlock w inst.arg2 result carry)
        (arithSetup inst result carry s)).CF
      = !carryOut w (inst.arg0.raw % 2 ^ w) (2 ^ w - 1 - inst.arg1.raw % 2 ^ w)
          (inst.arg2.raw % 2)
    ∧ (withSource inst op (subBlock w inst.arg2 result carry)
        (arithSetup inst result carry s)).OF
      = signedOverflow w (toSigned w (inst.arg0.raw % 2 ^ w)
          - toSigned w (inst.arg1.raw % 2 ^ w) - ((1 - inst.arg2.raw % 2 : Nat) : Int))
    ∧ (withSource inst op (subBlock w inst.arg2 result carry)
        (arithSetup inst result carry s)).SF
      = msb w ((inst.arg0.raw % 2 ^ w + (2 ^ w - 1 - inst.arg1.raw % 2 ^ w)
          + inst.arg2.raw % 2) % 2 ^ w)
    ∧ (withSource inst op (subBlock w inst.arg2 result carry)
        (arithSetup inst result carry s)).ZF
      = decide ((inst.arg0.raw % 2 ^ w + (2 ^ w - 1 - inst.arg1.raw % 2 ^ w)
          + inst.arg2.raw % 2) % 2 ^ w = 0) := by
  obtain ⟨src, t', hEq, hsrc, hgpr, -, -, -⟩ :=
    withSource_cases w hw inst op (subBlock w inst.arg2 result carry)
      (arithSetup inst result carry s) hty
  have e1 := regs_ne h1
  have hr : t'.gpr result % 2 ^ w = inst.arg0.raw % 2 ^ w := by
    rw [hgpr result h2]
    rcases hw with rfl | rfl <;> simp [e1] <;> omega
  have hc : cinOf inst.arg2 carry t' = inst.arg2.raw % 2 := by
    unfold cinOf
    rw [hgpr carry h3]
    cases h : inst.arg2.IsImmediate <;> simp [h, e1] <;> omega
  have hb : inst.arg1.raw % 2 ^ w < 2 ^ w := Nat.mod_lt _ (by positivity)
  have hc1 : inst.arg2.raw % 2 ≤ 1 := by omega
  have hres : inst.arg0.raw % 2 ^ w + 2 ^ w - (inst.arg1.raw % 2 ^ w + (1 - inst.arg2.raw % 2))
      = inst.arg0.raw % 2 ^ w + (2 ^ w - 1 - inst.arg1.raw % 2 ^ w) + inst.arg2.raw % 2 := by
    omega
  rw [hEq]
  refine ⟨?_, ?_, ?_, ?_, ?_⟩
  · simp only [subBlock_eff, subWithBorrow_eff, X64State.readGpr, hr, hsrc, hc, if_true, hres]
    rcases hw with rfl | rfl <;> simp
  · simp only [subBlock_eff, subWithBorrow_eff, X64State.readGpr, hr, hsrc, hc, carryOut]
    rw [← decide_not]
    congr 1
    apply propext
    omega
  · simp only [subBlock_eff, subWithBorrow_eff, X64State.readGpr, hr, hsrc, hc]
    exact sub_OF_eq w hw _ _ _ (Nat.mod_lt _ (by positivity)) hb (by omega)
  · simp only [subBlock_eff, subWithBorrow_eff, X64State.readGpr, hr, hsrc, hc, hres]
  · simp only [subBlock_eff, subWithBorrow_eff, X64State.readGpr, hr, hsrc, hc, hres,
      Nat.mod_mod]

/-- C1: for width 32 or 64, every pair of operands and every carry-in (immediate 0,
immediate 1, or a register whose bit 0 is the carry), the sequence emitted by
`EmitAdd` defines the result as `(a + b + carry_in) mod 2^w`; an attached
carry pseudo-operation is 1 exactly when `a + b + carry_in ≥ 2^w`, and an attached
overflow pseudo-operation is 1 exactly when the signed sum leaves the signed range. -/
theorem EmitAdd_result_carry_overflow (bitsize : Nat) (hw : bitsize = 32 ∨ bitsize = 64)
    (inst : Inst) (result carry overflow : HostLoc) (op : OpArg) (s : X64State)
    (hty : bitsize = 64 → inst.arg1.GetType ≠ IRType.U32)
    (hra : ArithAlloc result carry overflow op) :
    (EmitAdd bitsize inst result carry overflow op s).valueOf .inst bitsize
      = some ((inst.arg0.raw % 2 ^ bitsize + inst.arg1.raw % 2 ^ bitsize
          + inst.arg2.raw % 2) % 2 ^ bitsize)
    ∧ (inst.carry_inst = true →
        (EmitAdd bitsize inst result carry overflow op s).valueOf .carry_inst 8
          = some (carryOut bitsize (inst.arg0.raw % 2 ^ bitsize)
              (inst.arg1.raw % 2 ^ bitsize) (inst.arg2.raw % 2)).toNat)
    ∧ (inst.overflow_inst = true →
        (EmitAdd bitsize inst result carry overflow op s).valueOf .overflow_inst 8
          = some (signedOverflow bitsize (toSigned bitsize (inst.arg0.raw % 2 ^ bitsize)
              + toSigned bitsize (inst.arg1.raw % 2 ^ bitsize)
              + (inst.arg2.raw % 2 : Nat))).toNat) := by
  unfold ArithAlloc at hra
  simp only [List.nodup_cons, List.mem_cons, not_or] at hra
  obtain ⟨⟨h1, -, -, -⟩, ⟨h5, h6, h7⟩, ⟨h8, h9⟩, -, -⟩ := hra
  obtain ⟨c1, c2, c3, -, -⟩ := addCore_spec bitsize hw inst result carry op s hty h5 h7 h9
  obtain ⟨t1, t2, t3⟩ := flagOutputs_values inst .c result carry overflow
    (nzcvOutput inst false (withSource inst op (addBlock bitsize inst.arg2 result carry)
      (arithSetup inst result carry s))) bitsize h5 h6 h8
  rw [EmitAdd_eq_blocks]
  refine ⟨?_, fun hc => ?_, fun ho => ?_⟩
  · rw [t1, (nzcvOutput_eff _ _ _).1 result (Ne.symm h1), c1]
  · rw [t2 hc]
    simp only [CC.holds, nzcvOutput_eff, Bool.false_eq_true, and_false, if_false, c2]
  · rw [t3 ho, (nzcvOutput_eff _ _ _).2.2.1, c3]

/-- C1, on the literal scenario: ADD32 with `a = 0x7FFFFFFF`, `b = 1`, carry-in 0
gives result `0x80000000`, carry 0 and overflow 1. -/
theorem EmitAdd_result_carry_overflow_witness :
    (EmitAdd 32 ⟨.val .U32 0x7FFFFFFF, .val .U32 1, .imm .U1 0, true, true, true⟩
        .RBX .RSI .RDI (.reg .R8) X64State.zero).valueOf .inst 32 = some 0x80000000
    ∧ (EmitAdd 32 ⟨.val .U32 0x7FFFFFFF, .val .U32 1, .imm .U1 0, true, true, true⟩
        .RBX .RSI .RDI (.reg .R8) X64State.zero).valueOf .carry_inst 8 = some 0
    ∧ (EmitAdd 32 ⟨.val .U32 0x7FFFFFFF, .val .U32 1, .imm .U1 0, true, true, true⟩
        .RBX .RSI .RDI (.reg .R8) X64State.zero).valueOf .overflow_inst 8 = some 1 := by
  have h := EmitAdd_result_carry_overflow 32 (Or.inl rfl)
    ⟨.val .U32 0x7FFFFFFF, .val .U32 1, .imm .U1 0, true, true, true⟩
    .RBX .RSI .RDI (.reg .R8) X64State.zero (by decide) (by unfold ArithAlloc; decide)
  exact ⟨h.1.trans (by decide), (h.2.1 rfl).trans (by decide), (h.2.2 rfl).trans (by decide)⟩

/-- With the NZCV pseudo-operation attached and RAX cleared beforehand, the value
defined for it is the `lahf` byte (taken after the optional `cmc`) in bits 8..15 and
the overflow flag in bit 0. -/
theorem nzcv_value (inst : Inst) (cc : CC) (invert : Bool) (result carry overflow : HostLoc)
    (u : X64State) (hni : inst.nzcv_inst = true) (h0 : u.gpr .RAX = 0)
    (h1 : HostLoc.RAX ≠ carry) (h2 : HostLoc.RAX ≠ overflow) :
    (flagOutputs inst cc result carry overflow (nzcvOutput inst invert u)).valueOf .nzcv_inst 32
      = some ((u.SF.toNat * 128 + u.ZF.toNat * 64 + u.AF.toNat * 16 + u.PF.toNat * 4 + 2
          + (if invert = true then !u.CF else u.CF).toNat) * 256 + u.OF.toNat) := by
  have e1 := regs_ne h1; have e2 := regs_ne h2
  have b1 := Bool.toNat_le u.SF; have b2 := Bool.toNat_le u.ZF; have b3 := Bool.toNat_le u.AF
  have b4 := Bool.toNat_le u.PF; have b5 := Bool.toNat_le u.OF
  have b6 := Bool.toNat_le (if invert = true then !u.CF else u.CF)
  unfold flagOutputs nzcvOutput
  rw [hni]
  cases inst.carry_inst <;> cases inst.overflow_inst <;> cases invert <;>
    simp only [X64State.valueOf, X64State.locOf, e1, e2, setcc_eff, DefineValue_eff,
      EraseInstruction_eff, lahf_eff, cmc_eff, code.lahfByte, List.reverse_append,
      List.reverse_cons, List.reverse_nil, List.nil_append, List.cons_append, List.find?_cons,
      Option.map_some', if_true, if_false, Bool.false_eq_true, decide_True, decide_False,
      reduceCtorEq, X64State.readGpr, Nat.reducePow, CC.holds, h0, regWrite, Nat.reduceEqDiff,
      Option.some.injEq] at * <;>
    omega

/-- C2: for width 32 or 64, every pair of operands and every carry-in, the sequence
emitted by `EmitSub` defines the result as `(a + (2^w - 1 - b) + carry_in) mod 2^w`,
which is `a - b - (1 - carry_in)` modulo `2^w`; with a carry pseudo-operation and no
NZCV pseudo-operation attached, the carry is the guest carry (1 exactly when the sum
reaches `2^w`, that is when the subtraction does not borrow); an attached overflow
pseudo-operation is 1 exactly when `a - b - (1 - carry_in)` leaves the signed range. -/
theorem EmitSub_result_carry_overflow (bitsize : Nat) (hw : bitsize = 32 ∨ bitsize = 64)
    (inst : Inst) (result carry overflow : HostLoc) (op : OpArg) (s : X64State)
    (hty : bitsize = 64 → inst.arg1.GetType ≠ IRType.U32)
    (hra : ArithAlloc result carry overflow op) :
    (EmitSub bitsize inst result carry overflow op s).valueOf .inst bitsize
      = some ((inst.arg0.raw % 2 ^ bitsize + (2 ^ bitsize - 1 - inst.arg1.raw % 2 ^ bitsize)
          + inst.arg2.raw % 2) % 2 ^ bitsize)
    ∧ (((inst.arg0.raw % 2 ^ bitsize + (2 ^ bitsize - 1 - inst.arg1.raw % 2 ^ bitsize)
          + inst.arg2.raw % 2) % 2 ^ bitsize : Nat) : Int)
      = ((inst.arg0.raw % 2 ^ bitsize : Nat) - (inst.arg1.raw % 2 ^ bitsize : Nat)
          - (1 - (inst.arg2.raw % 2 : Nat))) % ((2 ^ bitsize : Nat) : Int)
    ∧ (inst.carry_inst = true → inst.nzcv_inst = false →
        (EmitSub bitsize inst result carry overflow op s).valueOf .carry_inst 8
          = some (carryOut bitsize (inst.arg0.raw % 2 ^ bitsize)
              (2 ^ bitsize - 1 - inst.arg1.raw % 2 ^ bitsize) (inst.arg2.raw % 2)).toNat)
    ∧ (carryOut bitsize (inst.arg0.raw % 2 ^ bitsize)
          (2 ^ bitsize - 1 - inst.arg1.raw % 2 ^ bitsize) (inst.arg2.raw % 2)
        = !decide (inst.arg0.raw % 2 ^ bitsize
            < inst.arg1.raw % 2 ^ bitsize + (1 - inst.arg2.raw % 2)))
    ∧ (inst.overflow_inst = true →
        (EmitSub bitsize inst result carry overflow op s).valueOf .overflow_inst 8
          = some (signedOverflow bitsize (toSigned bitsize (inst.arg0.raw % 2 ^ bitsize)
              - toSigned bitsize (inst.arg1.raw % 2 ^ bitsize)
              - ((1 - inst.arg2.raw % 2 : Nat) : Int))).toNat) := by
  unfold ArithAlloc at hra
  simp only [List.nodup_cons, List.mem_cons, not_or] at hra
  obtain ⟨⟨h1, -, -, -⟩, ⟨h5, h6, h7⟩, ⟨h8, h9⟩, -, -⟩ := hra
  obtain ⟨c1, c2, c3, -, -⟩ := subCore_spec bitsize hw inst result carry op s hty h5 h7 h9
  obtain ⟨t1, t2, t3⟩ := flagOutputs_values inst .nc result carry overflow
    (nzcvOutput inst true (withSource inst op (subBlock bitsize inst.arg2 result carry)
      (arithSetup inst result carry s))) bitsize h5 h6 h8
  rw [EmitSub_eq_blocks]
  refine ⟨?_, ?_, fun hc hn => ?_, ?_, fun ho => ?_⟩
  · rw [t1, (nzcvOutput_eff _ _ _).1 result (Ne.symm h1), c1]
  · rcases hw with rfl | rfl <;> omega
  · rw [t2 hc]
    simp only [CC.holds, nzcvOutput_eff, hn, Bool.false_eq_true, false_and, if_false, c2,
      Bool.not_not]
  · have hb : inst.arg1.raw % 2 ^ bitsize < 2 ^ bitsize := Nat.mod_lt _ (by positivity)
    unfold carryOut
    rw [← decide_not]
    congr 1
    apply propext
    omega
  · rw [t3 ho, (nzcvOutput_eff _ _ _).2.2.1, c3]

/-- C2, on SUB32 with `a = 5`, `b = 7`, dynamic carry-in 1 and the carry and overflow
pseudo-operations attached: result `0xFFFFFFFE`, carry 0 (borrow), overflow 0. -/
theorem EmitSub_result_carry_overflow_witness :
    (EmitSub 32 ⟨.val .U32 5, .val .U32 7, .val .U1 1, true, true, false⟩
        .RBX .RSI .RDI (.mem .R15 64) X64State.zero).valueOf .inst 32 = some 0xFFFFFFFE
    ∧ (EmitSub 32 ⟨.val .U32 5, .val .U32 7, .val .U1 1, true, true, false⟩
        .RBX .RSI .RDI (.mem .R15 64) X64State.zero).valueOf .carry_inst 8 = some 0
    ∧ (EmitSub 32 ⟨.val .U32 5, .val .U32 7, .val .U1 1, true, true, false⟩
        .RBX .RSI .RDI (.mem .R15 64) X64State.zero).valueOf .overflow_inst 8 = some 0 := by
  have h := EmitSub_result_carry_overflow 32 (Or.inl rfl)
    ⟨.val .U32 5, .val .U32 7, .val .U1 1, true, true, false⟩
    .RBX .RSI .RDI (.mem .R15 64) X64State.zero (by decide) (by unfold ArithAlloc; decide)
  exact ⟨h.1.trans (by decide), (h.2.2.1 rfl rfl).trans (by decide),
    (h.2.2.2.2 rfl).trans (by decide)⟩

/-- RAX, cleared by `DoNZCV`, is still zero after the subtraction proper. -/
theorem subCore_rax (w : Nat) (hw : w = 32 ∨ w = 64) (inst : Inst)
    (result carry : HostLoc) (op : OpArg) (s : X64State)
    (hty : w = 64 → inst.arg1.GetType ≠ IRType.U32) (hni : inst.nzcv_inst = true)
    (h1 : HostLoc.RAX ≠ result) (h2 : HostLoc.RAX ≠ carry) (h3 : HostLoc.RAX ∉ op.regs) :
    (withSource inst op (subBlock w inst.arg2 result carry)
        (arithSetup inst result carry s)).gpr .RAX = 0 := by
  obtain ⟨src, t', hEq, -, hgpr, -, -, -⟩ :=
    withSource_cases w hw inst op (subBlock w inst.arg2 result carry)
      (arithSetup inst result carry s) hty
  have e1 := regs_ne h1; have e2 := regs_ne h2
  rw [hEq]
  simp only [subBlock_eff, subWithBorrow_eff, e1, if_false, hgpr _ h3, arithSetup_eff, e2,
    and_false, hni, and_self, if_true]

/-- RAX, cleared by `DoNZCV`, is still zero after the addition proper. -/
theorem addCore_rax (w : Nat) (hw : w = 32 ∨ w = 64) (inst : Inst)
    (result carry : HostLoc) (op : OpArg) (s : X64State)
    (hty : w = 64 → inst.arg1.GetType ≠ IRType.U32) (hni : inst.nzcv_inst = true)
    (h1 : HostLoc.RAX ≠ result) (h2 : HostLoc.RAX ≠ carry) (h3 : HostLoc.RAX ∉ op.regs) :
    (withSource inst op (addBlock w inst.arg2 result carry)
        (arithSetup inst result carry s)).gpr .RAX = 0 := by
  obtain ⟨src, t', hEq, -, hgpr, -, -, -⟩ :=
    withSource_cases w hw inst op (addBlock w inst.arg2 result carry)
      (arithSetup inst result carry s) hty
  have e1 := regs_ne h1; have e2 := regs_ne h2
  rw [hEq]
  simp only [addBlock_eff, addWithCarry_eff, e1, if_false, hgpr _ h3, arithSetup_eff, e2,
    and_false, hni, and_self, if_true]

/-- C3 (as the code behaves): when both the carry and the NZCV pseudo-operations are
attached to a Sub, the C flag recorded in bit 8 of the NZCV value is the guest carry,
but the carry-out value is its inverse (the borrow): `setnc` runs after the `cmc`
that precedes `lahf`. -/
theorem EmitSub_carry_with_nzcv_inverted (bitsize : Nat) (hw : bitsize = 32 ∨ bitsize = 64)
    (inst : Inst) (result carry overflow : HostLoc) (op : OpArg) (s : X64State)
    (hty : bitsize = 64 → inst.arg1.GetType ≠ IRType.U32)
    (hra : ArithAlloc result carry overflow op)
    (hc : inst.carry_inst = true) (hn : inst.nzcv_inst = true) :
    (EmitSub bitsize inst result carry overflow op s).valueOf .carry_inst 8
      = some (1 - (carryOut bitsize (inst.arg0.raw % 2 ^ bitsize)
          (2 ^ bitsize - 1 - inst.arg1.raw % 2 ^ bitsize) (inst.arg2.raw % 2)).toNat)
    ∧ ∃ v, (EmitSub bitsize inst result carry overflow op s).valueOf .nzcv_inst 32 = some v
        ∧ v / 2 ^ 8 % 2 = (carryOut bitsize (inst.arg0.raw % 2 ^ bitsize)
            (2 ^ bitsize - 1 - inst.arg1.raw % 2 ^ bitsize) (inst.arg2.raw % 2)).toNat := by
  unfold ArithAlloc at hra
  simp only [List.nodup_cons, List.mem_cons, not_or] at hra
  obtain ⟨⟨h1, h2, h3, h4⟩, ⟨h5, h6, h7⟩, ⟨h8, h9⟩, -, -⟩ := hra
  obtain ⟨-, c2, -, -, -⟩ := subCore_spec bitsize hw inst result carry op s hty h5 h7 h9
  have hrax := subCore_rax bitsize hw inst result carry op s hty hn h1 h2 h4
  obtain ⟨-, t2, -⟩ := flagOutputs_values inst .nc result carry overflow
    (nzcvOutput inst true (withSource inst op (subBlock bitsize inst.arg2 result carry)
      (arithSetup inst result carry s))) bitsize h5 h6 h8
  have hv := nzcv_value inst .nc true result carry overflow _ hn hrax h2 h3
  rw [EmitSub_eq_blocks]
  refine ⟨?_, _, hv, ?_⟩
  · rw [t2 hc]
    simp only [CC.holds, nzcvOutput_eff, hn, and_self, if_true, c2, Bool.not_not]
    cases carryOut bitsize _ _ _ <;> rfl
  · simp only [if_true, c2, Bool.not_not]
    generalize (withSource inst op (subBlock bitsize inst.arg2 result carry)
      (arithSetup inst result carry s)) = u
    have b1 := Bool.toNat_le u.SF; have b2 := Bool.toNat_le u.ZF
    have b3 := Bool.toNat_le u.AF; have b4 := Bool.toNat_le u.PF
    have b5 := Bool.toNat_le u.OF
    have b6 := Bool.toNat_le (carryOut bitsize (inst.arg0.raw % 2 ^ bitsize)
      (2 ^ bitsize - 1 - inst.arg1.raw % 2 ^ bitsize) (inst.arg2.raw % 2))
    omega

/-- C3, on the literal scenario: SUB32 with `a = 0`, `b = 1`, carry-in 1 and pseudos
{carry, NZCV} defines the carry-out as 1 although the guest carry, and the C flag in
bit 8 of the NZCV value, are 0. -/
theorem EmitSub_carry_with_nzcv_inverted_witness :
    (EmitSub 32 ⟨.val .U32 0, .val .U32 1, .imm .U1 1, true, false, true⟩
        .RBX .RSI .RDI (.reg .R8) X64State.zero).valueOf .carry_inst 8 = some 1
    ∧ ∃ v, (EmitSub 32 ⟨.val .U32 0, .val .U32 1, .imm .U1 1, true, false, true⟩
        .RBX .RSI .RDI (.reg .R8) X64State.zero).valueOf .nzcv_inst 32 = some v
      ∧ v / 2 ^ 8 % 2 = 0 := by
  have h := EmitSub_carry_with_nzcv_inverted 32 (Or.inl rfl)
    ⟨.val .U32 0, .val .U32 1, .imm .U1 1, true, false, true⟩
    .RBX .RSI .RDI (.reg .R8) X64State.zero (by decide) (by unfold ArithAlloc; decide) rfl rfl
  obtain ⟨h1, v, h2, h3⟩ := h
  exact ⟨h1.trans (by decide), v, h2, h3.trans (by decide)⟩

/-! ## Conditional select -/

/-- `EmitConditionalSelect` is the composition of its blocks. -/
theorem EmitConditionalSelect_eq_blocks (bitsize : Nat) (inst : Inst) (then_ else_ : HostLoc)
    (off : Nat) (s : X64State) :
    EmitConditionalSelect bitsize inst then_ else_ off s =
      (condMove bitsize inst.arg0.GetImmediateCond then_ else_
        (restoreFlags off (UseScratchGpr inst.arg2 else_ (UseGpr inst.arg1 then_ s)))).map
        (DefineValue .inst else_) := by
  unfold EmitConditionalSelect condMove restoreFlags
  rcases inst.arg0.GetImmediateCond with _ | c
  · rfl
  · cases c <;> rfl

/-- The flag synthesis leaves SF, ZF, CF, OF equal to bits 31, 30, 29, 28 of the
packed NZCV word and touches no register but RAX. -/
theorem restoreFlags_spec (off : Nat) (t : X64State) :
    (restoreFlags off t).SF = bit (t.cpsr_nzcv off) 31
    ∧ (restoreFlags off t).ZF = bit (t.cpsr_nzcv off) 30
    ∧ (restoreFlags off t).CF = bit (t.cpsr_nzcv off) 29
    ∧ (restoreFlags off t).OF = bit (t.cpsr_nzcv off) 28
    ∧ (∀ q, q ≠ .RAX → (restoreFlags off t).gpr q = t.gpr q)
    ∧ (restoreFlags off t).defined = t.defined := by
  unfold restoreFlags X64State.cpsr_nzcv
  simp only [sahf_eff, add_eff, and_eff, imul3_eff, shr_eff, mov_eff, X64State.readOp,
    X64State.readGpr, X64State.ea, if_true, regWrite_32, code.countMask,
    Nat.reducePow, Nat.reduceMod, Nat.reduceEqDiff, if_false, Nat.mod_mod, ne_eq]
  generalize hW : t.mem ((t.gpr .R15 + off) % 18446744073709551616) % 4294967296 = W
  have hW' : W < 4294967296 := by rw [← hW]; exact Nat.mod_lt _ (by norm_num)
  have e31 : bit W 31 = bit (W / 268435456 % 16) 3 := by
    unfold bit; congr 1; apply propext; omega
  have e30 : bit W 30 = bit (W / 268435456 % 16) 2 := by
    unfold bit; congr 1; apply propext; omega
  have e29 : bit W 29 = bit (W / 268435456 % 16) 1 := by
    unfold bit; congr 1; apply propext; omega
  have e28 : bit W 28 = bit (W / 268435456 % 16) 0 := by
    unfold bit; congr 1; apply propext; omega
  have en : W / 268435456 % 4294967296 = W / 268435456 % 16 := by omega
  rw [e31, e30, e29, e28, en]
  have hn : W / 268435456 % 16 < 16 := Nat.mod_lt _ (by norm_num)
  generalize W / 268435456 % 16 = n at hn ⊢
  refine ⟨?_, ?_, ?_, ?_, fun q hq => by simp only [hq, if_false], trivial⟩ <;>
    (revert n; decide)

/-- Reading back a full-width write. -/
theorem regWrite_mod_self (w : Nat) (hw : w = 32 ∨ w = 64) (old v : Nat) :
    regWrite w old v % 2 ^ w = v % 2 ^ w := by
  rcases hw with rfl | rfl <;> simp

/-- Every case of the `switch` moves `then_` into `else_` exactly when the guest
condition holds on (SF, ZF, CF, OF). -/
theorem condMove_spec (bitsize : Nat) (hw : bitsize = 32 ∨ bitsize = 64) (c : Cond)
    (then_ else_ : HostLoc) (u : X64State) :
    ∃ u', condMove bitsize (some c) then_ else_ u = some u'
      ∧ u'.gpr else_ % 2 ^ bitsize
          = (if condHolds c u.SF u.ZF u.CF u.OF then u.gpr then_ % 2 ^ bitsize
              else u.gpr else_ % 2 ^ bitsize)
      ∧ u'.defined = u.defined := by
  cases c <;> refine ⟨_, rfl, ?_, ?_⟩ <;>
    simp only [cmovcc_eff, mov_eff, cmc_eff, CC.holds, condHolds, if_true,
      regWrite_mod_self bitsize hw, X64State.readGpr, X64State.readOp, Bool.not_not,
      apply_ite (· % 2 ^ bitsize), Nat.mod_mod, Bool.not_eq_true', Bool.and_eq_true,
      Bool.or_eq_true, beq_iff_eq, bne_iff_ne, ne_eq, Bool.not_eq_false']

/-- Value selected by `EmitConditionalSelect`, as a function of the top nibble of
the packed NZCV word. -/
theorem EmitConditionalSelect_value (bitsize : Nat) (hw : bitsize = 32 ∨ bitsize = 64)
    (c : Cond) (inst : Inst) (hc : inst.arg0.GetImmediateCond = some c)
    (then_ else_ : HostLoc) (off : Nat) (s : X64State) (hra : SelectAlloc then_ else_) :
    ∃ s', EmitConditionalSelect bitsize inst then_ else_ off s = some s'
      ∧ s'.valueOf .inst bitsize
          = some (if condHolds c (bit (s.cpsr_nzcv off / 2 ^ 28) 3)
                (bit (s.cpsr_nzcv off / 2 ^ 28) 2) (bit (s.cpsr_nzcv off / 2 ^ 28) 1)
                (bit (s.cpsr_nzcv off / 2 ^ 28) 0)
              then inst.arg1.raw % 2 ^ bitsize else inst.arg2.raw % 2 ^ bitsize) := by
  unfold SelectAlloc at hra
  simp only [List.nodup_cons, List.mem_cons, List.mem_singleton, not_or, List.not_mem_nil,
    not_false_eq_true, List.nodup_nil, and_true] at hra
  obtain ⟨⟨-, h2, h3⟩, ⟨h4, h5⟩, h6⟩ := hra
  have e2 := regs_ne h2; have e3 := regs_ne h3; have e4 := regs_ne h4
  have e5 := regs_ne h5; have e6 := regs_ne h6
  obtain ⟨f1, f2, f3, f4, f5, f6⟩ :=
    restoreFlags_spec off (UseScratchGpr inst.arg2 else_ (UseGpr inst.arg1 then_ s))
  obtain ⟨u', g1, g2, g3⟩ := condMove_spec bitsize hw c then_ else_
    (restoreFlags off (UseScratchGpr inst.arg2 else_ (UseGpr inst.arg1 then_ s)))
  have hW : (UseScratchGpr inst.arg2 else_ (UseGpr inst.arg1 then_ s)).cpsr_nzcv off
      = s.cpsr_nzcv off := by
    simp only [X64State.cpsr_nzcv, UseScratchGpr_eff, UseGpr_eff, e4, e5, if_false]
  have b3 : ∀ W : Nat, bit W 31 = bit (W / 2 ^ 28) 3 := fun W => by
    unfold bit; congr 1; apply propext; omega
  have b2 : ∀ W : Nat, bit W 30 = bit (W / 2 ^ 28) 2 := fun W => by
    unfold bit; congr 1; apply propext; omega
  have b1 : ∀ W : Nat, bit W 29 = bit (W / 2 ^ 28) 1 := fun W => by
    unfold bit; congr 1; apply propext; omega
  have b0 : ∀ W : Nat, bit W 28 = bit (W / 2 ^ 28) 0 := fun W => by
    unfold bit; congr 1; apply propext; omega
  have hm : ∀ x : Nat, x % 2 ^ 64 % 2 ^ bitsize = x % 2 ^ bitsize := fun x => by
    rcases hw with rfl | rfl <;> omega
  rw [EmitConditionalSelect_eq_blocks, hc, g1]
  refine ⟨_, rfl, ?_⟩
  simp only [X64State.valueOf, X64State.locOf, DefineValue_eff, List.reverse_append,
    List.reverse_cons, List.reverse_nil, List.nil_append, List.cons_append, List.find?_cons,
    decide_True, Option.map_some', X64State.readGpr, g2, f1, f2, f3, f4, hW,
    f5 _ (Ne.symm h2), f5 _ (Ne.symm h3), UseScratchGpr_eff, UseGpr_eff, e6, if_true, if_false,
    b3, b2, b1, b0, hm]

/-- C4: for each of the 16 guest condition codes and every packed NZCV word, the
sequence emitted by `EmitConditionalSelect` (32- and 64-bit) leaves the `then`
value when the ARM condition holds on the top nibble (N, Z, C, V) of the word and the
`else` value otherwise; AL and NV always yield `then`; the result depends on the word
only through its bits 31..28. -/
theorem EmitConditionalSelect_selects (bitsize : Nat) (hw : bitsize = 32 ∨ bitsize = 64)
    (c : Cond) (inst : Inst) (hc : inst.arg0.GetImmediateCond = some c)
    (then_ else_ : HostLoc) (off : Nat) (s : X64State) (hra : SelectAlloc then_ else_) :
    (∃ s', EmitConditionalSelect bitsize inst then_ else_ off s = some s'
      ∧ s'.valueOf .inst bitsize
          = some (if condHolds c (bit (s.cpsr_nzcv off / 2 ^ 28) 3)
                (bit (s.cpsr_nzcv off / 2 ^ 28) 2) (bit (s.cpsr_nzcv off / 2 ^ 28) 1)
                (bit (s.cpsr_nzcv off / 2 ^ 28) 0)
              then inst.arg1.raw % 2 ^ bitsize else inst.arg2.raw % 2 ^ bitsize))
    ∧ (∀ N Z C V, condHolds .AL N Z C V = true ∧ condHolds .NV N Z C V = true) :=
  ⟨EmitConditionalSelect_value bitsize hw c inst hc then_ else_ off s hra,
    fun _ _ _ _ => ⟨rfl, rfl⟩⟩

/-- C4, on a 64-bit select with condition HI and nibble 0010 (C = 1, Z = 0): the
`then` value is selected, whatever the low 28 bits of the word are. -/
theorem EmitConditionalSelect_selects_witness :
    ∃ s', EmitConditionalSelect 64 ⟨.imm .Cond 8, .val .U64 0x1111, .val .U64 0x2222,
        false, false, false⟩ .RBX .RSI 0x40
        { X64State.zero with mem := fun _ => 0x2FFFFFFF } = some s'
      ∧ s'.valueOf .inst 64 = some 0x1111 := by
  obtain ⟨s', h1, h2⟩ := (EmitConditionalSelect_selects 64 (Or.inr rfl) .HI
    ⟨.imm .Cond 8, .val .U64 0x1111, .val .U64 0x2222, false, false, false⟩ rfl
    .RBX .RSI 0x40 { X64State.zero with mem := fun _ => 0x2FFFFFFF }
    (by unfold SelectAlloc; decide)).1
  exact ⟨s', h1, h2.trans (by decide)⟩

/-- C5 fails as stated: with condition GT, then = 0xAA, else = 0xBB and the NZCV
nibble 0000 the select does not return 0xBB. -/
theorem ConditionalSelect32_GT_nibble0000_counterexample :
    ¬ ((EmitConditionalSelect32 ⟨.imm .Cond 12, .val .U32 0xAA, .val .U32 0xBB,
          false, false, false⟩ .RBX .RSI 0x40
          { X64State.zero with mem := fun _ => 0x00000000 }).bind
        (fun s' => s'.valueOf .inst 32) = some 0xBB) := by
  decide

/-- C5 (amended): ConditionalSelect32 with condition GT, then = 0xAA and else = 0xBB
returns 0xAA when the packed NZCV nibble is 0000, and returns 0xAA when the nibble
is 0010. -/
theorem ConditionalSelect32_GT_scenario (then_ else_ : HostLoc) (off : Nat) (s : X64State)
    (hra : SelectAlloc then_ else_)
    (hn : s.cpsr_nzcv off / 2 ^ 28 = 0 ∨ s.cpsr_nzcv off / 2 ^ 28 = 2) :
    ∃ s', EmitConditionalSelect32 ⟨.imm .Cond 12, .val .U32 0xAA, .val .U32 0xBB,
        false, false, false⟩ then_ else_ off s = some s'
      ∧ s'.valueOf .inst 32 = some 0xAA := by
  obtain ⟨s', h1, h2⟩ := EmitConditionalSelect_value 32 (Or.inl rfl) .GT
    ⟨.imm .Cond 12, .val .U32 0xAA, .val .U32 0xBB, false, false, false⟩ rfl
    then_ else_ off s hra
  refine ⟨s', h1, h2.trans ?_⟩
  rcases hn with hn | hn <;> rw [hn] <;> decide

/-- C5 (amended), on an all-zero JIT state, where the nibble is 0000. -/
theorem ConditionalSelect32_GT_scenario_witness :
    ∃ s', EmitConditionalSelect32 ⟨.imm .Cond 12, .val .U32 0xAA, .val .U32 0xBB,
        false, false, false⟩ .RBX .RSI 0x40 X64State.zero = some s'
      ∧ s'.valueOf .inst 32 = some 0xAA :=
  ConditionalSelect32_GT_scenario .RBX .RSI 0x40 X64State.zero
    (by unfold SelectAlloc; decide) (Or.inl (by decide))

/-- Bits 15, 14, 8 and 0 of the captured flag word are SF, ZF, CF and OF. -/
theorem nzcvWord_bits : ∀ sf zf af pf cf ovf : Bool,
    bit ((sf.toNat * 128 + zf.toNat * 64 + af.toNat * 16 + pf.toNat * 4 + 2 + cf.toNat) * 256
        + ovf.toNat) 15 = sf
    ∧ bit ((sf.toNat * 128 + zf.toNat * 64 + af.toNat * 16 + pf.toNat * 4 + 2 + cf.toNat) * 256
        + ovf.toNat) 14 = zf
    ∧ bit ((sf.toNat * 128 + zf.toNat * 64 + af.toNat * 16 + pf.toNat * 4 + 2 + cf.toNat) * 256
        + ovf.toNat) 8 = cf
    ∧ bit ((sf.toNat * 128 + zf.toNat * 64 + af.toNat * 16 + pf.toNat * 4 + 2 + cf.toNat) * 256
        + ovf.toNat) 0 = ovf := by
  decide

/-! ## Division -/

/-- Effect of a completed `div`/`idiv` on each component of the state. -/
@[simp] theorem divWrite_eff (w q r : Nat) (s : X64State) :
    (∀ x, (code.divWrite w q r s).gpr x
        = (if x = .RDX then regWrite w (s.gpr .RDX) r
            else if x = .RAX then regWrite w (s.gpr .RAX) q else s.gpr x))
    ∧ (code.divWrite w q r s).mem = s.mem
    ∧ (code.divWrite w q r s).defined = s.defined
    ∧ (code.divWrite w q r s).erased = s.erased
    ∧ (code.divWrite w q r s).divs = s.divs + 1 := by
  exact ⟨fun _ => rfl, rfl, rfl, rfl, rfl⟩

/-- The zero test at the head of every division emitter: with a zero divisor the
jump to the end label is taken with RAX cleared. -/
theorem div_zero_path (w : Nat) (hw : w = 32 ∨ w = 64) (inst : Inst)
    (dividend divisor : HostLoc) (s : X64State) (hra : DivAlloc inst dividend divisor)
    (hz : inst.arg1.raw % 2 ^ w = 0) :
    CC.z.holds (code.test w divisor (.reg divisor) (code.xor_ 32 .RAX (.reg .RAX)
        (UseGpr inst.arg1 divisor (UseGpr inst.arg0 dividend s)))) = true
    ∧ (code.test w divisor (.reg divisor) (code.xor_ 32 .RAX (.reg .RAX)
        (UseGpr inst.arg1 divisor (UseGpr inst.arg0 dividend s)))).gpr .RAX = 0
    ∧ (code.test w divisor (.reg divisor) (code.xor_ 32 .RAX (.reg .RAX)
        (UseGpr inst.arg1 divisor (UseGpr inst.arg0 dividend s)))).divs = s.divs := by
  obtain ⟨-, h2, -, -, -⟩ := hra
  have e2 := regs_ne h2
  have hm : inst.arg1.raw % 18446744073709551616 % 2 ^ w = 0 := by
    rcases hw with rfl | rfl <;> omega
  simp only [CC.holds, test_eff, xor_eff, UseGpr_eff, X64State.readOp, X64State.readGpr,
    e2, if_true, if_false, Nat.xor_self, Nat.and_self, Nat.reducePow, hm, regWrite_32,
    Nat.zero_mod, decide_True, and_self]

/-- C7: for every dividend, each of UnsignedDiv32, UnsignedDiv64, SignedDiv32 and
SignedDiv64 with divisor 0 completes without a host divide error, defines the result
as 0 with every bit of the accumulator zero, and executes no `div`/`idiv`. -/
theorem div_by_zero_yields_zero (inst : Inst) (dividend divisor : HostLoc) (s : X64State)
    (hra : DivAlloc inst dividend divisor) :
    (inst.arg1.raw % 2 ^ 32 = 0 →
      (∃ s', EmitUnsignedDiv32 inst dividend divisor s = some s'
          ∧ s'.valueOf .inst 32 = some 0 ∧ s'.gpr .RAX = 0 ∧ s'.divs = s.divs)
      ∧ (∃ s', EmitSignedDiv32 inst dividend divisor s = some s'
          ∧ s'.valueOf .inst 32 = some 0 ∧ s'.gpr .RAX = 0 ∧ s'.divs = s.divs))
    ∧ (inst.arg1.raw % 2 ^ 64 = 0 →
      (∃ s', EmitUnsignedDiv64 inst dividend divisor s = some s'
          ∧ s'.valueOf .inst 64 = some 0 ∧ s'.gpr .RAX = 0 ∧ s'.divs = s.divs)
      ∧ (∃ s', EmitSignedDiv64 inst dividend divisor s = some s'
          ∧ s'.valueOf .inst 64 = some 0 ∧ s'.gpr .RAX = 0 ∧ s'.divs = s.divs)) := by
  constructor
  · intro hz
    obtain ⟨z1, z2, z3⟩ := div_zero_path 32 (Or.inl rfl) inst dividend divisor s hra hz
    constructor
    · refine ⟨_, by unfold EmitUnsignedDiv32; simp only [z1, if_true, Option.map_some']; rfl,
        ?_, ?_, ?_⟩
      · simp only [X64State.valueOf, X64State.locOf, DefineValue_eff, List.reverse_append,
          List.reverse_cons, List.reverse_nil, List.nil_append, List.cons_append,
          List.find?_cons, decide_True, Option.map_some', X64State.readGpr, z2, Nat.zero_mod]
      · simp only [DefineValue_eff, z2]
      · simp only [DefineValue_eff, z3]
    · refine ⟨_, by unfold EmitSignedDiv32; simp only [z1, if_true, Option.map_some']; rfl,
        ?_, ?_, ?_⟩
      · simp only [X64State.valueOf, X64State.locOf, DefineValue_eff, List.reverse_append,
          List.reverse_cons, List.reverse_nil, List.nil_append, List.cons_append,
          List.find?_cons, decide_True, Option.map_some', X64State.readGpr, z2, Nat.zero_mod]
      · simp only [DefineValue_eff, z2]
      · simp only [DefineValue_eff, z3]
  · intro hz
    obtain ⟨z1, z2, z3⟩ := div_zero_path 64 (Or.inr rfl) inst dividend divisor s hra hz
    constructor
    · refine ⟨_, by unfold EmitUnsignedDiv64; simp only [z1, if_true, Option.map_some']; rfl,
        ?_, ?_, ?_⟩
      · simp only [X64State.valueOf, X64State.locOf, DefineValue_eff, List.reverse_append,
          List.reverse_cons, List.reverse_nil, List.nil_append, List.cons_append,
          List.find?_cons, decide_True, Option.map_some', X64State.readGpr, z2, Nat.zero_mod]
      · simp only [DefineValue_eff, z2]
      · simp only [DefineValue_eff, z3]
    · refine ⟨_, by unfold EmitSignedDiv64; simp only [z1, if_true, Option.map_some']; rfl,
        ?_, ?_, ?_⟩
      · simp only [X64State.valueOf, X64State.locOf, DefineValue_eff, List.reverse_append,
          List.reverse_cons, List.reverse_nil, List.nil_append, List.cons_append,
          List.find?_cons, decide_True, Option.map_some', X64State.readGpr, z2, Nat.zero_mod]
      · simp only [DefineValue_eff, z2]
      · simp only [DefineValue_eff, z3]

/-- C7, on the literal scenario: UDIV64 with dividend `0xFFFFFFFFFFFFFFFF` and
divisor 0 gives 0. -/
theorem div_by_zero_yields_zero_witness :
    ∃ s', EmitUnsignedDiv64 ⟨.val .U64 0xFFFFFFFFFFFFFFFF, .val .U64 0, .imm .U1 0,
        false, false, false⟩ .RBX .RSI X64State.zero = some s'
      ∧ s'.valueOf .inst 64 = some 0 ∧ s'.gpr .RAX = 0 ∧ s'.divs = 0 :=
  ((div_by_zero_yields_zero ⟨.val .U64 0xFFFFFFFFFFFFFFFF, .val .U64 0, .imm .U1 0,
    false, false, false⟩ .RBX .RSI X64State.zero (by unfold DivAlloc; decide)).2
    (by decide)).1

/-- The non-zero path of the unsigned division emitters: the zero test falls
through, the dividend is zero-extended into RDX:RAX, and `div` completes with the
quotient and remainder of the two operands. -/
theorem udiv_nonzero_path (w : Nat) (hw : w = 32 ∨ w = 64) (inst : Inst)
    (dividend divisor : HostLoc) (s : X64State) (hra : DivAlloc inst dividend divisor)
    (hnz : inst.arg1.raw % 2 ^ w ≠ 0) :
    CC.z.holds (code.test w divisor (.reg divisor) (code.xor_ 32 .RAX (.reg .RAX)
        (UseGpr inst.arg1 divisor (UseGpr inst.arg0 dividend s)))) = false
    ∧ code.div w divisor (code.xor_ 32 .RDX (.reg .RDX) (code.mov w .RAX (.reg dividend)
        (code.test w divisor (.reg divisor) (code.xor_ 32 .RAX (.reg .RAX)
          (UseGpr inst.arg1 divisor (UseGpr inst.arg0 dividend s))))))
      = some (code.divWrite w (inst.arg0.raw % 2 ^ w / (inst.arg1.raw % 2 ^ w))
          (inst.arg0.raw % 2 ^ w % (inst.arg1.raw % 2 ^ w))
          (code.xor_ 32 .RDX (.reg .RDX) (code.mov w .RAX (.reg dividend)
            (code.test w divisor (.reg divisor) (code.xor_ 32 .RAX (.reg .RAX)
              (UseGpr inst.arg1 divisor (UseGpr inst.arg0 dividend s))))))) := by
  obtain ⟨h1, h2, h3, h4, h5⟩ := hra
  have e1 := regs_ne h1; have e2 := regs_ne h2; have e3 := regs_ne h3; have e4 := regs_ne h4
  have hm : ∀ x : Nat, x % 18446744073709551616 % 2 ^ w = x % 2 ^ w := fun x => by
    rcases hw with rfl | rfl <;> omega
  have hmm : ∀ x : Nat, regWrite w x (inst.arg0.raw % 2 ^ w) % 2 ^ w = inst.arg0.raw % 2 ^ w :=
    fun x => by rw [regWrite_mod_self w hw, Nat.mod_mod]
  have hdd : (if dividend = divisor then inst.arg1.raw % 18446744073709551616
      else inst.arg0.raw % 18446744073709551616) = inst.arg0.raw % 18446744073709551616 := by
    by_cases h : dividend = divisor
    · rw [if_pos h, h5 h]
    · rw [if_neg h]
  constructor
  · simp only [CC.holds, test_eff, xor_eff, UseGpr_eff, X64State.readOp, X64State.readGpr,
      e2, if_true, if_false, Nat.and_self, Nat.reducePow, hm, Nat.mod_mod, hnz, decide_False]
  · have hlt : inst.arg0.raw % 2 ^ w / (inst.arg1.raw % 2 ^ w) < 2 ^ w :=
      lt_of_le_of_lt (Nat.div_le_self _ _) (Nat.mod_lt _ (by positivity))
    unfold code.div
    simp only [xor_eff, mov_eff, test_eff, UseGpr_eff, X64State.readOp, X64State.readGpr,
      e1, e2, e3, e4, if_true, if_false, Nat.reducePow, hm, hmm, hdd, Nat.xor_self,
      regWrite_32, Nat.zero_mod, Nat.zero_mul, Nat.zero_add, hnz, reduceCtorEq,
      Nat.not_le.mpr hlt]

/-- C8: for width 32 or 64, every dividend `a` and every non-zero divisor `d`, the
UnsignedDiv sequence completes without a host divide error (the quotient of the
zero-extended dividend fits in `w` bits), executes exactly one `div`, and defines
the result as `a / d`, the floor of the unsigned quotient. -/
theorem unsigned_div_quotient (inst : Inst) (dividend divisor : HostLoc) (s : X64State)
    (hra : DivAlloc inst dividend divisor) :
    (inst.arg1.raw % 2 ^ 32 ≠ 0 →
      (0 * 2 ^ 32 + inst.arg0.raw % 2 ^ 32) / (inst.arg1.raw % 2 ^ 32) < 2 ^ 32
      ∧ ∃ s', EmitUnsignedDiv32 inst dividend divisor s = some s'
          ∧ s'.valueOf .inst 32 = some (inst.arg0.raw % 2 ^ 32 / (inst.arg1.raw % 2 ^ 32))
          ∧ s'.divs = s.divs + 1)
    ∧ (inst.arg1.raw % 2 ^ 64 ≠ 0 →
      (0 * 2 ^ 64 + inst.arg0.raw % 2 ^ 64) / (inst.arg1.raw % 2 ^ 64) < 2 ^ 64
      ∧ ∃ s', EmitUnsignedDiv64 inst dividend divisor s = some s'
          ∧ s'.valueOf .inst 64 = some (inst.arg0.raw % 2 ^ 64 / (inst.arg1.raw % 2 ^ 64))
          ∧ s'.divs = s.divs + 1) := by
  constructor
  · intro hnz
    have hlt : inst.arg0.raw % 2 ^ 32 / (inst.arg1.raw % 2 ^ 32) < 2 ^ 32 :=
      lt_of_le_of_lt (Nat.div_le_self _ _) (Nat.mod_lt _ (by positivity))
    obtain ⟨p1, p2⟩ := udiv_nonzero_path 32 (Or.inl rfl) inst dividend divisor s hra hnz
    refine ⟨by rw [Nat.zero_mul, Nat.zero_add]; exact hlt, _, by
      unfold EmitUnsignedDiv32
      simp only [p1, Bool.false_eq_true, if_false, p2, Option.map_some']
      rfl, ?_, ?_⟩
    · simp only [X64State.valueOf, X64State.locOf, DefineValue_eff, divWrite_eff,
        List.reverse_append, List.reverse_cons, List.reverse_nil, List.nil_append,
        List.cons_append, List.find?_cons, decide_True, Option.map_some', X64State.readGpr,
        reduceCtorEq, if_true, if_false, regWrite_32, Nat.reducePow, Nat.mod_mod,
        Option.some.injEq]
      exact Nat.mod_eq_of_lt hlt
    · simp only [DefineValue_eff, divWrite_eff, xor_eff, mov_eff, test_eff, UseGpr_eff]
  · intro hnz
    have hlt : inst.arg0.raw % 2 ^ 64 / (inst.arg1.raw % 2 ^ 64) < 2 ^ 64 :=
      lt_of_le_of_lt (Nat.div_le_self _ _) (Nat.mod_lt _ (by positivity))
    obtain ⟨p1, p2⟩ := udiv_nonzero_path 64 (Or.inr rfl) inst dividend divisor s hra hnz
    refine ⟨by rw [Nat.zero_mul, Nat.zero_add]; exact hlt, _, by
      unfold EmitUnsignedDiv64
      simp only [p1, Bool.false_eq_true, if_false, p2, Option.map_some']
      rfl, ?_, ?_⟩
    · simp only [X64State.valueOf, X64State.locOf, DefineValue_eff, divWrite_eff,
        List.reverse_append, List.reverse_cons, List.reverse_nil, List.nil_append,
        List.cons_append, List.find?_cons, decide_True, Option.map_some', X64State.readGpr,
        reduceCtorEq, if_true, if_false, regWrite_64, Nat.reducePow, Nat.mod_mod,
        Option.some.injEq]
      exact Nat.mod_eq_of_lt hlt
    · simp only [DefineValue_eff, divWrite_eff, xor_eff, mov_eff, test_eff, UseGpr_eff]

/-- C8, on UDIV32 with dividend `0xFFFFFFFF` and divisor 3: the result is
`0x55555555`. -/
theorem unsigned_div_quotient_witness :
    ∃ s', EmitUnsignedDiv32 ⟨.val .U32 0xFFFFFFFF, .val .U32 3, .imm .U1 0,
        false, false, false⟩ .RBX .RSI X64State.zero = some s'
      ∧ s'.valueOf .inst 32 = some 0x55555555 ∧ s'.divs = 1 := by
  obtain ⟨-, s', h1, h2, h3⟩ := (unsigned_div_quotient ⟨.val .U32 0xFFFFFFFF, .val .U32 3,
    .imm .U1 0, false, false, false⟩ .RBX .RSI X64State.zero
    (by unfold DivAlloc; decide)).1 (by decide)
  exact ⟨s', h1, h2.trans (by decide), h3⟩

/-! ## Shifts -/

/-- Values defined at the end of a shift emitter with carry-out. -/
theorem shiftOutputs_values (result carry : HostLoc) (u : X64State) :
    (DefineValue .inst result (EraseInstruction .carry_inst
        (DefineValue .carry_inst carry u))).valueOf .inst 32 = some (u.gpr result % 2 ^ 32)
    ∧ (DefineValue .inst result (EraseInstruction .carry_inst
        (DefineValue .carry_inst carry u))).valueOf .carry_inst 8
        = some (u.gpr carry % 2 ^ 8) := by
  simp only [X64State.valueOf, X64State.locOf, DefineValue_eff, EraseInstruction_eff,
    List.reverse_append, List.reverse_cons, List.reverse_nil, List.nil_append,
    List.cons_append, List.find?_cons, decide_True, decide_False, reduceCtorEq,
    Option.map_some', X64State.readGpr, and_self]

/-- A bit as a number, read through the low byte. -/
theorem bit_toNat_eq (x i : Nat) : (bit x i).toNat = x / 2 ^ i % 2 := by
  unfold bit
  rcases Nat.mod_two_eq_zero_or_one (x / 2 ^ i) with h | h <;> simp [h]

/-- Register and flags after the body of `EmitLogicalShiftLeft32` with a carry-out
and an immediate count. -/
theorem lsl32_imm_body (x c sh : Nat) (result carry : HostLoc) (t : X64State)
    (hsh : sh < 256) (hres : t.gpr result = x) (hcar : t.gpr carry = c)
    (h1 : result ≠ carry) :
    ((if sh = 0 then t
      else if sh < 32 then
        t |> code.bt 32 carry 0 |> code.shl 32 result sh |> code.setcc .c carry
      else if sh > 32 then
        t |> code.xor_ 32 result (.reg result) |> code.xor_ 32 carry (.reg carry)
      else
        t |> code.mov 32 carry (.reg result) |> code.xor_ 32 result (.reg result)
          |> code.and_ 32 carry (.imm 1)).gpr result % 2 ^ 32
        = (lsl32WithCarry (x % 2 ^ 32) sh (c % 256)).1)
    ∧ ((if sh = 0 then t
      else if sh < 32 then
        t |> code.bt 32 carry 0 |> code.shl 32 result sh |> code.setcc .c carry
      else if sh > 32 then
        t |> code.xor_ 32 result (.reg result) |> code.xor_ 32 carry (.reg carry)
      else
        t |> code.mov 32 carry (.reg result) |> code.xor_ 32 result (.reg result)
          |> code.and_ 32 carry (.imm 1)).gpr carry % 2 ^ 8
        = (lsl32WithCarry (x % 2 ^ 32) sh (c % 256)).2) := by
  have e1 := regs_ne h1
  unfold lsl32WithCarry
  by_cases h0 : sh = 0
  · simp only [h0, if_true, hres, hcar, Nat.reducePow, and_self]
  · by_cases hlt : sh < 32
    · have hle : sh ≤ 31 := by omega
      have hm : sh % 32 = sh := Nat.mod_eq_of_lt hlt
      simp only [h0, hlt, hle, if_true, if_false, setcc_eff, shl_eff, bt_eff, e1,
        code.countMask, Nat.reduceEqDiff, hm, X64State.readGpr, hres, regWrite_32, CC.holds,
        Nat.reducePow, regWrite_8_low, toNat_mod_256, bit_toNat_eq, Nat.mod_mod, true_and]
      generalize x % 4294967296 / 2 ^ (32 - sh) = y
      omega
    · by_cases hgt : sh > 32
      · have hle : ¬ sh ≤ 31 := by omega
        have hne : ¬ sh = 32 := by omega
        simp only [h0, hlt, hgt, hle, hne, if_true, if_false, xor_eff, e1, X64State.readOp,
          X64State.readGpr, Nat.xor_self, regWrite_32, Nat.zero_mod, and_self]
      · have h32 : sh = 32 := by omega
        subst h32
        simp only [h0, hlt, hgt, if_true, if_false, xor_eff, and_eff, mov_eff, e1,
          X64State.readOp, X64State.readGpr, Nat.xor_self, regWrite_32, Nat.zero_mod, hres,
          Nat.reducePow, Nat.reduceLeDiff, Nat.reduceMod, Nat.reduceEqDiff,
          Nat.and_one_is_mod, Nat.mod_mod, true_and]
        omega

/-- Outcome of `cmp cl, 32`: above, equal, or neither. -/
theorem cmp_cl_32 (t : X64State) :
    CC.a.holds (code.cmp 8 .RCX (.imm 32) t) = decide (32 < t.gpr .RCX % 256)
    ∧ CC.z.holds (code.cmp 8 .RCX (.imm 32) t) = decide (t.gpr .RCX % 256 = 32)
    ∧ (∀ q, (code.cmp 8 .RCX (.imm 32) t).gpr q = t.gpr q) := by
  have hlt : t.gpr .RCX % 256 < 256 := Nat.mod_lt _ (by norm_num)
  refine ⟨?_, ?_, fun q => by simp only [cmp_eff]⟩
  · simp only [CC.holds, cmp_eff, X64State.readGpr, X64State.readOp, Nat.reducePow,
      Nat.reduceEqDiff, if_false, Nat.reduceMod, Nat.add_zero, Nat.mod_mod]
    rw [Bool.eq_iff_iff]
    simp only [Bool.and_eq_true, Bool.not_eq_true', decide_eq_false_iff_not, decide_eq_true_eq]
    omega
  · simp only [CC.holds, cmp_eff, X64State.readGpr, X64State.readOp, Nat.reducePow,
      Nat.reduceEqDiff, if_false, Nat.reduceMod, Nat.add_zero, Nat.mod_mod]
    rw [Bool.eq_iff_iff]
    simp only [decide_eq_true_eq]
    omega

/-- Register and flags after the body of `EmitLogicalShiftLeft32` with a carry-out
and the count in CL. -/
theorem lsl32_reg_body (x c sc : Nat) (result carry : HostLoc) (t : X64State)
    (hc : c % 256 ≤ 1) (hres : t.gpr result = x) (hcar : t.gpr carry = c)
    (hcx : t.gpr .RCX = sc) (h1 : result ≠ carry) :
    ((if CC.a.holds (code.cmp 8 .RCX (.imm 32) t) then
        code.cmp 8 .RCX (.imm 32) t |> code.xor_ 32 result (.reg result)
          |> code.xor_ 32 carry (.reg carry)
      else if CC.z.holds (code.cmp 8 .RCX (.imm 32) t) then
        code.cmp 8 .RCX (.imm 32) t |> code.mov 32 carry (.reg result)
          |> code.and_ 32 carry (.imm 1) |> code.xor_ 32 result (.reg result)
      else
        code.cmp 8 .RCX (.imm 32) t |> code.bt 32 carry 0 |> code.shl_cl 32 result
          |> code.setcc .c carry).gpr result % 2 ^ 32
        = (lsl32WithCarry (x % 2 ^ 32) (sc % 256) (c % 256)).1)
    ∧ ((if CC.a.holds (code.cmp 8 .RCX (.imm 32) t) then
        code.cmp 8 .RCX (.imm 32) t |> code.xor_ 32 result (.reg result)
          |> code.xor_ 32 carry (.reg carry)
      else if CC.z.holds (code.cmp 8 .RCX (.imm 32) t) then
        code.cmp 8 .RCX (.imm 32) t |> code.mov 32 carry (.reg result)
          |> code.and_ 32 carry (.imm 1) |> code.xor_ 32 result (.reg result)
      else
        code.cmp 8 .RCX (.imm 32) t |> code.bt 32 carry 0 |> code.shl_cl 32 result
          |> code.setcc .c carry).gpr carry % 2 ^ 8
        = (lsl32WithCarry (x % 2 ^ 32) (sc % 256) (c % 256)).2) := by
  have e1 := regs_ne h1
  obtain ⟨ha, hz, hg⟩ := cmp_cl_32 t
  have hsh : sc % 256 < 256 := Nat.mod_lt _ (by norm_num)
  rw [ha, hz, hcx]
  unfold lsl32WithCarry
  generalize hs : sc % 256 = sh at hsh ⊢
  by_cases hgt : 32 < sh
  · have h0 : ¬ sh = 0 := by omega
    have hle : ¬ sh ≤ 31 := by omega
    have hne : ¬ sh = 32 := by omega
    simp only [hgt, h0, hle, hne, decide_True, if_true, if_false, xor_eff, e1,
      X64State.readOp, X64State.readGpr, Nat.xor_self, regWrite_32, Nat.zero_mod, and_self]
  · by_cases h32 : sh = 32
    · subst h32
      simp only [hgt, decide_True, decide_False, Bool.false_eq_true, if_true, if_false,
        xor_eff, and_eff, mov_eff, e1, hg,
        X64State.readOp, X64State.readGpr, Nat.xor_self, regWrite_32, Nat.zero_mod, hres,
        Nat.reducePow, Nat.reduceLeDiff, Nat.reduceMod, Nat.reduceEqDiff,
        Nat.and_one_is_mod, Nat.mod_mod, true_and]
      omega
    · have hlt : sh < 32 := by omega
      have hm : sh % 32 = sh := Nat.mod_eq_of_lt hlt
      by_cases h0 : sh = 0
      · subst h0
        simp only [hgt, h32, decide_False, Bool.false_eq_true, if_true, if_false, setcc_eff,
          code.shl_cl, shl_eff, zeroCount_32, bt_eff, e1, hg, hcx, hs, code.countMask,
          Nat.reduceEqDiff, X64State.readGpr, hres, hcar, CC.holds, Nat.reducePow, Nat.zero_mod,
          regWrite_8_low, toNat_mod_256, bit_toNat_eq, Nat.mod_mod, true_and, Nat.div_one]
        omega
      · have hle : sh ≤ 31 := by omega
        simp only [hgt, h32, h0, hle, decide_False, Bool.false_eq_true, if_true, if_false,
          setcc_eff, code.shl_cl, shl_eff, bt_eff, e1, hg, hcx, hs, code.countMask,
          Nat.reduceEqDiff, hm, X64State.readGpr, hres, regWrite_32, CC.holds, Nat.reducePow,
          regWrite_8_low, toNat_mod_256, bit_toNat_eq, Nat.mod_mod, true_and]
        generalize x % 4294967296 / 2 ^ (32 - sh) = y
        omega

/-- Result and carry-out of `EmitLogicalShiftLeft32` with the carry pseudo-operation
attached. -/
theorem lsl32_emitter_values (inst : Inst) (result carry zero : HostLoc)
    (s : X64State) (hci : inst.carry_inst = true) (hc : inst.arg2.raw % 256 ≤ 1)
    (hra : ShiftAlloc result carry) :
    (EmitLogicalShiftLeft32 inst result carry zero s).valueOf .inst 32
      = some (lsl32WithCarry (inst.arg0.raw % 2 ^ 32) (inst.arg1.raw % 256)
          (inst.arg2.raw % 256)).1
    ∧ (EmitLogicalShiftLeft32 inst result carry zero s).valueOf .carry_inst 8
      = some (lsl32WithCarry (inst.arg0.raw % 2 ^ 32) (inst.arg1.raw % 256)
          (inst.arg2.raw % 256)).2 := by
  unfold ShiftAlloc at hra
  simp only [List.nodup_cons, List.mem_cons, List.mem_singleton, not_or, List.not_mem_nil,
    not_false_eq_true, List.nodup_nil, and_true] at hra
  obtain ⟨⟨h1, h2⟩, h3⟩ := hra
  have e1 := regs_ne h1; have e2 := regs_ne h2; have e3 := regs_ne h3
  have hx : inst.arg0.raw % 2 ^ 64 % 2 ^ 32 = inst.arg0.raw % 2 ^ 32 := by omega
  have hcc : inst.arg2.raw % 2 ^ 64 % 256 = inst.arg2.raw % 256 := by omega
  have hss : inst.arg1.raw % 2 ^ 64 % 256 = inst.arg1.raw % 256 := by omega
  unfold EmitLogicalShiftLeft32
  simp only [hci, Bool.not_true, Bool.false_eq_true, if_false]
  by_cases himm : inst.arg1.IsImmediate = true
  · simp only [himm, if_true]
    have key := lsl32_imm_body (inst.arg0.raw % 2 ^ 64) (inst.arg2.raw % 2 ^ 64)
      inst.arg1.GetImmediateU8 result carry
      (UseScratchGpr inst.arg2 carry (UseScratchGpr inst.arg0 result s))
      (Nat.mod_lt _ (by norm_num))
      (by simp only [UseScratchGpr_eff, e3, if_true, if_false])
      (by simp only [UseScratchGpr_eff, if_true]) h3
    rw [hx, hcc] at key
    exact ⟨(shiftOutputs_values result carry _).1.trans (congrArg some key.1),
      (shiftOutputs_values result carry _).2.trans (congrArg some key.2)⟩
  · simp only [himm, if_false]
    have key := lsl32_reg_body (inst.arg0.raw % 2 ^ 64) (inst.arg2.raw % 2 ^ 64)
      (inst.arg1.raw % 2 ^ 64) result carry
      (UseScratchGpr inst.arg2 carry (UseScratchGpr inst.arg0 result (Use inst.arg1 .RCX s)))
      (by omega)
      (by simp only [UseScratchGpr_eff, e3, if_true, if_false])
      (by simp only [UseScratchGpr_eff, if_true])
      (by simp only [UseScratchGpr_eff, Use_eff, e1, e2, if_true, if_false]) h3
    rw [hx, hcc, hss] at key
    exact ⟨(shiftOutputs_values result carry _).1.trans (congrArg some key.1),
      (shiftOutputs_values result carry _).2.trans (congrArg some key.2)⟩

/-- C9: for every 32-bit operand `x`, every 8-bit shift count `s` (as an immediate
or in the shift-count register, unmasked) and every carry-in, the LogicalShiftLeft32
sequence with a carry-out pseudo-operation yields `(x, carry_in)` for `s = 0`,
`((x << s) mod 2^32, bit (32 - s) of x)` for `1 ≤ s ≤ 31`, `(0, bit 0 of x)` for
`s = 32` and `(0, 0)` for `s > 32`. -/
theorem LogicalShiftLeft32_with_carry (inst : Inst) (result carry zero : HostLoc)
    (s : X64State) (hci : inst.carry_inst = true) (hc : inst.arg2.raw % 256 ≤ 1)
    (hra : ShiftAlloc result carry) :
    (EmitLogicalShiftLeft32 inst result carry zero s).valueOf .inst 32
      = some (lsl32WithCarry (inst.arg0.raw % 2 ^ 32) (inst.arg1.raw % 256)
          (inst.arg2.raw % 256)).1
    ∧ (EmitLogicalShiftLeft32 inst result carry zero s).valueOf .carry_inst 8
      = some (lsl32WithCarry (inst.arg0.raw % 2 ^ 32) (inst.arg1.raw % 256)
          (inst.arg2.raw % 256)).2 := by
  obtain ⟨hres, hcarry⟩ := lsl32_emitter_values inst result carry zero s hci hc hra
  exact ⟨hres, hcarry⟩

/-- C9, on the literal scenario: operand `0x00000001` with shift 32 in the
shift-count register gives result 0 and carry 1. -/
theorem LogicalShiftLeft32_with_carry_witness :
    (EmitLogicalShiftLeft32 ⟨.val .U32 0x00000001, .val .U8 32, .val .U1 0,
        true, false, false⟩ .RBX .RSI .RDI X64State.zero).valueOf .inst 32 = some 0
    ∧ (EmitLogicalShiftLeft32 ⟨.val .U32 0x00000001, .val .U8 32, .val .U1 0,
        true, false, false⟩ .RBX .RSI .RDI X64State.zero).valueOf .carry_inst 8 = some 1 := by
  have h := LogicalShiftLeft32_with_carry ⟨.val .U32 0x00000001, .val .U8 32, .val .U1 0,
    true, false, false⟩ .RBX .RSI .RDI X64State.zero rfl (by decide)
    (by unfold ShiftAlloc; decide)
  exact ⟨h.1.trans (by decide), h.2.trans (by decide)⟩

/-- Register and flags after the body of `EmitLogicalShiftRight32` with a carry-out
and an immediate count. -/
theorem lsr32_imm_body (x c sh : Nat) (result carry : HostLoc) (t : X64State)
    (hsh : sh < 256) (hres : t.gpr result = x) (hcar : t.gpr carry = c)
    (h1 : result ≠ carry) :
    ((if sh = 0 then t
      else if sh < 32 then
        t |> code.shr 32 result sh |> code.setcc .c carry
      else if sh = 32 then
        t |> code.bt 32 result 31 |> code.setcc .c carry |> code.mov 32 result (.imm 0)
      else
        t |> code.xor_ 32 result (.reg result) |> code.xor_ 32 carry (.reg carry)).gpr result
          % 2 ^ 32
        = (lsr32WithCarry (x % 2 ^ 32) sh (c % 256)).1)
    ∧ ((if sh = 0 then t
      else if sh < 32 then
        t |> code.shr 32 result sh |> code.setcc .c carry
      else if sh = 32 then
        t |> code.bt 32 result 31 |> code.setcc .c carry |> code.mov 32 result (.imm 0)
      else
        t |> code.xor_ 32 result (.reg result) |> code.xor_ 32 carry (.reg carry)).gpr carry
          % 2 ^ 8
        = (lsr32WithCarry (x % 2 ^ 32) sh (c % 256)).2) := by
  have e1 := regs_ne h1
  unfold lsr32WithCarry
  by_cases h0 : sh = 0
  · simp only [h0, if_true, hres, hcar, Nat.reducePow, and_self]
  · by_cases hlt : sh < 32
    · have hle : sh ≤ 31 := by omega
      have hm : sh % 32 = sh := Nat.mod_eq_of_lt hlt
      have hd : x % 4294967296 / 2 ^ sh % 4294967296 = x % 4294967296 / 2 ^ sh :=
        Nat.mod_eq_of_lt (lt_of_le_of_lt (Nat.div_le_self _ _) (Nat.mod_lt _ (by norm_num)))
      simp only [h0, hlt, hle, if_true, if_false, setcc_eff, shr_eff, e1,
        code.countMask, Nat.reduceEqDiff, hm, X64State.readGpr, hres, regWrite_32, CC.holds,
        Nat.reducePow, regWrite_8_low, toNat_mod_256, bit_toNat_eq, Nat.mod_mod, hd, true_and]
      generalize x % 4294967296 / 2 ^ (sh - 1) = y
      omega
    · by_cases h32 : sh = 32
      · subst h32
        simp only [h0, hlt, if_true, if_false, mov_eff, setcc_eff, bt_eff, e1,
          X64State.readOp, X64State.readGpr, regWrite_32, Nat.zero_mod, hres, CC.holds,
          Nat.reducePow, Nat.reduceLeDiff, Nat.reduceMod, Nat.reduceEqDiff, regWrite_8_low,
          toNat_mod_256, bit_toNat_eq, Nat.mod_mod, true_and]
        omega
      · have hle : ¬ sh ≤ 31 := by omega
        simp only [h0, hlt, hle, h32, if_true, if_false, xor_eff, e1, X64State.readOp,
          X64State.readGpr, Nat.xor_self, regWrite_32, Nat.zero_mod, and_self]

/-- Outcome of `test cl, cl`: ZF tells whether the count is zero; registers are kept. -/
theorem test_cl (t : X64State) :
    CC.z.holds (code.test 8 .RCX (.reg .RCX) t) = decide (t.gpr .RCX % 256 = 0)
    ∧ (∀ q, (code.test 8 .RCX (.reg .RCX) t).gpr q = t.gpr q) := by
  refine ⟨?_, fun q => by simp only [test_eff]⟩
  simp only [CC.holds, test_eff, X64State.readGpr, X64State.readOp, Nat.reducePow,
    Nat.and_self, Nat.mod_mod]

/-- Register and flags after the body of `EmitLogicalShiftRight32` with a carry-out
and the count in CL. -/
theorem lsr32_reg_body (x c sc : Nat) (result carry : HostLoc) (t : X64State)
    (hres : t.gpr result = x) (hcar : t.gpr carry = c)
    (hcx : t.gpr .RCX = sc) (h1 : result ≠ carry) :
    ((if CC.a.holds (code.cmp 8 .RCX (.imm 32) t) then
        code.cmp 8 .RCX (.imm 32) t |> code.xor_ 32 result (.reg result)
          |> code.xor_ 32 carry (.reg carry)
      else if CC.z.holds (code.cmp 8 .RCX (.imm 32) t) then
        code.cmp 8 .RCX (.imm 32) t |> code.bt 32 result 31 |> code.setcc .c carry
          |> code.xor_ 32 result (.reg result)
      else
        if CC.z.holds (code.test 8 .RCX (.reg .RCX) (code.cmp 8 .RCX (.imm 32) t)) then
          code.test 8 .RCX (.reg .RCX) (code.cmp 8 .RCX (.imm 32) t)
        else
          code.test 8 .RCX (.reg .RCX) (code.cmp 8 .RCX (.imm 32) t)
            |> code.shr_cl 32 result |> code.setcc .c carry).gpr result % 2 ^ 32
        = (lsr32WithCarry (x % 2 ^ 32) (sc % 256) (c % 256)).1)
    ∧ ((if CC.a.holds (code.cmp 8 .RCX (.imm 32) t) then
        code.cmp 8 .RCX (.imm 32) t |> code.xor_ 32 result (.reg result)
          |> code.xor_ 32 carry (.reg carry)
      else if CC.z.holds (code.cmp 8 .RCX (.imm 32) t) then
        code.cmp 8 .RCX (.imm 32) t |> code.bt 32 result 31 |> code.setcc .c carry
          |> code.xor_ 32 result (.reg result)
      else
        if CC.z.holds (code.test 8 .RCX (.reg .RCX) (code.cmp 8 .RCX (.imm 32) t)) then
          code.test 8 .RCX (.reg .RCX) (code.cmp 8 .RCX (.imm 32) t)
        else
          code.test 8 .RCX (.reg .RCX) (code.cmp 8 .RCX (.imm 32) t)
            |> code.shr_cl 32 result |> code.setcc .c carry).gpr carry % 2 ^ 8
        = (lsr32WithCarry (x % 2 ^ 32) (sc % 256) (c % 256)).2) := by
  have e1 := regs_ne h1
  obtain ⟨ha, hz, hg⟩ := cmp_cl_32 t
  obtain ⟨hz2, hg2⟩ := test_cl (code.cmp 8 .RCX (.imm 32) t)
  have hsh : sc % 256 < 256 := Nat.mod_lt _ (by norm_num)
  rw [ha, hz, hz2, hg, hcx]
  unfold lsr32WithCarry
  generalize hs : sc % 256 = sh at hsh ⊢
  by_cases hgt : 32 < sh
  · have h0 : ¬ sh = 0 := by omega
    have hle : ¬ sh ≤ 31 := by omega
    have hne : ¬ sh = 32 := by omega
    simp only [hgt, h0, hle, hne, decide_True, if_true, if_false, xor_eff, e1,
      X64State.readOp, X64State.readGpr, Nat.xor_self, regWrite_32, Nat.zero_mod, and_self]
  · by_cases h32 : sh = 32
    · subst h32
      simp only [hgt, decide_True, decide_False, Bool.false_eq_true, if_true, if_false,
        xor_eff, setcc_eff, bt_eff, e1, hg,
        X64State.readOp, X64State.readGpr, Nat.xor_self, regWrite_32, Nat.zero_mod, hres,
        CC.holds, Nat.reducePow, Nat.reduceLeDiff, Nat.reduceMod, Nat.reduceEqDiff,
        regWrite_8_low, toNat_mod_256, bit_toNat_eq, Nat.mod_mod, true_and]
      omega
    · have hlt : sh < 32 := by omega
      have hm : sh % 32 = sh := Nat.mod_eq_of_lt hlt
      by_cases h0 : sh = 0
      · subst h0
        simp only [hgt, h32, decide_True, decide_False, Bool.false_eq_true, if_true, if_false,
          hg2, hg, hres, hcar, Nat.reducePow, and_self]
      · have hle : sh ≤ 31 := by omega
        have hd : x % 4294967296 / 2 ^ sh % 4294967296 = x % 4294967296 / 2 ^ sh :=
          Nat.mod_eq_of_lt (lt_of_le_of_lt (Nat.div_le_self _ _) (Nat.mod_lt _ (by norm_num)))
        simp only [hgt, h32, h0, hle, decide_False, Bool.false_eq_true, if_true, if_false,
          setcc_eff, code.shr_cl, shr_eff, e1, hg, hg2, hcx, hs, code.countMask,
          Nat.reduceEqDiff, hm, X64State.readGpr, hres, regWrite_32, CC.holds, Nat.reducePow,
          regWrite_8_low, toNat_mod_256, bit_toNat_eq, Nat.mod_mod, hd, true_and]
        generalize x % 4294967296 / 2 ^ (sh - 1) = y
        omega

/-- Result and carry-out of `EmitLogicalShiftRight32` with the carry pseudo-operation
attached. -/
theorem lsr32_emitter_values (inst : Inst) (result carry zero : HostLoc)
    (s : X64State) (hci : inst.carry_inst = true) (hra : ShiftAlloc result carry) :
    (EmitLogicalShiftRight32 inst result carry zero s).valueOf .inst 32
      = some (lsr32WithCarry (inst.arg0.raw % 2 ^ 32) (inst.arg1.raw % 256)
          (inst.arg2.raw % 256)).1
    ∧ (EmitLogicalShiftRight32 inst result carry zero s).valueOf .carry_inst 8
      = some (lsr32WithCarry (inst.arg0.raw % 2 ^ 32) (inst.arg1.raw % 256)
          (inst.arg2.raw % 256)).2 := by
  unfold ShiftAlloc at hra
  simp only [List.nodup_cons, List.mem_cons, List.mem_singleton, not_or, List.not_mem_nil,
    not_false_eq_true, List.nodup_nil, and_true] at hra
  obtain ⟨⟨h1, h2⟩, h3⟩ := hra
  have e1 := regs_ne h1; have e2 := regs_ne h2; have e3 := regs_ne h3
  have hx : inst.arg0.raw % 2 ^ 64 % 2 ^ 32 = inst.arg0.raw % 2 ^ 32 := by omega
  have hcc : inst.arg2.raw % 2 ^ 64 % 256 = inst.arg2.raw % 256 := by omega
  have hss : inst.arg1.raw % 2 ^ 64 % 256 = inst.arg1.raw % 256 := by omega
  unfold EmitLogicalShiftRight32
  simp only [hci, Bool.not_true, Bool.false_eq_true, if_false]
  by_cases himm : inst.arg1.IsImmediate = true
  · simp only [himm, if_true]
    have key := lsr32_imm_body (inst.arg0.raw % 2 ^ 64) (inst.arg2.raw % 2 ^ 64)
      inst.arg1.GetImmediateU8 result carry
      (UseScratchGpr inst.arg2 carry (UseScratchGpr inst.arg0 result s))
      (Nat.mod_lt _ (by norm_num))
      (by simp only [UseScratchGpr_eff, e3, if_true, if_false])
      (by simp only [UseScratchGpr_eff, if_true]) h3
    rw [hx, hcc] at key
    exact ⟨(shiftOutputs_values result carry _).1.trans (congrArg some key.1),
      (shiftOutputs_values result carry _).2.trans (congrArg some key.2)⟩
  · simp only [himm, if_false]
    have key := lsr32_reg_body (inst.arg0.raw % 2 ^ 64) (inst.arg2.raw % 2 ^ 64)
      (inst.arg1.raw % 2 ^ 64) result carry
      (UseScratchGpr inst.arg2 carry (UseScratchGpr inst.arg0 result (Use inst.arg1 .RCX s)))
      (by simp only [UseScratchGpr_eff, e3, if_true, if_false])
      (by simp only [UseScratchGpr_eff, if_true])
      (by simp only [UseScratchGpr_eff, Use_eff, e1, e2, if_true, if_false]) h3
    rw [hx, hcc, hss] at key
    exact ⟨(shiftOutputs_values result carry _).1.trans (congrArg some key.1),
      (shiftOutputs_values result carry _).2.trans (congrArg some key.2)⟩

/-- C10: for every 32-bit operand `x`, every 8-bit shift count `s` (as an immediate
or in the shift-count register) and every carry-in, the LogicalShiftRight32 sequence
with a carry-out pseudo-operation yields `(x, carry_in)` for `s = 0`,
`(x >> s, bit (s - 1) of x)` for `1 ≤ s ≤ 31`, `(0, bit 31 of x)` for `s = 32` and
`(0, 0)` for `s > 32`. -/
theorem LogicalShiftRight32_with_carry (inst : Inst) (result carry zero : HostLoc)
    (s : X64State) (hci : inst.carry_inst = true) (hra : ShiftAlloc result carry) :
    (EmitLogicalShiftRight32 inst result carry zero s).valueOf .inst 32
      = some (lsr32WithCarry (inst.arg0.raw % 2 ^ 32) (inst.arg1.raw % 256)
          (inst.arg2.raw % 256)).1
    ∧ (EmitLogicalShiftRight32 inst result carry zero s).valueOf .carry_inst 8
      = some (lsr32WithCarry (inst.arg0.raw % 2 ^ 32) (inst.arg1.raw % 256)
          (inst.arg2.raw % 256)).2 := by
  obtain ⟨hres, hcarry⟩ := lsr32_emitter_values inst result carry zero s hci hra
  exact ⟨hres, hcarry⟩

/-- C10, on operand `0x80000001` with shift 32 in the shift-count register: result 0
and carry 1 (bit 31 of the operand). -/
theorem LogicalShiftRight32_with_carry_witness :
    (EmitLogicalShiftRight32 ⟨.val .U32 0x80000001, .val .U8 32, .val .U1 0,
        true, false, false⟩ .RBX .RSI .RDI X64State.zero).valueOf .inst 32 = some 0
    ∧ (EmitLogicalShiftRight32 ⟨.val .U32 0x80000001, .val .U8 32, .val .U1 0,
        true, false, false⟩ .RBX .RSI .RDI X64State.zero).valueOf .carry_inst 8 = some 1 := by
  have h := LogicalShiftRight32_with_carry ⟨.val .U32 0x80000001, .val .U8 32, .val .U1 0,
    true, false, false⟩ .RBX .RSI .RDI X64State.zero rfl (by unfold ShiftAlloc; decide)
  exact ⟨h.1.trans (by decide), h.2.trans (by decide)⟩

/-! ## Arithmetic shift right -/

/-- Filling the vacated places with the sign bit is the division of the signed value
rounded towards minus infinity. -/
theorem sarVal_eq_asr (w a c : Nat) (hw : 0 < w) (ha : a < 2 ^ w) (hc : c < w) :
    sarVal w a c = asr w a c := by
  have hsplit : 2 ^ w = 2 ^ c * 2 ^ (w - c) := by
    rw [← pow_add]
    congr 1
    omega
  have hD : 0 < 2 ^ c := by positivity
  have hK : 0 < 2 ^ (w - c) := by positivity
  have hq : a / 2 ^ c < 2 ^ (w - c) := Nat.div_lt_of_lt_mul (hsplit ▸ ha)
  have hKM : 2 ^ (w - c) ≤ 2 ^ w := by
    rw [hsplit]
    exact Nat.le_mul_of_pos_left _ hD
  have hfd : ∀ z : Int, Int.fdiv z ((2 : Int) ^ c) = z / (2 : Int) ^ c := fun z =>
    Int.fdiv_eq_ediv z (by positivity)
  unfold sarVal asr
  rw [msb_eq_le w a hw ha, toSigned_eq w a ha, hfd]
  by_cases h : a < 2 ^ (w - 1)
  · have h1 : ¬ 2 ^ (w - 1) ≤ a := by omega
    have e : ((a : Int) / (2 : Int) ^ c) % (2 : Int) ^ w = ((a / 2 ^ c : Nat) : Int) := by
      have : ((a : Int) / (2 : Int) ^ c) = ((a / 2 ^ c : Nat) : Int) := by push_cast; rfl
      rw [this]
      have h2 : a / 2 ^ c < 2 ^ w := by omega
      have : ((2 : Int) ^ w) = ((2 ^ w : Nat) : Int) := by push_cast; rfl
      rw [this, ← Int.natCast_mod, Nat.mod_eq_of_lt h2]
    simp only [h, h1, if_true, decide_False, Bool.false_eq_true, if_false, e, Int.toNat_ofNat,
      Nat.add_zero]
  · have h1 : 2 ^ (w - 1) ≤ a := by omega
    have e : (((a : Int) - ((2 ^ w : Nat) : Int)) / (2 : Int) ^ c) % (2 : Int) ^ w
        = ((a / 2 ^ c + (2 ^ w - 2 ^ (w - c)) : Nat) : Int) := by
      have e1 : ((a : Int) - ((2 ^ w : Nat) : Int))
          = (a : Int) + (-((2 ^ (w - c) : Nat) : Int)) * (2 : Int) ^ c := by
        rw [hsplit]
        push_cast
        ring
      rw [e1, Int.add_mul_ediv_right _ _ (by positivity)]
      have e2 : ((a : Int) / (2 : Int) ^ c) = ((a / 2 ^ c : Nat) : Int) := by push_cast; rfl
      have e3 : ((2 : Int) ^ w) = ((2 ^ w : Nat) : Int) := by push_cast; rfl
      rw [e2, e3]
      have e4 : ((a / 2 ^ c : Nat) : Int) + -((2 ^ (w - c) : Nat) : Int)
          = ((a / 2 ^ c + (2 ^ w - 2 ^ (w - c)) : Nat) : Int) + (-1) * ((2 ^ w : Nat) : Int) := by
        push_cast [Nat.cast_sub hKM]
        ring
      rw [e4, Int.add_mul_emod_self, ← Int.natCast_mod, Nat.mod_eq_of_lt (by omega)]
    simp only [h, h1, decide_True, if_true, if_false, e, Int.toNat_ofNat]

/-- A shifted-in pattern stays within the width. -/
theorem asr_lt (w x n : Nat) : asr w x n < 2 ^ w := by
  unfold asr
  have hpos : (0 : Int) < (2 : Int) ^ w := by positivity
  have h1 := Int.emod_lt_of_pos (Int.fdiv (toSigned w x) (2 ^ n)) hpos
  have h2 := Int.emod_nonneg (Int.fdiv (toSigned w x) (2 ^ n)) (ne_of_gt hpos)
  have e3 : ((2 : Int) ^ w) = ((2 ^ w : Nat) : Int) := by push_cast; rfl
  omega

/-- Shifting a 32-bit pattern right by 31 places with sign fill leaves the sign in
every place. -/
theorem sarVal_32_31 (a : Nat) (ha : a < 2 ^ 32) :
    sarVal 32 a 31 = if a / 2 ^ 31 % 2 = 1 then 0xFFFFFFFF else 0 := by
  unfold sarVal msb
  simp only [Nat.reduceSub, Nat.reducePow, decide_eq_true_eq] at ha ⊢
  split <;> omega

/-- Register and flags after the body of `EmitArithmeticShiftRight32` with a
carry-out and an immediate count. -/
theorem asr32_imm_body (x c sh : Nat) (result carry : HostLoc) (t : X64State)
    (hres : t.gpr result = x) (hcar : t.gpr carry = c) (h1 : result ≠ carry) :
    (asr32ImmBody sh result carry t).gpr result % 2 ^ 32
        = (asr32WithCarry (x % 2 ^ 32) sh (c % 256)).1
    ∧ (asr32ImmBody sh result carry t).gpr carry % 2 ^ 8
        = (asr32WithCarry (x % 2 ^ 32) sh (c % 256)).2 := by
  have e1 := regs_ne h1
  have hxl : x % 4294967296 < 2 ^ 32 := Nat.mod_lt _ (by norm_num)
  unfold asr32WithCarry asr32ImmBody
  by_cases h0 : sh = 0
  · simp only [h0, if_true, hres, hcar, Nat.reducePow, and_self]
  · by_cases hle : sh ≤ 31
    · have hm : sh % 32 = sh := Nat.mod_eq_of_lt (by omega)
      have hsv := sarVal_eq_asr 32 (x % 4294967296) sh (by norm_num) hxl (by omega)
      have hlt : asr 32 (x % 4294967296) sh < 4294967296 := asr_lt 32 _ sh
      simp only [h0, hle, if_true, if_false, setcc_eff, sar_eff, e1,
        code.countMask, Nat.reduceEqDiff, hm, X64State.readGpr, hres, regWrite_32, CC.holds,
        Nat.reducePow, regWrite_8_low, toNat_mod_256, bit_toNat_eq, Nat.mod_mod, hsv,
        Nat.mod_eq_of_lt hlt, true_and]
      generalize x % 4294967296 / 2 ^ (sh - 1) = y
      omega
    · have hsv := sarVal_32_31 (x % 4294967296) hxl
      simp only [h0, hle, if_true, if_false, setcc_eff, sar_eff, bt_eff, e1,
        code.countMask, Nat.reduceEqDiff, Nat.reduceMod, X64State.readGpr, hres, regWrite_32,
        CC.holds, Nat.reducePow, regWrite_8_low, toNat_mod_256, bit_toNat_eq, Nat.mod_mod,
        hsv, true_and]
      by_cases hb : x % 4294967296 / 2147483648 % 2 = 1
      · simp only [hb, if_true, Nat.reduceMod, Nat.reduceDiv, and_self]
      · simp only [hb, if_false, Nat.zero_mod, Nat.zero_div, true_and]
        omega

/-- Outcome of `cmp cl, 31`: whether the count is above 31. -/
theorem cmp_cl_31 (t : X64State) :
    CC.a.holds (code.cmp 8 .RCX (.imm 31) t) = decide (31 < t.gpr .RCX % 256)
    ∧ (∀ q, (code.cmp 8 .RCX (.imm 31) t).gpr q = t.gpr q) := by
  have hlt : t.gpr .RCX % 256 < 256 := Nat.mod_lt _ (by norm_num)
  refine ⟨?_, fun q => by simp only [cmp_eff]⟩
  simp only [CC.holds, cmp_eff, X64State.readGpr, X64State.readOp, Nat.reducePow,
    Nat.reduceEqDiff, if_false, Nat.reduceMod, Nat.add_zero, Nat.mod_mod]
  rw [Bool.eq_iff_iff]
  simp only [Bool.and_eq_true, Bool.not_eq_true', decide_eq_false_iff_not, decide_eq_true_eq]
  omega

/-- Register and flags after the body of `EmitArithmeticShiftRight32` with a
carry-out and the count in CL. -/
theorem asr32_reg_body (x c sc : Nat) (result carry : HostLoc) (t : X64State)
    (hres : t.gpr result = x) (hcar : t.gpr carry = c)
    (hcx : t.gpr .RCX = sc) (h1 : result ≠ carry) :
    (asr32RegBody result carry t).gpr result % 2 ^ 32
        = (asr32WithCarry (x % 2 ^ 32) (sc % 256) (c % 256)).1
    ∧ (asr32RegBody result carry t).gpr carry % 2 ^ 8
        = (asr32WithCarry (x % 2 ^ 32) (sc % 256) (c % 256)).2 := by
  have e1 := regs_ne h1
  obtain ⟨ha, hg⟩ := cmp_cl_31 t
  obtain ⟨hz, hg2⟩ := test_cl (code.cmp 8 .RCX (.imm 31) t)
  have hxl : x % 4294967296 < 2 ^ 32 := Nat.mod_lt _ (by norm_num)
  have hsh : sc % 256 < 256 := Nat.mod_lt _ (by norm_num)
  unfold asr32RegBody
  simp only [ha, hz, hg, hcx]
  unfold asr32WithCarry
  generalize hs : sc % 256 = sh at hsh ⊢
  by_cases hgt : 31 < sh
  · have h0 : ¬ sh = 0 := by omega
    have hle : ¬ sh ≤ 31 := by omega
    have hsv := sarVal_32_31 (x % 4294967296) hxl
    simp only [hgt, h0, hle, decide_True, if_true, if_false, setcc_eff, sar_eff, bt_eff, cmp_eff,
      e1, code.countMask, Nat.reduceEqDiff, Nat.reduceMod, X64State.readGpr, hres, regWrite_32,
      CC.holds, Nat.reducePow, regWrite_8_low, toNat_mod_256, bit_toNat_eq, Nat.mod_mod,
      hsv, true_and]
    by_cases hb : x % 4294967296 / 2147483648 % 2 = 1
    · simp only [hb, if_true, Nat.reduceMod, Nat.reduceDiv, and_self]
    · simp only [hb, if_false, Nat.zero_mod, Nat.zero_div, true_and]
      omega
  · by_cases h0 : sh = 0
    · subst h0
      simp only [hgt, decide_True, decide_False, Bool.false_eq_true, if_true, if_false,
        test_eff, cmp_eff, hres, hcar, Nat.reducePow, and_self]
    · have hle : sh ≤ 31 := by omega
      have hm : sh % 32 = sh := Nat.mod_eq_of_lt (by omega)
      have hsv := sarVal_eq_asr 32 (x % 4294967296) sh (by norm_num) hxl (by omega)
      have hlt : asr 32 (x % 4294967296) sh < 4294967296 := asr_lt 32 _ sh
      simp only [hgt, h0, hle, decide_False, Bool.false_eq_true, if_true, if_false, setcc_eff,
        code.sar_cl, sar_eff, test_eff, cmp_eff, e1, hcx, hs,
        code.countMask, Nat.reduceEqDiff, hm, X64State.readGpr, hres, regWrite_32, CC.holds,
        Nat.reducePow, regWrite_8_low, toNat_mod_256, bit_toNat_eq, Nat.mod_mod, hsv,
        Nat.mod_eq_of_lt hlt, true_and]
      generalize x % 4294967296 / 2 ^ (sh - 1) = y
      omega

/-- Result and carry-out of `EmitArithmeticShiftRight32` with the carry pseudo-operation
attached. -/
theorem asr32_emitter_values (inst : Inst) (result carry const31 : HostLoc)
    (s : X64State) (hci : inst.carry_inst = true) (hra : ShiftAlloc result carry) :
    (EmitArithmeticShiftRight32 inst result carry const31 s).valueOf .inst 32
      = some (asr32WithCarry (inst.arg0.raw % 2 ^ 32) (inst.arg1.raw % 256)
          (inst.arg2.raw % 256)).1
    ∧ (EmitArithmeticShiftRight32 inst result carry const31 s).valueOf .carry_inst 8
      = some (asr32WithCarry (inst.arg0.raw % 2 ^ 32) (inst.arg1.raw % 256)
          (inst.arg2.raw % 256)).2 := by
  unfold ShiftAlloc at hra
  simp only [List.nodup_cons, List.mem_cons, List.mem_singleton, not_or, List.not_mem_nil,
    not_false_eq_true, List.nodup_nil, and_true] at hra
  obtain ⟨⟨h1, h2⟩, h3⟩ := hra
  have e1 := regs_ne h1; have e2 := regs_ne h2; have e3 := regs_ne h3
  have hx : inst.arg0.raw % 2 ^ 64 % 2 ^ 32 = inst.arg0.raw % 2 ^ 32 := by omega
  have hcc : inst.arg2.raw % 2 ^ 64 % 256 = inst.arg2.raw % 256 := by omega
  have hss : inst.arg1.raw % 2 ^ 64 % 256 = inst.arg1.raw % 256 := by omega
  unfold EmitArithmeticShiftRight32
  simp only [hci, Bool.not_true, Bool.false_eq_true, if_false]
  by_cases himm : inst.arg1.IsImmediate = true
  · simp only [himm, if_true]
    have key := asr32_imm_body (inst.arg0.raw % 2 ^ 64) (inst.arg2.raw % 2 ^ 64)
      inst.arg1.GetImmediateU8 result carry
      (UseScratchGpr inst.arg2 carry (UseScratchGpr inst.arg0 result s))
      (by simp only [UseScratchGpr_eff, e3, if_true, if_false])
      (by simp only [UseScratchGpr_eff, if_true]) h3
    rw [hx, hcc] at key
    exact ⟨(shiftOutputs_values result carry _).1.trans (congrArg some key.1),
      (shiftOutputs_values result carry _).2.trans (congrArg some key.2)⟩
  · simp only [himm, if_false]
    have key := asr32_reg_body (inst.arg0.raw % 2 ^ 64) (inst.arg2.raw % 2 ^ 64)
      (inst.arg1.raw % 2 ^ 64) result carry
      (UseScratchGpr inst.arg2 carry (UseScratchGpr inst.arg0 result (Use inst.arg1 .RCX s)))
      (by simp only [UseScratchGpr_eff, e3, if_true, if_false])
      (by simp only [UseScratchGpr_eff, if_true])
      (by simp only [UseScratchGpr_eff, Use_eff, e1, e2, if_true, if_false]) h3
    rw [hx, hcc, hss] at key
    exact ⟨(shiftOutputs_values result carry _).1.trans (congrArg some key.1),
      (shiftOutputs_values result carry _).2.trans (congrArg some key.2)⟩

/-- C11: for every 32-bit operand `x`, every 8-bit shift count `s` (as an immediate
or in the shift-count register) and every carry-in, the ArithmeticShiftRight32
sequence with a carry-out pseudo-operation yields `(x, carry_in)` for `s = 0`,
`(x` arithmetically shifted right by `s`, bit `s - 1` of `x)` for `1 ≤ s ≤ 31`, and
`(0xFFFFFFFF` if bit 31 of `x` is set else `0`, bit 31 of `x)` for `s ≥ 32`. -/
theorem ArithmeticShiftRight32_with_carry (inst : Inst) (result carry const31 : HostLoc)
    (s : X64State) (hci : inst.carry_inst = true) (hra : ShiftAlloc result carry) :
    (EmitArithmeticShiftRight32 inst result carry const31 s).valueOf .inst 32
      = some (asr32WithCarry (inst.arg0.raw % 2 ^ 32) (inst.arg1.raw % 256)
          (inst.arg2.raw % 256)).1
    ∧ (EmitArithmeticShiftRight32 inst result carry const31 s).valueOf .carry_inst 8
      = some (asr32WithCarry (inst.arg0.raw % 2 ^ 32) (inst.arg1.raw % 256)
          (inst.arg2.raw % 256)).2 := by
  obtain ⟨hres, hcarry⟩ := asr32_emitter_values inst result carry const31 s hci hra
  exact ⟨hres, hcarry⟩

/-- C11, on operand `0x80000000` with shift 64 in the shift-count register: result
`0xFFFFFFFF` and carry 1. -/
theorem ArithmeticShiftRight32_with_carry_witness :
    (EmitArithmeticShiftRight32 ⟨.val .U32 0x80000000, .val .U8 64, .val .U1 0,
        true, false, false⟩ .RBX .RSI .RDI X64State.zero).valueOf .inst 32
      = some 0xFFFFFFFF
    ∧ (EmitArithmeticShiftRight32 ⟨.val .U32 0x80000000, .val .U8 64, .val .U1 0,
        true, false, false⟩ .RBX .RSI .RDI X64State.zero).valueOf .carry_inst 8 = some 1 := by
  have h := ArithmeticShiftRight32_with_carry ⟨.val .U32 0x80000000, .val .U8 64, .val .U1 0,
    true, false, false⟩ .RBX .RSI .RDI X64State.zero rfl (by unfold ShiftAlloc; decide)
  exact ⟨h.1.trans (by decide), h.2.trans (by decide)⟩

/-! ## Rotation -/

/-- Rotating by no place changes nothing. -/
theorem rotateRight_zero (w a : Nat) : rotateRight w a 0 = a := by
  simp [rotateRight, Nat.mod_one]

/-- A rotated pattern stays within the width. -/
theorem rotateRight_lt (w a k : Nat) (ha : a < 2 ^ w) (hk : k ≤ w) :
    rotateRight w a k < 2 ^ w := by
  have hsplit : 2 ^ w = 2 ^ k * 2 ^ (w - k) := by
    rw [← pow_add]
    congr 1
    omega
  have hD : 0 < 2 ^ k := by positivity
  have hq : a / 2 ^ k < 2 ^ (w - k) := Nat.div_lt_of_lt_mul (hsplit ▸ ha)
  have hm : a % 2 ^ k + 1 ≤ 2 ^ k := Nat.mod_lt _ hD
  have hmul : (a % 2 ^ k + 1) * 2 ^ (w - k) ≤ 2 ^ k * 2 ^ (w - k) :=
    Nat.mul_le_mul_right _ hm
  unfold rotateRight
  rw [Nat.add_mul, Nat.one_mul, ← hsplit] at hmul
  omega

/-- The sign bit as a number. -/
theorem msb_toNat_eq (w x : Nat) : (msb w x).toNat = x / 2 ^ (w - 1) % 2 := by
  unfold msb
  rcases Nat.mod_two_eq_zero_or_one (x / 2 ^ (w - 1)) with h | h <;> simp [h]

/-- Register and flags after the body of `EmitRotateRight32` with a carry-out and an
immediate count. -/
theorem ror32_imm_body (x c sh : Nat) (result carry : HostLoc) (t : X64State)
    (hres : t.gpr result = x) (hcar : t.gpr carry = c) (h1 : result ≠ carry) :
    (ror32ImmBody sh result carry t).gpr result % 2 ^ 32
        = (ror32WithCarry (x % 2 ^ 32) sh (c % 256)).1
    ∧ (ror32ImmBody sh result carry t).gpr carry % 2 ^ 8
        = (ror32WithCarry (x % 2 ^ 32) sh (c % 256)).2 := by
  have e1 := regs_ne h1
  have hxl : x % 4294967296 < 2 ^ 32 := Nat.mod_lt _ (by norm_num)
  unfold ror32WithCarry ror32ImmBody
  by_cases h0 : sh = 0
  · simp only [h0, if_true, hres, hcar, Nat.reducePow, Nat.zero_mod, rotateRight_zero, and_self]
  · by_cases hz : sh % 32 = 0
    · simp only [h0, hz, if_true, if_false, setcc_eff, bt_eff, e1, X64State.readGpr, hres,
        CC.holds, Nat.reducePow, Nat.reduceMod, regWrite_8_low, toNat_mod_256, bit_toNat_eq,
        rotateRight_zero, true_and]
      omega
    · have hlt : rotateRight 32 (x % 4294967296) (sh % 32) < 4294967296 :=
        rotateRight_lt 32 _ _ hxl (by omega)
      simp only [h0, hz, if_true, if_false, setcc_eff, ror_eff, e1, code.countMask,
        Nat.reduceEqDiff, X64State.readGpr, hres, regWrite_32, CC.holds, Nat.reducePow,
        regWrite_8_low, toNat_mod_256, msb_toNat_eq, Nat.mod_mod, Nat.reduceSub,
        Nat.mod_eq_of_lt hlt, true_and]
      omega

/-- Outcome of `and ecx, 0x1F`: RCX holds the count modulo 32 and ZF tells whether
that is zero. -/
theorem and_ecx_1F (t : X64State) :
    CC.z.holds (code.and_ 32 .RCX (.imm 0x1F) t) = decide (t.gpr .RCX % 32 = 0)
    ∧ (∀ q, (code.and_ 32 .RCX (.imm 0x1F) t).gpr q
        = if q = .RCX then t.gpr .RCX % 32 else t.gpr q) := by
  have hand : ∀ y : Nat, y &&& 31 = y % 32 := fun y => Nat.and_pow_two_sub_one_eq_mod y 5
  have hm : t.gpr .RCX % 4294967296 % 32 = t.gpr .RCX % 32 := by omega
  have hm2 : t.gpr .RCX % 32 % 4294967296 = t.gpr .RCX % 32 := by omega
  refine ⟨?_, fun q => ?_⟩
  · simp only [CC.holds, and_eff, X64State.readGpr, X64State.readOp, Nat.reducePow,
      Nat.reduceEqDiff, if_false, Nat.reduceMod, hand, hm, hm2]
  · simp only [and_eff, X64State.readGpr, X64State.readOp, Nat.reducePow,
      Nat.reduceEqDiff, if_false, Nat.reduceMod, hand, hm, hm2, regWrite_32]

/-- Register and flags after the body of `EmitRotateRight32` with a carry-out and
the count in CL. -/
theorem ror32_reg_body (x c sc : Nat) (result carry : HostLoc) (t : X64State)
    (hres : t.gpr result = x) (hcar : t.gpr carry = c)
    (hcx : t.gpr .RCX = sc) (h1 : result ≠ carry) (h2 : HostLoc.RCX ≠ result)
    (h3 : HostLoc.RCX ≠ carry) :
    (ror32RegBody result carry t).gpr result % 2 ^ 32
        = (ror32WithCarry (x % 2 ^ 32) (sc % 256) (c % 256)).1
    ∧ (ror32RegBody result carry t).gpr carry % 2 ^ 8
        = (ror32WithCarry (x % 2 ^ 32) (sc % 256) (c % 256)).2 := by
  have e1 := regs_ne h1; have e2 := regs_ne h2; have e3 := regs_ne h3
  obtain ⟨hz, hg⟩ := test_cl t
  obtain ⟨hz2, hg2⟩ := and_ecx_1F (code.test 8 .RCX (.reg .RCX) t)
  have hxl : x % 4294967296 < 2 ^ 32 := Nat.mod_lt _ (by norm_num)
  have hmm : sc % 256 % 32 = sc % 32 := by omega
  unfold ror32RegBody
  simp only [hz, hz2, hg, hcx]
  unfold ror32WithCarry
  by_cases h0 : sc % 256 = 0
  · have h32 : sc % 32 = 0 := by omega
    simp only [h0, decide_True, if_true, test_eff, hres, hcar, Nat.reducePow, Nat.zero_mod,
      rotateRight_zero, and_self]
  · by_cases hz : sc % 32 = 0
    · simp only [h0, hz, hmm, decide_True, decide_False, Bool.false_eq_true, if_true, if_false,
        setcc_eff, bt_eff, hg2, hg, e1, e2, e3, X64State.readGpr, hres,
        CC.holds, Nat.reducePow, Nat.reduceMod, regWrite_8_low, toNat_mod_256, bit_toNat_eq,
        rotateRight_zero, true_and]
      omega
    · have hlt : rotateRight 32 (x % 4294967296) (sc % 32) < 4294967296 :=
        rotateRight_lt 32 _ _ hxl (by omega)
      have hc8 : sc % 32 % 256 = sc % 32 := by omega
      simp only [h0, hz, hmm, decide_False, Bool.false_eq_true, if_true, if_false, setcc_eff,
        code.ror_cl, ror_eff, hg2, hg, hcx, hc8, e1, e2, e3, code.countMask,
        Nat.reduceEqDiff, X64State.readGpr, hres, regWrite_32, CC.holds, Nat.reducePow,
        regWrite_8_low, toNat_mod_256, msb_toNat_eq, Nat.mod_mod, Nat.reduceSub,
        Nat.mod_eq_of_lt hlt, true_and]
      omega

/-- Bit `i` of a rotated pattern is bit `(i + k) mod w` of the original. -/
theorem rotateRight_bit (w a k i : Nat) (ha : a < 2 ^ w) (hk : k < w) (hi : i < w) :
    rotateRight w a k / 2 ^ i % 2 = a / 2 ^ ((i + k) % w) % 2 := by
  unfold rotateRight
  by_cases h : i + k < w
  · rw [Nat.mod_eq_of_lt h]
    have e1 : 2 ^ (w - k) = 2 ^ i * (2 * 2 ^ (w - k - i - 1)) := by
      rw [← pow_succ', ← pow_add]
      congr 1
      omega
    have e2 : a / 2 ^ k / 2 ^ i = a / 2 ^ (i + k) := by
      rw [Nat.div_div_eq_div_mul, ← pow_add, Nat.add_comm]
    have e3 : a / 2 ^ k + a % 2 ^ k * 2 ^ (w - k)
        = a / 2 ^ k + 2 ^ i * (2 * (a % 2 ^ k * 2 ^ (w - k - i - 1))) := by
      rw [e1]
      ring
    rw [e3, Nat.add_mul_div_left _ _ (by positivity), e2, Nat.add_mul_mod_self_left]
  · have hj : (i + k) % w = i + k - w := by
      rw [Nat.mod_eq_sub_mod (by omega), Nat.mod_eq_of_lt (by omega)]
    rw [hj]
    have hD : 0 < 2 ^ k := by positivity
    have hK : 0 < 2 ^ (w - k) := by positivity
    have e1 : 2 ^ i = 2 ^ (w - k) * 2 ^ (i + k - w) := by
      rw [← pow_add]
      congr 1
      omega
    have e2 : 2 ^ k = 2 ^ (i + k - w) * (2 * 2 ^ (k - (i + k - w) - 1)) := by
      rw [← pow_succ', ← pow_add]
      congr 1
      omega
    have hq : a / 2 ^ k / 2 ^ (w - k) = 0 := by
      rw [Nat.div_div_eq_div_mul, ← pow_add]
      have : k + (w - k) = w := by omega
      rw [this]
      exact Nat.div_eq_of_lt ha
    have e3 : (a / 2 ^ k + a % 2 ^ k * 2 ^ (w - k)) / 2 ^ i
        = (a / 2 ^ k / 2 ^ (w - k) + a % 2 ^ k) / 2 ^ (i + k - w) := by
      rw [e1, ← Nat.div_div_eq_div_mul, Nat.add_mul_div_right _ _ hK]
    rw [e3, hq, Nat.zero_add, e2, Nat.mod_mul_right_div_self, Nat.mod_mul_right_mod]

/-- Result and carry-out of `EmitRotateRight32` with the carry pseudo-operation
attached. -/
theorem ror32_emitter_values (inst : Inst) (result carry : HostLoc)
    (s : X64State) (hci : inst.carry_inst = true) (hra : ShiftAlloc result carry) :
    (EmitRotateRight32 inst result carry s).valueOf .inst 32
      = some (ror32WithCarry (inst.arg0.raw % 2 ^ 32) (inst.arg1.raw % 256)
          (inst.arg2.raw % 256)).1
    ∧ (EmitRotateRight32 inst result carry s).valueOf .carry_inst 8
      = some (ror32WithCarry (inst.arg0.raw % 2 ^ 32) (inst.arg1.raw % 256)
          (inst.arg2.raw % 256)).2 := by
  unfold ShiftAlloc at hra
  simp only [List.nodup_cons, List.mem_cons, List.mem_singleton, not_or, List.not_mem_nil,
    not_false_eq_true, List.nodup_nil, and_true] at hra
  obtain ⟨⟨h1, h2⟩, h3⟩ := hra
  have e1 := regs_ne h1; have e2 := regs_ne h2; have e3 := regs_ne h3
  have hx : inst.arg0.raw % 2 ^ 64 % 2 ^ 32 = inst.arg0.raw % 2 ^ 32 := by omega
  have hcc : inst.arg2.raw % 2 ^ 64 % 256 = inst.arg2.raw % 256 := by omega
  have hss : inst.arg1.raw % 2 ^ 64 % 256 = inst.arg1.raw % 256 := by omega
  unfold EmitRotateRight32
  simp only [hci, Bool.not_true, Bool.false_eq_true, if_false]
  by_cases himm : inst.arg1.IsImmediate = true
  · simp only [himm, if_true]
    have key := ror32_imm_body (inst.arg0.raw % 2 ^ 64) (inst.arg2.raw % 2 ^ 64)
      inst.arg1.GetImmediateU8 result carry
      (UseScratchGpr inst.arg2 carry (UseScratchGpr inst.arg0 result s))
      (by simp only [UseScratchGpr_eff, e3, if_true, if_false])
      (by simp only [UseScratchGpr_eff, if_true]) h3
    rw [hx, hcc] at key
    exact ⟨(shiftOutputs_values result carry _).1.trans (congrArg some key.1),
      (shiftOutputs_values result carry _).2.trans (congrArg some key.2)⟩
  · simp only [himm, if_false]
    have key := ror32_reg_body (inst.arg0.raw % 2 ^ 64) (inst.arg2.raw % 2 ^ 64)
      (inst.arg1.raw % 2 ^ 64) result carry
      (UseScratchGpr inst.arg2 carry (UseScratchGpr inst.arg0 result (Use inst.arg1 .RCX s)))
      (by simp only [UseScratchGpr_eff, e3, if_true, if_false])
      (by simp only [UseScratchGpr_eff, if_true])
      (by simp only [UseScratchGpr_eff, Use_eff, e1, e2, if_true, if_false]) h3 h1 h2
    rw [hx, hcc, hss] at key
    exact ⟨(shiftOutputs_values result carry _).1.trans (congrArg some key.1),
      (shiftOutputs_values result carry _).2.trans (congrArg some key.2)⟩

/-- C12: for every 32-bit operand `x`, every 8-bit count `s` (as an immediate or in
the shift-count register) and every carry-in, the RotateRight32 sequence with a
carry-out pseudo-operation yields `x` rotated right by `s mod 32` as the result (bit
`i` of the result is bit `(i + s mod 32) mod 32` of `x`), and as the carry-out the
carry-in for `s = 0` and bit 31 of the result otherwise. -/
theorem RotateRight32_with_carry (inst : Inst) (result carry : HostLoc)
    (s : X64State) (hci : inst.carry_inst = true) (hra : ShiftAlloc result carry) :
    (EmitRotateRight32 inst result carry s).valueOf .inst 32
      = some (ror32WithCarry (inst.arg0.raw % 2 ^ 32) (inst.arg1.raw % 256)
          (inst.arg2.raw % 256)).1
    ∧ (EmitRotateRight32 inst result carry s).valueOf .carry_inst 8
      = some (ror32WithCarry (inst.arg0.raw % 2 ^ 32) (inst.arg1.raw % 256)
          (inst.arg2.raw % 256)).2
    ∧ ∀ i : Nat, i < 32 →
        (ror32WithCarry (inst.arg0.raw % 2 ^ 32) (inst.arg1.raw % 256)
          (inst.arg2.raw % 256)).1 / 2 ^ i % 2
        = inst.arg0.raw % 2 ^ 32 / 2 ^ ((i + inst.arg1.raw % 256 % 32) % 32) % 2 := by
  obtain ⟨h1, h2⟩ := ror32_emitter_values inst result carry s hci hra
  refine ⟨h1, h2, fun i hi => ?_⟩
  exact rotateRight_bit 32 _ _ i (Nat.mod_lt _ (by norm_num)) (Nat.mod_lt _ (by norm_num)) hi

/-- C12, on operand `0x80000005` with count 32 in the shift-count register: the
result is the operand and the carry is its bit 31. -/
theorem RotateRight32_with_carry_witness :
    (EmitRotateRight32 ⟨.val .U32 0x80000005, .val .U8 32, .val .U1 0,
        true, false, false⟩ .RBX .RSI X64State.zero).valueOf .inst 32
      = some 0x80000005
    ∧ (EmitRotateRight32 ⟨.val .U32 0x80000005, .val .U8 32, .val .U1 0,
        true, false, false⟩ .RBX .RSI X64State.zero).valueOf .carry_inst 8 = some 1 := by
  have h := RotateRight32_with_carry ⟨.val .U32 0x80000005, .val .U8 32, .val .U1 0,
    true, false, false⟩ .RBX .RSI X64State.zero rfl (by unfold ShiftAlloc; decide)
  exact ⟨h.1.trans (by decide), h.2.1.trans (by decide)⟩

/-! ## 64-bit shifts and rotations -/

/-- Value bound by `DefineValue`, read back at width `w`. -/
theorem DefineValue_valueOf (node : IRNode) (loc : HostLoc) (u : X64State) (w : Nat) :
    (DefineValue node loc u).valueOf node w = some (u.gpr loc % 2 ^ w) := by
  simp only [X64State.valueOf, X64State.locOf, DefineValue_eff, List.reverse_append,
    List.reverse_cons, List.reverse_nil, List.nil_append, List.cons_append, List.find?_cons,
    decide_True, Option.map_some', X64State.readGpr]

/-- Shifting by no place with sign fill changes nothing. -/
theorem sarVal_zero (w a : Nat) : sarVal w a 0 = a := by
  simp [sarVal]

/-- Outcome of `cmp cl, 64`: CF tells whether the count is below 64. -/
theorem cmp_cl_64 (t : X64State) :
    CC.nc.holds (code.cmp 8 .RCX (.imm 64) t) = decide (64 ≤ t.gpr .RCX % 256)
    ∧ (∀ q, (code.cmp 8 .RCX (.imm 64) t).gpr q = t.gpr q) := by
  refine ⟨?_, fun q => by simp only [cmp_eff]⟩
  simp only [CC.holds, cmp_eff, X64State.readGpr, X64State.readOp, Nat.reducePow,
    Nat.reduceEqDiff, if_false, Nat.reduceMod, Nat.add_zero]
  rw [Bool.eq_iff_iff]
  simp only [Bool.not_eq_true', decide_eq_false_iff_not, decide_eq_true_eq]
  omega

/-- Value of `EmitLogicalShiftLeft64`. -/
theorem lsl64_value (inst : Inst) (result zero : HostLoc) (s : X64State)
    (hra : Shift64Alloc result zero) :
    (EmitLogicalShiftLeft64 inst result zero s).valueOf .inst 64
      = some (if inst.arg1.raw % 256 < 64
          then inst.arg0.raw % 2 ^ 64 * 2 ^ (inst.arg1.raw % 256) % 2 ^ 64 else 0) := by
  unfold Shift64Alloc at hra
  simp only [List.nodup_cons, List.mem_cons, List.mem_singleton, not_or, List.not_mem_nil,
    not_false_eq_true, List.nodup_nil, and_true] at hra
  obtain ⟨⟨h1, h2⟩, h3⟩ := hra
  have e1 := regs_ne h1; have e2 := regs_ne h2; have e3 := regs_ne h3
  unfold EmitLogicalShiftLeft64
  by_cases himm : inst.arg1.IsImmediate = true
  · simp only [himm, if_true, DefineValue_valueOf, Argument.GetImmediateU8, Nat.reducePow]
    congr 1
    generalize inst.arg1.raw % 256 = sh
    by_cases hlt : sh < 64
    · have hm : sh % 64 = sh := Nat.mod_eq_of_lt hlt
      by_cases h0 : sh = 0
      · subst h0
        simp only [hlt, if_true, shl_eff, zeroCount_64, code.countMask, Nat.zero_mod,
          UseScratchGpr_eff, Nat.pow_zero, Nat.mul_one, Nat.mod_mod, Nat.reducePow]
      · simp only [hlt, if_true, shl_eff, zeroCount_64, code.countMask, hm, h0, if_false,
          UseScratchGpr_eff, X64State.readGpr, regWrite_64, Nat.reducePow, Nat.mod_mod]
    · simp only [hlt, if_false, xor_eff, if_true, X64State.readGpr, X64State.readOp,
        Nat.xor_self, regWrite_32, Nat.zero_mod]
  · simp only [himm, Bool.false_eq_true, if_false, DefineValue_valueOf]
    congr 1
    have hnc := fun t => (cmp_cl_64 t).1
    have hg := fun t => (cmp_cl_64 t).2
    have hcx : inst.arg1.raw % 18446744073709551616 % 256 = inst.arg1.raw % 256 := by omega
    simp only [cmovcc_eff, hnc, hg, if_true, xor_eff, code.shl_cl, shl_eff, zeroCount_64,
      UseScratchGpr_eff,
      Use_eff, e1, e2, e3, if_false, X64State.readGpr, X64State.readOp, Nat.xor_self,
      regWrite_32, regWrite_64, Nat.zero_mod, code.countMask, Nat.reducePow, ite_self, hcx,
      Nat.mod_mod, decide_eq_true_eq]
    generalize inst.arg1.raw % 256 = sh
    generalize inst.arg0.raw % 18446744073709551616 = x
    by_cases hlt : sh < 64
    · have hm : sh % 64 = sh := Nat.mod_eq_of_lt hlt
      have hn : ¬ 64 ≤ sh := by omega
      by_cases h0 : sh = 0
      · subst h0
        simp only [hlt, hn, if_true, if_false, Nat.zero_mod, Nat.pow_zero, Nat.mul_one,
          Nat.mod_mod]
      · simp only [hlt, hn, hm, h0, if_true, if_false, Nat.mod_mod]
    · have hn : 64 ≤ sh := by omega
      simp only [hlt, hn, if_true, if_false, Nat.zero_mod]

/-- Value of `EmitLogicalShiftRight64`. -/
theorem lsr64_value (inst : Inst) (result zero : HostLoc) (s : X64State)
    (hra : Shift64Alloc result zero) :
    (EmitLogicalShiftRight64 inst result zero s).valueOf .inst 64
      = some (if inst.arg1.raw % 256 < 64
          then inst.arg0.raw % 2 ^ 64 / 2 ^ (inst.arg1.raw % 256) else 0) := by
  unfold Shift64Alloc at hra
  simp only [List.nodup_cons, List.mem_cons, List.mem_singleton, not_or, List.not_mem_nil,
    not_false_eq_true, List.nodup_nil, and_true] at hra
  obtain ⟨⟨h1, h2⟩, h3⟩ := hra
  have e1 := regs_ne h1; have e2 := regs_ne h2; have e3 := regs_ne h3
  have hdl : ∀ k : Nat, inst.arg0.raw % 18446744073709551616 / 2 ^ k % 18446744073709551616
      = inst.arg0.raw % 18446744073709551616 / 2 ^ k := fun k =>
    Nat.mod_eq_of_lt (lt_of_le_of_lt (Nat.div_le_self _ _) (Nat.mod_lt _ (by norm_num)))
  unfold EmitLogicalShiftRight64
  by_cases himm : inst.arg1.IsImmediate = true
  · simp only [himm, if_true, DefineValue_valueOf, Argument.GetImmediateU8, Nat.reducePow]
    congr 1
    generalize inst.arg1.raw % 256 = sh
    by_cases hlt : sh < 64
    · have hm : sh % 64 = sh := Nat.mod_eq_of_lt hlt
      by_cases h0 : sh = 0
      · subst h0
        simp only [hlt, if_true, shr_eff, zeroCount_64, code.countMask, Nat.zero_mod,
          UseScratchGpr_eff, Nat.pow_zero, Nat.div_one, Nat.mod_mod, Nat.reducePow]
      · simp only [hlt, if_true, shr_eff, zeroCount_64, code.countMask, hm, h0, if_false,
          UseScratchGpr_eff, X64State.readGpr, regWrite_64, Nat.reducePow, Nat.mod_mod, hdl]
    · simp only [hlt, if_false, xor_eff, if_true, X64State.readGpr, X64State.readOp,
        Nat.xor_self, regWrite_32, Nat.zero_mod]
  · simp only [himm, Bool.false_eq_true, if_false, DefineValue_valueOf]
    congr 1
    have hnc := fun t => (cmp_cl_64 t).1
    have hg := fun t => (cmp_cl_64 t).2
    have hcx : inst.arg1.raw % 18446744073709551616 % 256 = inst.arg1.raw % 256 := by omega
    simp only [cmovcc_eff, hnc, hg, if_true, xor_eff, code.shr_cl, shr_eff, zeroCount_64,
      UseScratchGpr_eff,
      Use_eff, e1, e2, e3, if_false, X64State.readGpr, X64State.readOp, Nat.xor_self,
      regWrite_32, regWrite_64, Nat.zero_mod, code.countMask, Nat.reducePow, ite_self, hcx,
      Nat.mod_mod, decide_eq_true_eq, hdl]
    generalize inst.arg1.raw % 256 = sh
    by_cases hlt : sh < 64
    · have hm : sh % 64 = sh := Nat.mod_eq_of_lt hlt
      have hn : ¬ 64 ≤ sh := by omega
      by_cases h0 : sh = 0
      · subst h0
        simp only [hlt, hn, if_true, if_false, Nat.zero_mod, Nat.pow_zero, Nat.div_one,
          Nat.mod_mod]
      · simp only [hlt, hn, hm, h0, if_true, if_false, Nat.mod_mod, hdl]
    · have hn : 64 ≤ sh := by omega
      simp only [hlt, hn, if_true, if_false, Nat.zero_mod]

/-- Value of `EmitRotateRight64`. -/
theorem ror64_value (inst : Inst) (result : HostLoc) (s : X64State)
    (h1 : HostLoc.RCX ≠ result) :
    (EmitRotateRight64 inst result s).valueOf .inst 64
      = some (rotateRight 64 (inst.arg0.raw % 2 ^ 64) (inst.arg1.raw % 256 % 64)) := by
  have e1 := regs_ne h1
  have hlt : ∀ k : Nat, rotateRight 64 (inst.arg0.raw % 18446744073709551616) (k % 64)
      % 18446744073709551616 = rotateRight 64 (inst.arg0.raw % 18446744073709551616) (k % 64) :=
    fun k => Nat.mod_eq_of_lt (rotateRight_lt 64 _ _ (Nat.mod_lt _ (by norm_num))
      (le_of_lt (Nat.mod_lt _ (by norm_num))))
  have hcx : inst.arg1.raw % 18446744073709551616 % 256 = inst.arg1.raw % 256 := by omega
  unfold EmitRotateRight64
  by_cases himm : inst.arg1.IsImmediate = true
  · simp only [himm, if_true, DefineValue_valueOf, Argument.GetImmediateU8, Nat.reducePow]
    congr 1
    generalize inst.arg1.raw % 256 = sh
    by_cases h0 : sh % 64 = 0
    · simp only [ror_eff, zeroCount_64, code.countMask, if_true, Nat.mod_mod, h0, UseScratchGpr_eff,
        rotateRight_zero, Nat.reducePow]
    · simp only [ror_eff, zeroCount_64, code.countMask, if_true, Nat.mod_mod, h0, if_false,
        UseScratchGpr_eff, X64State.readGpr, regWrite_64, Nat.reducePow, hlt]
  · simp only [himm, Bool.false_eq_true, if_false, DefineValue_valueOf, Nat.reducePow]
    congr 1
    simp only [code.ror_cl, ror_eff, zeroCount_64, code.countMask, if_true, UseScratchGpr_eff,
      Use_eff, e1, if_false, X64State.readGpr, Nat.reducePow, hcx]
    generalize inst.arg1.raw % 256 = sh
    by_cases h0 : sh % 64 = 0
    · simp only [if_true, Nat.mod_mod, h0, rotateRight_zero]
    · simp only [if_true, Nat.mod_mod, h0, if_false, regWrite_64, hlt]

/-- Outcome of `cmp ecx, k` for a count below 256: the signed "greater" condition
tells whether the count exceeds `k`. -/
theorem cmp_ecx_g (k : Nat) (hk : k < 256) (t : X64State)
    (hc : t.gpr .RCX % 4294967296 < 256) :
    CC.g.holds (code.cmp 32 .RCX (.imm k) t) = decide (k < t.gpr .RCX % 4294967296) := by
  have hk2 : k % 4294967296 = k := Nat.mod_eq_of_lt (by omega)
  have h1 : t.gpr .RCX % 4294967296 / 2147483648 = 0 := by omega
  have h2 : k / 2147483648 = 0 := by omega
  simp only [CC.holds, cmp_eff, X64State.readGpr, X64State.readOp, Nat.reducePow,
    Nat.reduceEqDiff, if_false, Nat.add_zero, Nat.mod_mod, hk2, msb, Nat.reduceSub, h1, h2,
    Nat.zero_mod, Nat.zero_ne_one, decide_False, bne_self_eq_false, Bool.false_and]
  rw [Bool.eq_iff_iff]
  simp only [Bool.and_eq_true, Bool.not_eq_true', decide_eq_false_iff_not, decide_eq_true_eq,
    beq_iff_eq]
  omega

/-- Register content after a 64-bit `sar` by `c < 64` places. -/
theorem sar64_result (x c : Nat) (hx : x < 18446744073709551616) (hc : c < 64) :
    (if c = 0 then x else sarVal 64 x c % 18446744073709551616) = asr 64 x c := by
  have hsv := sarVal_eq_asr 64 x c (by norm_num) hx hc
  have hlt : asr 64 x c < 18446744073709551616 := asr_lt 64 x c
  by_cases h0 : c = 0
  · subst h0
    rw [← hsv, sarVal_zero, if_pos rfl]
  · rw [if_neg h0, hsv, Nat.mod_eq_of_lt hlt]

/-- Register content after `sar dst, cl` on 64 bits when CL holds `c < 64`. -/
theorem sar_cl_64_value (t : X64State) (result : HostLoc) (c : Nat)
    (hcx : t.gpr .RCX % 256 = c) (hc : c < 64) :
    (code.sar_cl 64 result t).gpr result % 2 ^ 64 = asr 64 (t.gpr result % 2 ^ 64) c := by
  have hm : c % 64 = c := Nat.mod_eq_of_lt hc
  have hxl : t.gpr result % 18446744073709551616 < 18446744073709551616 :=
    Nat.mod_lt _ (by norm_num)
  simp only [code.sar_cl, sar_eff, zeroCount_64, code.countMask, if_true, X64State.readGpr,
    Nat.reducePow, hcx, hm, regWrite_64]
  rw [apply_ite (· % 18446744073709551616), Nat.mod_mod]
  exact sar64_result _ _ hxl hc

/-- Value of `EmitArithmeticShiftRight64`. -/
theorem asr64_value (inst : Inst) (result const63 : HostLoc) (s : X64State)
    (hra : Shift64Alloc result const63) :
    (EmitArithmeticShiftRight64 inst result const63 s).valueOf .inst 64
      = some (asr 64 (inst.arg0.raw % 2 ^ 64) (min (inst.arg1.raw % 256) 63)) := by
  unfold Shift64Alloc at hra
  simp only [List.nodup_cons, List.mem_cons, List.mem_singleton, not_or, List.not_mem_nil,
    not_false_eq_true, List.nodup_nil, and_true] at hra
  obtain ⟨⟨h1, h2⟩, h3⟩ := hra
  have e1 := regs_ne h1; have e2 := regs_ne h2; have e3 := regs_ne h3
  have hxl : inst.arg0.raw % 18446744073709551616 < 18446744073709551616 :=
    Nat.mod_lt _ (by norm_num)
  unfold EmitArithmeticShiftRight64
  by_cases himm : inst.arg1.IsImmediate = true
  · simp only [himm, if_true, DefineValue_valueOf, Argument.GetImmediateU8, Nat.reducePow]
    congr 1
    generalize hsh : inst.arg1.raw % 256 = sh
    have hmin : (if sh < 63 then sh else 63) = min sh 63 := by
      by_cases h : sh < 63
      · rw [if_pos h, Nat.min_eq_left (by omega)]
      · rw [if_neg h, Nat.min_eq_right (by omega)]
    have hm : min sh 63 % 64 = min sh 63 := Nat.mod_eq_of_lt (by omega)
    simp only [hmin, sar_eff, zeroCount_64, code.countMask, if_true, hm, UseScratchGpr_eff,
      X64State.readGpr, regWrite_64, Nat.reducePow, Nat.mod_mod]
    rw [apply_ite (· % 18446744073709551616), Nat.mod_mod, Nat.mod_mod]
    exact sar64_result _ _ hxl (Nat.lt_of_le_of_lt (Nat.min_le_right _ _) (by norm_num))
  · simp only [himm, Bool.false_eq_true, if_false, DefineValue_valueOf]
    refine congrArg some ?_
    have hcx : inst.arg1.raw % 18446744073709551616 % 256 = inst.arg1.raw % 256 := by omega
    have hg := cmp_ecx_g 63 (by norm_num) (code.movzx 32 8 .RCX .RCX (code.mov 64 const63 (.imm 63)
      (UseScratchGpr inst.arg0 result (Use inst.arg1 .RCX s))))
      (by
        simp only [movzx_eff, mov_eff, UseScratchGpr_eff, Use_eff, e1, e2, if_true, if_false,
          X64State.readGpr, regWrite_32, Nat.reducePow, Nat.mod_mod]
        omega)
    have key := sar_cl_64_value (code.cmovcc .g 32 .RCX const63 (code.cmp 32 .RCX (.imm 63)
      (code.movzx 32 8 .RCX .RCX (code.mov 64 const63 (.imm 63)
        (UseScratchGpr inst.arg0 result (Use inst.arg1 .RCX s)))))) result
      (min (inst.arg1.raw % 256) 63)
      (by
        simp only [cmovcc_eff, hg, cmp_eff, movzx_eff, mov_eff, UseScratchGpr_eff, Use_eff,
          e1, e2, e3, if_true, if_false, X64State.readGpr, X64State.readOp, regWrite_32,
          regWrite_64, Nat.reducePow, Nat.mod_mod, hcx, decide_eq_true_eq, Nat.reduceMod,
          Nat.reduceLT]
        have ha : inst.arg1.raw % 256 < 256 := Nat.mod_lt _ (by norm_num)
        split <;> omega)
      (Nat.lt_of_le_of_lt (Nat.min_le_right _ _) (by norm_num))
    rw [key]
    simp only [cmovcc_eff, cmp_eff, movzx_eff, mov_eff, UseScratchGpr_eff, Use_eff,
      e1, e2, e3, if_true, if_false, Nat.mod_mod]

/-- C13: for every 64-bit operand `x` and every 8-bit shift count `s`, given as an
immediate or in the shift-count register: LogicalShiftLeft64 yields `(x << s) mod 2^64`
for `s < 64` and 0 otherwise; LogicalShiftRight64 yields `x >> s` for `s < 64` and 0
otherwise; ArithmeticShiftRight64 yields `x` arithmetically shifted right by
`min(s, 63)`; RotateRight64 yields `x` rotated right by `s mod 64` (bit `i` of the
result is bit `(i + s mod 64) mod 64` of `x`). -/
theorem Shift64_values (inst : Inst) (result scratch : HostLoc) (s : X64State)
    (hra : Shift64Alloc result scratch) :
    (EmitLogicalShiftLeft64 inst result scratch s).valueOf .inst 64
      = some (if inst.arg1.raw % 256 < 64
          then inst.arg0.raw % 2 ^ 64 * 2 ^ (inst.arg1.raw % 256) % 2 ^ 64 else 0)
    ∧ (EmitLogicalShiftRight64 inst result scratch s).valueOf .inst 64
      = some (if inst.arg1.raw % 256 < 64
          then inst.arg0.raw % 2 ^ 64 / 2 ^ (inst.arg1.raw % 256) else 0)
    ∧ (EmitArithmeticShiftRight64 inst result scratch s).valueOf .inst 64
      = some (asr 64 (inst.arg0.raw % 2 ^ 64) (min (inst.arg1.raw % 256) 63))
    ∧ (EmitRotateRight64 inst result s).valueOf .inst 64
      = some (rotateRight 64 (inst.arg0.raw % 2 ^ 64) (inst.arg1.raw % 256 % 64))
    ∧ ∀ i : Nat, i < 64 →
        rotateRight 64 (inst.arg0.raw % 2 ^ 64) (inst.arg1.raw % 256 % 64) / 2 ^ i % 2
        = inst.arg0.raw % 2 ^ 64 / 2 ^ ((i + inst.arg1.raw % 256 % 64) % 64) % 2 := by
  have h1 : HostLoc.RCX ≠ result := by
    unfold Shift64Alloc at hra
    simp only [List.nodup_cons, List.mem_cons, List.mem_singleton, not_or] at hra
    exact hra.1.1
  exact ⟨lsl64_value inst result scratch s hra, lsr64_value inst result scratch s hra,
    asr64_value inst result scratch s hra, ror64_value inst result s h1,
    fun i hi => rotateRight_bit 64 _ _ i (Nat.mod_lt _ (by norm_num))
      (Nat.mod_lt _ (by norm_num)) hi⟩

/-- C13, on operand `0xF000000000000005` with count 68 in the shift-count register:
both logical shifts give 0, the arithmetic shift gives all ones, the rotation is by
4 places. -/
theorem Shift64_values_witness :
    (EmitLogicalShiftLeft64 ⟨.val .U64 0xF000000000000005, .val .U8 68, .val .U1 0,
        false, false, false⟩ .RBX .RSI X64State.zero).valueOf .inst 64 = some 0
    ∧ (EmitLogicalShiftRight64 ⟨.val .U64 0xF000000000000005, .val .U8 68, .val .U1 0,
        false, false, false⟩ .RBX .RSI X64State.zero).valueOf .inst 64 = some 0
    ∧ (EmitArithmeticShiftRight64 ⟨.val .U64 0xF000000000000005, .val .U8 68, .val .U1 0,
        false, false, false⟩ .RBX .RSI X64State.zero).valueOf .inst 64
        = some 0xFFFFFFFFFFFFFFFF
    ∧ (EmitRotateRight64 ⟨.val .U64 0xF000000000000005, .val .U8 68, .val .U1 0,
        false, false, false⟩ .RBX X64State.zero).valueOf .inst 64
        = some 0x5F00000000000000 := by
  have h := Shift64_values ⟨.val .U64 0xF000000000000005, .val .U8 68, .val .U1 0,
    false, false, false⟩ .RBX .RSI X64State.zero (by unfold Shift64Alloc; decide)
  exact ⟨h.1.trans (by decide), h.2.1.trans (by decide), h.2.2.1.trans (by decide),
    h.2.2.2.1.trans (by decide)⟩

/-! ## Rotate right extended -/

/-- C14: RotateRightExtended is invertible on 33-bit inputs.  For every 32-bit `x`
and carry-in `c`, the RRX sequence with a carry-out pseudo-operation yields the
result `c * 2^31 + x / 2` and the carry-out `x mod 2`; rotating left through carry
by one bit recovers the input: `((result << 1) mod 2^32) | carry_out = x`, and bit
31 of the result is the carry-in. -/
theorem RotateRightExtended_invertible (inst : Inst) (result carry : HostLoc)
    (s : X64State) (hci : inst.carry_inst = true) (hra : result ≠ carry) :
    (EmitRotateRightExtended inst result carry s).valueOf .inst 32
      = some (inst.arg1.raw % 2 * 2 ^ 31 + inst.arg0.raw % 2 ^ 32 / 2)
    ∧ (EmitRotateRightExtended inst result carry s).valueOf .carry_inst 8
      = some (inst.arg0.raw % 2 ^ 32 % 2)
    ∧ ((inst.arg1.raw % 2 * 2 ^ 31 + inst.arg0.raw % 2 ^ 32 / 2) <<< 1 % 2 ^ 32
        ||| inst.arg0.raw % 2 ^ 32 % 2) = inst.arg0.raw % 2 ^ 32
    ∧ (inst.arg1.raw % 2 * 2 ^ 31 + inst.arg0.raw % 2 ^ 32 / 2) / 2 ^ 31 % 2
        = inst.arg1.raw % 2 := by
  have e1 := regs_ne hra
  refine ⟨?_, ?_, ?_, ?_⟩
  · unfold EmitRotateRightExtended
    simp only [hci, if_true]
    refine (shiftOutputs_values result carry _).1.trans (congrArg some ?_)
    simp only [setcc_eff, rcr_one_eff, bt_eff, UseScratchGpr_eff, e1, if_true, if_false,
      X64State.readGpr, regWrite_32, bit_toNat_eq, Nat.reducePow, Nat.zero_mod, Nat.pow_zero,
      Nat.div_one]
    omega
  · unfold EmitRotateRightExtended
    simp only [hci, if_true]
    refine (shiftOutputs_values result carry _).2.trans (congrArg some ?_)
    simp only [setcc_eff, rcr_one_eff, bt_eff, UseScratchGpr_eff, e1, if_true, if_false,
      X64State.readGpr, regWrite_8_low, CC.holds, bit_toNat_eq, Nat.reducePow, Nat.pow_zero,
      Nat.div_one, toNat_mod_256]
    omega
  · have h2 : (inst.arg1.raw % 2 * 2 ^ 31 + inst.arg0.raw % 2 ^ 32 / 2) <<< 1 % 2 ^ 32
        = 2 ^ 1 * (inst.arg0.raw % 2 ^ 32 / 2) := by
      rw [Nat.shiftLeft_eq]
      omega
    rw [h2, ← Nat.mul_add_lt_is_or (by omega)]
    omega
  · omega

/-- C14, on `x = 5` with carry-in 1: the result is `0x80000002`, the carry-out is 1,
and rotating back gives 5. -/
theorem RotateRightExtended_invertible_witness :
    (EmitRotateRightExtended ⟨.val .U32 5, .val .U1 1, .val .U1 0, true, false, false⟩
        .RBX .RSI X64State.zero).valueOf .inst 32 = some 0x80000002
    ∧ (EmitRotateRightExtended ⟨.val .U32 5, .val .U1 1, .val .U1 0, true, false, false⟩
        .RBX .RSI X64State.zero).valueOf .carry_inst 8 = some 1
    ∧ (0x80000002 <<< 1 % 2 ^ 32 ||| 1) = 5 := by
  have h := RotateRightExtended_invertible
    ⟨.val .U32 5, .val .U1 1, .val .U1 0, true, false, false⟩ .RBX .RSI X64State.zero rfl
    (by decide)
  exact ⟨h.1.trans (by decide), h.2.1.trans (by decide), by decide⟩

/-! ## Count leading zeros -/

/-- The count of leading zeros never exceeds the width. -/
theorem clz_le (w x : Nat) : clz w x ≤ w := by
  induction w with
  | zero => simp [clz]
  | succ n ih =>
    unfold clz
    split <;> omega

/-- For a non-zero pattern the leading zeros, the most significant set bit and the
places below it make up the width. -/
theorem clz_add_bsrIdx (w x : Nat) (hx : x % 2 ^ w ≠ 0) : clz w x + bsrIdx w x + 1 = w := by
  induction w with
  | zero => simp [Nat.mod_one] at hx
  | succ n ih =>
    unfold clz bsrIdx
    by_cases hb : x / 2 ^ n % 2 = 1
    · simp only [hb, if_true]
      omega
    · simp only [hb, if_false]
      have hx2 : x % 2 ^ n ≠ 0 := by
        intro h0
        apply hx
        rw [Nat.mod_pow_succ, h0]
        have : x / 2 ^ n % 2 = 0 := by omega
        simp [this]
      have := ih hx2
      omega

/-- A pattern with its top bit set has no leading zero. -/
theorem clz_top_set (n x : Nat) (h : x / 2 ^ n % 2 = 1) : clz (n + 1) x = 0 := by
  unfold clz
  simp only [h, if_true]

/-- Result register after the fallback path: the count of leading zeros, in the
whole register. -/
theorem clzFallbackBody_value (w : Nat) (hw : w = 32 ∨ w = 64) (source result : HostLoc)
    (t : X64State) (h : source ≠ result) :
    (clzFallbackBody w (w - 1) source result t).gpr result = clz w (t.gpr source % 2 ^ w) := by
  have e1 := regs_ne h
  have hle := clz_le w (t.gpr source % 2 ^ w)
  unfold clzFallbackBody
  by_cases h0 : t.gpr source % 2 ^ w = 0
  · have hc : clz w 0 = w := by
      rcases hw with rfl | rfl <;> decide
    rw [h0, hc]
    simp only [add_eff, neg_eff, cmovcc_eff, mov_eff, bsr_eff, e1, if_true, if_false,
      X64State.readGpr, X64State.readOp, CC.holds, h0, decide_True, regWrite_32,
      Nat.reducePow, Nat.reduceMod, Nat.reduceEqDiff, Nat.add_zero, Nat.zero_add, Nat.reduceSub]
    rcases hw with rfl | rfl <;> rfl
  · have hrel := clz_add_bsrIdx w (t.gpr source % 2 ^ w) (by rwa [Nat.mod_mod])
    rcases hw with rfl | rfl
    · simp only [add_eff, neg_eff, cmovcc_eff, mov_eff, bsr_eff, e1, if_true, if_false,
        X64State.readGpr, X64State.readOp, CC.holds, h0, decide_False, Bool.false_eq_true,
        regWrite_32, Nat.reduceEqDiff, Nat.add_zero, Nat.zero_add, Nat.reduceSub]
      generalize bsrIdx 32 (t.gpr source % 2 ^ 32) = i at hrel ⊢
      generalize clz 32 (t.gpr source % 2 ^ 32) = c at hrel hle ⊢
      omega
    · simp only [add_eff, neg_eff, cmovcc_eff, mov_eff, bsr_eff, e1, if_true, if_false,
        X64State.readGpr, X64State.readOp, CC.holds, h0, decide_False, Bool.false_eq_true,
        regWrite_32, regWrite_64, Nat.reduceEqDiff, Nat.add_zero, Nat.zero_add, Nat.reduceSub]
      generalize bsrIdx 64 (t.gpr source % 2 ^ 64) = i at hrel ⊢
      generalize clz 64 (t.gpr source % 2 ^ 64) = c at hrel hle ⊢
      omega

/-- C15: for every 32-bit input `x`, the LZCNT path and the BSR-fallback path of
EmitCountLeadingZeros32 produce the same 32-bit result, the number of leading zero
bits of `x` (32 for `x = 0`, 31 for `x = 1`, 0 when bit 31 is set); on the fallback
path the result does not depend on the value `bsr` leaves in its destination, since
it holds in every host state. -/
theorem CountLeadingZeros32_paths_agree (inst : Inst) (source result : HostLoc)
    (s : X64State) (hra : source ≠ result) :
    (EmitCountLeadingZeros32 true inst source result s).valueOf .inst 32
      = some (clz 32 (inst.arg0.raw % 2 ^ 32))
    ∧ (EmitCountLeadingZeros32 false inst source result s).valueOf .inst 32
      = some (clz 32 (inst.arg0.raw % 2 ^ 32))
    ∧ clz 32 0 = 32 ∧ clz 32 1 = 31
    ∧ (∀ y : Nat, y / 2 ^ 31 % 2 = 1 → clz 32 y = 0) := by
  have e1 := regs_ne hra
  have hx : inst.arg0.raw % 2 ^ 64 % 2 ^ 32 = inst.arg0.raw % 2 ^ 32 := by omega
  have hle := clz_le 32 (inst.arg0.raw % 2 ^ 32)
  refine ⟨?_, ?_, by decide, by decide, fun y hy => clz_top_set 31 y hy⟩
  · unfold EmitCountLeadingZeros32
    simp only [if_true, DefineValue_valueOf]
    refine congrArg some ?_
    simp only [lzcnt_eff, UseGpr_eff, e1, if_true, if_false, X64State.readGpr, regWrite_32, hx]
    omega
  · unfold EmitCountLeadingZeros32
    simp only [Bool.false_eq_true, if_false, DefineValue_valueOf]
    refine congrArg some ?_
    have key := clzFallbackBody_value 32 (Or.inl rfl) source result
      (UseScratchGpr inst.arg0 source s) hra
    simp only [UseScratchGpr_eff, if_true, hx] at key
    have key2 : (clzFallbackBody 32 31 source result (UseScratchGpr inst.arg0 source s)).gpr result
        = clz 32 (inst.arg0.raw % 2 ^ 32) := key
    unfold clzFallbackBody at key2
    rw [key2]
    omega

/-- C15, on the input 0 in a host state whose undefined values are all ones: both
paths give 32. -/
theorem CountLeadingZeros32_paths_agree_witness :
    (EmitCountLeadingZeros32 true ⟨.val .U32 0, .val .U1 0, .val .U1 0, false, false, false⟩
        .RBX .RSI { X64State.zero with undef := fun _ => 2 ^ 64 - 1 }).valueOf .inst 32 = some 32
    ∧ (EmitCountLeadingZeros32 false ⟨.val .U32 0, .val .U1 0, .val .U1 0, false, false, false⟩
        .RBX .RSI { X64State.zero with undef := fun _ => 2 ^ 64 - 1 }).valueOf .inst 32
        = some 32 := by
  have h := CountLeadingZeros32_paths_agree
    ⟨.val .U32 0, .val .U1 0, .val .U1 0, false, false, false⟩ .RBX .RSI
    { X64State.zero with undef := fun _ => 2 ^ 64 - 1 } (by decide)
  exact ⟨h.1, h.2.1⟩

/-- C16: for every 64-bit input `x`, the LZCNT path and the BSR-fallback path of
EmitCountLeadingZeros64 leave the same full 64-bit result register, the number of
leading zero bits of `x` (64 for `x = 0`); the upper 32 bits of the result are zero
for every `x`, and on the fallback path the result does not depend on what `bsr`
leaves in its destination, since it holds in every host state. -/
theorem CountLeadingZeros64_paths_agree (inst : Inst) (source result : HostLoc)
    (s : X64State) (hra : source ≠ result) :
    (EmitCountLeadingZeros64 true inst source result s).valueOf .inst 64
      = some (clz 64 (inst.arg0.raw % 2 ^ 64))
    ∧ (EmitCountLeadingZeros64 false inst source result s).valueOf .inst 64
      = some (clz 64 (inst.arg0.raw % 2 ^ 64))
    ∧ clz 64 (inst.arg0.raw % 2 ^ 64) / 2 ^ 32 = 0
    ∧ clz 64 0 = 64 := by
  have e1 := regs_ne hra
  have hle := clz_le 64 (inst.arg0.raw % 2 ^ 64)
  refine ⟨?_, ?_, by omega, by decide⟩
  · unfold EmitCountLeadingZeros64
    simp only [if_true, DefineValue_valueOf]
    refine congrArg some ?_
    simp only [lzcnt_eff, UseGpr_eff, e1, if_true, if_false, X64State.readGpr, regWrite_64,
      Nat.mod_mod]
    omega
  · unfold EmitCountLeadingZeros64
    simp only [Bool.false_eq_true, if_false, DefineValue_valueOf]
    refine congrArg some ?_
    have key := clzFallbackBody_value 64 (Or.inr rfl) source result
      (UseScratchGpr inst.arg0 source s) hra
    simp only [UseScratchGpr_eff, if_true, Nat.mod_mod] at key
    have key2 : (clzFallbackBody 64 63 source result (UseScratchGpr inst.arg0 source s)).gpr result
        = clz 64 (inst.arg0.raw % 2 ^ 64) := key
    unfold clzFallbackBody at key2
    rw [key2]
    omega

/-- C16, on the input 0 in a host state whose undefined values are all ones: both
paths give 64. -/
theorem CountLeadingZeros64_paths_agree_witness :
    (EmitCountLeadingZeros64 true ⟨.val .U64 0, .val .U1 0, .val .U1 0, false, false, false⟩
        .RBX .RSI { X64State.zero with undef := fun _ => 2 ^ 64 - 1 }).valueOf .inst 64 = some 64
    ∧ (EmitCountLeadingZeros64 false ⟨.val .U64 0, .val .U1 0, .val .U1 0, false, false, false⟩
        .RBX .RSI { X64State.zero with undef := fun _ => 2 ^ 64 - 1 }).valueOf .inst 64
        = some 64 := by
  have h := CountLeadingZeros64_paths_agree
    ⟨.val .U64 0, .val .U1 0, .val .U1 0, false, false, false⟩ .RBX .RSI
    { X64State.zero with undef := fun _ => 2 ^ 64 - 1 } (by decide)
  exact ⟨h.1, h.2.1⟩

/-! ## Packing -/

/-- The call log commutes with `if`. -/
theorem ite_calls (c : Prop) [Decidable c] (a b : X64State) :
    (if c then a else b).calls = if c then a.calls else b.calls := by
  split <;> rfl

/-- The calls of an emitter that looks up the carry only are hygienic. -/
theorem hygienic_carry (b : Bool) :
    Hygienic (carryOnly b) (pseudoCalls b .carry_inst ++ [.define .inst]) := by
  cases b <;> decide

/-- The calls of the arithmetic emitters are hygienic. -/
theorem hygienic_arith (inst : Inst) :
    Hygienic (carryOverflowNzcv inst)
      (pseudoCalls inst.nzcv_inst .nzcv_inst ++ (pseudoCalls inst.carry_inst .carry_inst
        ++ (pseudoCalls inst.overflow_inst .overflow_inst ++ [.define .inst]))) := by
  have h : ∀ n c o : Bool, Hygienic
      (fun p => match p with
        | .inst => false | .carry_inst => c | .overflow_inst => o | .nzcv_inst => n)
      (pseudoCalls n .nzcv_inst ++ (pseudoCalls c .carry_inst
        ++ (pseudoCalls o .overflow_inst ++ [.define .inst]))) := by
    intro n c o
    cases n <;> cases c <;> cases o <;> decide
  have e : carryOverflowNzcv inst = (fun p => match p with
        | .inst => false | .carry_inst => inst.carry_inst
        | .overflow_inst => inst.overflow_inst | .nzcv_inst => inst.nzcv_inst) := by
    funext p
    cases p <;> rfl
  rw [e]
  exact h _ _ _

/-- Calls made by `EmitMostSignificantWord`. -/
theorem MostSignificantWord_calls (inst : Inst) (result carry : HostLoc) (s : X64State) :
    (EmitMostSignificantWord inst result carry s).calls
      = s.calls ++ (pseudoCalls inst.carry_inst .carry_inst ++ [.define .inst]) := by
  cases hci : inst.carry_inst <;>
    simp only [EmitMostSignificantWord, hci, Bool.false_eq_true, if_true, if_false, ite_calls,
      DefineValue_aux, EraseInstruction_aux, UseScratchGpr_aux, shr_aux, setcc_aux,
      pseudoCalls, List.append_assoc, List.nil_append, List.cons_append, List.singleton_append]

/-- Calls made by `EmitRotateRightExtended`. -/
theorem RotateRightExtended_calls (inst : Inst) (result carry : HostLoc) (s : X64State) :
    (EmitRotateRightExtended inst result carry s).calls
      = s.calls ++ (pseudoCalls inst.carry_inst .carry_inst ++ [.define .inst]) := by
  cases hci : inst.carry_inst <;>
    simp only [EmitRotateRightExtended, hci, Bool.false_eq_true, if_true, if_false, ite_calls,
      DefineValue_aux, EraseInstruction_aux, UseScratchGpr_aux, rcr_one_aux, bt_aux, setcc_aux,
      pseudoCalls, List.append_assoc, List.nil_append, List.cons_append, List.singleton_append]

/-- Calls made by `EmitLogicalShiftLeft32`. -/
theorem LogicalShiftLeft32_calls (inst : Inst) (result carry zero : HostLoc) (s : X64State) :
    (EmitLogicalShiftLeft32 inst result carry zero s).calls
      = s.calls ++ (pseudoCalls inst.carry_inst .carry_inst ++ [.define .inst]) := by
  cases hci : inst.carry_inst <;> cases himm : inst.arg1.IsImmediate <;>
    simp only [EmitLogicalShiftLeft32, hci, himm, Bool.not_true, Bool.not_false,
      Bool.false_eq_true, if_true, if_false, ite_calls,
      DefineValue_aux, EraseInstruction_aux, UseScratchGpr_aux, Use_aux, shl_aux, shl_cl_aux,
      xor_aux, and_aux, mov_aux, cmp_aux, cmovcc_aux, bt_aux, setcc_aux, ite_self,
      pseudoCalls, List.append_assoc, List.nil_append, List.cons_append, List.singleton_append]

/-- Calls made by `EmitLogicalShiftRight32`. -/
theorem LogicalShiftRight32_calls (inst : Inst) (result carry zero : HostLoc) (s : X64State) :
    (EmitLogicalShiftRight32 inst result carry zero s).calls
      = s.calls ++ (pseudoCalls inst.carry_inst .carry_inst ++ [.define .inst]) := by
  cases hci : inst.carry_inst <;> cases himm : inst.arg1.IsImmediate <;>
    simp only [EmitLogicalShiftRight32, hci, himm, Bool.not_true, Bool.not_false,
      Bool.false_eq_true, if_true, if_false, ite_calls,
      DefineValue_aux, EraseInstruction_aux, UseScratchGpr_aux, Use_aux, shr_aux, shr_cl_aux,
      xor_aux, and_aux, mov_aux, cmp_aux, cmovcc_aux, bt_aux, setcc_aux, test_aux, ite_self,
      pseudoCalls, List.append_assoc, List.nil_append, List.cons_append, List.singleton_append]

/-- Calls made by `EmitRotateRight32`. -/
theorem RotateRight32_calls (inst : Inst) (result carry : HostLoc) (s : X64State) :
    (EmitRotateRight32 inst result carry s).calls
      = s.calls ++ (pseudoCalls inst.carry_inst .carry_inst ++ [.define .inst]) := by
  cases hci : inst.carry_inst <;> cases himm : inst.arg1.IsImmediate <;>
    simp only [EmitRotateRight32, hci, himm, Bool.not_true, Bool.not_false,
      Bool.false_eq_true, if_true, if_false, ite_calls,
      DefineValue_aux, EraseInstruction_aux, UseScratchGpr_aux, Use_aux, ror_aux, ror_cl_aux,
      and_aux, bt_aux, setcc_aux, test_aux, ite_self,
      pseudoCalls, List.append_assoc, List.nil_append, List.cons_append, List.singleton_append]

/-- Calls made by `EmitArithmeticShiftRight32`. -/
theorem ArithmeticShiftRight32_calls (inst : Inst) (result carry const31 : HostLoc)
    (s : X64State) :
    (EmitArithmeticShiftRight32 inst result carry const31 s).calls
      = s.calls ++ (pseudoCalls inst.carry_inst .carry_inst ++ [.define .inst]) := by
  cases hci : inst.carry_inst <;> cases himm : inst.arg1.IsImmediate <;>
    simp only [EmitArithmeticShiftRight32, hci, himm, Bool.not_true, Bool.not_false,
      Bool.false_eq_true, if_true, if_false, ite_calls,
      DefineValue_aux, EraseInstruction_aux, UseScratchGpr_aux, Use_aux, sar_aux, sar_cl_aux,
      mov_aux, movzx_aux, cmp_aux, cmovcc_aux, bt_aux, setcc_aux, test_aux, ite_self,
      pseudoCalls, List.append_assoc, List.nil_append, List.cons_append, List.singleton_append]

/-- The arithmetic proper leaves the call log alone. -/
theorem arith_core_calls (inst : Inst) (result carry : HostLoc) (op : OpArg) (bitsize : Nat)
    (s : X64State) :
    (withSource inst op (addBlock bitsize inst.arg2 result carry)
        (arithSetup inst result carry s)).calls = s.calls
    ∧ (withSource inst op (subBlock bitsize inst.arg2 result carry)
        (arithSetup inst result carry s)).calls = s.calls := by
  have hsetup : (arithSetup inst result carry s).calls = s.calls := by
    unfold arithSetup DoCarry DoNZCV
    simp only [ite_calls, UseScratchGpr_aux, UseGpr_aux, xor_aux, ite_self]
  constructor
  · unfold withSource addBlock
    simp only [ite_calls, UseOpArg_aux, adc_aux, add_aux, stc_aux, bt_aux, ite_self, hsetup]
  · unfold withSource subBlock
    simp only [ite_calls, UseOpArg_aux, sbb_aux, sub_aux, stc_aux, cmc_aux, bt_aux, ite_self,
      hsetup]

/-- Calls made by the output blocks of the arithmetic emitters. -/
theorem arith_outputs_calls (inst : Inst) (cc : CC) (invert : Bool)
    (result carry overflow : HostLoc) (u : X64State) :
    (flagOutputs inst cc result carry overflow (nzcvOutput inst invert u)).calls
      = u.calls ++ (pseudoCalls inst.nzcv_inst .nzcv_inst
        ++ (pseudoCalls inst.carry_inst .carry_inst
          ++ (pseudoCalls inst.overflow_inst .overflow_inst ++ [.define .inst]))) := by
  cases hn : inst.nzcv_inst <;> cases hc : inst.carry_inst <;> cases ho : inst.overflow_inst <;>
    simp only [flagOutputs, nzcvOutput, hn, hc, ho, Bool.false_eq_true, if_true, if_false,
      ite_calls, DefineValue_aux, EraseInstruction_aux, setcc_aux, lahf_aux, cmc_aux, ite_self,
      pseudoCalls, List.append_assoc, List.nil_append, List.cons_append, List.singleton_append]

/-- C18: pseudo-operation hygiene.  For each emitter that looks up
pseudo-operations (MostSignificantWord, LogicalShiftLeft32, LogicalShiftRight32,
ArithmeticShiftRight32, RotateRight32, RotateRightExtended, which look up the carry,
and Add and Sub, which look up carry, overflow and NZCV), for every combination of
attached and absent pseudo-operations and every operand shape, the calls made during
the run define the primary instruction exactly once, define each attached
pseudo-operation exactly once and then erase it exactly once, and neither define nor
erase a pseudo-operation that is not attached. -/
theorem pseudo_operation_hygiene (bitsize : Nat) (inst : Inst)
    (result carry scratch overflow : HostLoc) (op : OpArg) (s : X64State) :
    HygienicRun (carryOnly inst.carry_inst) s (EmitMostSignificantWord inst result carry s)
    ∧ HygienicRun (carryOnly inst.carry_inst) s
        (EmitLogicalShiftLeft32 inst result carry scratch s)
    ∧ HygienicRun (carryOnly inst.carry_inst) s
        (EmitLogicalShiftRight32 inst result carry scratch s)
    ∧ HygienicRun (carryOnly inst.carry_inst) s
        (EmitArithmeticShiftRight32 inst result carry scratch s)
    ∧ HygienicRun (carryOnly inst.carry_inst) s (EmitRotateRight32 inst result carry s)
    ∧ HygienicRun (carryOnly inst.carry_inst) s (EmitRotateRightExtended inst result carry s)
    ∧ HygienicRun (carryOverflowNzcv inst) s (EmitAdd bitsize inst result carry overflow op s)
    ∧ HygienicRun (carryOverflowNzcv inst) s
        (EmitSub bitsize inst result carry overflow op s) := by
  refine ⟨⟨_, MostSignificantWord_calls inst result carry s, hygienic_carry _⟩,
    ⟨_, LogicalShiftLeft32_calls inst result carry scratch s, hygienic_carry _⟩,
    ⟨_, LogicalShiftRight32_calls inst result carry scratch s, hygienic_carry _⟩,
    ⟨_, ArithmeticShiftRight32_calls inst result carry scratch s, hygienic_carry _⟩,
    ⟨_, RotateRight32_calls inst result carry s, hygienic_carry _⟩,
    ⟨_, RotateRightExtended_calls inst result carry s, hygienic_carry _⟩,
    ⟨_, ?_, hygienic_arith inst⟩, ⟨_, ?_, hygienic_arith inst⟩⟩
  · rw [EmitAdd_eq_blocks, arith_outputs_calls, (arith_core_calls inst result carry op bitsize s).1]
  · rw [EmitSub_eq_blocks, arith_outputs_calls, (arith_core_calls inst result carry op bitsize s).2]

/-! ## Minimum and maximum -/

/-- Flags of a comparison of two in-range values, read as order relations. -/
theorem cmp_flags (w : Nat) (hw : w = 32 ∨ w = 64) (a b : Nat) (ha : a < 2 ^ w)
    (hb : b < 2 ^ w) :
    (msb w ((a + 2 ^ w - (b + 0)) % 2 ^ w)
        == ((msb w a != msb w b) && (msb w ((a + 2 ^ w - (b + 0)) % 2 ^ w) != msb w a)))
      = decide (toSigned w b ≤ toSigned w a)
    ∧ decide ((a + 2 ^ w - (b + 0)) % 2 ^ w % 2 ^ w = 0) = decide (a = b)
    ∧ (toSigned w a = toSigned w b ↔ a = b) := by
  have hw0 : 0 < w := by omega
  have hM := two_pow_split w hw0
  have hr : (a + 2 ^ w - (b + 0)) % 2 ^ w < 2 ^ w := Nat.mod_lt _ (by positivity)
  have hcase : (a + 2 ^ w - (b + 0)) % 2 ^ w + b = a + 2 ^ w
      ∨ (a + 2 ^ w - (b + 0)) % 2 ^ w + b = a := by
    by_cases h : a + 2 ^ w - (b + 0) < 2 ^ w
    · exact Or.inl (by rw [Nat.mod_eq_of_lt h]; omega)
    · right
      have := Nat.mod_add_div (a + 2 ^ w - (b + 0)) (2 ^ w)
      have hq : (a + 2 ^ w - (b + 0)) / 2 ^ w = 1 := by
        apply Nat.div_eq_of_lt_le <;> omega
      rw [hq] at this
      omega
  rw [Nat.mod_mod, msb_eq_le w a hw0 ha, msb_eq_le w b hw0 hb, msb_eq_le w _ hw0 hr,
    toSigned_eq w a ha, toSigned_eq w b hb]
  generalize (a + 2 ^ w - (b + 0)) % 2 ^ w = r at *
  generalize 2 ^ (w - 1) = H at *
  generalize 2 ^ w = M at *
  subst hM
  refine ⟨?_, ?_, ?_⟩
  · by_cases h1 : H ≤ r <;> by_cases h2 : H ≤ a <;> by_cases h3 : H ≤ b <;>
      simp only [h1, h2, h3, not_le.mp, not_lt.mpr, decide_True, decide_False, if_true, if_false,
        bne_self_eq_false, Bool.true_and, Bool.false_and, Bool.and_true, Bool.and_false,
        beq_self_eq_true, Bool.true_bne, Bool.false_bne, Bool.bne_true, Bool.bne_false,
        Bool.not_true, Bool.not_false, beq_true, beq_false, Bool.true_beq, Bool.false_beq,
        true_eq_decide_iff, false_eq_decide_iff, Bool.true_eq_false, Bool.false_eq_true] <;>
      omega
  · rw [Bool.eq_iff_iff]
    simp only [decide_eq_true_eq]
    omega
  · split_ifs <;> omega

/-- The four conditions used by the minimum and maximum emitters, on the flags of a
comparison of two in-range values. -/
theorem cmp_conds (w : Nat) (hw : w = 32 ∨ w = 64) (a b : Nat) (ha : a < 2 ^ w)
    (hb : b < 2 ^ w) :
    (msb w ((a + 2 ^ w - (b + 0)) % 2 ^ w)
        == ((msb w a != msb w b) && (msb w ((a + 2 ^ w - (b + 0)) % 2 ^ w) != msb w a)))
      = decide (toSigned w b ≤ toSigned w a)
    ∧ (!decide (a < b + 0) && !decide ((a + 2 ^ w - (b + 0)) % 2 ^ w % 2 ^ w = 0))
      = decide (b < a)
    ∧ (decide ((a + 2 ^ w - (b + 0)) % 2 ^ w % 2 ^ w = 0)
        || (msb w ((a + 2 ^ w - (b + 0)) % 2 ^ w)
          != ((msb w a != msb w b) && (msb w ((a + 2 ^ w - (b + 0)) % 2 ^ w) != msb w a))))
      = decide (toSigned w a ≤ toSigned w b)
    ∧ decide (a < b + 0) = decide (a < b) := by
  obtain ⟨h1, h2, h3⟩ := cmp_flags w hw a b ha hb
  have hne : (msb w ((a + 2 ^ w - (b + 0)) % 2 ^ w)
      != ((msb w a != msb w b) && (msb w ((a + 2 ^ w - (b + 0)) % 2 ^ w) != msb w a)))
      = !decide (toSigned w b ≤ toSigned w a) := by
    rw [← h1]
    cases msb w ((a + 2 ^ w - (b + 0)) % 2 ^ w) <;>
      cases ((msb w a != msb w b) && (msb w ((a + 2 ^ w - (b + 0)) % 2 ^ w) != msb w a)) <;> rfl
  rw [hne, h2]
  refine ⟨h1, ?_, ?_, ?_⟩
  · rw [Bool.eq_iff_iff]
    simp only [Bool.and_eq_true, Bool.not_eq_true', decide_eq_false_iff_not, decide_eq_true_eq]
    omega
  · rw [Bool.eq_iff_iff]
    simp only [Bool.or_eq_true, Bool.not_eq_true', decide_eq_false_iff_not, decide_eq_true_eq]
    constructor
    · rintro (h | h)
      · rw [h]
      · omega
    · intro h
      by_cases hab : a = b
      · exact Or.inl hab
      · right
        intro h'
        exact hab (h3.mp (le_antisymm h h'))
  · rw [Bool.eq_iff_iff]
    simp only [decide_eq_true_eq]
    omega

/-- Outcome of `cmp x, y` for the four conditions used by the minimum and maximum
emitters. -/
theorem cmp_outcome (w : Nat) (hw : w = 32 ∨ w = 64) (x y : HostLoc) (t : X64State) :
    CC.ge.holds (code.cmp w x (.reg y) t)
      = decide (toSigned w (t.gpr y % 2 ^ w) ≤ toSigned w (t.gpr x % 2 ^ w))
    ∧ CC.a.holds (code.cmp w x (.reg y) t) = decide (t.gpr y % 2 ^ w < t.gpr x % 2 ^ w)
    ∧ CC.le.holds (code.cmp w x (.reg y) t)
      = decide (toSigned w (t.gpr x % 2 ^ w) ≤ toSigned w (t.gpr y % 2 ^ w))
    ∧ CC.c.holds (code.cmp w x (.reg y) t) = decide (t.gpr x % 2 ^ w < t.gpr y % 2 ^ w) := by
  have ha : t.gpr x % 2 ^ w < 2 ^ w := Nat.mod_lt _ (by positivity)
  have hb : t.gpr y % 2 ^ w < 2 ^ w := Nat.mod_lt _ (by positivity)
  simp only [CC.holds, cmp_eff, X64State.readGpr, X64State.readOp]
  exact cmp_conds w hw _ _ ha hb

/-- The shared shape of the minimum and maximum emitters: `y` receives `x` when the
condition holds on the flags of `cmp x, y`. -/
theorem minmax_value (w : Nat) (hw : w = 32 ∨ w = 64) (cc : CC) (inst : Inst) (x y : HostLoc)
    (s : X64State) (hra : x ≠ y) :
    (DefineValue .inst y (code.cmovcc cc w y x (code.cmp w x (.reg y)
        (UseScratchGpr inst.arg1 y (UseGpr inst.arg0 x s))))).valueOf .inst w
      = some (if cc.holds (code.cmp w x (.reg y)
            (UseScratchGpr inst.arg1 y (UseGpr inst.arg0 x s)))
          then inst.arg0.raw % 2 ^ w else inst.arg1.raw % 2 ^ w) := by
  have e1 := regs_ne hra
  have hx : inst.arg0.raw % 2 ^ 64 % 2 ^ w = inst.arg0.raw % 2 ^ w := by
    rcases hw with rfl | rfl <;> omega
  have hy : inst.arg1.raw % 2 ^ 64 % 2 ^ w = inst.arg1.raw % 2 ^ w := by
    rcases hw with rfl | rfl <;> omega
  rw [DefineValue_valueOf]
  refine congrArg some ?_
  simp only [cmovcc_eff, if_true, regWrite_mod_self w hw, cmp_eff, UseScratchGpr_eff,
    UseGpr_eff, e1, if_false, X64State.readGpr, hx, hy, Nat.mod_mod]
  split <;> simp only [Nat.mod_mod]

/-- The signed maximum and minimum are the larger and the smaller value under the
two's-complement order, are one of the inputs, and do not depend on the order of the
inputs. -/
theorem signed_minmax_props (w : Nat) (hw : w = 32 ∨ w = 64) (a b : Nat) (ha : a < 2 ^ w)
    (hb : b < 2 ^ w) :
    toSigned w (maxSigned w a b) = max (toSigned w a) (toSigned w b)
    ∧ toSigned w (minSigned w a b) = min (toSigned w a) (toSigned w b)
    ∧ (maxSigned w a b = a ∨ maxSigned w a b = b)
    ∧ (minSigned w a b = a ∨ minSigned w a b = b)
    ∧ maxSigned w a b = maxSigned w b a
    ∧ minSigned w a b = minSigned w b a := by
  obtain ⟨-, -, h3⟩ := cmp_flags w hw a b ha hb
  unfold maxSigned minSigned
  by_cases h1 : toSigned w b ≤ toSigned w a <;> by_cases h2 : toSigned w a ≤ toSigned w b
  · have hab : a = b := h3.mp (le_antisymm h2 h1)
    subst hab
    simp only [le_refl, if_true, max_self, min_self, or_self, and_self]
  · simp only [h1, h2, if_true, if_false, true_or, or_true, true_and, and_true]
    omega
  · simp only [h1, h2, if_true, if_false, true_or, or_true, true_and, and_true]
    omega
  · omega

/-- C19: for `w = 32` and `w = 64` and every pair of `w`-bit values `x`, `y`,
MaxSigned yields the larger and MinSigned the smaller of `x`, `y` under the
two's-complement signed order, MaxUnsigned the larger and MinUnsigned the smaller
under the unsigned order; each result is one of the two inputs and does not change
when `x` and `y` are swapped. -/
theorem MinMax_values (inst : Inst) (x y : HostLoc) (s : X64State) (hra : x ≠ y) :
    (EmitMaxSigned32 inst x y s).valueOf .inst 32
      = some (maxSigned 32 (inst.arg0.raw % 2 ^ 32) (inst.arg1.raw % 2 ^ 32))
    ∧ (EmitMaxSigned64 inst x y s).valueOf .inst 64
      = some (maxSigned 64 (inst.arg0.raw % 2 ^ 64) (inst.arg1.raw % 2 ^ 64))
    ∧ (EmitMaxUnsigned32 inst x y s).valueOf .inst 32
      = some (max (inst.arg0.raw % 2 ^ 32) (inst.arg1.raw % 2 ^ 32))
    ∧ (EmitMaxUnsigned64 inst x y s).valueOf .inst 64
      = some (max (inst.arg0.raw % 2 ^ 64) (inst.arg1.raw % 2 ^ 64))
    ∧ (EmitMinSigned32 inst x y s).valueOf .inst 32
      = some (minSigned 32 (inst.arg0.raw % 2 ^ 32) (inst.arg1.raw % 2 ^ 32))
    ∧ (EmitMinSigned64 inst x y s).valueOf .inst 64
      = some (minSigned 64 (inst.arg0.raw % 2 ^ 64) (inst.arg1.raw % 2 ^ 64))
    ∧ (EmitMinUnsigned32 inst x y s).valueOf .inst 32
      = some (min (inst.arg0.raw % 2 ^ 32) (inst.arg1.raw % 2 ^ 32))
    ∧ (EmitMinUnsigned64 inst x y s).valueOf .inst 64
      = some (min (inst.arg0.raw % 2 ^ 64) (inst.arg1.raw % 2 ^ 64))
    ∧ (∀ w a b : Nat, (w = 32 ∨ w = 64) → a < 2 ^ w → b < 2 ^ w →
        toSigned w (maxSigned w a b) = max (toSigned w a) (toSigned w b)
        ∧ toSigned w (minSigned w a b) = min (toSigned w a) (toSigned w b)
        ∧ (maxSigned w a b = a ∨ maxSigned w a b = b)
        ∧ (minSigned w a b = a ∨ minSigned w a b = b)
        ∧ maxSigned w a b = maxSigned w b a
        ∧ minSigned w a b = minSigned w b a
        ∧ (max a b = a ∨ max a b = b) ∧ (min a b = a ∨ min a b = b)
        ∧ max a b = max b a ∧ min a b = min b a) := by
  have e1 := regs_ne hra
  have hx : ∀ w, (w = 32 ∨ w = 64) →
      (UseScratchGpr inst.arg1 y (UseGpr inst.arg0 x s)).gpr x % 2 ^ w = inst.arg0.raw % 2 ^ w := by
    intro w hw
    simp only [UseScratchGpr_eff, UseGpr_eff, e1, if_true, if_false]
    rcases hw with rfl | rfl <;> omega
  have hy : ∀ w, (w = 32 ∨ w = 64) →
      (UseScratchGpr inst.arg1 y (UseGpr inst.arg0 x s)).gpr y % 2 ^ w = inst.arg1.raw % 2 ^ w := by
    intro w hw
    simp only [UseScratchGpr_eff, if_true]
    rcases hw with rfl | rfl <;> omega
  have h32 : (32 = 32 ∨ 32 = 64) := Or.inl rfl
  have h64 : (64 = 32 ∨ 64 = 64) := Or.inr rfl
  have hmax : ∀ a b : Nat, (if b < a then a else b) = max a b := by
    intro a b
    split <;> omega
  have hmin : ∀ a b : Nat, (if a < b then a else b) = min a b := by
    intro a b
    split <;> omega
  refine ⟨?_, ?_, ?_, ?_, ?_, ?_, ?_, ?_, ?_⟩
  · refine (minmax_value 32 h32 .ge inst x y s hra).trans (congrArg some ?_)
    rw [(cmp_outcome 32 h32 x y _).1, hx 32 h32, hy 32 h32]
    simp only [decide_eq_true_eq, maxSigned]
  · refine (minmax_value 64 h64 .ge inst x y s hra).trans (congrArg some ?_)
    rw [(cmp_outcome 64 h64 x y _).1, hx 64 h64, hy 64 h64]
    simp only [decide_eq_true_eq, maxSigned]
  · refine (minmax_value 32 h32 .a inst x y s hra).trans (congrArg some ?_)
    rw [(cmp_outcome 32 h32 x y _).2.1, hx 32 h32, hy 32 h32]
    simp only [decide_eq_true_eq, hmax]
  · refine (minmax_value 64 h64 .a inst x y s hra).trans (congrArg some ?_)
    rw [(cmp_outcome 64 h64 x y _).2.1, hx 64 h64, hy 64 h64]
    simp only [decide_eq_true_eq, hmax]
  · refine (minmax_value 32 h32 .le inst x y s hra).trans (congrArg some ?_)
    rw [(cmp_outcome 32 h32 x y _).2.2.1, hx 32 h32, hy 32 h32]
    simp only [decide_eq_true_eq, minSigned]
  · refine (minmax_value 64 h64 .le inst x y s hra).trans (congrArg some ?_)
    rw [(cmp_outcome 64 h64 x y _).2.2.1, hx 64 h64, hy 64 h64]
    simp only [decide_eq_true_eq, minSigned]
  · refine (minmax_value 32 h32 .c inst x y s hra).trans (congrArg some ?_)
    rw [(cmp_outcome 32 h32 x y _).2.2.2, hx 32 h32, hy 32 h32]
    simp only [decide_eq_true_eq, hmin]
  · refine (minmax_value 64 h64 .c inst x y s hra).trans (congrArg some ?_)
    rw [(cmp_outcome 64 h64 x y _).2.2.2, hx 64 h64, hy 64 h64]
    simp only [decide_eq_true_eq, hmin]
  · intro w a b hw ha hb
    obtain ⟨p1, p2, p3, p4, p5, p6⟩ := signed_minmax_props w hw a b ha hb
    exact ⟨p1, p2, p3, p4, p5, p6, by omega, by omega, by omega, by omega⟩

/-- C19, on `x = 0x80000000` and `y = 0x7FFFFFFF`: the signed maximum is `y`, the
unsigned maximum is `x`, the signed minimum is `x`, the unsigned minimum is `y`. -/
theorem MinMax_values_witness :
    (EmitMaxSigned32 ⟨.val .U32 0x80000000, .val .U32 0x7FFFFFFF, .val .U1 0,
        false, false, false⟩ .RBX .RSI X64State.zero).valueOf .inst 32 = some 0x7FFFFFFF
    ∧ (EmitMaxUnsigned32 ⟨.val .U32 0x80000000, .val .U32 0x7FFFFFFF, .val .U1 0,
        false, false, false⟩ .RBX .RSI X64State.zero).valueOf .inst 32 = some 0x80000000
    ∧ (EmitMinSigned32 ⟨.val .U32 0x80000000, .val .U32 0x7FFFFFFF, .val .U1 0,
        false, false, false⟩ .RBX .RSI X64State.zero).valueOf .inst 32 = some 0x80000000
    ∧ (EmitMinUnsigned32 ⟨.val .U32 0x80000000, .val .U32 0x7FFFFFFF, .val .U1 0,
        false, false, false⟩ .RBX .RSI X64State.zero).valueOf .inst 32 = some 0x7FFFFFFF := by
  have h := MinMax_values ⟨.val .U32 0x80000000, .val .U32 0x7FFFFFFF, .val .U1 0,
    false, false, false⟩ .RBX .RSI X64State.zero (by decide)
  exact ⟨h.1.trans (by decide), h.2.2.1.trans (by decide), h.2.2.2.2.1.trans (by decide),
    h.2.2.2.2.2.2.1.trans (by decide)⟩

/-- Value of `EmitMostSignificantWord`: the operand shifted right by 32 places. -/
theorem MostSignificantWord_value (inst : Inst) (result carry : HostLoc) (s : X64State)
    (hra : result ≠ carry) :
    (EmitMostSignificantWord inst result carry s).valueOf .inst 64
      = some (inst.arg0.raw % 2 ^ 64 / 2 ^ 32) := by
  have e1 := regs_ne hra
  unfold EmitMostSignificantWord
  rw [DefineValue_valueOf]
  refine congrArg some ?_
  simp only [ite_eff, EraseInstruction_eff, DefineValue_eff, setcc_eff, shr_eff, e1,
    UseScratchGpr_eff, if_true, if_false, ite_self, code.countMask, Nat.reduceMod,
    Nat.reduceEqDiff, X64State.readGpr, regWrite_64, Nat.reducePow, Nat.mod_mod]
  omega

/-- Value of `EmitPack2x32To1x64`. -/
theorem Pack2x32To1x64_value (inst : Inst) (lo hi : HostLoc) (s : X64State) (hra : lo ≠ hi) :
    (EmitPack2x32To1x64 inst lo hi s).valueOf .inst 64
      = some (inst.arg1.raw % 2 ^ 32 * 2 ^ 32 + inst.arg0.raw % 2 ^ 32) := by
  have e1 := regs_ne hra
  have hor : ∀ l h : Nat, l % 4294967296 ||| h * 4294967296 % 18446744073709551616
      = h % 4294967296 * 4294967296 + l % 4294967296 := by
    intro l h
    have h1 : h * 4294967296 % 18446744073709551616 = 2 ^ 32 * (h % 4294967296) := by omega
    rw [h1, Nat.lor_comm, ← Nat.mul_add_lt_is_or (by omega)]
    omega
  have hl : inst.arg0.raw % 18446744073709551616 % 4294967296 % 18446744073709551616
      = inst.arg0.raw % 4294967296 := by omega
  unfold EmitPack2x32To1x64
  rw [DefineValue_valueOf]
  refine congrArg some ?_
  simp only [or_eff, mov_eff, shl_eff, UseScratchGpr_eff, e1, if_true, if_false,
    code.countMask, Nat.reduceMod, Nat.reduceEqDiff, X64State.readGpr, X64State.readOp,
    regWrite_64, regWrite_32, Nat.reducePow, Nat.mod_mod, hl, hor]
  omega

/-- C20: for every pair of 64-bit host registers holding `lo` and `hi` (with
arbitrary upper 32 bits), EmitPack2x32To1x64 yields the 64-bit value
`(hi mod 2^32) * 2^32 + (lo mod 2^32)`; applying the MostSignificantWord sequence
to that value returns `hi mod 2^32`, and its low 32 bits are `lo mod 2^32`. -/
theorem Pack2x32To1x64_then_MostSignificantWord (inst msw : Inst) (lo hi result carry : HostLoc)
    (s s2 : X64State) (hra : lo ≠ hi) (hra2 : result ≠ carry)
    (hop : msw.arg0.raw = inst.arg1.raw % 2 ^ 32 * 2 ^ 32 + inst.arg0.raw % 2 ^ 32) :
    (EmitPack2x32To1x64 inst lo hi s).valueOf .inst 64
      = some (inst.arg1.raw % 2 ^ 32 * 2 ^ 32 + inst.arg0.raw % 2 ^ 32)
    ∧ (EmitMostSignificantWord msw result carry s2).valueOf .inst 64
      = some (inst.arg1.raw % 2 ^ 32)
    ∧ (inst.arg1.raw % 2 ^ 32 * 2 ^ 32 + inst.arg0.raw % 2 ^ 32) % 2 ^ 32
      = inst.arg0.raw % 2 ^ 32 := by
  refine ⟨Pack2x32To1x64_value inst lo hi s hra, ?_, by omega⟩
  rw [MostSignificantWord_value msw result carry s2 hra2, hop]
  refine congrArg some ?_
  omega

/-- C20, on `lo = 0xAAAA00001111` and `hi = 0xBBBB00002222`: the packed value is
`0x0000222200001111`, whose most significant word is `0x2222`. -/
theorem Pack2x32To1x64_then_MostSignificantWord_witness :
    (EmitPack2x32To1x64 ⟨.val .U64 0xAAAA00001111, .val .U64 0xBBBB00002222, .val .U1 0,
        false, false, false⟩ .RBX .RSI X64State.zero).valueOf .inst 64
      = some 0x0000222200001111
    ∧ (EmitMostSignificantWord ⟨.val .U64 0x0000222200001111, .val .U1 0, .val .U1 0,
        true, false, false⟩ .RBX .RSI X64State.zero).valueOf .inst 64 = some 0x2222 := by
  have h := Pack2x32To1x64_then_MostSignificantWord
    ⟨.val .U64 0xAAAA00001111, .val .U64 0xBBBB00002222, .val .U1 0, false, false, false⟩
    ⟨.val .U64 0x0000222200001111, .val .U1 0, .val .U1 0, true, false, false⟩
    .RBX .RSI .RBX .RSI X64State.zero X64State.zero (by decide) (by decide) (by decide)
  exact ⟨h.1.trans (by decide), h.2.1.trans (by decide)⟩

/-! ## Register extraction -/

/-- The double shift is the low half of the shifted concatenation. -/
theorem shrd_concat (w c a b : Nat) (hc : c ≤ w) (ha : a < 2 ^ w) :
    a / 2 ^ c + b % 2 ^ c * 2 ^ (w - c) = (b * 2 ^ w + a) / 2 ^ c % 2 ^ w := by
  have hw : 2 ^ w = 2 ^ c * 2 ^ (w - c) := by rw [← Nat.pow_add]; congr 1; omega
  have hC : 0 < 2 ^ c := Nat.pow_pos (by decide)
  have hM : 0 < 2 ^ (w - c) := Nat.pow_pos (by decide)
  rw [hw] at ha ⊢
  generalize 2 ^ c = C at *
  generalize 2 ^ (w - c) = M at *
  have hq : a / C < M := (Nat.div_lt_iff_lt_mul hC).2 (by rw [Nat.mul_comm]; exact ha)
  have e1 : (b * (C * M) + a) / C = b * M + a / C := by
    rw [show b * (C * M) + a = a + C * (b * M) by ring, Nat.add_mul_div_left _ _ hC]
    omega
  rw [e1]
  have hb : b % C < C := Nat.mod_lt _ hC
  have e2 : b * M + a / C = (b % C * M + a / C) + C * M * (b / C) := by
    have := Nat.mod_add_div b C
    nth_rewrite 1 [← this]
    ring
  have e3 : (b * M + a / C) % (C * M) = b % C * M + a / C := by
    rw [e2, Nat.add_mul_mod_self_left]
    refine Nat.mod_eq_of_lt ?_
    calc b % C * M + a / C < b % C * M + M := by omega
      _ = (b % C + 1) * M := by ring
      _ ≤ C * M := Nat.mul_le_mul_right _ hb
  rw [e3]
  omega

/-- Value of `EmitExtractRegister` at either width. -/
theorem ExtractRegister_value (w : Nat) (hw : w = 32 ∨ w = 64) (inst : Inst)
    (result operand : HostLoc) (s : X64State) (hra : result ≠ operand)
    (hlsb : inst.arg2.GetImmediateU8 < w) :
    (EmitExtractRegister w inst result operand s).valueOf .inst w
      = some ((inst.arg1.raw % 2 ^ w * 2 ^ w + inst.arg0.raw % 2 ^ w)
          / 2 ^ inst.arg2.GetImmediateU8 % 2 ^ w) := by
  have e1 := regs_ne hra
  have hcm : code.countMask w inst.arg2.GetImmediateU8 = inst.arg2.GetImmediateU8 := by
    unfold code.countMask
    rcases hw with rfl | rfl
    · simp only [Nat.reduceEqDiff, if_false]; exact Nat.mod_eq_of_lt hlsb
    · simp only [if_true]; exact Nat.mod_eq_of_lt hlsb
  have hmm : ∀ x : Nat, x % 2 ^ 64 % 2 ^ w = x % 2 ^ w := by
    intro x
    rcases hw with rfl | rfl <;> omega
  unfold EmitExtractRegister
  rw [DefineValue_valueOf]
  refine congrArg some ?_
  simp only [shrd_eff, UseScratchGpr_eff, e1, if_true, if_false, hcm, X64State.readGpr, hmm]
  generalize inst.arg2.GetImmediateU8 = c at hlsb ⊢
  have hk := shrd_concat w c (inst.arg0.raw % 2 ^ w) (inst.arg1.raw % 2 ^ w) (le_of_lt hlsb)
    (Nat.mod_lt _ (Nat.pow_pos (by decide)))
  by_cases h0 : c = 0
  · subst h0
    simp only [if_true, hmm, pow_zero, Nat.div_one, Nat.mod_one, zero_mul, add_zero,
      zeroCount_read, UseScratchGpr_eff, e1, if_false] at hk ⊢
    rw [← hk]
  · simp only [h0, if_false, regWrite_mod_self w hw]
    rw [hk, Nat.mod_mod]

/-- C21: for `w` in {32, 64}, every pair of `w`-bit values `r` (first operand, the
destination) and `o` (second operand) and every immediate `lsb < w`, the
ExtractRegister sequence `shrd r, o, lsb` yields the low `w` bits of
`(o * 2^w + r) >> lsb`; for `lsb = 0` the result is `r`. -/
theorem ExtractRegister_concat_shift (inst : Inst) (result operand : HostLoc) (s : X64State)
    (hra : result ≠ operand) :
    (inst.arg2.GetImmediateU8 < 32 →
      (EmitExtractRegister32 inst result operand s).valueOf .inst 32
        = some (((inst.arg1.raw % 2 ^ 32 * 2 ^ 32 + inst.arg0.raw % 2 ^ 32)
            >>> inst.arg2.GetImmediateU8) % 2 ^ 32)
      ∧ (inst.arg2.GetImmediateU8 = 0 →
        (EmitExtractRegister32 inst result operand s).valueOf .inst 32
          = some (inst.arg0.raw % 2 ^ 32)))
    ∧ (inst.arg2.GetImmediateU8 < 64 →
      (EmitExtractRegister64 inst result operand s).valueOf .inst 64
        = some (((inst.arg1.raw % 2 ^ 64 * 2 ^ 64 + inst.arg0.raw % 2 ^ 64)
            >>> inst.arg2.GetImmediateU8) % 2 ^ 64)
      ∧ (inst.arg2.GetImmediateU8 = 0 →
        (EmitExtractRegister64 inst result operand s).valueOf .inst 64
          = some (inst.arg0.raw % 2 ^ 64))) := by
  constructor
  · intro h
    have hv := ExtractRegister_value 32 (Or.inl rfl) inst result operand s hra h
    refine ⟨by rw [Nat.shiftRight_eq_div_pow]; exact hv, fun h0 => ?_⟩
    unfold EmitExtractRegister32
    rw [hv, h0]
    refine congrArg some ?_
    omega
  · intro h
    have hv := ExtractRegister_value 64 (Or.inr rfl) inst result operand s hra h
    refine ⟨by rw [Nat.shiftRight_eq_div_pow]; exact hv, fun h0 => ?_⟩
    unfold EmitExtractRegister64
    rw [hv, h0]
    refine congrArg some ?_
    omega

/-- C21, on `r = 0x12345678`, `o = 0x9ABCDEF0` and `lsb = 4`: the 32-bit extraction
is `0x01234567`; on 64-bit operands with `lsb = 63` the result is
`0x33557799BBDDFE00`. -/
theorem ExtractRegister_concat_shift_witness :
    (EmitExtractRegister32 ⟨.val .U32 0x12345678, .val .U32 0x9ABCDEF0, .imm .U8 4,
        false, false, false⟩ .RBX .RSI X64State.zero).valueOf .inst 32 = some 0x01234567
    ∧ (EmitExtractRegister64 ⟨.val .U64 0x1122334455667788, .val .U64 0x99AABBCCDDEEFF00,
        .imm .U8 63, false, false, false⟩ .RBX .RSI X64State.zero).valueOf .inst 64
        = some 0x33557799BBDDFE00 := by
  have h1 := (ExtractRegister_concat_shift
    ⟨.val .U32 0x12345678, .val .U32 0x9ABCDEF0, .imm .U8 4, false, false, false⟩
    .RBX .RSI X64State.zero (by decide)).1 (by decide)
  have h2 := (ExtractRegister_concat_shift
    ⟨.val .U64 0x1122334455667788, .val .U64 0x99AABBCCDDEEFF00, .imm .U8 63,
      false, false, false⟩ .RBX .RSI X64State.zero (by decide)).2 (by decide)
  exact ⟨h1.1.trans (by decide), h2.1.trans (by decide)⟩

/-! ## Multiplication -/

/-- After `UseOpArg` the operand reads as the IR value and the registers outside the
operand are as before. -/
theorem UseOpArg_read (w : Nat) (hw : w = 32 ∨ w = 64) (arg : Argument) (op : OpArg)
    (t : X64State) :
    (UseOpArg arg op t).readOp w op.deref = arg.raw % 2 ^ w
    ∧ (∀ q, q ∉ op.regs → (UseOpArg arg op t).gpr q = t.gpr q) := by
  constructor
  · rcases hw with rfl | rfl <;> cases op <;> simp <;> omega
  · intro q hq
    cases op <;> simp_all [OpArg.regs]

/-- The two's-complement reading differs from the value by a multiple of the modulus. -/
theorem toSigned_emod (w x : Nat) : toSigned w x % (2 ^ w : Int) = ((x % 2 ^ w : Nat) : Int) := by
  have hlt : ((x % 2 ^ w : Nat) : Int) < 2 ^ w := by
    have := Nat.mod_lt x (Nat.pow_pos (by decide : 0 < 2) : 0 < 2 ^ w)
    exact_mod_cast this
  have h0 : (0 : Int) ≤ ((x % 2 ^ w : Nat) : Int) := Int.natCast_nonneg _
  unfold toSigned
  split
  · exact Int.emod_eq_of_lt h0 hlt
  · rw [Int.sub_emod, Int.emod_self, sub_zero, Int.emod_emod_of_dvd _ (dvd_refl _)]
    exact Int.emod_eq_of_lt h0 hlt

/-- The low half of the signed product is the low half of the unsigned product. -/
theorem toSigned_mul_low (w a b : Nat) :
    ((toSigned w a * toSigned w b) % 2 ^ w).toNat = (a % 2 ^ w) * (b % 2 ^ w) % 2 ^ w := by
  have h : (toSigned w a * toSigned w b) % (2 ^ w : Int)
      = (((a % 2 ^ w) * (b % 2 ^ w) % 2 ^ w : Nat) : Int) := by
    rw [Int.mul_emod, toSigned_emod, toSigned_emod]
    push_cast
    rfl
  rw [h, Int.toNat_natCast]

/-- Range of the two's-complement reading at 64 bits. -/
theorem toSigned_64_range (x : Nat) :
    -9223372036854775808 ≤ toSigned 64 x ∧ toSigned 64 x < 9223372036854775808 := by
  unfold toSigned
  simp only [Nat.reducePow, Nat.reduceSub]
  split <;> omega

/-- The high half of a signed 64-by-64 product, read as signed, completes the low
half to the full product. -/
theorem signed_high_low (p : Int) (h1 : -85070591730234615865843651857942052864 ≤ p)
    (h2 : p ≤ 85070591730234615865843651857942052864) :
    toSigned 64 ((p / 2 ^ 64) % 2 ^ 64).toNat * 2 ^ 64 + ((p % 2 ^ 64).toNat : Int) = p := by
  unfold toSigned
  simp only [Nat.reducePow, Nat.reduceSub]
  norm_num
  split <;> omega

/-- Value of `EmitMul64`: the low 64 bits of the product. -/
theorem Mul64_value (inst : Inst) (result : HostLoc) (op : OpArg) (s : X64State)
    (h : result ∉ op.regs) :
    (EmitMul64 inst result op s).valueOf .inst 64
      = some ((inst.arg0.raw % 2 ^ 64) * (inst.arg1.raw % 2 ^ 64) % 2 ^ 64) := by
  unfold EmitMul64
  rw [DefineValue_valueOf]
  refine congrArg some ?_
  obtain ⟨hr, hg⟩ := UseOpArg_read 64 (Or.inr rfl) inst.arg1 op (UseScratchGpr inst.arg0 result s)
  simp only [imul2_eff, if_true, hr, X64State.readGpr, hg result h, UseScratchGpr_eff,
    toSigned_mul_low, regWrite_64, Nat.reducePow, Nat.mod_mod]

/-- Value of `EmitMul32`, for either form of the second operand. -/
theorem Mul32_value (inst : Inst) (result : HostLoc) (op : OpArg) (s : X64State)
    (h : result ∉ op.regs) :
    (EmitMul32 inst result op s).valueOf .inst 32
      = some ((inst.arg0.raw % 2 ^ 32) * (inst.arg1.raw % 2 ^ 32) % 2 ^ 32) := by
  have hmm : ∀ x : Nat, x % 18446744073709551616 % 4294967296 = x % 4294967296 := by
    intro x; omega
  unfold EmitMul32
  rw [DefineValue_valueOf]
  refine congrArg some ?_
  by_cases himm : inst.arg1.IsImmediate = true
  · simp only [himm, if_true, imul3_eff, X64State.readOp, X64State.readGpr, UseScratchGpr_eff,
      Argument.GetImmediateU32, Nat.reduceEqDiff, if_false, toSigned_mul_low, regWrite_32,
      Nat.reducePow, Nat.mod_mod, hmm]
  · obtain ⟨hr, hg⟩ :=
      UseOpArg_read 32 (Or.inl rfl) inst.arg1 op (UseScratchGpr inst.arg0 result s)
    simp only [himm, Bool.false_eq_true, if_false, imul2_eff, if_true, hr, X64State.readGpr,
      hg result h, UseScratchGpr_eff, toSigned_mul_low, regWrite_32, Nat.reducePow, Nat.mod_mod,
      hmm]

/-- Value of `EmitUnsignedMultiplyHigh64`: the high 64 bits of the unsigned product. -/
theorem UnsignedMultiplyHigh64_value (inst : Inst) (op : OpArg) (s : X64State)
    (h : HostLoc.RAX ∉ op.regs) :
    (EmitUnsignedMultiplyHigh64 inst op s).valueOf .inst 64
      = some ((inst.arg0.raw % 2 ^ 64) * (inst.arg1.raw % 2 ^ 64) / 2 ^ 64) := by
  unfold EmitUnsignedMultiplyHigh64
  rw [DefineValue_valueOf]
  refine congrArg some ?_
  obtain ⟨hr, hg⟩ := UseOpArg_read 64 (Or.inr rfl) inst.arg1 op (Use inst.arg0 .RAX s)
  simp only [mul_eff, if_true, hr, X64State.readGpr, hg _ h, Use_eff, regWrite_64,
    Nat.reducePow, Nat.mod_mod]
  have ha : inst.arg0.raw % 18446744073709551616 < 18446744073709551616 := Nat.mod_lt _ (by decide)
  have hb : inst.arg1.raw % 18446744073709551616 < 18446744073709551616 := Nat.mod_lt _ (by decide)
  refine Nat.mod_eq_of_lt ((Nat.div_lt_iff_lt_mul (by decide)).2 ?_)
  exact Nat.mul_lt_mul'' ha hb

/-- Value of `EmitSignedMultiplyHigh64`: the high 64 bits of the signed product. -/
theorem SignedMultiplyHigh64_value (inst : Inst) (op : OpArg) (s : X64State)
    (h : HostLoc.RAX ∉ op.regs) :
    (EmitSignedMultiplyHigh64 inst op s).valueOf .inst 64
      = some ((toSigned 64 (inst.arg0.raw % 2 ^ 64) * toSigned 64 (inst.arg1.raw % 2 ^ 64)
          / 2 ^ 64) % 2 ^ 64).toNat := by
  unfold EmitSignedMultiplyHigh64
  rw [DefineValue_valueOf]
  refine congrArg some ?_
  obtain ⟨hr, hg⟩ := UseOpArg_read 64 (Or.inr rfl) inst.arg1 op (Use inst.arg0 .RAX s)
  simp only [imul_eff, if_true, hr, X64State.readGpr, hg _ h, Use_eff, regWrite_64,
    Nat.reducePow, Nat.mod_mod]
  refine Nat.mod_eq_of_lt ?_
  have : (0 : Int) ≤ (toSigned 64 (inst.arg0.raw % 18446744073709551616)
      * toSigned 64 (inst.arg1.raw % 18446744073709551616) / 18446744073709551616)
        % 18446744073709551616 := Int.emod_nonneg _ (by decide)
  have h2 := Int.emod_lt_of_pos (toSigned 64 (inst.arg0.raw % 18446744073709551616)
      * toSigned 64 (inst.arg1.raw % 18446744073709551616) / 18446744073709551616)
      (by decide : (0 : Int) < 18446744073709551616)
  omega

/-- C22: for every pair of 64-bit values `a`, `b`, with `L` the Mul64 result and
`Hu`, `Hs` the UnsignedMultiplyHigh64 and SignedMultiplyHigh64 results,
`Hu * 2^64 + L = a * b` over the naturals and `(Hs read as signed) * 2^64 + L` is the
product of the signed readings of `a` and `b` over the integers; Mul32 yields
`(a * b) mod 2^32` on the low 32 bits, which is also the signed product modulo
`2^32`, for the immediate form and for the register or memory form of the operand. -/
theorem Mul_double_width (inst : Inst) (result : HostLoc) (op : OpArg) (s : X64State)
    (h1 : result ∉ op.regs) (h2 : HostLoc.RAX ∉ op.regs) :
    ∃ L Hu Hs : Nat,
      (EmitMul64 inst result op s).valueOf .inst 64 = some L
      ∧ (EmitUnsignedMultiplyHigh64 inst op s).valueOf .inst 64 = some Hu
      ∧ (EmitSignedMultiplyHigh64 inst op s).valueOf .inst 64 = some Hs
      ∧ Hu * 2 ^ 64 + L = (inst.arg0.raw % 2 ^ 64) * (inst.arg1.raw % 2 ^ 64)
      ∧ toSigned 64 Hs * 2 ^ 64 + (L : Int)
          = toSigned 64 (inst.arg0.raw % 2 ^ 64) * toSigned 64 (inst.arg1.raw % 2 ^ 64)
      ∧ (EmitMul32 inst result op s).valueOf .inst 32
          = some ((inst.arg0.raw % 2 ^ 32) * (inst.arg1.raw % 2 ^ 32) % 2 ^ 32)
      ∧ (((inst.arg0.raw % 2 ^ 32) * (inst.arg1.raw % 2 ^ 32) % 2 ^ 32 : Nat) : Int)
          = (toSigned 32 (inst.arg0.raw % 2 ^ 32) * toSigned 32 (inst.arg1.raw % 2 ^ 32))
              % 2 ^ 32 := by
  refine ⟨_, _, _, Mul64_value inst result op s h1, UnsignedMultiplyHigh64_value inst op s h2,
    SignedMultiplyHigh64_value inst op s h2, ?_, ?_, Mul32_value inst result op s h1, ?_⟩
  · have := Nat.div_add_mod ((inst.arg0.raw % 2 ^ 64) * (inst.arg1.raw % 2 ^ 64)) (2 ^ 64)
    rw [Nat.mul_comm]
    exact this
  · have ha := toSigned_64_range (inst.arg0.raw % 2 ^ 64)
    have hb := toSigned_64_range (inst.arg1.raw % 2 ^ 64)
    have hl := toSigned_mul_low 64 (inst.arg0.raw % 2 ^ 64) (inst.arg1.raw % 2 ^ 64)
    rw [Nat.mod_mod, Nat.mod_mod] at hl
    rw [← hl]
    refine signed_high_low _ ?_ ?_
    · nlinarith
    · nlinarith
  · have hl := toSigned_mul_low 32 (inst.arg0.raw % 2 ^ 32) (inst.arg1.raw % 2 ^ 32)
    rw [Nat.mod_mod, Nat.mod_mod] at hl
    rw [← hl, Int.toNat_of_nonneg]
    exact Int.emod_nonneg _ (by norm_num)

/-- C22, on `a = 2^64 - 1` and `b = 2^64 - 2` (signed: -1 and -2): the low half is
2, the unsigned high half is `2^64 - 3`, the signed high half is 0; the 32-bit
product of `0xFFFFFFFE` and `0xFFFFFFFF` is 2. -/
theorem Mul_double_width_witness :
    (EmitMul64 ⟨.val .U64 0xFFFFFFFFFFFFFFFF, .val .U64 0xFFFFFFFFFFFFFFFE, .val .U1 0,
        false, false, false⟩ .RBX (.reg .RSI) X64State.zero).valueOf .inst 64 = some 2
    ∧ (EmitUnsignedMultiplyHigh64 ⟨.val .U64 0xFFFFFFFFFFFFFFFF, .val .U64 0xFFFFFFFFFFFFFFFE,
        .val .U1 0, false, false, false⟩ (.reg .RSI) X64State.zero).valueOf .inst 64
        = some 0xFFFFFFFFFFFFFFFD
    ∧ (EmitSignedMultiplyHigh64 ⟨.val .U64 0xFFFFFFFFFFFFFFFF, .val .U64 0xFFFFFFFFFFFFFFFE,
        .val .U1 0, false, false, false⟩ (.reg .RSI) X64State.zero).valueOf .inst 64 = some 0
    ∧ (EmitMul32 ⟨.val .U64 0xFFFFFFFFFFFFFFFF, .val .U64 0xFFFFFFFFFFFFFFFE, .val .U1 0,
        false, false, false⟩ .RBX (.reg .RSI) X64State.zero).valueOf .inst 32 = some 2 := by
  obtain ⟨L, Hu, Hs, hL, hHu, hHs, -, -, h32, -⟩ := Mul_double_width
    ⟨.val .U64 0xFFFFFFFFFFFFFFFF, .val .U64 0xFFFFFFFFFFFFFFFE, .val .U1 0, false, false, false⟩
    .RBX (.reg .RSI) X64State.zero (by decide) (by decide)
  exact ⟨by decide, by decide, by decide, h32.trans (by decide)⟩

/-! ## Layout of the captured NZCV value -/

/-- In the captured flag word bits 1..7 and bits 16..31 are zero. -/
theorem nzcvWord_zero_bits (sf zf af pf cf ovf : Bool) (i : Nat)
    (hi : (1 ≤ i ∧ i ≤ 7) ∨ 16 ≤ i) :
    bit ((sf.toNat * 128 + zf.toNat * 64 + af.toNat * 16 + pf.toNat * 4 + 2 + cf.toNat) * 256
        + ovf.toNat) i = false := by
  have b1 := Bool.toNat_le sf; have b2 := Bool.toNat_le zf; have b3 := Bool.toNat_le af
  have b4 := Bool.toNat_le pf; have b5 := Bool.toNat_le cf; have b6 := Bool.toNat_le ovf
  generalize hv : (sf.toNat * 128 + zf.toNat * 64 + af.toNat * 16 + pf.toNat * 4 + 2
    + cf.toNat) * 256 + ovf.toNat = v
  have hlow : v % 256 ≤ 1 := by omega
  have hhigh : v < 65536 := by omega
  unfold bit
  rcases hi with ⟨h1, h7⟩ | h16
  · have : v / 2 ^ i % 2 = 0 := by
      interval_cases i <;> omega
    simp [this]
  · have hp : 2 ^ 16 ≤ 2 ^ i := Nat.pow_le_pow_right (by decide) h16
    have : v / 2 ^ i = 0 := Nat.div_eq_of_lt (by omega)
    simp [this]

/-- C23: when a GetNZCVFromOp pseudo-operation is attached to an Add of width 32 or
64, the 32-bit value defined for it has bit 15 = N (sign bit of the result),
bit 14 = Z (the result is zero), bit 8 = C (unsigned carry out of the addition),
bit 0 = V (signed overflow), and bits 1..7 and 16..31 zero. -/
theorem EmitAdd_nzcv_layout (bitsize : Nat) (hw : bitsize = 32 ∨ bitsize = 64)
    (inst : Inst) (result carry overflow : HostLoc) (op : OpArg) (s : X64State)
    (hty : bitsize = 64 → inst.arg1.GetType ≠ IRType.U32)
    (hra : ArithAlloc result carry overflow op) (hn : inst.nzcv_inst = true) :
    ∃ v, (EmitAdd bitsize inst result carry overflow op s).valueOf .nzcv_inst 32 = some v
      ∧ bit v 15 = msb bitsize ((inst.arg0.raw % 2 ^ bitsize + inst.arg1.raw % 2 ^ bitsize
          + inst.arg2.raw % 2) % 2 ^ bitsize)
      ∧ bit v 14 = decide ((inst.arg0.raw % 2 ^ bitsize + inst.arg1.raw % 2 ^ bitsize
          + inst.arg2.raw % 2) % 2 ^ bitsize = 0)
      ∧ bit v 8 = decide (2 ^ bitsize ≤ inst.arg0.raw % 2 ^ bitsize
          + inst.arg1.raw % 2 ^ bitsize + inst.arg2.raw % 2)
      ∧ bit v 0 = signedOverflow bitsize (toSigned bitsize (inst.arg0.raw % 2 ^ bitsize)
          + toSigned bitsize (inst.arg1.raw % 2 ^ bitsize) + (inst.arg2.raw % 2 : Nat))
      ∧ (∀ i, 1 ≤ i → i ≤ 7 → bit v i = false)
      ∧ (∀ i, 16 ≤ i → i ≤ 31 → bit v i = false) := by
  unfold ArithAlloc at hra
  simp only [List.nodup_cons, List.mem_cons, not_or] at hra
  obtain ⟨⟨h1, h2, h3, h4⟩, ⟨h5, -, h7⟩, ⟨-, h9⟩, -, -⟩ := hra
  obtain ⟨-, c2, c3, c4, c5⟩ := addCore_spec bitsize hw inst result carry op s hty h5 h7 h9
  have hrax := addCore_rax bitsize hw inst result carry op s hty hn h1 h2 h4
  have hv := nzcv_value inst .c false result carry overflow _ hn hrax h2 h3
  rw [EmitAdd_eq_blocks]
  refine ⟨_, hv, ?_, ?_, ?_, ?_, fun i a b => nzcvWord_zero_bits _ _ _ _ _ _ i (Or.inl ⟨a, b⟩),
    fun i a _ => nzcvWord_zero_bits _ _ _ _ _ _ i (Or.inr a)⟩
  · rw [(nzcvWord_bits _ _ _ _ _ _).1, c4]
  · rw [(nzcvWord_bits _ _ _ _ _ _).2.1, c5]
  · rw [(nzcvWord_bits _ _ _ _ _ _).2.2.1]
    simp only [Bool.false_eq_true, if_false, c2, carryOut]
  · rw [(nzcvWord_bits _ _ _ _ _ _).2.2.2, c3]

/-- C23, on ADD32 with `a = 0x7FFFFFFF`, `b = 1`, carry-in 0: the value is 0x9601,
which reads N = 1, Z = 0, C = 0, V = 1. -/
theorem EmitAdd_nzcv_layout_witness :
    (EmitAdd 32 ⟨.val .U32 0x7FFFFFFF, .val .U32 1, .imm .U1 0, false, false, true⟩
        .RBX .RSI .RDI (.reg .R8) X64State.zero).valueOf .nzcv_inst 32 = some 0x9601
    ∧ bit 0x9601 15 = true ∧ bit 0x9601 14 = false ∧ bit 0x9601 8 = false
    ∧ bit 0x9601 0 = true := by
  obtain ⟨v, hv, b15, b14, b8, b0, -, -⟩ := EmitAdd_nzcv_layout 32 (Or.inl rfl)
    ⟨.val .U32 0x7FFFFFFF, .val .U32 1, .imm .U1 0, false, false, true⟩
    .RBX .RSI .RDI (.reg .R8) X64State.zero (by decide) (by unfold ArithAlloc; decide) rfl
  have hv' : v = 0x9601 := Option.some.inj (hv.symm.trans (by decide))
  subst hv'
  exact ⟨hv, b15.trans (by decide), b14.trans (by decide), b8.trans (by decide),
    b0.trans (by decide)⟩

/-- C24: when a GetNZCVFromOp pseudo-operation is attached to a Sub of width 32 or
64, the value defined for it has bit 15 = N (sign bit of the result), bit 14 = Z (the
result is zero), bit 8 = the guest carry, set exactly when the subtraction did not
borrow, which is the inverse of the host CF left by `sub`/`sbb`, and bit 0 = V
(signed overflow of the subtraction); `cmc` changes none of SF, ZF and OF. -/
theorem EmitSub_nzcv_layout (bitsize : Nat) (hw : bitsize = 32 ∨ bitsize = 64)
    (inst : Inst) (result carry overflow : HostLoc) (op : OpArg) (s : X64State)
    (hty : bitsize = 64 → inst.arg1.GetType ≠ IRType.U32)
    (hra : ArithAlloc result carry overflow op) (hn : inst.nzcv_inst = true) :
    ∃ v, (EmitSub bitsize inst result carry overflow op s).valueOf .nzcv_inst 32 = some v
      ∧ bit v 15 = msb bitsize ((inst.arg0.raw % 2 ^ bitsize
          + (2 ^ bitsize - 1 - inst.arg1.raw % 2 ^ bitsize) + inst.arg2.raw % 2) % 2 ^ bitsize)
      ∧ bit v 14 = decide ((inst.arg0.raw % 2 ^ bitsize
          + (2 ^ bitsize - 1 - inst.arg1.raw % 2 ^ bitsize) + inst.arg2.raw % 2) % 2 ^ bitsize
            = 0)
      ∧ bit v 8 = decide (inst.arg1.raw % 2 ^ bitsize + (1 - inst.arg2.raw % 2)
          ≤ inst.arg0.raw % 2 ^ bitsize)
      ∧ bit v 8 = !(withSource inst op (subBlock bitsize inst.arg2 result carry)
          (arithSetup inst result carry s)).CF
      ∧ bit v 0 = signedOverflow bitsize (toSigned bitsize (inst.arg0.raw % 2 ^ bitsize)
          - toSigned bitsize (inst.arg1.raw % 2 ^ bitsize)
          - ((1 - inst.arg2.raw % 2 : Nat) : Int))
      ∧ (∀ u : X64State, (code.cmc u).SF = u.SF ∧ (code.cmc u).ZF = u.ZF
          ∧ (code.cmc u).OF = u.OF ∧ (code.cmc u).CF = !u.CF) := by
  unfold ArithAlloc at hra
  simp only [List.nodup_cons, List.mem_cons, not_or] at hra
  obtain ⟨⟨h1, h2, h3, h4⟩, ⟨h5, -, h7⟩, ⟨-, h9⟩, -, -⟩ := hra
  obtain ⟨-, c2, c3, c4, c5⟩ := subCore_spec bitsize hw inst result carry op s hty h5 h7 h9
  have hrax := subCore_rax bitsize hw inst result carry op s hty hn h1 h2 h4
  have hv := nzcv_value inst .nc true result carry overflow _ hn hrax h2 h3
  rw [EmitSub_eq_blocks]
  refine ⟨_, hv, ?_, ?_, ?_, ?_, ?_, fun u => ?_⟩
  · rw [(nzcvWord_bits _ _ _ _ _ _).1, c4]
  · rw [(nzcvWord_bits _ _ _ _ _ _).2.1, c5]
  · rw [(nzcvWord_bits _ _ _ _ _ _).2.2.1]
    simp only [if_true, c2, Bool.not_not, carryOut]
    have hb : inst.arg1.raw % 2 ^ bitsize < 2 ^ bitsize := Nat.mod_lt _ (Nat.pow_pos (by decide))
    have hc : inst.arg2.raw % 2 < 2 := Nat.mod_lt _ (by decide)
    generalize inst.arg1.raw % 2 ^ bitsize = b at hb ⊢
    generalize inst.arg0.raw % 2 ^ bitsize = a
    generalize inst.arg2.raw % 2 = c at hc ⊢
    generalize 2 ^ bitsize = M at hb ⊢
    congr 1
    apply propext
    omega
  · rw [(nzcvWord_bits _ _ _ _ _ _).2.2.1]
    simp only [if_true]
  · rw [(nzcvWord_bits _ _ _ _ _ _).2.2.2, c3]
  · simp only [cmc_eff, and_self]

/-- C24, on SUB32 with `a = 5`, `b = 7`, carry-in 1 (a borrow): the value is
0x9200, which reads N = 1, Z = 0, C = 0, V = 0. -/
theorem EmitSub_nzcv_layout_witness :
    (EmitSub 32 ⟨.val .U32 5, .val .U32 7, .imm .U1 1, false, false, true⟩
        .RBX .RSI .RDI (.reg .R8) X64State.zero).valueOf .nzcv_inst 32 = some 0x9200
    ∧ bit 0x9200 15 = true ∧ bit 0x9200 14 = false ∧ bit 0x9200 8 = false
    ∧ bit 0x9200 0 = false := by
  obtain ⟨v, hv, b15, b14, b8, -, b0, -⟩ := EmitSub_nzcv_layout 32 (Or.inl rfl)
    ⟨.val .U32 5, .val .U32 7, .imm .U1 1, false, false, true⟩
    .RBX .RSI .RDI (.reg .R8) X64State.zero (by decide) (by unfold ArithAlloc; decide) rfl
  have hv' : v = 0x9200 := Option.some.inj (hv.symm.trans (by decide))
  subst hv'
  exact ⟨hv, b15.trans (by decide), b14.trans (by decide), b8.trans (by decide),
    b0.trans (by decide)⟩

/-! ## Agreement of the variants of the 32-bit shifts -/

/-- Outcome of `cmp cl, 32`: CF tells whether the count is below 32. -/
theorem cmp_cl_32_nc (t : X64State) :
    CC.nc.holds (code.cmp 8 .RCX (.imm 32) t) = decide (32 ≤ t.gpr .RCX % 256)
    ∧ (∀ q, (code.cmp 8 .RCX (.imm 32) t).gpr q = t.gpr q) := by
  refine ⟨?_, fun q => by simp only [cmp_eff]⟩
  simp only [CC.holds, cmp_eff, X64State.readGpr, X64State.readOp, Nat.reducePow,
    Nat.reduceEqDiff, if_false, Nat.reduceMod, Nat.add_zero]
  rw [Bool.eq_iff_iff]
  simp only [Bool.not_eq_true', decide_eq_false_iff_not, decide_eq_true_eq]
  omega

/-- Result of `EmitLogicalShiftLeft32` without the carry pseudo-operation. -/
theorem lsl32_nocarry_value (inst : Inst) (result carry zero : HostLoc) (s : X64State)
    (cin : Nat) (hci : inst.carry_inst = false) (h1 : HostLoc.RCX ≠ result)
    (h2 : HostLoc.RCX ≠ zero) (h3 : result ≠ zero) :
    (EmitLogicalShiftLeft32 inst result carry zero s).valueOf .inst 32
      = some (lsl32WithCarry (inst.arg0.raw % 2 ^ 32) (inst.arg1.raw % 256) cin).1 := by
  have e1 := regs_ne h1; have e2 := regs_ne h2; have e3 := regs_ne h3
  have hx : inst.arg0.raw % 18446744073709551616 % 4294967296 = inst.arg0.raw % 4294967296 := by
    omega
  unfold EmitLogicalShiftLeft32 lsl32WithCarry
  simp only [hci, Bool.not_false, if_true]
  by_cases himm : inst.arg1.IsImmediate = true
  · simp only [himm, if_true, DefineValue_valueOf, Argument.GetImmediateU8, Nat.reducePow]
    refine congrArg some ?_
    generalize inst.arg1.raw % 256 = sh
    by_cases hle : sh ≤ 31
    · have hm : sh % 32 = sh := Nat.mod_eq_of_lt (by omega)
      by_cases h0 : sh = 0
      · subst h0
        simp only [Nat.zero_le, if_true, shl_eff, zeroCount_32, code.countMask, Nat.zero_mod,
          UseScratchGpr_eff, Nat.reduceEqDiff, if_false, Nat.reducePow, hx, Nat.mod_mod]
      · simp only [hle, if_true, shl_eff, code.countMask, hm, h0, if_false, UseScratchGpr_eff,
          X64State.readGpr, regWrite_32, Nat.reducePow, Nat.mod_mod, Nat.reduceEqDiff, hx]
    · have h0 : sh ≠ 0 := by omega
      have h32 : (if sh = 32 then ((0 : Nat), inst.arg0.raw % 4294967296 % 2)
          else ((0 : Nat), (0 : Nat))).1 = 0 := by split <;> rfl
      simp only [hle, h0, if_false, xor_eff, if_true, X64State.readGpr, X64State.readOp,
        Nat.xor_self, regWrite_32, Nat.zero_mod, h32]
  · simp only [himm, Bool.false_eq_true, if_false, DefineValue_valueOf]
    refine congrArg some ?_
    have hnc := fun t => (cmp_cl_32_nc t).1
    have hcx : inst.arg1.raw % 18446744073709551616 % 256 = inst.arg1.raw % 256 := by omega
    simp only [cmovcc_eff, hnc, if_true, xor_eff, code.shl_cl, shl_eff, zeroCount_32,
      UseScratchGpr_eff,
      Use_eff, e1, e2, e3, if_false, X64State.readGpr, X64State.readOp, Nat.xor_self,
      regWrite_32, Nat.zero_mod, code.countMask, Nat.reducePow, ite_self, hcx,
      Nat.mod_mod, decide_eq_true_eq, Nat.reduceEqDiff, hx, cmp_eff]
    generalize inst.arg1.raw % 256 = sh
    by_cases hle : sh ≤ 31
    · have hm : sh % 32 = sh := Nat.mod_eq_of_lt (by omega)
      have hn : ¬ 32 ≤ sh := by omega
      by_cases h0 : sh = 0
      · subst h0
        simp only [Nat.zero_mod, if_true, hn, if_false, Nat.mod_mod, hx]
      · simp only [hm, h0, hn, hle, if_false, if_true, Nat.mod_mod]
    · have hn : 32 ≤ sh := by omega
      have h0 : sh ≠ 0 := by omega
      simp only [hn, if_true, h0, hle, if_false, Nat.zero_mod]
      split <;> rfl

/-- Result of `EmitLogicalShiftRight32` without the carry pseudo-operation. -/
theorem lsr32_nocarry_value (inst : Inst) (result carry zero : HostLoc) (s : X64State)
    (cin : Nat) (hci : inst.carry_inst = false) (h1 : HostLoc.RCX ≠ result)
    (h2 : HostLoc.RCX ≠ zero) (h3 : result ≠ zero) :
    (EmitLogicalShiftRight32 inst result carry zero s).valueOf .inst 32
      = some (lsr32WithCarry (inst.arg0.raw % 2 ^ 32) (inst.arg1.raw % 256) cin).1 := by
  have e1 := regs_ne h1; have e2 := regs_ne h2; have e3 := regs_ne h3
  have hx : inst.arg0.raw % 18446744073709551616 % 4294967296 = inst.arg0.raw % 4294967296 := by
    omega
  have hdiv : ∀ k : Nat, inst.arg0.raw % 4294967296 / 2 ^ k % 4294967296
      = inst.arg0.raw % 4294967296 / 2 ^ k := fun k =>
    Nat.mod_eq_of_lt (Nat.lt_of_le_of_lt (Nat.div_le_self _ _) (Nat.mod_lt _ (by norm_num)))
  unfold EmitLogicalShiftRight32 lsr32WithCarry
  simp only [hci, Bool.not_false, if_true]
  by_cases himm : inst.arg1.IsImmediate = true
  · simp only [himm, if_true, DefineValue_valueOf, Argument.GetImmediateU8, Nat.reducePow]
    refine congrArg some ?_
    generalize inst.arg1.raw % 256 = sh
    by_cases hle : sh ≤ 31
    · have hm : sh % 32 = sh := Nat.mod_eq_of_lt (by omega)
      by_cases h0 : sh = 0
      · subst h0
        simp only [Nat.zero_le, if_true, shr_eff, zeroCount_32, code.countMask, Nat.zero_mod,
          UseScratchGpr_eff, Nat.reduceEqDiff, if_false, Nat.reducePow, hx, Nat.mod_mod]
      · simp only [hle, if_true, shr_eff, code.countMask, hm, h0, if_false, UseScratchGpr_eff,
          X64State.readGpr, regWrite_32, Nat.reducePow, Nat.mod_mod, Nat.reduceEqDiff, hx, hdiv]
    · have h0 : sh ≠ 0 := by omega
      have h32 : (if sh = 32 then ((0 : Nat), inst.arg0.raw % 4294967296 / 2147483648 % 2)
          else ((0 : Nat), (0 : Nat))).1 = 0 := by split <;> rfl
      simp only [hle, h0, if_false, xor_eff, if_true, X64State.readGpr, X64State.readOp,
        Nat.xor_self, regWrite_32, Nat.zero_mod, h32]
  · simp only [himm, Bool.false_eq_true, if_false, DefineValue_valueOf]
    refine congrArg some ?_
    have hnc := fun t => (cmp_cl_32_nc t).1
    have hcx : inst.arg1.raw % 18446744073709551616 % 256 = inst.arg1.raw % 256 := by omega
    simp only [cmovcc_eff, hnc, if_true, xor_eff, code.shr_cl, shr_eff, zeroCount_32,
      UseScratchGpr_eff,
      Use_eff, e1, e2, e3, if_false, X64State.readGpr, X64State.readOp, Nat.xor_self,
      regWrite_32, Nat.zero_mod, code.countMask, Nat.reducePow, ite_self, hcx,
      Nat.mod_mod, decide_eq_true_eq, Nat.reduceEqDiff, hx, cmp_eff]
    generalize inst.arg1.raw % 256 = sh
    by_cases hle : sh ≤ 31
    · have hm : sh % 32 = sh := Nat.mod_eq_of_lt (by omega)
      have hn : ¬ 32 ≤ sh := by omega
      by_cases h0 : sh = 0
      · subst h0
        simp only [Nat.zero_mod, if_true, hn, if_false, Nat.mod_mod, hx]
      · simp only [hm, h0, hn, hle, if_false, if_true, Nat.mod_mod, hdiv]
    · have hn : 32 ≤ sh := by omega
      have h0 : sh ≠ 0 := by omega
      simp only [hn, if_true, h0, hle, if_false, Nat.zero_mod]
      split <;> rfl

/-- Register content after a 32-bit `sar` by `c < 32` places. -/
theorem sar32_result (x c : Nat) (hx : x < 4294967296) (hc : c < 32) :
    (if c = 0 then x else sarVal 32 x c % 4294967296) = asr 32 x c := by
  have hsv := sarVal_eq_asr 32 x c (by norm_num) hx hc
  have hlt : asr 32 x c < 4294967296 := asr_lt 32 x c
  by_cases h0 : c = 0
  · subst h0
    rw [← hsv, sarVal_zero, if_pos rfl]
  · rw [if_neg h0, hsv, Nat.mod_eq_of_lt hlt]

/-- Register content after `sar dst, cl` on 32 bits when CL holds `c < 32`. -/
theorem sar_cl_32_value (t : X64State) (result : HostLoc) (c : Nat)
    (hcx : t.gpr .RCX % 256 = c) (hc : c < 32) :
    (code.sar_cl 32 result t).gpr result % 2 ^ 32 = asr 32 (t.gpr result % 2 ^ 32) c := by
  have hm : c % 32 = c := Nat.mod_eq_of_lt hc
  have hxl : t.gpr result % 4294967296 < 4294967296 := Nat.mod_lt _ (by norm_num)
  simp only [code.sar_cl, sar_eff, zeroCount_32, code.countMask, if_true, X64State.readGpr,
    Nat.reducePow, hcx, hm, regWrite_32, Nat.reduceEqDiff, if_false]
  have key := sar32_result _ _ hxl hc
  by_cases h0 : c = 0
  · simp only [h0, if_true, Nat.mod_mod] at key ⊢
    exact key
  · simp only [h0, if_false, Nat.mod_mod] at key ⊢
    exact key

/-- The guest ASR result is the arithmetic shift by the saturated count. -/
theorem asr32_result_eq (x sh cin : Nat) (hx : x < 4294967296) :
    (asr32WithCarry x sh cin).1 = asr 32 x (min sh 31) := by
  unfold asr32WithCarry
  by_cases h0 : sh = 0
  · subst h0
    have := sar32_result x 0 hx (by norm_num)
    simp only [if_true] at this
    rw [if_pos rfl, Nat.zero_min]
    exact this
  · by_cases hle : sh ≤ 31
    · simp only [h0, hle, if_false, if_true, Nat.min_eq_left hle]
    · have h31 := sar32_result x 31 hx (by norm_num)
      have hsv := sarVal_32_31 x hx
      simp only [Nat.reduceEqDiff, if_false, hsv, Nat.reducePow] at h31
      simp only [h0, hle, if_false, Nat.min_eq_right (Nat.le_of_lt (Nat.lt_of_not_le hle)),
        ← h31, Nat.reducePow]
      split <;> rfl

/-- Result of `EmitArithmeticShiftRight32` without the carry pseudo-operation. -/
theorem asr32_nocarry_value (inst : Inst) (result carry const31 : HostLoc) (s : X64State)
    (cin : Nat) (hci : inst.carry_inst = false) (h1 : HostLoc.RCX ≠ result)
    (h2 : HostLoc.RCX ≠ const31) (h3 : result ≠ const31) :
    (EmitArithmeticShiftRight32 inst result carry const31 s).valueOf .inst 32
      = some (asr32WithCarry (inst.arg0.raw % 2 ^ 32) (inst.arg1.raw % 256) cin).1 := by
  have e1 := regs_ne h1; have e2 := regs_ne h2; have e3 := regs_ne h3
  have hxl : inst.arg0.raw % 4294967296 < 4294967296 := Nat.mod_lt _ (by norm_num)
  have hx : inst.arg0.raw % 18446744073709551616 % 4294967296 = inst.arg0.raw % 4294967296 := by
    omega
  rw [show (2 : Nat) ^ 32 = 4294967296 by rfl, asr32_result_eq _ _ _ hxl]
  unfold EmitArithmeticShiftRight32
  simp only [hci, Bool.not_false, if_true]
  by_cases himm : inst.arg1.IsImmediate = true
  · simp only [himm, if_true, DefineValue_valueOf, Argument.GetImmediateU8, Nat.reducePow]
    refine congrArg some ?_
    generalize hsh : inst.arg1.raw % 256 = sh
    have hmin : (if sh < 31 then sh else 31) = min sh 31 := by
      by_cases h : sh < 31
      · rw [if_pos h, Nat.min_eq_left (by omega)]
      · rw [if_neg h, Nat.min_eq_right (by omega)]
    have hm : min sh 31 % 32 = min sh 31 := Nat.mod_eq_of_lt (by omega)
    simp only [hmin, sar_eff, zeroCount_32, code.countMask, if_true, hm, UseScratchGpr_eff,
      X64State.readGpr, regWrite_32, Nat.reducePow, Nat.mod_mod, Nat.reduceEqDiff, if_false, hx]
    have key := sar32_result _ (min sh 31) hxl
      (Nat.lt_of_le_of_lt (Nat.min_le_right _ _) (by norm_num))
    by_cases h0 : min sh 31 = 0
    · simp only [h0, if_true, Nat.mod_mod] at key ⊢
      exact key
    · simp only [h0, if_false, Nat.mod_mod] at key ⊢
      exact key
  · simp only [himm, Bool.false_eq_true, if_false, DefineValue_valueOf]
    refine congrArg some ?_
    have hcx : inst.arg1.raw % 18446744073709551616 % 256 = inst.arg1.raw % 256 := by omega
    have hg := cmp_ecx_g 31 (by norm_num) (code.movzx 32 8 .RCX .RCX (code.mov 32 const31 (.imm 31)
      (UseScratchGpr inst.arg0 result (Use inst.arg1 .RCX s))))
      (by
        simp only [movzx_eff, mov_eff, UseScratchGpr_eff, Use_eff, e1, e2, if_true, if_false,
          X64State.readGpr, regWrite_32, Nat.reducePow, Nat.mod_mod]
        omega)
    have key := sar_cl_32_value (code.cmovcc .g 32 .RCX const31 (code.cmp 32 .RCX (.imm 31)
      (code.movzx 32 8 .RCX .RCX (code.mov 32 const31 (.imm 31)
        (UseScratchGpr inst.arg0 result (Use inst.arg1 .RCX s)))))) result
      (min (inst.arg1.raw % 256) 31)
      (by
        simp only [cmovcc_eff, hg, cmp_eff, movzx_eff, mov_eff, UseScratchGpr_eff, Use_eff,
          e1, e2, e3, if_true, if_false, X64State.readGpr, X64State.readOp, regWrite_32,
          Nat.reducePow, Nat.mod_mod, hcx, decide_eq_true_eq, Nat.reduceMod,
          Nat.reduceLT, Nat.reduceEqDiff]
        have ha : inst.arg1.raw % 256 < 256 := Nat.mod_lt _ (by norm_num)
        split <;> omega)
      (Nat.lt_of_le_of_lt (Nat.min_le_right _ _) (by norm_num))
    rw [key]
    simp only [cmovcc_eff, cmp_eff, movzx_eff, mov_eff, UseScratchGpr_eff, Use_eff,
      e1, e2, e3, if_true, if_false, Nat.mod_mod, Nat.reducePow, hx]

/-- Result of `EmitRotateRight32` without the carry pseudo-operation. -/
theorem ror32_nocarry_value (inst : Inst) (result carry : HostLoc) (s : X64State)
    (cin : Nat) (hci : inst.carry_inst = false) (h1 : HostLoc.RCX ≠ result) :
    (EmitRotateRight32 inst result carry s).valueOf .inst 32
      = some (ror32WithCarry (inst.arg0.raw % 2 ^ 32) (inst.arg1.raw % 256) cin).1 := by
  have e1 := regs_ne h1
  have hxl : inst.arg0.raw % 4294967296 < 2 ^ 32 := Nat.mod_lt _ (by norm_num)
  have hx : inst.arg0.raw % 18446744073709551616 % 4294967296 = inst.arg0.raw % 4294967296 := by
    omega
  have hcx : inst.arg1.raw % 18446744073709551616 % 256 = inst.arg1.raw % 256 := by omega
  have hrl := rotateRight_lt 32 (inst.arg0.raw % 4294967296) (inst.arg1.raw % 256 % 32) hxl
    (Nat.le_of_lt (Nat.mod_lt _ (by norm_num)))
  unfold EmitRotateRight32 ror32WithCarry
  simp only [hci, Bool.not_false, if_true]
  by_cases himm : inst.arg1.IsImmediate = true
  · simp only [himm, if_true, DefineValue_valueOf, Argument.GetImmediateU8, Nat.reducePow]
    refine congrArg some ?_
    by_cases h0 : inst.arg1.raw % 256 % 32 = 0
    · simp only [ror_eff, zeroCount_32, code.countMask, Nat.reduceEqDiff, if_false, Nat.mod_mod,
        h0, if_true, UseScratchGpr_eff, Nat.reducePow, hx, rotateRight_zero]
    · simp only [ror_eff, code.countMask, Nat.reduceEqDiff, if_false, Nat.mod_mod, h0, if_true,
        UseScratchGpr_eff, Nat.reducePow, hx, X64State.readGpr, regWrite_32]
      exact Nat.mod_eq_of_lt hrl
  · simp only [himm, Bool.false_eq_true, if_false, DefineValue_valueOf]
    refine congrArg some ?_
    by_cases h0 : inst.arg1.raw % 256 % 32 = 0
    · simp only [code.ror_cl, ror_eff, zeroCount_32, code.countMask, Nat.reduceEqDiff, if_false,
        Nat.mod_mod, h0, if_true, UseScratchGpr_eff, Use_eff, e1, Nat.reducePow, hx, hcx,
        rotateRight_zero, X64State.readGpr]
    · simp only [code.ror_cl, ror_eff, code.countMask, Nat.reduceEqDiff, if_false, Nat.mod_mod,
        h0, if_true, UseScratchGpr_eff, Use_eff, e1, Nat.reducePow, hx, hcx, X64State.readGpr,
        regWrite_32]
      exact Nat.mod_eq_of_lt hrl

/-- Result of `EmitLogicalShiftLeft32` in each of its four variants. -/
theorem lsl32_any_value (inst : Inst) (result carry zero : HostLoc) (s : X64State)
    (hc : inst.arg2.raw % 256 ≤ 1) (hra : ShiftAlloc result carry)
    (h2 : HostLoc.RCX ≠ zero) (h3 : result ≠ zero) :
    (EmitLogicalShiftLeft32 inst result carry zero s).valueOf .inst 32
      = some (lsl32WithCarry (inst.arg0.raw % 2 ^ 32) (inst.arg1.raw % 256)
          (inst.arg2.raw % 256)).1 := by
  by_cases hci : inst.carry_inst = true
  · exact (lsl32_emitter_values inst result carry zero s hci hc hra).1
  · have h1 : HostLoc.RCX ≠ result := by
      unfold ShiftAlloc at hra
      simp only [List.nodup_cons, List.mem_cons, not_or] at hra
      exact hra.1.1
    exact lsl32_nocarry_value inst result carry zero s _ (by simpa using hci) h1 h2 h3

/-- Result of `EmitLogicalShiftRight32` in each of its four variants. -/
theorem lsr32_any_value (inst : Inst) (result carry zero : HostLoc) (s : X64State)
    (hra : ShiftAlloc result carry) (h2 : HostLoc.RCX ≠ zero) (h3 : result ≠ zero) :
    (EmitLogicalShiftRight32 inst result carry zero s).valueOf .inst 32
      = some (lsr32WithCarry (inst.arg0.raw % 2 ^ 32) (inst.arg1.raw % 256)
          (inst.arg2.raw % 256)).1 := by
  by_cases hci : inst.carry_inst = true
  · exact (lsr32_emitter_values inst result carry zero s hci hra).1
  · have h1 : HostLoc.RCX ≠ result := by
      unfold ShiftAlloc at hra
      simp only [List.nodup_cons, List.mem_cons, not_or] at hra
      exact hra.1.1
    exact lsr32_nocarry_value inst result carry zero s _ (by simpa using hci) h1 h2 h3

/-- Result of `EmitArithmeticShiftRight32` in each of its four variants. -/
theorem asr32_any_value (inst : Inst) (result carry const31 : HostLoc) (s : X64State)
    (hra : ShiftAlloc result carry) (h2 : HostLoc.RCX ≠ const31) (h3 : result ≠ const31) :
    (EmitArithmeticShiftRight32 inst result carry const31 s).valueOf .inst 32
      = some (asr32WithCarry (inst.arg0.raw % 2 ^ 32) (inst.arg1.raw % 256)
          (inst.arg2.raw % 256)).1 := by
  by_cases hci : inst.carry_inst = true
  · exact (asr32_emitter_values inst result carry const31 s hci hra).1
  · have h1 : HostLoc.RCX ≠ result := by
      unfold ShiftAlloc at hra
      simp only [List.nodup_cons, List.mem_cons, not_or] at hra
      exact hra.1.1
    exact asr32_nocarry_value inst result carry const31 s _ (by simpa using hci) h1 h2 h3

/-- Result of `EmitRotateRight32` in each of its four variants. -/
theorem ror32_any_value (inst : Inst) (result carry : HostLoc) (s : X64State)
    (hra : ShiftAlloc result carry) :
    (EmitRotateRight32 inst result carry s).valueOf .inst 32
      = some (ror32WithCarry (inst.arg0.raw % 2 ^ 32) (inst.arg1.raw % 256)
          (inst.arg2.raw % 256)).1 := by
  by_cases hci : inst.carry_inst = true
  · exact (ror32_emitter_values inst result carry s hci hra).1
  · have h1 : HostLoc.RCX ≠ result := by
      unfold ShiftAlloc at hra
      simp only [List.nodup_cons, List.mem_cons, not_or] at hra
      exact hra.1.1
    exact ror32_nocarry_value inst result carry s _ (by simpa using hci) h1

/-- C25: for LogicalShiftLeft32, LogicalShiftRight32, ArithmeticShiftRight32 and
RotateRight32, any two of the emitted variants (immediate or register count, with or
without the carry-out pseudo-operation) run on the same 32-bit operand, the same 8-bit
count and the same carry-in in {0, 1} define the same result, which is the guest
result, and two variants that both produce a carry-out define the same carry-out. -/
theorem Shift32_variants_agree (i j : Inst) (result carry scratch : HostLoc) (s t : X64State)
    (hx : i.arg0.raw % 2 ^ 32 = j.arg0.raw % 2 ^ 32)
    (hs : i.arg1.raw % 256 = j.arg1.raw % 256)
    (hc : i.arg2.raw % 256 = j.arg2.raw % 256) (hc1 : i.arg2.raw % 256 ≤ 1)
    (hra : ShiftAlloc result carry) (h2 : HostLoc.RCX ≠ scratch) (h3 : result ≠ scratch) :
    ((EmitLogicalShiftLeft32 i result carry scratch s).valueOf .inst 32
        = some (lsl32WithCarry (i.arg0.raw % 2 ^ 32) (i.arg1.raw % 256) (i.arg2.raw % 256)).1
      ∧ (EmitLogicalShiftLeft32 j result carry scratch t).valueOf .inst 32
        = (EmitLogicalShiftLeft32 i result carry scratch s).valueOf .inst 32
      ∧ (i.carry_inst = true → j.carry_inst = true →
        (EmitLogicalShiftLeft32 i result carry scratch s).valueOf .carry_inst 8
          = some (lsl32WithCarry (i.arg0.raw % 2 ^ 32) (i.arg1.raw % 256)
              (i.arg2.raw % 256)).2
        ∧ (EmitLogicalShiftLeft32 j result carry scratch t).valueOf .carry_inst 8
          = (EmitLogicalShiftLeft32 i result carry scratch s).valueOf .carry_inst 8))
    ∧ ((EmitLogicalShiftRight32 i result carry scratch s).valueOf .inst 32
        = some (lsr32WithCarry (i.arg0.raw % 2 ^ 32) (i.arg1.raw % 256) (i.arg2.raw % 256)).1
      ∧ (EmitLogicalShiftRight32 j result carry scratch t).valueOf .inst 32
        = (EmitLogicalShiftRight32 i result carry scratch s).valueOf .inst 32
      ∧ (i.carry_inst = true → j.carry_inst = true →
        (EmitLogicalShiftRight32 i result carry scratch s).valueOf .carry_inst 8
          = some (lsr32WithCarry (i.arg0.raw % 2 ^ 32) (i.arg1.raw % 256)
              (i.arg2.raw % 256)).2
        ∧ (EmitLogicalShiftRight32 j result carry scratch t).valueOf .carry_inst 8
          = (EmitLogicalShiftRight32 i result carry scratch s).valueOf .carry_inst 8))
    ∧ ((EmitArithmeticShiftRight32 i result carry scratch s).valueOf .inst 32
        = some (asr32WithCarry (i.arg0.raw % 2 ^ 32) (i.arg1.raw % 256) (i.arg2.raw % 256)).1
      ∧ (EmitArithmeticShiftRight32 j result carry scratch t).valueOf .inst 32
        = (EmitArithmeticShiftRight32 i result carry scratch s).valueOf .inst 32
      ∧ (i.carry_inst = true → j.carry_inst = true →
        (EmitArithmeticShiftRight32 i result carry scratch s).valueOf .carry_inst 8
          = some (asr32WithCarry (i.arg0.raw % 2 ^ 32) (i.arg1.raw % 256)
              (i.arg2.raw % 256)).2
        ∧ (EmitArithmeticShiftRight32 j result carry scratch t).valueOf .carry_inst 8
          = (EmitArithmeticShiftRight32 i result carry scratch s).valueOf .carry_inst 8))
    ∧ ((EmitRotateRight32 i result carry s).valueOf .inst 32
        = some (ror32WithCarry (i.arg0.raw % 2 ^ 32) (i.arg1.raw % 256) (i.arg2.raw % 256)).1
      ∧ (EmitRotateRight32 j result carry t).valueOf .inst 32
        = (EmitRotateRight32 i result carry s).valueOf .inst 32
      ∧ (i.carry_inst = true → j.carry_inst = true →
        (EmitRotateRight32 i result carry s).valueOf .carry_inst 8
          = some (ror32WithCarry (i.arg0.raw % 2 ^ 32) (i.arg1.raw % 256)
              (i.arg2.raw % 256)).2
        ∧ (EmitRotateRight32 j result carry t).valueOf .carry_inst 8
          = (EmitRotateRight32 i result carry s).valueOf .carry_inst 8)) := by
  have hcj : j.arg2.raw % 256 ≤ 1 := hc ▸ hc1
  refine ⟨⟨?_, ?_, fun hi hj => ⟨?_, ?_⟩⟩, ⟨?_, ?_, fun hi hj => ⟨?_, ?_⟩⟩,
    ⟨?_, ?_, fun hi hj => ⟨?_, ?_⟩⟩, ⟨?_, ?_, fun hi hj => ⟨?_, ?_⟩⟩⟩
  · exact lsl32_any_value i result carry scratch s hc1 hra h2 h3
  · rw [lsl32_any_value i result carry scratch s hc1 hra h2 h3,
      lsl32_any_value j result carry scratch t hcj hra h2 h3, hx, hs, hc]
  · exact (lsl32_emitter_values i result carry scratch s hi hc1 hra).2
  · rw [(lsl32_emitter_values i result carry scratch s hi hc1 hra).2,
      (lsl32_emitter_values j result carry scratch t hj hcj hra).2, hx, hs, hc]
  · exact lsr32_any_value i result carry scratch s hra h2 h3
  · rw [lsr32_any_value i result carry scratch s hra h2 h3,
      lsr32_any_value j result carry scratch t hra h2 h3, hx, hs, hc]
  · exact (lsr32_emitter_values i result carry scratch s hi hra).2
  · rw [(lsr32_emitter_values i result carry scratch s hi hra).2,
      (lsr32_emitter_values j result carry scratch t hj hra).2, hx, hs, hc]
  · exact asr32_any_value i result carry scratch s hra h2 h3
  · rw [asr32_any_value i result carry scratch s hra h2 h3,
      asr32_any_value j result carry scratch t hra h2 h3, hx, hs, hc]
  · exact (asr32_emitter_values i result carry scratch s hi hra).2
  · rw [(asr32_emitter_values i result carry scratch s hi hra).2,
      (asr32_emitter_values j result carry scratch t hj hra).2, hx, hs, hc]
  · exact ror32_any_value i result carry s hra
  · rw [ror32_any_value i result carry s hra, ror32_any_value j result carry t hra, hx, hs, hc]
  · exact (ror32_emitter_values i result carry s hi hra).2
  · rw [(ror32_emitter_values i result carry s hi hra).2,
      (ror32_emitter_values j result carry t hj hra).2, hx, hs, hc]

/-- C25, on operand `0x80000001`, count 33 and carry-in 1, with the immediate variant
without carry-out against the register variant with carry-out: LSL and LSR give 0,
ASR gives `0xFFFFFFFF`, ROR gives `0xC0000000`, in both variants. -/
theorem Shift32_variants_agree_witness :
    (EmitLogicalShiftLeft32 ⟨.val .U32 0x80000001, .val .U8 33, .val .U1 1, true, false, false⟩
        .RBX .RSI .RDI X64State.zero).valueOf .inst 32 = some 0
    ∧ (EmitLogicalShiftRight32 ⟨.val .U32 0x80000001, .val .U8 33, .val .U1 1,
        true, false, false⟩ .RBX .RSI .RDI X64State.zero).valueOf .inst 32 = some 0
    ∧ (EmitArithmeticShiftRight32 ⟨.val .U32 0x80000001, .val .U8 33, .val .U1 1,
        true, false, false⟩ .RBX .RSI .RDI X64State.zero).valueOf .inst 32 = some 0xFFFFFFFF
    ∧ (EmitRotateRight32 ⟨.val .U32 0x80000001, .val .U8 33, .val .U1 1,
        true, false, false⟩ .RBX .RSI X64State.zero).valueOf .inst 32 = some 0xC0000000 := by
  obtain ⟨⟨a1, a2, -⟩, ⟨b1, b2, -⟩, ⟨c1, c2, -⟩, ⟨d1, d2, -⟩⟩ := Shift32_variants_agree
    ⟨.imm .U32 0x80000001, .imm .U8 33, .imm .U1 1, false, false, false⟩
    ⟨.val .U32 0x80000001, .val .U8 33, .val .U1 1, true, false, false⟩
    .RBX .RSI .RDI X64State.zero X64State.zero (by decide) (by decide) (by decide) (by decide)
    (by unfold ShiftAlloc; decide) (by decide) (by decide)
  exact ⟨(a2.trans a1).trans (by decide), (b2.trans b1).trans (by decide),
    (c2.trans c1).trans (by decide), (d2.trans d1).trans (by decide)⟩

/-! ## Rotate right extended, with or without carry-out -/

/-- Result of `EmitRotateRightExtended`, whether or not the carry pseudo-operation is
attached. -/
theorem rrx_value (inst : Inst) (result carry : HostLoc) (s : X64State)
    (hra : result ≠ carry) :
    (EmitRotateRightExtended inst result carry s).valueOf .inst 32
      = some (inst.arg1.raw % 2 * 2 ^ 31 + inst.arg0.raw % 2 ^ 32 / 2) := by
  have e1 := regs_ne hra
  unfold EmitRotateRightExtended
  by_cases hci : inst.carry_inst = true
  · simp only [hci, if_true]
    refine (shiftOutputs_values result carry _).1.trans (congrArg some ?_)
    simp only [setcc_eff, rcr_one_eff, bt_eff, UseScratchGpr_eff, e1, if_true, if_false,
      X64State.readGpr, regWrite_32, bit_toNat_eq, Nat.reducePow, Nat.zero_mod, Nat.pow_zero,
      Nat.div_one]
    omega
  · simp only [hci, Bool.false_eq_true, if_false, DefineValue_valueOf]
    refine congrArg some ?_
    simp only [rcr_one_eff, bt_eff, UseScratchGpr_eff, e1, if_true, if_false,
      X64State.readGpr, regWrite_32, bit_toNat_eq, Nat.reducePow, Nat.zero_mod, Nat.pow_zero,
      Nat.div_one]
    omega

/-- Carry-out of `EmitRotateRightExtended`. -/
theorem rrx_carry (inst : Inst) (result carry : HostLoc) (s : X64State)
    (hci : inst.carry_inst = true) (hra : result ≠ carry) :
    (EmitRotateRightExtended inst result carry s).valueOf .carry_inst 8
      = some (inst.arg0.raw % 2) := by
  have e1 := regs_ne hra
  unfold EmitRotateRightExtended
  simp only [hci, if_true]
  refine (shiftOutputs_values result carry _).2.trans (congrArg some ?_)
  simp only [setcc_eff, rcr_one_eff, bt_eff, UseScratchGpr_eff, e1, if_true, if_false,
    X64State.readGpr, regWrite_8_low, CC.holds, bit_toNat_eq, Nat.reducePow, Nat.pow_zero,
    Nat.div_one, toNat_mod_256]
  omega

/-- C26: for every 32-bit `x` and every carry-in register value `c`, the
RotateRightExtended sequence (`bt c, 0; rcr result, 1`) yields
`((c mod 2) << 31) | (x >> 1)`, so only bit 0 of the carry-in is consulted; with a
carry-out pseudo-operation attached the carry-out is bit 0 of `x`; the result is the
same whether or not the pseudo-operation is attached. -/
theorem RotateRightExtended_value (inst : Inst) (result carry : HostLoc) (s t : X64State)
    (hra : result ≠ carry) :
    (EmitRotateRightExtended inst result carry s).valueOf .inst 32
      = some (((inst.arg1.raw % 2 ^ 64 % 2) <<< 31) ||| ((inst.arg0.raw % 2 ^ 32) >>> 1))
    ∧ (inst.carry_inst = true →
        (EmitRotateRightExtended inst result carry s).valueOf .carry_inst 8
          = some (inst.arg0.raw % 2 ^ 32 % 2))
    ∧ (EmitRotateRightExtended { inst with carry_inst := true } result carry s).valueOf
          .inst 32
        = (EmitRotateRightExtended { inst with carry_inst := false } result carry t).valueOf
          .inst 32 := by
  refine ⟨?_, fun hci => ?_, ?_⟩
  · rw [rrx_value inst result carry s hra]
    refine congrArg some ?_
    have hb : inst.arg1.raw % 2 ^ 64 % 2 = inst.arg1.raw % 2 := by omega
    rw [hb, Nat.shiftLeft_eq, Nat.shiftRight_eq_div_pow, Nat.pow_one,
      Nat.mul_comm (inst.arg1.raw % 2) (2 ^ 31), ← Nat.mul_add_lt_is_or (by omega)]
  · rw [rrx_carry inst result carry s hci hra]
    refine congrArg some ?_
    omega
  · rw [rrx_value _ result carry s hra, rrx_value _ result carry t hra]

/-- C26, on `x = 5` with the carry-in register holding 3: the result is `0x80000002`
with and without the carry-out pseudo-operation, and the carry-out is 1. -/
theorem RotateRightExtended_value_witness :
    (EmitRotateRightExtended ⟨.val .U32 5, .val .U8 3, .val .U1 0, true, false, false⟩
        .RBX .RSI X64State.zero).valueOf .inst 32 = some 0x80000002
    ∧ (EmitRotateRightExtended ⟨.val .U32 5, .val .U8 3, .val .U1 0, true, false, false⟩
        .RBX .RSI X64State.zero).valueOf .carry_inst 8 = some 1
    ∧ (EmitRotateRightExtended ⟨.val .U32 5, .val .U8 3, .val .U1 0, false, false, false⟩
        .RBX .RSI X64State.zero).valueOf .inst 32 = some 0x80000002 := by
  have h := RotateRightExtended_value
    ⟨.val .U32 5, .val .U8 3, .val .U1 0, true, false, false⟩ .RBX .RSI X64State.zero
    X64State.zero (by decide)
  exact ⟨h.1.trans (by decide), (h.2.1 rfl).trans (by decide),
    h.2.2.symm.trans (h.1.trans (by decide))⟩

/-! ## Flag synthesis of conditional select, step by step -/

/-- The flag synthesis is `sahf` after the three earlier stages. -/
theorem restoreFlags_eq_stages (off : Nat) (s : X64State) :
    restoreFlags off s = code.sahf (nzcvAdded off s) := by
  rfl

/-- EAX after the multiplication: the nibble times `0x1081`. -/
theorem nzcvProduct_rax (off : Nat) (t : X64State) :
    (nzcvProduct off t).gpr .RAX = t.cpsr_nzcv off / 2 ^ 28 * 0x1081 := by
  unfold nzcvProduct X64State.cpsr_nzcv
  simp only [imul3_eff, shr_eff, mov_eff, X64State.readOp, X64State.readGpr, X64State.ea,
    if_true, regWrite_32, code.countMask, Nat.reducePow, Nat.reduceMod, Nat.reduceEqDiff,
    if_false, Nat.mod_mod, toSigned_mul_low]
  omega

/-- The three partial products of a nibble by `0x1081` do not overlap, and bits 15,
14 and 8 of the product are bits 3, 2 and 1 of the nibble. -/
theorem nibble_product : ∀ n : Nat, n < 16 →
    n * 0x1081 = (n ||| (n <<< 7) ||| (n <<< 12))
    ∧ (n &&& (n <<< 7)) = 0 ∧ (n &&& (n <<< 12)) = 0 ∧ ((n <<< 7) &&& (n <<< 12)) = 0
    ∧ bit (n * 0x1081) 15 = bit n 3 ∧ bit (n * 0x1081) 14 = bit n 2
    ∧ bit (n * 0x1081) 8 = bit n 1 ∧ bit (n * 0x1081) 0 = bit n 0 := by
  decide

/-- Bits 3..0 of the nibble are bits 31..28 of the word. -/
theorem nibble_bits (W : Nat) (hW : W < 2 ^ 32) :
    W / 2 ^ 28 < 16 ∧ bit (W / 2 ^ 28) 3 = bit W 31 ∧ bit (W / 2 ^ 28) 2 = bit W 30
    ∧ bit (W / 2 ^ 28) 1 = bit W 29 ∧ bit (W / 2 ^ 28) 0 = bit W 28 := by
  refine ⟨by omega, ?_, ?_, ?_, ?_⟩ <;>
    (unfold bit; congr 1; apply propext; omega)

/-- After `and al, 1`: AH holds N at bit 7, Z at bit 6 and C at bit 0, and AL is V. -/
theorem nzcvMasked_rax (off : Nat) (t : X64State) :
    bit ((nzcvMasked off t).gpr .RAX / 256 % 256) 7 = bit (t.cpsr_nzcv off) 31
    ∧ bit ((nzcvMasked off t).gpr .RAX / 256 % 256) 6 = bit (t.cpsr_nzcv off) 30
    ∧ bit ((nzcvMasked off t).gpr .RAX / 256 % 256) 0 = bit (t.cpsr_nzcv off) 29
    ∧ (nzcvMasked off t).gpr .RAX % 256 = (bit (t.cpsr_nzcv off) 28).toNat := by
  have hW : t.cpsr_nzcv off < 2 ^ 32 := Nat.mod_lt _ (by norm_num)
  obtain ⟨hn, b3, b2, b1, b0⟩ := nibble_bits _ hW
  unfold nzcvMasked
  simp only [and_eff, if_true, X64State.readGpr, X64State.readOp, nzcvProduct_rax,
    Nat.reduceEqDiff, if_false, Nat.reducePow, Nat.reduceMod] at hn ⊢
  rw [← b3, ← b2, ← b1, ← b0]
  simp only [Nat.reducePow]
  generalize t.cpsr_nzcv off / 268435456 = n at hn ⊢
  revert n
  decide

/-- After `add al, 0x7F`: OF is V, and AH is unchanged. -/
theorem nzcvAdded_flags (off : Nat) (t : X64State) :
    (nzcvAdded off t).OF = bit (t.cpsr_nzcv off) 28
    ∧ (nzcvAdded off t).gpr .RAX / 256 % 256 = (nzcvMasked off t).gpr .RAX / 256 % 256 := by
  have hW : t.cpsr_nzcv off < 2 ^ 32 := Nat.mod_lt _ (by norm_num)
  obtain ⟨hn, b3, b2, b1, b0⟩ := nibble_bits _ hW
  unfold nzcvAdded nzcvMasked
  simp only [add_eff, and_eff, if_true, X64State.readGpr, X64State.readOp, nzcvProduct_rax,
    Nat.reduceEqDiff, if_false, Nat.reducePow, Nat.reduceMod] at hn ⊢
  rw [← b0]
  simp only [Nat.reducePow]
  generalize t.cpsr_nzcv off / 268435456 = n at hn ⊢
  revert n
  decide

/-! ## Conditional select: the flag synthesis inside the emitter -/

/-- Placing the operands does not change the packed NZCV word that is loaded. -/
theorem selectOperands_cpsr (inst : Inst) (then_ else_ : HostLoc) (off : Nat) (s : X64State)
    (hra : SelectAlloc then_ else_) :
    (selectOperands inst then_ else_ s).cpsr_nzcv off = s.cpsr_nzcv off := by
  unfold SelectAlloc at hra
  simp only [List.nodup_cons, List.mem_cons, List.mem_singleton, not_or, List.not_mem_nil,
    not_false_eq_true, List.nodup_nil, and_true] at hra
  obtain ⟨-, ⟨h4, h5⟩, -⟩ := hra
  have e4 := regs_ne h4; have e5 := regs_ne h5
  simp only [selectOperands, X64State.cpsr_nzcv, UseScratchGpr_eff, UseGpr_eff, e4, e5,
    if_false]

/-- `EmitConditionalSelect` is the flag synthesis, stage after stage, followed by the
`switch` and `DefineValue`. -/
theorem EmitConditionalSelect_eq_stages (bitsize : Nat) (inst : Inst) (then_ else_ : HostLoc)
    (off : Nat) (s : X64State) :
    EmitConditionalSelect bitsize inst then_ else_ off s =
      (condMove bitsize inst.arg0.GetImmediateCond then_ else_
        (code.sahf (code.add 8 .RAX (.imm 0x7F) (code.and_ 8 .RAX (.imm 1)
          (nzcvProduct off (selectOperands inst then_ else_ s)))))).map
        (DefineValue .inst else_) :=
  EmitConditionalSelect_eq_blocks bitsize inst then_ else_ off s

/-- The `switch` keeps SF, ZF, OF and every register but `else_`; only the cases HI
and LS, which execute `cmc`, change CF. -/
theorem condMove_flags (bitsize : Nat) (c : Cond) (then_ else_ : HostLoc) (u : X64State) :
    ∃ u', condMove bitsize (some c) then_ else_ u = some u'
      ∧ u'.SF = u.SF ∧ u'.ZF = u.ZF ∧ u'.OF = u.OF
      ∧ u'.CF = (if c = .HI ∨ c = .LS then !u.CF else u.CF)
      ∧ (∀ q, q ≠ else_ → u'.gpr q = u.gpr q) := by
  cases c <;>
    exact ⟨_, rfl, by simp only [cmovcc_eff, mov_eff, cmc_eff],
      by simp only [cmovcc_eff, mov_eff, cmc_eff], by simp only [cmovcc_eff, mov_eff, cmc_eff],
      by simp only [cmovcc_eff, mov_eff, cmc_eff, reduceCtorEq, or_self, or_true, true_or,
        if_true, if_false],
      fun q hq => by simp only [cmovcc_eff, mov_eff, cmc_eff, hq, if_false]⟩

/-- RAX at the end of the flag synthesis: the bytes above AL are those of the nibble
times `0x1081`, and AL is V + 0x7F. -/
theorem restoreFlags_rax (off : Nat) (t : X64State) :
    (restoreFlags off t).gpr .RAX
      = t.cpsr_nzcv off / 2 ^ 28 * 0x1081 / 256 * 256
          + ((bit (t.cpsr_nzcv off) 28).toNat + 0x7F) := by
  have hW : t.cpsr_nzcv off < 2 ^ 32 := Nat.mod_lt _ (by norm_num)
  obtain ⟨hn, -, -, -, b0⟩ := nibble_bits _ hW
  rw [restoreFlags_eq_stages]
  unfold nzcvAdded nzcvMasked
  simp only [sahf_eff, add_eff, and_eff, if_true, X64State.readGpr, X64State.readOp,
    nzcvProduct_rax, Nat.reduceEqDiff, if_false, Nat.reducePow, Nat.reduceMod] at hn ⊢
  rw [← b0]
  simp only [Nat.reducePow]
  generalize t.cpsr_nzcv off / 268435456 = n at hn ⊢
  revert n
  decide

/-- Final state of `EmitConditionalSelect`: it completes for every valid condition,
SF, ZF and OF are bits 31, 30 and 28 of the packed word, CF is bit 29 (complemented
by the `cmc` of HI and LS), and RAX still holds what the flag synthesis left. -/
theorem EmitConditionalSelect_final (bitsize : Nat) (c : Cond) (inst : Inst)
    (hc : inst.arg0.GetImmediateCond = some c) (then_ else_ : HostLoc) (off : Nat)
    (s : X64State) (hra : SelectAlloc then_ else_) :
    ∃ s', EmitConditionalSelect bitsize inst then_ else_ off s = some s'
      ∧ s'.SF = bit (s.cpsr_nzcv off) 31
      ∧ s'.ZF = bit (s.cpsr_nzcv off) 30
      ∧ s'.CF = (if c = .HI ∨ c = .LS then !bit (s.cpsr_nzcv off) 29
          else bit (s.cpsr_nzcv off) 29)
      ∧ s'.OF = bit (s.cpsr_nzcv off) 28
      ∧ s'.gpr .RAX = s.cpsr_nzcv off / 2 ^ 28 * 0x1081 / 256 * 256
          + ((bit (s.cpsr_nzcv off) 28).toNat + 0x7F) := by
  have hW := selectOperands_cpsr inst then_ else_ off s hra
  unfold SelectAlloc at hra
  simp only [List.nodup_cons, List.mem_cons, List.mem_singleton, not_or, List.not_mem_nil,
    not_false_eq_true, List.nodup_nil, and_true] at hra
  obtain ⟨⟨-, -, h3⟩, -, -⟩ := hra
  obtain ⟨f1, f2, f3, f4, -, -⟩ := restoreFlags_spec off (selectOperands inst then_ else_ s)
  have f5 := restoreFlags_rax off (selectOperands inst then_ else_ s)
  obtain ⟨u', g0, g1, g2, g3, g4, g5⟩ := condMove_flags bitsize c then_ else_
    (restoreFlags off (selectOperands inst then_ else_ s))
  rw [hW] at f1 f2 f3 f4 f5
  rw [EmitConditionalSelect_eq_blocks, hc]
  unfold selectOperands at g0 g1 g2 g3 g4 g5 f1 f2 f3 f4 f5
  rw [g0]
  refine ⟨_, rfl, ?_, ?_, ?_, ?_, ?_⟩
  · simp only [DefineValue_eff, g1, f1]
  · simp only [DefineValue_eff, g2, f2]
  · simp only [DefineValue_eff, g4, f3]
  · simp only [DefineValue_eff, g3, f4]
  · simp only [DefineValue_eff, g5 _ h3, f5]

/-- What the end of the flag synthesis leaves in RAX, for every nibble: AH has bit 3
of the nibble at bit 7, bit 2 at bit 6 and bit 1 at bit 0, the bytes above AL are
those of the product, and AL is bit 0 of the nibble plus 0x7F. -/
theorem final_rax_bits : ∀ n : Nat, n < 16 →
    bit ((n * 0x1081 / 256 * 256 + ((bit n 0).toNat + 0x7F)) / 256 % 256) 7 = bit n 3
    ∧ bit ((n * 0x1081 / 256 * 256 + ((bit n 0).toNat + 0x7F)) / 256 % 256) 6 = bit n 2
    ∧ bit ((n * 0x1081 / 256 * 256 + ((bit n 0).toNat + 0x7F)) / 256 % 256) 0 = bit n 1
    ∧ (n * 0x1081 / 256 * 256 + ((bit n 0).toNat + 0x7F)) / 256 = n * 0x1081 / 256
    ∧ (n * 0x1081 / 256 * 256 + ((bit n 0).toNat + 0x7F)) % 256 = (bit n 0).toNat + 0x7F := by
  decide

/-- C27: for every packed NZCV word `W` loaded, with (N, Z, C, V) = bits
(31, 30, 29, 28) of `W`, `EmitConditionalSelect` is its flag synthesis (load, `shr 28`,
`imul`, `and al, 1`, `add al, 0x7F`, `sahf`) on the word `W` followed by the `switch`,
and the synthesis ends with SF = N, ZF = Z, CF = C and OF = V.  On the way: the three
partial products of the multiply do not overlap; after `and al, 1` AH holds N at bit
7, Z at bit 6 and C at bit 0 and AL is V; `add al, 0x7F` overflows exactly when V = 1
and keeps AH; `sahf` leaves OF untouched.  The emitter completes for every valid
condition, and in its final state SF, ZF and OF are still N, Z and V, CF is C (its
complement after the `cmc` of HI and LS), and AH still holds N, Z and C. -/
theorem EmitConditionalSelect_flag_synthesis (bitsize : Nat) (c : Cond) (inst : Inst)
    (hc : inst.arg0.GetImmediateCond = some c) (then_ else_ : HostLoc) (off : Nat)
    (s : X64State) (hra : SelectAlloc then_ else_) :
    (EmitConditionalSelect bitsize inst then_ else_ off s
        = (condMove bitsize (some c) then_ else_
            (code.sahf (nzcvAdded off (selectOperands inst then_ else_ s)))).map
              (DefineValue .inst else_)
      ∧ (selectOperands inst then_ else_ s).cpsr_nzcv off = s.cpsr_nzcv off)
    ∧ ((code.sahf (nzcvAdded off (selectOperands inst then_ else_ s))).SF
          = bit (s.cpsr_nzcv off) 31
      ∧ (code.sahf (nzcvAdded off (selectOperands inst then_ else_ s))).ZF
          = bit (s.cpsr_nzcv off) 30
      ∧ (code.sahf (nzcvAdded off (selectOperands inst then_ else_ s))).CF
          = bit (s.cpsr_nzcv off) 29
      ∧ (code.sahf (nzcvAdded off (selectOperands inst then_ else_ s))).OF
          = bit (s.cpsr_nzcv off) 28)
    ∧ ((nzcvProduct off (selectOperands inst then_ else_ s)).gpr .RAX
        = (s.cpsr_nzcv off / 2 ^ 28 ||| (s.cpsr_nzcv off / 2 ^ 28) <<< 7
            ||| (s.cpsr_nzcv off / 2 ^ 28) <<< 12)
      ∧ (s.cpsr_nzcv off / 2 ^ 28 &&& (s.cpsr_nzcv off / 2 ^ 28) <<< 7) = 0
      ∧ (s.cpsr_nzcv off / 2 ^ 28 &&& (s.cpsr_nzcv off / 2 ^ 28) <<< 12) = 0
      ∧ ((s.cpsr_nzcv off / 2 ^ 28) <<< 7 &&& (s.cpsr_nzcv off / 2 ^ 28) <<< 12) = 0)
    ∧ (bit ((nzcvMasked off (selectOperands inst then_ else_ s)).gpr .RAX / 256 % 256) 7
          = bit (s.cpsr_nzcv off) 31
      ∧ bit ((nzcvMasked off (selectOperands inst then_ else_ s)).gpr .RAX / 256 % 256) 6
          = bit (s.cpsr_nzcv off) 30
      ∧ bit ((nzcvMasked off (selectOperands inst then_ else_ s)).gpr .RAX / 256 % 256) 0
          = bit (s.cpsr_nzcv off) 29
      ∧ (nzcvMasked off (selectOperands inst then_ else_ s)).gpr .RAX % 256
          = (bit (s.cpsr_nzcv off) 28).toNat)
    ∧ ((nzcvAdded off (selectOperands inst then_ else_ s)).OF = bit (s.cpsr_nzcv off) 28
      ∧ (nzcvAdded off (selectOperands inst then_ else_ s)).gpr .RAX / 256 % 256
          = (nzcvMasked off (selectOperands inst then_ else_ s)).gpr .RAX / 256 % 256)
    ∧ ((code.sahf (nzcvAdded off (selectOperands inst then_ else_ s))).OF
          = (nzcvAdded off (selectOperands inst then_ else_ s)).OF)
    ∧ (∃ s', EmitConditionalSelect bitsize inst then_ else_ off s = some s'
      ∧ s'.SF = bit (s.cpsr_nzcv off) 31
      ∧ s'.ZF = bit (s.cpsr_nzcv off) 30
      ∧ s'.CF = (if c = .HI ∨ c = .LS then !bit (s.cpsr_nzcv off) 29
          else bit (s.cpsr_nzcv off) 29)
      ∧ s'.OF = bit (s.cpsr_nzcv off) 28
      ∧ bit (s'.gpr .RAX / 256 % 256) 7 = bit (s.cpsr_nzcv off) 31
      ∧ bit (s'.gpr .RAX / 256 % 256) 6 = bit (s.cpsr_nzcv off) 30
      ∧ bit (s'.gpr .RAX / 256 % 256) 0 = bit (s.cpsr_nzcv off) 29) := by
  have hW := selectOperands_cpsr inst then_ else_ off s hra
  have hlt : s.cpsr_nzcv off < 2 ^ 32 := Nat.mod_lt _ (by norm_num)
  obtain ⟨hn, b3, b2, b1, b0⟩ := nibble_bits _ hlt
  obtain ⟨p1, p2, p3, p4, -⟩ := nibble_product _ hn
  obtain ⟨f1, f2, f3, f4, -, -⟩ := restoreFlags_spec off (selectOperands inst then_ else_ s)
  have hm := nzcvMasked_rax off (selectOperands inst then_ else_ s)
  have ha := nzcvAdded_flags off (selectOperands inst then_ else_ s)
  have hp := nzcvProduct_rax off (selectOperands inst then_ else_ s)
  obtain ⟨s', e0, e1, e2, e3, e4, e5⟩ :=
    EmitConditionalSelect_final bitsize c inst hc then_ else_ off s hra
  obtain ⟨r7, r6, r0, -, -⟩ := final_rax_bits _ hn
  rw [hW] at f1 f2 f3 f4 hm ha hp
  rw [restoreFlags_eq_stages] at f1 f2 f3 f4
  refine ⟨⟨?_, hW⟩, ⟨f1, f2, f3, f4⟩, ⟨?_, p2, p3, p4⟩, hm, ha, ?_, s', e0, e1, e2, e3, e4,
    ?_, ?_, ?_⟩
  · rw [← hc]
    exact EmitConditionalSelect_eq_stages bitsize inst then_ else_ off s
  · rw [hp, p1]
  · simp only [sahf_eff]
  · rw [e5, ← b0, r7, b3]
  · rw [e5, ← b0, r6, b2]
  · rw [e5, ← b0, r0, b1]

/-- C27, on a 32-bit select with condition EQ and the packed word `0x90000000`
(N = 1, Z = 0, C = 0, V = 1): the emitter completes with SF = 1, ZF = 0, CF = 0 and
OF = 1. -/
theorem EmitConditionalSelect_flag_synthesis_witness :
    ∃ s', EmitConditionalSelect 32 ⟨.imm .Cond 0, .val .U32 0xAA, .val .U32 0xBB,
        false, false, false⟩ .RBX .RSI 0x40
        { X64State.zero with mem := fun _ => 0x90000000 } = some s'
      ∧ s'.SF = true ∧ s'.ZF = false ∧ s'.CF = false ∧ s'.OF = true := by
  obtain ⟨s', h0, h1, h2, h3, h4, -⟩ := (EmitConditionalSelect_flag_synthesis 32 .EQ
    ⟨.imm .Cond 0, .val .U32 0xAA, .val .U32 0xBB, false, false, false⟩ rfl
    .RBX .RSI 0x40 { X64State.zero with mem := fun _ => 0x90000000 }
    (by unfold SelectAlloc; decide)).2.2.2.2.2.2
  exact ⟨s', h0, h1.trans (by decide), h2.trans (by decide), h3.trans (by decide),
    h4.trans (by decide)⟩

/-- C28 fails as stated: for the packed word `0x80000000` (nibble 8, N = 1) the
multiply of `EmitConditionalSelect` leaves `0x8408` in EAX, the nibble times `0x1081`,
not the nibble times `0x00010081`, and the emitter ends with `0x847F` in EAX and
SF = 1; with the constant `0x00010081` the bytes above AL would be `0x804`, and bits
15 and 14 of the product, which `sahf` loads as SF and ZF, would be clear for every
nibble. -/
theorem EmitConditionalSelect_multiply_constant_counterexample :
    (nzcvProduct 0x40 (selectOperands
        ⟨.imm .Cond 4, .val .U32 0xAA, .val .U32 0xBB, false, false, false⟩ .RBX .RSI
        { X64State.zero with mem := fun _ => 0x80000000 })).gpr .RAX = 0x8408
    ∧ 0x8408 ≠ 8 * 0x00010081
    ∧ (EmitConditionalSelect32 ⟨.imm .Cond 4, .val .U32 0xAA, .val .U32 0xBB,
          false, false, false⟩ .RBX .RSI 0x40
          { X64State.zero with mem := fun _ => 0x80000000 }).map
        (fun s' => (s'.gpr .RAX, s'.SF)) = some (0x847F, true)
    ∧ 0x847F / 256 ≠ 8 * 0x00010081 / 256
    ∧ (∀ n : Nat, n < 16 → bit (n * 0x00010081) 15 = false ∧ bit (n * 0x00010081) 14 = false)
    ∧ bit 0x80000000 31 = true := by
  refine ⟨?_, ?_, ?_, ?_, ?_, ?_⟩ <;> decide

/-- C28 (amended): in the flag synthesis of `EmitConditionalSelect` the right-shifted
nibble is multiplied by the constant `0x1081` (`0b0001000010000001`); for every
nibble the three partial products do not overlap and the product carries N, Z and C
at bits 15, 14 and 8, which `sahf` loads from AH as SF, ZF and CF.  The emitter
completes for every valid condition; in its final state the bytes of EAX above AL are
those of the product, and SF, ZF and CF are bits 15, 14 and 8 of the product (CF
complemented after the `cmc` of HI and LS). -/
theorem EmitConditionalSelect_multiply_constant (bitsize : Nat) (c : Cond) (inst : Inst)
    (hc : inst.arg0.GetImmediateCond = some c) (then_ else_ : HostLoc) (off : Nat)
    (s : X64State) (hra : SelectAlloc then_ else_) :
    EmitConditionalSelect bitsize inst then_ else_ off s
        = (condMove bitsize (some c) then_ else_
            (code.sahf (code.add 8 .RAX (.imm 0x7F) (code.and_ 8 .RAX (.imm 1)
              (nzcvProduct off (selectOperands inst then_ else_ s)))))).map
                (DefineValue .inst else_)
    ∧ (nzcvProduct off (selectOperands inst then_ else_ s)).gpr .RAX
        = s.cpsr_nzcv off / 2 ^ 28 * 0x1081
    ∧ s.cpsr_nzcv off / 2 ^ 28 < 16
    ∧ (s.cpsr_nzcv off / 2 ^ 28 * 0x1081
        = (s.cpsr_nzcv off / 2 ^ 28 ||| (s.cpsr_nzcv off / 2 ^ 28) <<< 7
            ||| (s.cpsr_nzcv off / 2 ^ 28) <<< 12)
      ∧ (s.cpsr_nzcv off / 2 ^ 28 &&& (s.cpsr_nzcv off / 2 ^ 28) <<< 7) = 0
      ∧ (s.cpsr_nzcv off / 2 ^ 28 &&& (s.cpsr_nzcv off / 2 ^ 28) <<< 12) = 0
      ∧ ((s.cpsr_nzcv off / 2 ^ 28) <<< 7 &&& (s.cpsr_nzcv off / 2 ^ 28) <<< 12) = 0)
    ∧ (bit ((nzcvProduct off (selectOperands inst then_ else_ s)).gpr .RAX) 15
          = bit (s.cpsr_nzcv off) 31
      ∧ bit ((nzcvProduct off (selectOperands inst then_ else_ s)).gpr .RAX) 14
          = bit (s.cpsr_nzcv off) 30
      ∧ bit ((nzcvProduct off (selectOperands inst then_ else_ s)).gpr .RAX) 8
          = bit (s.cpsr_nzcv off) 29)
    ∧ ((code.sahf (code.add 8 .RAX (.imm 0x7F) (code.and_ 8 .RAX (.imm 1)
          (nzcvProduct off (selectOperands inst then_ else_ s))))).SF
        = bit ((nzcvProduct off (selectOperands inst then_ else_ s)).gpr .RAX) 15
      ∧ (code.sahf (code.add 8 .RAX (.imm 0x7F) (code.and_ 8 .RAX (.imm 1)
          (nzcvProduct off (selectOperands inst then_ else_ s))))).ZF
        = bit ((nzcvProduct off (selectOperands inst then_ else_ s)).gpr .RAX) 14
      ∧ (code.sahf (code.add 8 .RAX (.imm 0x7F) (code.and_ 8 .RAX (.imm 1)
          (nzcvProduct off (selectOperands inst then_ else_ s))))).CF
        = bit ((nzcvProduct off (selectOperands inst then_ else_ s)).gpr .RAX) 8)
    ∧ (∃ s', EmitConditionalSelect bitsize inst then_ else_ off s = some s'
      ∧ s'.gpr .RAX / 256 = s.cpsr_nzcv off / 2 ^ 28 * 0x1081 / 256
      ∧ s'.SF = bit (s.cpsr_nzcv off / 2 ^ 28 * 0x1081) 15
      ∧ s'.ZF = bit (s.cpsr_nzcv off / 2 ^ 28 * 0x1081) 14
      ∧ s'.CF = (if c = .HI ∨ c = .LS then !bit (s.cpsr_nzcv off / 2 ^ 28 * 0x1081) 8
          else bit (s.cpsr_nzcv off / 2 ^ 28 * 0x1081) 8)) := by
  have hW := selectOperands_cpsr inst then_ else_ off s hra
  have hlt : s.cpsr_nzcv off < 2 ^ 32 := Nat.mod_lt _ (by norm_num)
  obtain ⟨hn, b3, b2, b1, b0⟩ := nibble_bits _ hlt
  obtain ⟨p1, p2, p3, p4, q15, q14, q8, -⟩ := nibble_product _ hn
  obtain ⟨f1, f2, f3, -, -, -⟩ := restoreFlags_spec off (selectOperands inst then_ else_ s)
  have hp := nzcvProduct_rax off (selectOperands inst then_ else_ s)
  obtain ⟨s', e0, e1, e2, e3, -, e5⟩ :=
    EmitConditionalSelect_final bitsize c inst hc then_ else_ off s hra
  obtain ⟨-, -, -, r1, -⟩ := final_rax_bits _ hn
  rw [hW] at f1 f2 f3 hp
  have g : restoreFlags off (selectOperands inst then_ else_ s)
      = code.sahf (code.add 8 .RAX (.imm 0x7F) (code.and_ 8 .RAX (.imm 1)
          (nzcvProduct off (selectOperands inst then_ else_ s)))) := rfl
  rw [g] at f1 f2 f3
  refine ⟨?_, hp, hn, ⟨p1, p2, p3, p4⟩, ⟨?_, ?_, ?_⟩, ⟨?_, ?_, ?_⟩, s', e0, ?_, ?_, ?_, ?_⟩
  · rw [← hc]
    exact EmitConditionalSelect_eq_stages bitsize inst then_ else_ off s
  · rw [hp, q15, b3]
  · rw [hp, q14, b2]
  · rw [hp, q8, b1]
  · rw [f1, hp, q15, b3]
  · rw [f2, hp, q14, b2]
  · rw [f3, hp, q8, b1]
  · rw [e5, ← b0, r1]
  · rw [e1, q15, b3]
  · rw [e2, q14, b2]
  · rw [e3, q8, b1]

/-- C28 (amended), on a 32-bit select with condition MI and the packed word
`0xC0000000` (N = 1, Z = 1): the emitter ends with `0xC6` in the bytes of EAX above
AL and SF = 1, ZF = 1, CF = 0. -/
theorem EmitConditionalSelect_multiply_constant_witness :
    ∃ s', EmitConditionalSelect 32 ⟨.imm .Cond 4, .val .U32 0xAA, .val .U32 0xBB,
        false, false, false⟩ .RBX .RSI 0x40
        { X64State.zero with mem := fun _ => 0xC0000000 } = some s'
      ∧ s'.gpr .RAX / 256 = 0xC6 ∧ s'.SF = true ∧ s'.ZF = true ∧ s'.CF = false := by
  obtain ⟨s', h0, h1, h2, h3, h4⟩ := (EmitConditionalSelect_multiply_constant 32 .MI
    ⟨.imm .Cond 4, .val .U32 0xAA, .val .U32 0xBB, false, false, false⟩ rfl
    .RBX .RSI 0x40 { X64State.zero with mem := fun _ => 0xC0000000 }
    (by unfold SelectAlloc; decide)).2.2.2.2.2.2
  exact ⟨s', h0, h1.trans (by decide), h2.trans (by decide), h3.trans (by decide),
    h4.trans (by decide)⟩

/-! ## Flag capture followed by conditional select -/

/-- The NZCV value `EmitAdd` defines carries the guest flags of the addition at bits
15 (N), 14 (Z), 8 (C) and 0 (V). -/
theorem EmitAdd_capture_bits (bitsize : Nat) (hw : bitsize = 32 ∨ bitsize = 64)
    (inst : Inst) (result carry overflow : HostLoc) (op : OpArg) (s : X64State)
    (hty : bitsize = 64 → inst.arg1.GetType ≠ IRType.U32)
    (hra : ArithAlloc result carry overflow op) (hn : inst.nzcv_inst = true) :
    ∃ v, (EmitAdd bitsize inst result carry overflow op s).valueOf .nzcv_inst 32 = some v
      ∧ bit v 15 = msb bitsize ((inst.arg0.raw % 2 ^ bitsize
          + inst.arg1.raw % 2 ^ bitsize + inst.arg2.raw % 2) % 2 ^ bitsize)
      ∧ bit v 14 = decide ((inst.arg0.raw % 2 ^ bitsize
          + inst.arg1.raw % 2 ^ bitsize + inst.arg2.raw % 2) % 2 ^ bitsize = 0)
      ∧ bit v 8 = carryOut bitsize (inst.arg0.raw % 2 ^ bitsize)
          (inst.arg1.raw % 2 ^ bitsize) (inst.arg2.raw % 2)
      ∧ bit v 0 = signedOverflow bitsize
          (toSigned bitsize (inst.arg0.raw % 2 ^ bitsize)
            + toSigned bitsize (inst.arg1.raw % 2 ^ bitsize) + (inst.arg2.raw % 2 : Nat)) := by
  unfold ArithAlloc at hra
  simp only [List.nodup_cons, List.mem_cons, not_or] at hra
  obtain ⟨⟨h1, h2, h3, h4⟩, ⟨h5, -, h7⟩, ⟨-, h9⟩, -, -⟩ := hra
  obtain ⟨-, c2, c3, c4, c5⟩ := addCore_spec bitsize hw inst result carry op s hty h5 h7 h9
  have hrax := addCore_rax bitsize hw inst result carry op s hty hn h1 h2 h4
  have hv := nzcv_value inst .c false result carry overflow _ hn hrax h2 h3
  rw [EmitAdd_eq_blocks]
  obtain ⟨w1, w2, w3, w4⟩ := nzcvWord_bits
    (withSource inst op (addBlock bitsize inst.arg2 result carry)
      (arithSetup inst result carry s)).SF
    (withSource inst op (addBlock bitsize inst.arg2 result carry)
      (arithSetup inst result carry s)).ZF
    (withSource inst op (addBlock bitsize inst.arg2 result carry)
      (arithSetup inst result carry s)).AF
    (withSource inst op (addBlock bitsize inst.arg2 result carry)
      (arithSetup inst result carry s)).PF
    (if false = true then !(withSource inst op (addBlock bitsize inst.arg2 result carry)
      (arithSetup inst result carry s)).CF else (withSource inst op
        (addBlock bitsize inst.arg2 result carry) (arithSetup inst result carry s)).CF)
    (withSource inst op (addBlock bitsize inst.arg2 result carry)
      (arithSetup inst result carry s)).OF
  refine ⟨_, hv, ?_, ?_, ?_, ?_⟩
  · rw [w1, c4]
  · rw [w2, c5]
  · rw [w3]
    simp only [Bool.false_eq_true, if_false, c2]
  · rw [w4, c3]

/-- The NZCV value `EmitSub` defines carries the guest flags of the subtraction at
bits 15 (N), 14 (Z), 8 (C) and 0 (V). -/
theorem EmitSub_capture_bits (bitsize : Nat) (hw : bitsize = 32 ∨ bitsize = 64)
    (inst : Inst) (result carry overflow : HostLoc) (op : OpArg) (s : X64State)
    (hty : bitsize = 64 → inst.arg1.GetType ≠ IRType.U32)
    (hra : ArithAlloc result carry overflow op) (hn : inst.nzcv_inst = true) :
    ∃ v, (EmitSub bitsize inst result carry overflow op s).valueOf .nzcv_inst 32 = some v
      ∧ bit v 15 = msb bitsize ((inst.arg0.raw % 2 ^ bitsize
          + (2 ^ bitsize - 1 - inst.arg1.raw % 2 ^ bitsize) + inst.arg2.raw % 2)
            % 2 ^ bitsize)
      ∧ bit v 14 = decide ((inst.arg0.raw % 2 ^ bitsize
          + (2 ^ bitsize - 1 - inst.arg1.raw % 2 ^ bitsize) + inst.arg2.raw % 2)
            % 2 ^ bitsize = 0)
      ∧ bit v 8 = carryOut bitsize (inst.arg0.raw % 2 ^ bitsize)
          (2 ^ bitsize - 1 - inst.arg1.raw % 2 ^ bitsize) (inst.arg2.raw % 2)
      ∧ bit v 0 = signedOverflow bitsize
          (toSigned bitsize (inst.arg0.raw % 2 ^ bitsize)
            - toSigned bitsize (inst.arg1.raw % 2 ^ bitsize)
            - ((1 - inst.arg2.raw % 2 : Nat) : Int)) := by
  unfold ArithAlloc at hra
  simp only [List.nodup_cons, List.mem_cons, not_or] at hra
  obtain ⟨⟨h1, h2, h3, h4⟩, ⟨h5, -, h7⟩, ⟨-, h9⟩, -, -⟩ := hra
  obtain ⟨-, c2, c3, c4, c5⟩ := subCore_spec bitsize hw inst result carry op s hty h5 h7 h9
  have hrax := subCore_rax bitsize hw inst result carry op s hty hn h1 h2 h4
  have hv := nzcv_value inst .nc true result carry overflow _ hn hrax h2 h3
  rw [EmitSub_eq_blocks]
  obtain ⟨w1, w2, w3, w4⟩ := nzcvWord_bits
    (withSource inst op (subBlock bitsize inst.arg2 result carry)
      (arithSetup inst result carry s)).SF
    (withSource inst op (subBlock bitsize inst.arg2 result carry)
      (arithSetup inst result carry s)).ZF
    (withSource inst op (subBlock bitsize inst.arg2 result carry)
      (arithSetup inst result carry s)).AF
    (withSource inst op (subBlock bitsize inst.arg2 result carry)
      (arithSetup inst result carry s)).PF
    (if true = true then !(withSource inst op (subBlock bitsize inst.arg2 result carry)
      (arithSetup inst result carry s)).CF else (withSource inst op
        (subBlock bitsize inst.arg2 result carry) (arithSetup inst result carry s)).CF)
    (withSource inst op (subBlock bitsize inst.arg2 result carry)
      (arithSetup inst result carry s)).OF
  refine ⟨_, hv, ?_, ?_, ?_, ?_⟩
  · rw [w1, c4]
  · rw [w2, c5]
  · rw [w3]
    simp only [if_true, c2, Bool.not_not]
  · rw [w4, c3]

/-- Conditional select run on a packed word whose bits 31..28 are (N, Z, C, V): the
emitter completes, its `switch` runs on SF = N, ZF = Z, CF = C, OF = V, these flags
are still there at the end (CF complemented by the `cmc` of HI and LS), and the value
selected is the one the guest condition picks on (N, Z, C, V). -/
theorem EmitConditionalSelect_observes (selsize : Nat) (hsw : selsize = 32 ∨ selsize = 64)
    (c : Cond) (sel : Inst) (hc : sel.arg0.GetImmediateCond = some c)
    (then_ else_ : HostLoc) (hsa : SelectAlloc then_ else_) (off : Nat) (t : X64State)
    (N Z C V : Bool) (e1 : bit (t.cpsr_nzcv off) 31 = N) (e2 : bit (t.cpsr_nzcv off) 30 = Z)
    (e3 : bit (t.cpsr_nzcv off) 29 = C) (e4 : bit (t.cpsr_nzcv off) 28 = V) :
    ∃ t', EmitConditionalSelect selsize sel then_ else_ off t = some t'
      ∧ EmitConditionalSelect selsize sel then_ else_ off t
          = (condMove selsize (some c) then_ else_
              (restoreFlags off (selectOperands sel then_ else_ t))).map
                (DefineValue .inst else_)
      ∧ ((restoreFlags off (selectOperands sel then_ else_ t)).SF = N
        ∧ (restoreFlags off (selectOperands sel then_ else_ t)).ZF = Z
        ∧ (restoreFlags off (selectOperands sel then_ else_ t)).CF = C
        ∧ (restoreFlags off (selectOperands sel then_ else_ t)).OF = V)
      ∧ (t'.SF = N ∧ t'.ZF = Z ∧ t'.CF = (if c = .HI ∨ c = .LS then !C else C) ∧ t'.OF = V)
      ∧ t'.valueOf .inst selsize
          = some (if condHolds c N Z C V then sel.arg1.raw % 2 ^ selsize
              else sel.arg2.raw % 2 ^ selsize) := by
  have hW := selectOperands_cpsr sel then_ else_ off t hsa
  obtain ⟨f1, f2, f3, f4, -, -⟩ := restoreFlags_spec off (selectOperands sel then_ else_ t)
  obtain ⟨t', g0, g1, g2, g3, g4, -⟩ :=
    EmitConditionalSelect_final selsize c sel hc then_ else_ off t hsa
  obtain ⟨t'', k0, k1⟩ := EmitConditionalSelect_value selsize hsw c sel hc then_ else_ off t hsa
  have ht : t'' = t' := Option.some.inj (k0.symm.trans g0)
  subst ht
  have hlt : t.cpsr_nzcv off < 2 ^ 32 := Nat.mod_lt _ (by norm_num)
  obtain ⟨-, b3, b2, b1, b0⟩ := nibble_bits _ hlt
  rw [hW] at f1 f2 f3 f4
  rw [b3, b2, b1, b0, e1, e2, e3, e4] at k1
  rw [e1] at f1 g1
  rw [e2] at f2 g2
  rw [e3] at f3 g3
  rw [e4] at f4 g4
  refine ⟨t'', g0, ?_, ⟨f1, f2, f3, f4⟩, ⟨g1, g2, g3, g4⟩, k1⟩
  rw [← hc]
  exact EmitConditionalSelect_eq_blocks selsize sel then_ else_ off t

/-- C6 fails as stated: for ADD32 with `a = 0x7FFFFFFF`, `b = 1`, carry-in 0 the
result is negative (N = 1, V = 1), yet when the NZCV value the emitter defines
(0x9601) is itself the packed NZCV word that `EmitConditionalSelect` loads, the select
ends with SF = ZF = CF = OF = 0 and, for the condition MI, returns the else value. -/
theorem EmitConditionalSelect_inverts_capture_counterexample :
    ∃ v, (EmitAdd 32 ⟨.val .U32 0x7FFFFFFF, .val .U32 1, .imm .U1 0, false, false, true⟩
        .RBX .RSI .RDI (.reg .R8) X64State.zero).valueOf .nzcv_inst 32 = some v
      ∧ (EmitAdd 32 ⟨.val .U32 0x7FFFFFFF, .val .U32 1, .imm .U1 0, false, false, true⟩
        .RBX .RSI .RDI (.reg .R8) X64State.zero).valueOf .inst 32 = some 0x80000000
      ∧ msb 32 0x80000000 = true
      ∧ (EmitConditionalSelect32 ⟨.imm .Cond 4, .val .U32 0xAA, .val .U32 0xBB,
            false, false, false⟩ .RBX .RSI 0x40
            { X64State.zero with mem := fun _ => v }).map
          (fun t' => (t'.SF, t'.ZF, t'.CF, t'.OF)) = some (false, false, false, false)
      ∧ (EmitConditionalSelect32 ⟨.imm .Cond 4, .val .U32 0xAA, .val .U32 0xBB,
            false, false, false⟩ .RBX .RSI 0x40
            { X64State.zero with mem := fun _ => v }).bind
          (fun t' => t'.valueOf .inst 32) = some 0xBB := by
  refine ⟨0x9601, ?_, ?_, ?_, ?_, ?_⟩ <;> decide

/-- C6 (amended): for every Add or Sub of width 32 or 64 with the NZCV pseudo-operation
attached, producing guest flags (N, Z, C, V), and every conditional select: if the
packed NZCV word that `EmitConditionalSelect` loads carries in bits 31..28 the bits 15,
14, 8 and 0 of the NZCV value defined by the arithmetic emitter, then the select
completes, the flags its prefix synthesises, on which its `switch` runs, are SF = N,
ZF = Z, CF = C and OF = V, they are still there in the final state (CF complemented
by the `cmc` of HI and LS), and the value selected is the one the guest condition
picks on (N, Z, C, V). -/
theorem EmitConditionalSelect_inverts_capture (bitsize : Nat)
    (hw : bitsize = 32 ∨ bitsize = 64)
    (inst : Inst) (result carry overflow : HostLoc) (op : OpArg) (s : X64State)
    (hty : bitsize = 64 → inst.arg1.GetType ≠ IRType.U32)
    (hra : ArithAlloc result carry overflow op) (hn : inst.nzcv_inst = true)
    (selsize : Nat) (hsw : selsize = 32 ∨ selsize = 64) (c : Cond) (sel : Inst)
    (hc : sel.arg0.GetImmediateCond = some c) (then_ else_ : HostLoc)
    (hsa : SelectAlloc then_ else_) :
    (∃ v N Z C V,
      (EmitAdd bitsize inst result carry overflow op s).valueOf .nzcv_inst 32 = some v
      ∧ N = msb bitsize ((inst.arg0.raw % 2 ^ bitsize
            + inst.arg1.raw % 2 ^ bitsize + inst.arg2.raw % 2) % 2 ^ bitsize)
      ∧ Z = decide ((inst.arg0.raw % 2 ^ bitsize
            + inst.arg1.raw % 2 ^ bitsize + inst.arg2.raw % 2) % 2 ^ bitsize = 0)
      ∧ C = carryOut bitsize (inst.arg0.raw % 2 ^ bitsize)
            (inst.arg1.raw % 2 ^ bitsize) (inst.arg2.raw % 2)
      ∧ V = signedOverflow bitsize
            (toSigned bitsize (inst.arg0.raw % 2 ^ bitsize)
              + toSigned bitsize (inst.arg1.raw % 2 ^ bitsize) + (inst.arg2.raw % 2 : Nat))
      ∧ ∀ off t, bit (X64State.cpsr_nzcv t off) 31 = bit v 15
          → bit (X64State.cpsr_nzcv t off) 30 = bit v 14
          → bit (X64State.cpsr_nzcv t off) 29 = bit v 8
          → bit (X64State.cpsr_nzcv t off) 28 = bit v 0 →
        ∃ t', EmitConditionalSelect selsize sel then_ else_ off t = some t'
          ∧ EmitConditionalSelect selsize sel then_ else_ off t
              = (condMove selsize (some c) then_ else_
                  (restoreFlags off (selectOperands sel then_ else_ t))).map
                    (DefineValue .inst else_)
          ∧ ((restoreFlags off (selectOperands sel then_ else_ t)).SF = N
            ∧ (restoreFlags off (selectOperands sel then_ else_ t)).ZF = Z
            ∧ (restoreFlags off (selectOperands sel then_ else_ t)).CF = C
            ∧ (restoreFlags off (selectOperands sel then_ else_ t)).OF = V)
          ∧ (t'.SF = N ∧ t'.ZF = Z
            ∧ t'.CF = (if c = .HI ∨ c = .LS then !C else C) ∧ t'.OF = V)
          ∧ t'.valueOf .inst selsize
              = some (if condHolds c N Z C V then sel.arg1.raw % 2 ^ selsize
                  else sel.arg2.raw % 2 ^ selsize))
    ∧ (∃ v N Z C V,
      (EmitSub bitsize inst result carry overflow op s).valueOf .nzcv_inst 32 = some v
      ∧ N = msb bitsize ((inst.arg0.raw % 2 ^ bitsize
            + (2 ^ bitsize - 1 - inst.arg1.raw % 2 ^ bitsize) + inst.arg2.raw % 2)
              % 2 ^ bitsize)
      ∧ Z = decide ((inst.arg0.raw % 2 ^ bitsize
            + (2 ^ bitsize - 1 - inst.arg1.raw % 2 ^ bitsize) + inst.arg2.raw % 2)
              % 2 ^ bitsize = 0)
      ∧ C = carryOut bitsize (inst.arg0.raw % 2 ^ bitsize)
            (2 ^ bitsize - 1 - inst.arg1.raw % 2 ^ bitsize) (inst.arg2.raw % 2)
      ∧ V = signedOverflow bitsize
            (toSigned bitsize (inst.arg0.raw % 2 ^ bitsize)
              - toSigned bitsize (inst.arg1.raw % 2 ^ bitsize)
              - ((1 - inst.arg2.raw % 2 : Nat) : Int))
      ∧ ∀ off t, bit (X64State.cpsr_nzcv t off) 31 = bit v 15
          → bit (X64State.cpsr_nzcv t off) 30 = bit v 14
          → bit (X64State.cpsr_nzcv t off) 29 = bit v 8
          → bit (X64State.cpsr_nzcv t off) 28 = bit v 0 →
        ∃ t', EmitConditionalSelect selsize sel then_ else_ off t = some t'
          ∧ EmitConditionalSelect selsize sel then_ else_ off t
              = (condMove selsize (some c) then_ else_
                  (restoreFlags off (selectOperands sel then_ else_ t))).map
                    (DefineValue .inst else_)
          ∧ ((restoreFlags off (selectOperands sel then_ else_ t)).SF = N
            ∧ (restoreFlags off (selectOperands sel then_ else_ t)).ZF = Z
            ∧ (restoreFlags off (selectOperands sel then_ else_ t)).CF = C
            ∧ (restoreFlags off (selectOperands sel then_ else_ t)).OF = V)
          ∧ (t'.SF = N ∧ t'.ZF = Z
            ∧ t'.CF = (if c = .HI ∨ c = .LS then !C else C) ∧ t'.OF = V)
          ∧ t'.valueOf .inst selsize
              = some (if condHolds c N Z C V then sel.arg1.raw % 2 ^ selsize
                  else sel.arg2.raw % 2 ^ selsize)) := by
  constructor
  · obtain ⟨v, hv, v1, v2, v3, v4⟩ :=
      EmitAdd_capture_bits bitsize hw inst result carry overflow op s hty hra hn
    exact ⟨v, _, _, _, _, hv, rfl, rfl, rfl, rfl, fun off t e1 e2 e3 e4 =>
      EmitConditionalSelect_observes selsize hsw c sel hc then_ else_ hsa off t _ _ _ _
        (e1.trans v1) (e2.trans v2) (e3.trans v3) (e4.trans v4)⟩
  · obtain ⟨v, hv, v1, v2, v3, v4⟩ :=
      EmitSub_capture_bits bitsize hw inst result carry overflow op s hty hra hn
    exact ⟨v, _, _, _, _, hv, rfl, rfl, rfl, rfl, fun off t e1 e2 e3 e4 =>
      EmitConditionalSelect_observes selsize hsw c sel hc then_ else_ hsa off t _ _ _ _
        (e1.trans v1) (e2.trans v2) (e3.trans v3) (e4.trans v4)⟩

/-- C6 (amended), on ADD32 with `a = 0x7FFFFFFF`, `b = 1`, carry-in 0 (N = 1, Z = 0,
C = 0, V = 1) followed by a 32-bit select with condition MI: with the packed word
`0x90000000` the select ends with SF = 1, ZF = 0, CF = 0, OF = 1 and returns the then
value. -/
theorem EmitConditionalSelect_inverts_capture_witness :
    ∃ t', EmitConditionalSelect 32 ⟨.imm .Cond 4, .val .U32 0xAA, .val .U32 0xBB,
        false, false, false⟩ .RBX .RSI 0x40
        { X64State.zero with mem := fun _ => 0x90000000 } = some t'
      ∧ t'.SF = true ∧ t'.ZF = false ∧ t'.CF = false ∧ t'.OF = true
      ∧ t'.valueOf .inst 32 = some 0xAA := by
  obtain ⟨v, N, Z, C, V, hv, hN, hZ, hC, hV, h⟩ := (EmitConditionalSelect_inverts_capture 32
    (Or.inl rfl) ⟨.val .U32 0x7FFFFFFF, .val .U32 1, .imm .U1 0, false, false, true⟩
    .RBX .RSI .RDI (.reg .R8) X64State.zero (by decide) (by unfold ArithAlloc; decide) rfl
    32 (Or.inl rfl) .MI ⟨.imm .Cond 4, .val .U32 0xAA, .val .U32 0xBB, false, false, false⟩
    rfl .RBX .RSI (by unfold SelectAlloc; decide)).1
  have hv' : v = 0x9601 := Option.some.inj (hv.symm.trans (by decide))
  have hN' : N = true := hN.trans (by decide)
  have hZ' : Z = false := hZ.trans (by decide)
  have hC' : C = false := hC.trans (by decide)
  have hV' : V = true := hV.trans (by decide)
  subst hv' hN' hZ' hC' hV'
  obtain ⟨t', a0, -, -, ⟨a1, a2, a3, a4⟩, a5⟩ :=
    h 0x40 { X64State.zero with mem := fun _ => 0x90000000 }
      (by decide) (by decide) (by decide) (by decide)
  exact ⟨t', a0, a1, a2, a3.trans (by decide), a4, a5.trans (by decide)⟩

/-! ## Logical operations and their immediate forms -/

/-- A 64-bit immediate that fits a signed 32-bit field is recovered by sign-extending
its low 32 bits. -/
theorem signExtend_fits (a : Argument) (h : a.FitsInImmediateS32 = true) (s : X64State) :
    s.readOp 64 (.imm a.GetImmediateS32) = a.raw % 2 ^ 64 := by
  unfold Argument.FitsInImmediateS32 at h
  simp only [Bool.and_eq_true, Bool.or_eq_true, decide_eq_true_eq, Nat.reducePow,
    Nat.reduceSub] at h
  simp only [X64State.readOp, if_true, Argument.GetImmediateS32, Nat.reducePow, Nat.reduceSub]
  split <;> omega

/-- Value of `EmitAnd64`. -/
theorem and64_value (inst : Inst) (result : HostLoc) (op : OpArg) (s : X64State)
    (h : result ∉ op.regs) :
    (EmitAnd64 inst result op s).valueOf .inst 64
      = some (inst.arg0.raw % 2 ^ 64 &&& inst.arg1.raw % 2 ^ 64) := by
  have hlt : (inst.arg0.raw % 2 ^ 64 &&& inst.arg1.raw % 2 ^ 64) % 2 ^ 64
      = (inst.arg0.raw % 2 ^ 64 &&& inst.arg1.raw % 2 ^ 64) :=
    Nat.mod_eq_of_lt (Nat.and_lt_two_pow _ (Nat.mod_lt _ (by norm_num)))
  simp only [Nat.reducePow] at hlt
  unfold EmitAnd64
  rw [DefineValue_valueOf]
  refine congrArg some ?_
  by_cases hf : inst.arg1.FitsInImmediateS32 = true
  · simp only [hf, if_true, and_eff, signExtend_fits _ hf, X64State.readGpr,
      UseScratchGpr_eff, regWrite_64, Nat.mod_mod, Nat.reducePow, hlt]
  · obtain ⟨hr, hg⟩ :=
      UseOpArg_read 64 (Or.inr rfl) inst.arg1 op (UseScratchGpr inst.arg0 result s)
    simp only [hf, Bool.false_eq_true, if_false, and_eff, if_true, hr, X64State.readGpr,
      hg result h, UseScratchGpr_eff, regWrite_64, Nat.mod_mod, Nat.reducePow, hlt]

/-- Value of `EmitOr64`. -/
theorem or64_value (inst : Inst) (result : HostLoc) (op : OpArg) (s : X64State)
    (h : result ∉ op.regs) :
    (EmitOr64 inst result op s).valueOf .inst 64
      = some (inst.arg0.raw % 2 ^ 64 ||| inst.arg1.raw % 2 ^ 64) := by
  have hlt : (inst.arg0.raw % 2 ^ 64 ||| inst.arg1.raw % 2 ^ 64) % 2 ^ 64
      = (inst.arg0.raw % 2 ^ 64 ||| inst.arg1.raw % 2 ^ 64) :=
    Nat.mod_eq_of_lt (Nat.or_lt_two_pow (Nat.mod_lt _ (by norm_num)) (Nat.mod_lt _ (by norm_num)))
  simp only [Nat.reducePow] at hlt
  unfold EmitOr64
  rw [DefineValue_valueOf]
  refine congrArg some ?_
  by_cases hf : inst.arg1.FitsInImmediateS32 = true
  · simp only [hf, if_true, or_eff, signExtend_fits _ hf, X64State.readGpr,
      UseScratchGpr_eff, regWrite_64, Nat.mod_mod, Nat.reducePow, hlt]
  · obtain ⟨hr, hg⟩ :=
      UseOpArg_read 64 (Or.inr rfl) inst.arg1 op (UseScratchGpr inst.arg0 result s)
    simp only [hf, Bool.false_eq_true, if_false, or_eff, if_true, hr, X64State.readGpr,
      hg result h, UseScratchGpr_eff, regWrite_64, Nat.mod_mod, Nat.reducePow, hlt]

/-- Value of `EmitEor64`. -/
theorem eor64_value (inst : Inst) (result : HostLoc) (op : OpArg) (s : X64State)
    (h : result ∉ op.regs) :
    (EmitEor64 inst result op s).valueOf .inst 64
      = some (inst.arg0.raw % 2 ^ 64 ^^^ inst.arg1.raw % 2 ^ 64) := by
  have hlt : (inst.arg0.raw % 2 ^ 64 ^^^ inst.arg1.raw % 2 ^ 64) % 2 ^ 64
      = (inst.arg0.raw % 2 ^ 64 ^^^ inst.arg1.raw % 2 ^ 64) :=
    Nat.mod_eq_of_lt (Nat.xor_lt_two_pow (Nat.mod_lt _ (by norm_num)) (Nat.mod_lt _ (by norm_num)))
  simp only [Nat.reducePow] at hlt
  unfold EmitEor64
  rw [DefineValue_valueOf]
  refine congrArg some ?_
  by_cases hf : inst.arg1.FitsInImmediateS32 = true
  · simp only [hf, if_true, xor_eff, signExtend_fits _ hf, X64State.readGpr,
      UseScratchGpr_eff, regWrite_64, Nat.mod_mod, Nat.reducePow, hlt]
  · obtain ⟨hr, hg⟩ :=
      UseOpArg_read 64 (Or.inr rfl) inst.arg1 op (UseScratchGpr inst.arg0 result s)
    simp only [hf, Bool.false_eq_true, if_false, xor_eff, if_true, hr, X64State.readGpr,
      hg result h, UseScratchGpr_eff, regWrite_64, Nat.mod_mod, Nat.reducePow, hlt]

/-- Value of `EmitAnd32`. -/
theorem and32_value (inst : Inst) (result : HostLoc) (op : OpArg) (s : X64State)
    (h : result ∉ op.regs) :
    (EmitAnd32 inst result op s).valueOf .inst 32
      = some (inst.arg0.raw % 2 ^ 32 &&& inst.arg1.raw % 2 ^ 32) := by
  have hlt : (inst.arg0.raw % 2 ^ 32 &&& inst.arg1.raw % 2 ^ 32) % 2 ^ 32
      = (inst.arg0.raw % 2 ^ 32 &&& inst.arg1.raw % 2 ^ 32) :=
    Nat.mod_eq_of_lt (Nat.and_lt_two_pow _ (Nat.mod_lt _ (by norm_num)))
  have hmm : ∀ x : Nat, x % 18446744073709551616 % 4294967296 = x % 4294967296 := by
    intro x; omega
  simp only [Nat.reducePow] at hlt
  unfold EmitAnd32
  rw [DefineValue_valueOf]
  refine congrArg some ?_
  by_cases hf : inst.arg1.IsImmediate = true
  · simp only [hf, if_true, and_eff, X64State.readOp, X64State.readGpr,
      Argument.GetImmediateU32, UseScratchGpr_eff, regWrite_32, Nat.mod_mod, Nat.reducePow,
      Nat.reduceEqDiff, if_false, hmm, hlt]
  · obtain ⟨hr, hg⟩ :=
      UseOpArg_read 32 (Or.inl rfl) inst.arg1 op (UseScratchGpr inst.arg0 result s)
    simp only [hf, Bool.false_eq_true, if_false, and_eff, if_true, hr, X64State.readGpr,
      hg result h, UseScratchGpr_eff, regWrite_32, Nat.mod_mod, Nat.reducePow, hmm, hlt]

/-- Value of `EmitOr32`. -/
theorem or32_value (inst : Inst) (result : HostLoc) (op : OpArg) (s : X64State)
    (h : result ∉ op.regs) :
    (EmitOr32 inst result op s).valueOf .inst 32
      = some (inst.arg0.raw % 2 ^ 32 ||| inst.arg1.raw % 2 ^ 32) := by
  have hlt : (inst.arg0.raw % 2 ^ 32 ||| inst.arg1.raw % 2 ^ 32) % 2 ^ 32
      = (inst.arg0.raw % 2 ^ 32 ||| inst.arg1.raw % 2 ^ 32) :=
    Nat.mod_eq_of_lt (Nat.or_lt_two_pow (Nat.mod_lt _ (by norm_num)) (Nat.mod_lt _ (by norm_num)))
  have hmm : ∀ x : Nat, x % 18446744073709551616 % 4294967296 = x % 4294967296 := by
    intro x; omega
  simp only [Nat.reducePow] at hlt
  unfold EmitOr32
  rw [DefineValue_valueOf]
  refine congrArg some ?_
  by_cases hf : inst.arg1.IsImmediate = true
  · simp only [hf, if_true, or_eff, X64State.readOp, X64State.readGpr,
      Argument.GetImmediateU32, UseScratchGpr_eff, regWrite_32, Nat.mod_mod, Nat.reducePow,
      Nat.reduceEqDiff, if_false, hmm, hlt]
  · obtain ⟨hr, hg⟩ :=
      UseOpArg_read 32 (Or.inl rfl) inst.arg1 op (UseScratchGpr inst.arg0 result s)
    simp only [hf, Bool.false_eq_true, if_false, or_eff, if_true, hr, X64State.readGpr,
      hg result h, UseScratchGpr_eff, regWrite_32, Nat.mod_mod, Nat.reducePow, hmm, hlt]

/-- Value of `EmitEor32`. -/
theorem eor32_value (inst : Inst) (result : HostLoc) (op : OpArg) (s : X64State)
    (h : result ∉ op.regs) :
    (EmitEor32 inst result op s).valueOf .inst 32
      = some (inst.arg0.raw % 2 ^ 32 ^^^ inst.arg1.raw % 2 ^ 32) := by
  have hlt : (inst.arg0.raw % 2 ^ 32 ^^^ inst.arg1.raw % 2 ^ 32) % 2 ^ 32
      = (inst.arg0.raw % 2 ^ 32 ^^^ inst.arg1.raw % 2 ^ 32) :=
    Nat.mod_eq_of_lt (Nat.xor_lt_two_pow (Nat.mod_lt _ (by norm_num)) (Nat.mod_lt _ (by norm_num)))
  have hmm : ∀ x : Nat, x % 18446744073709551616 % 4294967296 = x % 4294967296 := by
    intro x; omega
  simp only [Nat.reducePow] at hlt
  unfold EmitEor32
  rw [DefineValue_valueOf]
  refine congrArg some ?_
  by_cases hf : inst.arg1.IsImmediate = true
  · simp only [hf, if_true, xor_eff, X64State.readOp, X64State.readGpr,
      Argument.GetImmediateU32, UseScratchGpr_eff, regWrite_32, Nat.mod_mod, Nat.reducePow,
      Nat.reduceEqDiff, if_false, hmm, hlt]
  · obtain ⟨hr, hg⟩ :=
      UseOpArg_read 32 (Or.inl rfl) inst.arg1 op (UseScratchGpr inst.arg0 result s)
    simp only [hf, Bool.false_eq_true, if_false, xor_eff, if_true, hr, X64State.readGpr,
      hg result h, UseScratchGpr_eff, regWrite_32, Nat.mod_mod, Nat.reducePow, hmm, hlt]

/-- Value of `EmitNot32`: the complement, for an immediate and for a register. -/
theorem not32_value (inst : Inst) (result : HostLoc) (s : X64State) :
    (EmitNot32 inst result s).valueOf .inst 32
      = some (2 ^ 32 - 1 - inst.arg0.raw % 2 ^ 32) := by
  unfold EmitNot32
  rw [DefineValue_valueOf]
  refine congrArg some ?_
  by_cases hf : inst.arg0.IsImmediate = true
  · simp only [hf, if_true, mov_eff, X64State.readOp, Argument.GetImmediateU32, regWrite_32,
      Nat.reducePow, Nat.reduceEqDiff, if_false, Nat.reduceSub, Nat.mod_mod]
    omega
  · simp only [hf, Bool.false_eq_true, if_false, not_eff, if_true, X64State.readGpr,
      UseScratchGpr_eff, regWrite_32, Nat.reducePow, Nat.reduceSub, Nat.mod_mod]
    omega

/-- Value of `EmitNot64`: the complement, for an immediate and for a register. -/
theorem not64_value (inst : Inst) (result : HostLoc) (s : X64State) :
    (EmitNot64 inst result s).valueOf .inst 64
      = some (2 ^ 64 - 1 - inst.arg0.raw % 2 ^ 64) := by
  unfold EmitNot64
  rw [DefineValue_valueOf]
  refine congrArg some ?_
  by_cases hf : inst.arg0.IsImmediate = true
  · simp only [hf, if_true, mov_imm64_eff, Argument.GetImmediateU64, regWrite_64,
      Nat.reducePow, Nat.reduceSub, Nat.mod_mod]
    omega
  · simp only [hf, Bool.false_eq_true, if_false, not_eff, if_true, X64State.readGpr,
      UseScratchGpr_eff, regWrite_64, Nat.reducePow, Nat.reduceSub, Nat.mod_mod]
    omega

/-- C29: the immediate forms of the logical emitters agree with the register form.
For And64, Or64 and Eor64 and an immediate `k` that fits a signed 32-bit field, the
folded operand (the low 32 bits of `k`, sign-extended by the host) reads as `k` and
the result is the operation on `x` and the full `k`, as in the register form; for
And32, Or32 and Eor32 every immediate folds to the result of the register form; Not32
and Not64 of an immediate `k` define the complement of `k` at that width, as `not`
does for a register holding `k`. -/
theorem Logical_immediate_forms_agree (i j : Inst) (result : HostLoc) (op : OpArg)
    (s t : X64State) (h : result ∉ op.regs)
    (h0 : i.arg0.raw = j.arg0.raw) (h1 : i.arg1.raw = j.arg1.raw) :
    (i.arg1.FitsInImmediateS32 = true → j.arg1.IsImmediate = false →
      s.readOp 64 (.imm i.arg1.GetImmediateS32) = i.arg1.raw % 2 ^ 64
      ∧ (EmitAnd64 i result op s).valueOf .inst 64
          = some (i.arg0.raw % 2 ^ 64 &&& i.arg1.raw % 2 ^ 64)
      ∧ (EmitAnd64 j result op t).valueOf .inst 64 = (EmitAnd64 i result op s).valueOf .inst 64
      ∧ (EmitOr64 i result op s).valueOf .inst 64
          = some (i.arg0.raw % 2 ^ 64 ||| i.arg1.raw % 2 ^ 64)
      ∧ (EmitOr64 j result op t).valueOf .inst 64 = (EmitOr64 i result op s).valueOf .inst 64
      ∧ (EmitEor64 i result op s).valueOf .inst 64
          = some (i.arg0.raw % 2 ^ 64 ^^^ i.arg1.raw % 2 ^ 64)
      ∧ (EmitEor64 j result op t).valueOf .inst 64
          = (EmitEor64 i result op s).valueOf .inst 64)
    ∧ (i.arg1.IsImmediate = true → j.arg1.IsImmediate = false →
      (EmitAnd32 i result op s).valueOf .inst 32
          = some (i.arg0.raw % 2 ^ 32 &&& i.arg1.raw % 2 ^ 32)
      ∧ (EmitAnd32 j result op t).valueOf .inst 32 = (EmitAnd32 i result op s).valueOf .inst 32
      ∧ (EmitOr32 i result op s).valueOf .inst 32
          = some (i.arg0.raw % 2 ^ 32 ||| i.arg1.raw % 2 ^ 32)
      ∧ (EmitOr32 j result op t).valueOf .inst 32 = (EmitOr32 i result op s).valueOf .inst 32
      ∧ (EmitEor32 i result op s).valueOf .inst 32
          = some (i.arg0.raw % 2 ^ 32 ^^^ i.arg1.raw % 2 ^ 32)
      ∧ (EmitEor32 j result op t).valueOf .inst 32
          = (EmitEor32 i result op s).valueOf .inst 32)
    ∧ (i.arg0.IsImmediate = true → j.arg0.IsImmediate = false →
      (EmitNot32 i result s).valueOf .inst 32 = some (2 ^ 32 - 1 - i.arg0.raw % 2 ^ 32)
      ∧ (EmitNot32 j result t).valueOf .inst 32 = (EmitNot32 i result s).valueOf .inst 32
      ∧ (EmitNot64 i result s).valueOf .inst 64 = some (2 ^ 64 - 1 - i.arg0.raw % 2 ^ 64)
      ∧ (EmitNot64 j result t).valueOf .inst 64 = (EmitNot64 i result s).valueOf .inst 64) := by
  refine ⟨fun hf _ => ⟨signExtend_fits _ hf s, and64_value i result op s h, ?_,
      or64_value i result op s h, ?_, eor64_value i result op s h, ?_⟩,
    fun _ _ => ⟨and32_value i result op s h, ?_, or32_value i result op s h, ?_,
      eor32_value i result op s h, ?_⟩,
    fun _ _ => ⟨not32_value i result s, ?_, not64_value i result s, ?_⟩⟩
  · rw [and64_value i result op s h, and64_value j result op t h, h0, h1]
  · rw [or64_value i result op s h, or64_value j result op t h, h0, h1]
  · rw [eor64_value i result op s h, eor64_value j result op t h, h0, h1]
  · rw [and32_value i result op s h, and32_value j result op t h, h0, h1]
  · rw [or32_value i result op s h, or32_value j result op t h, h0, h1]
  · rw [eor32_value i result op s h, eor32_value j result op t h, h0, h1]
  · rw [not32_value i result s, not32_value j result t, h0]
  · rw [not64_value i result s, not64_value j result t, h0]

/-- C29, on `x = 0x123456789ABCDEF0` and the immediate `k = 0xFFFFFFFF80000000`
(which fits a signed 32-bit field): And64 gives `0x1234567880000000`, Eor32 gives
`0x1ABCDEF0`, Not64 of the immediate `x` gives `0xEDCBA9876543210F`, in the immediate
form and in the register form. -/
theorem Logical_immediate_forms_agree_witness :
    (EmitAnd64 ⟨.imm .U64 0x123456789ABCDEF0, .imm .U64 0xFFFFFFFF80000000, .val .U1 0,
        false, false, false⟩ .RBX (.reg .RSI) X64State.zero).valueOf .inst 64
      = some 0x1234567880000000
    ∧ (EmitAnd64 ⟨.val .U64 0x123456789ABCDEF0, .val .U64 0xFFFFFFFF80000000, .val .U1 0,
        false, false, false⟩ .RBX (.reg .RSI) X64State.zero).valueOf .inst 64
      = some 0x1234567880000000
    ∧ (EmitEor32 ⟨.val .U64 0x123456789ABCDEF0, .val .U64 0xFFFFFFFF80000000, .val .U1 0,
        false, false, false⟩ .RBX (.reg .RSI) X64State.zero).valueOf .inst 32
      = some 0x1ABCDEF0
    ∧ (EmitNot64 ⟨.val .U64 0x123456789ABCDEF0, .val .U64 0xFFFFFFFF80000000, .val .U1 0,
        false, false, false⟩ .RBX X64State.zero).valueOf .inst 64
      = some 0xEDCBA9876543210F := by
  obtain ⟨a, b, c⟩ := Logical_immediate_forms_agree
    ⟨.imm .U64 0x123456789ABCDEF0, .imm .U64 0xFFFFFFFF80000000, .val .U1 0,
      false, false, false⟩
    ⟨.val .U64 0x123456789ABCDEF0, .val .U64 0xFFFFFFFF80000000, .val .U1 0,
      false, false, false⟩ .RBX (.reg .RSI) X64State.zero X64State.zero (by decide) rfl rfl
  obtain ⟨-, a1, a2, -, -, -, -⟩ := a (by decide) rfl
  obtain ⟨-, -, -, -, b5, b6⟩ := b rfl rfl
  obtain ⟨-, -, c3, c4⟩ := c rfl rfl
  exact ⟨a1.trans (by decide), (a2.trans a1).trans (by decide),
    (b6.trans b5).trans (by decide), (c4.trans c3).trans (by decide)⟩

/-! ## Values of the sign and zero extensions -/

/-- The pattern `movsx` writes is the sign extension. -/
theorem movsx_pattern (wd ws x : Nat)
    (h : (ws = 8 ∨ ws = 16 ∨ ws = 32) ∧ (wd = 32 ∨ wd = 64)) :
    ((toSigned ws (x % 2 ^ ws)) % 2 ^ wd).toNat = signExtendTo wd ws x := by
  unfold toSigned signExtendTo
  rcases h with ⟨rfl | rfl | rfl, rfl | rfl⟩ <;>
    simp only [Nat.reducePow, Nat.reduceSub, Nat.mod_mod] <;> norm_num <;> split <;> omega

/-- The sign extension reads, as a signed number, like the narrow value. -/
theorem signExtendTo_signed (wd ws x : Nat)
    (h : (ws = 8 ∨ ws = 16 ∨ ws = 32) ∧ (wd = 32 ∨ wd = 64)) :
    toSigned wd (signExtendTo wd ws x) = toSigned ws x := by
  unfold toSigned signExtendTo
  rcases h with ⟨rfl | rfl | rfl, rfl | rfl⟩ <;>
    simp only [Nat.reducePow, Nat.reduceSub, Nat.mod_mod] <;> norm_num <;>
    split <;> split <;> omega

/-- Register left by a sign-extension emitter built on `movsx`. -/
theorem movsx_result (wd ws : Nat) (h : (ws = 8 ∨ ws = 16 ∨ ws = 32) ∧ (wd = 32 ∨ wd = 64))
    (arg : Argument) (result : HostLoc) (s : X64State) :
    (code.movsx wd ws result result (UseScratchGpr arg result s)).gpr result
      = signExtendTo wd ws (arg.raw % 2 ^ 64) := by
  have hp := movsx_pattern wd ws (arg.raw % 2 ^ 64) h
  have hlt : signExtendTo wd ws (arg.raw % 2 ^ 64) < 2 ^ wd := by
    unfold signExtendTo
    rcases h with ⟨rfl | rfl | rfl, rfl | rfl⟩ <;>
      simp only [Nat.reducePow, Nat.reduceSub] <;> split <;> omega
  simp only [movsx_eff, if_true, X64State.readGpr, UseScratchGpr_eff, hp]
  rcases h.2 with rfl | rfl
  · rw [regWrite_32]; exact Nat.mod_eq_of_lt hlt
  · rw [regWrite_64]; exact Nat.mod_eq_of_lt hlt

/-- Register left by a zero-extension emitter built on `movzx` to 32 bits. -/
theorem movzx_result (ws : Nat) (h : ws = 8 ∨ ws = 16) (arg : Argument) (result : HostLoc)
    (s : X64State) :
    (code.movzx 32 ws result result (UseScratchGpr arg result s)).gpr result
      = arg.raw % 2 ^ 64 % 2 ^ ws := by
  simp only [movzx_eff, if_true, X64State.readGpr, UseScratchGpr_eff, regWrite_32]
  rcases h with rfl | rfl <;> omega

/-- C30: for every 64-bit register value `r` holding the source (upper bits
arbitrary), ZeroExtendByteToWord and ZeroExtendByteToLong leave the full register
equal to `r mod 2^8`, ZeroExtendHalfToWord and ZeroExtendHalfToLong leave
`r mod 2^16`, ZeroExtendWordToLong leaves `r mod 2^32`; SignExtendByteToLong,
SignExtendHalfToLong and SignExtendWordToLong leave the 64-bit sign extension of the
low 8, 16 and 32 bits; SignExtendByteToWord and SignExtendHalfToWord leave the 32-bit
sign extension in the low 32 bits.  Each sign extension reads as the same signed
number as the narrow value. -/
theorem Extend_values (inst : Inst) (result : HostLoc) (s : X64State) :
    ((EmitZeroExtendByteToWord inst result s).valueOf .inst 64
        = some (inst.arg0.raw % 2 ^ 64 % 2 ^ 8)
      ∧ (EmitZeroExtendByteToLong inst result s).valueOf .inst 64
        = some (inst.arg0.raw % 2 ^ 64 % 2 ^ 8)
      ∧ (EmitZeroExtendHalfToWord inst result s).valueOf .inst 64
        = some (inst.arg0.raw % 2 ^ 64 % 2 ^ 16)
      ∧ (EmitZeroExtendHalfToLong inst result s).valueOf .inst 64
        = some (inst.arg0.raw % 2 ^ 64 % 2 ^ 16)
      ∧ (EmitZeroExtendWordToLong inst result s).valueOf .inst 64
        = some (inst.arg0.raw % 2 ^ 64 % 2 ^ 32))
    ∧ ((EmitSignExtendByteToLong inst result s).valueOf .inst 64
        = some (signExtendTo 64 8 (inst.arg0.raw % 2 ^ 64))
      ∧ (EmitSignExtendHalfToLong inst result s).valueOf .inst 64
        = some (signExtendTo 64 16 (inst.arg0.raw % 2 ^ 64))
      ∧ (EmitSignExtendWordToLong inst result s).valueOf .inst 64
        = some (signExtendTo 64 32 (inst.arg0.raw % 2 ^ 64))
      ∧ (EmitSignExtendByteToWord inst result s).valueOf .inst 32
        = some (signExtendTo 32 8 (inst.arg0.raw % 2 ^ 64))
      ∧ (EmitSignExtendHalfToWord inst result s).valueOf .inst 32
        = some (signExtendTo 32 16 (inst.arg0.raw % 2 ^ 64)))
    ∧ (toSigned 64 (signExtendTo 64 8 (inst.arg0.raw % 2 ^ 64))
        = toSigned 8 (inst.arg0.raw % 2 ^ 64)
      ∧ toSigned 64 (signExtendTo 64 16 (inst.arg0.raw % 2 ^ 64))
        = toSigned 16 (inst.arg0.raw % 2 ^ 64)
      ∧ toSigned 64 (signExtendTo 64 32 (inst.arg0.raw % 2 ^ 64))
        = toSigned 32 (inst.arg0.raw % 2 ^ 64)
      ∧ toSigned 32 (signExtendTo 32 8 (inst.arg0.raw % 2 ^ 64))
        = toSigned 8 (inst.arg0.raw % 2 ^ 64)
      ∧ toSigned 32 (signExtendTo 32 16 (inst.arg0.raw % 2 ^ 64))
        = toSigned 16 (inst.arg0.raw % 2 ^ 64)) := by
  have z8 := movzx_result 8 (Or.inl rfl) inst.arg0 result s
  have z16 := movzx_result 16 (Or.inr rfl) inst.arg0 result s
  have s648 := movsx_result 64 8 ⟨Or.inl rfl, Or.inr rfl⟩ inst.arg0 result s
  have s6416 := movsx_result 64 16 ⟨Or.inr (Or.inl rfl), Or.inr rfl⟩ inst.arg0 result s
  have s6432 := movsx_result 64 32 ⟨Or.inr (Or.inr rfl), Or.inr rfl⟩ inst.arg0 result s
  have s328 := movsx_result 32 8 ⟨Or.inl rfl, Or.inl rfl⟩ inst.arg0 result s
  have s3216 := movsx_result 32 16 ⟨Or.inr (Or.inl rfl), Or.inl rfl⟩ inst.arg0 result s
  have l648 : signExtendTo 64 8 (inst.arg0.raw % 2 ^ 64) < 2 ^ 64 := by
    unfold signExtendTo; split <;> omega
  have l6416 : signExtendTo 64 16 (inst.arg0.raw % 2 ^ 64) < 2 ^ 64 := by
    unfold signExtendTo; split <;> omega
  have l6432 : signExtendTo 64 32 (inst.arg0.raw % 2 ^ 64) < 2 ^ 64 := by
    unfold signExtendTo; split <;> omega
  have l328 : signExtendTo 32 8 (inst.arg0.raw % 2 ^ 64) < 2 ^ 32 := by
    unfold signExtendTo; split <;> omega
  have l3216 : signExtendTo 32 16 (inst.arg0.raw % 2 ^ 64) < 2 ^ 32 := by
    unfold signExtendTo; split <;> omega
  refine ⟨⟨?_, ?_, ?_, ?_, ?_⟩, ⟨?_, ?_, ?_, ?_, ?_⟩,
    signExtendTo_signed 64 8 _ ⟨Or.inl rfl, Or.inr rfl⟩,
    signExtendTo_signed 64 16 _ ⟨Or.inr (Or.inl rfl), Or.inr rfl⟩,
    signExtendTo_signed 64 32 _ ⟨Or.inr (Or.inr rfl), Or.inr rfl⟩,
    signExtendTo_signed 32 8 _ ⟨Or.inl rfl, Or.inl rfl⟩,
    signExtendTo_signed 32 16 _ ⟨Or.inr (Or.inl rfl), Or.inl rfl⟩⟩
  · unfold EmitZeroExtendByteToWord
    rw [DefineValue_valueOf, z8]
    refine congrArg some ?_
    omega
  · unfold EmitZeroExtendByteToLong EmitZeroExtendByteToWord
    rw [DefineValue_valueOf, z8]
    refine congrArg some ?_
    omega
  · unfold EmitZeroExtendHalfToWord
    rw [DefineValue_valueOf, z16]
    refine congrArg some ?_
    omega
  · unfold EmitZeroExtendHalfToLong EmitZeroExtendHalfToWord
    rw [DefineValue_valueOf, z16]
    refine congrArg some ?_
    omega
  · unfold EmitZeroExtendWordToLong
    rw [DefineValue_valueOf]
    refine congrArg some ?_
    simp only [mov_eff, if_true, X64State.readOp, X64State.readGpr, UseScratchGpr_eff,
      regWrite_32, Nat.reducePow]
    omega
  · unfold EmitSignExtendByteToLong
    rw [DefineValue_valueOf, s648, Nat.mod_eq_of_lt l648]
  · unfold EmitSignExtendHalfToLong
    rw [DefineValue_valueOf, s6416, Nat.mod_eq_of_lt l6416]
  · unfold EmitSignExtendWordToLong
    rw [DefineValue_valueOf, s6432, Nat.mod_eq_of_lt l6432]
  · unfold EmitSignExtendByteToWord
    rw [DefineValue_valueOf, s328, Nat.mod_eq_of_lt l328]
  · unfold EmitSignExtendHalfToWord
    rw [DefineValue_valueOf, s3216, Nat.mod_eq_of_lt l3216]

/-! ## Byte reversal -/

/-- The low half-word after a 16-bit write is the half-word written. -/
theorem regWrite_16_low (old v : Nat) : regWrite 16 old v % 65536 = v % 65536 := by
  simp only [regWrite]
  norm_num
  omega

/-- Splitting off the lowest byte. -/
theorem low_byte_split (x M : Nat) (hx : x < 256 * M) :
    ∃ b y, b < 256 ∧ y < M ∧ x = b + 256 * y :=
  ⟨x % 256, x / 256, by omega, by omega, by omega⟩

/-- Reversal moves the lowest byte to the top. -/
theorem byteSwap_cons (n b y : Nat) (hb : b < 256) :
    byteSwap (n + 1) (b + 256 * y) = b * 256 ^ n + byteSwap n y := by
  have h1 : (b + 256 * y) % 256 = b := by omega
  have h2 : (b + 256 * y) / 256 = y := by omega
  simp only [byteSwap, h1, h2]

/-- Reversal of a word given by its four bytes. -/
theorem byteSwap_4_bytes (b0 b1 b2 b3 : Nat) (h0 : b0 < 256) (h1 : b1 < 256) (h2 : b2 < 256)
    (h3 : b3 < 256) :
    byteSwap 4 (b0 + 256 * b1 + 65536 * b2 + 16777216 * b3)
      = b3 + 256 * b2 + 65536 * b1 + 16777216 * b0 := by
  have e : b0 + 256 * b1 + 65536 * b2 + 16777216 * b3
      = b0 + 256 * (b1 + 256 * (b2 + 256 * (b3 + 256 * 0))) := by omega
  rw [e, byteSwap_cons _ _ _ h0, byteSwap_cons _ _ _ h1, byteSwap_cons _ _ _ h2,
    byteSwap_cons _ _ _ h3]
  simp only [byteSwap, Nat.reducePow]
  omega

/-- Reversal of a double word given by its eight bytes. -/
theorem byteSwap_8_bytes (b0 b1 b2 b3 b4 b5 b6 b7 : Nat) (h0 : b0 < 256) (h1 : b1 < 256)
    (h2 : b2 < 256) (h3 : b3 < 256) (h4 : b4 < 256) (h5 : b5 < 256) (h6 : b6 < 256)
    (h7 : b7 < 256) :
    byteSwap 8 (b0 + 256 * b1 + 65536 * b2 + 16777216 * b3 + 4294967296 * b4
        + 1099511627776 * b5 + 281474976710656 * b6 + 72057594037927936 * b7)
      = b7 + 256 * b6 + 65536 * b5 + 16777216 * b4 + 4294967296 * b3
        + 1099511627776 * b2 + 281474976710656 * b1 + 72057594037927936 * b0 := by
  have e : b0 + 256 * b1 + 65536 * b2 + 16777216 * b3 + 4294967296 * b4
        + 1099511627776 * b5 + 281474976710656 * b6 + 72057594037927936 * b7
      = b0 + 256 * (b1 + 256 * (b2 + 256 * (b3 + 256 * (b4 + 256 * (b5 + 256 * (b6
          + 256 * (b7 + 256 * 0))))))) := by omega
  rw [e, byteSwap_cons _ _ _ h0, byteSwap_cons _ _ _ h1, byteSwap_cons _ _ _ h2,
    byteSwap_cons _ _ _ h3, byteSwap_cons _ _ _ h4, byteSwap_cons _ _ _ h5,
    byteSwap_cons _ _ _ h6, byteSwap_cons _ _ _ h7]
  simp only [byteSwap, Nat.reducePow]
  omega

/-- Every 32-bit value is given by four bytes. -/
theorem bytes_of_word (x : Nat) (hx : x < 4294967296) :
    ∃ b0 b1 b2 b3, b0 < 256 ∧ b1 < 256 ∧ b2 < 256 ∧ b3 < 256
      ∧ x = b0 + 256 * b1 + 65536 * b2 + 16777216 * b3 := by
  obtain ⟨b0, y0, h0, k0, e0⟩ := low_byte_split x 16777216 (by omega)
  obtain ⟨b1, y1, h1, k1, e1⟩ := low_byte_split y0 65536 (by omega)
  obtain ⟨b2, y2, h2, k2, e2⟩ := low_byte_split y1 256 (by omega)
  exact ⟨b0, b1, b2, y2, h0, h1, h2, k2, by omega⟩

/-- Every 64-bit value is given by eight bytes. -/
theorem bytes_of_dual (x : Nat) (hx : x < 18446744073709551616) :
    ∃ b0 b1 b2 b3 b4 b5 b6 b7, b0 < 256 ∧ b1 < 256 ∧ b2 < 256 ∧ b3 < 256 ∧ b4 < 256
      ∧ b5 < 256 ∧ b6 < 256 ∧ b7 < 256
      ∧ x = b0 + 256 * b1 + 65536 * b2 + 16777216 * b3 + 4294967296 * b4
        + 1099511627776 * b5 + 281474976710656 * b6 + 72057594037927936 * b7 := by
  obtain ⟨b0, y0, h0, k0, e0⟩ := low_byte_split x 72057594037927936 (by omega)
  obtain ⟨b1, y1, h1, k1, e1⟩ := low_byte_split y0 281474976710656 (by omega)
  obtain ⟨b2, y2, h2, k2, e2⟩ := low_byte_split y1 1099511627776 (by omega)
  obtain ⟨b3, y3, h3, k3, e3⟩ := low_byte_split y2 4294967296 (by omega)
  obtain ⟨b4, y4, h4, k4, e4⟩ := low_byte_split y3 16777216 (by omega)
  obtain ⟨b5, y5, h5, k5, e5⟩ := low_byte_split y4 65536 (by omega)
  obtain ⟨b6, y6, h6, k6, e6⟩ := low_byte_split y5 256 (by omega)
  exact ⟨b0, b1, b2, b3, b4, b5, b6, y6, h0, h1, h2, h3, h4, h5, h6, k6, by omega⟩

/-- The bytes of a word given by its four bytes. -/
theorem word_bytes (b0 b1 b2 b3 : Nat) (h0 : b0 < 256) (h1 : b1 < 256) (h2 : b2 < 256)
    (h3 : b3 < 256) :
    (b0 + 256 * b1 + 65536 * b2 + 16777216 * b3) % 256 = b0
    ∧ (b0 + 256 * b1 + 65536 * b2 + 16777216 * b3) / 256 % 256 = b1
    ∧ (b0 + 256 * b1 + 65536 * b2 + 16777216 * b3) / 65536 % 256 = b2
    ∧ (b0 + 256 * b1 + 65536 * b2 + 16777216 * b3) / 16777216 % 256 = b3 := by
  refine ⟨?_, ?_, ?_, ?_⟩ <;> omega

/-- The bytes of a double word given by its eight bytes. -/
theorem dual_bytes (b0 b1 b2 b3 b4 b5 b6 b7 : Nat) (h0 : b0 < 256) (h1 : b1 < 256)
    (h2 : b2 < 256) (h3 : b3 < 256) (h4 : b4 < 256) (h5 : b5 < 256) (h6 : b6 < 256)
    (h7 : b7 < 256) :
    (b0 + 256 * b1 + 65536 * b2 + 16777216 * b3 + 4294967296 * b4 + 1099511627776 * b5
        + 281474976710656 * b6 + 72057594037927936 * b7) % 256 = b0
    ∧ (b0 + 256 * b1 + 65536 * b2 + 16777216 * b3 + 4294967296 * b4 + 1099511627776 * b5
        + 281474976710656 * b6 + 72057594037927936 * b7) / 256 % 256 = b1
    ∧ (b0 + 256 * b1 + 65536 * b2 + 16777216 * b3 + 4294967296 * b4 + 1099511627776 * b5
        + 281474976710656 * b6 + 72057594037927936 * b7) / 65536 % 256 = b2
    ∧ (b0 + 256 * b1 + 65536 * b2 + 16777216 * b3 + 4294967296 * b4 + 1099511627776 * b5
        + 281474976710656 * b6 + 72057594037927936 * b7) / 16777216 % 256 = b3
    ∧ (b0 + 256 * b1 + 65536 * b2 + 16777216 * b3 + 4294967296 * b4 + 1099511627776 * b5
        + 281474976710656 * b6 + 72057594037927936 * b7) / 4294967296 % 256 = b4
    ∧ (b0 + 256 * b1 + 65536 * b2 + 16777216 * b3 + 4294967296 * b4 + 1099511627776 * b5
        + 281474976710656 * b6 + 72057594037927936 * b7) / 1099511627776 % 256 = b5
    ∧ (b0 + 256 * b1 + 65536 * b2 + 16777216 * b3 + 4294967296 * b4 + 1099511627776 * b5
        + 281474976710656 * b6 + 72057594037927936 * b7) / 281474976710656 % 256 = b6
    ∧ (b0 + 256 * b1 + 65536 * b2 + 16777216 * b3 + 4294967296 * b4 + 1099511627776 * b5
        + 281474976710656 * b6 + 72057594037927936 * b7) / 72057594037927936 % 256 = b7 := by
  refine ⟨?_, ?_, ?_, ?_, ?_, ?_, ?_, ?_⟩ <;> omega

/-- A reversed word: it fits 32 bits, byte `i` is byte `3 - i` of the word, and
reversing it again gives the word back. -/
theorem byteSwap_4_props (x : Nat) (hx : x < 4294967296) :
    byteSwap 4 x < 4294967296
    ∧ (∀ i, i < 4 → byteSwap 4 x / 256 ^ i % 256 = x / 256 ^ (3 - i) % 256)
    ∧ byteSwap 4 (byteSwap 4 x) = x := by
  obtain ⟨b0, b1, b2, b3, h0, h1, h2, h3, rfl⟩ := bytes_of_word x hx
  rw [byteSwap_4_bytes _ _ _ _ h0 h1 h2 h3, byteSwap_4_bytes _ _ _ _ h3 h2 h1 h0]
  refine ⟨by omega, fun i hi => ?_, rfl⟩
  obtain ⟨l0, l1, l2, l3⟩ := word_bytes b3 b2 b1 b0 h3 h2 h1 h0
  obtain ⟨r0, r1, r2, r3⟩ := word_bytes b0 b1 b2 b3 h0 h1 h2 h3
  interval_cases i <;>
    simp only [Nat.reducePow, Nat.reduceSub, Nat.div_one, l0, l1, l2, l3, r0, r1, r2, r3]

/-- A reversed double word: it fits 64 bits, byte `i` is byte `7 - i` of the double
word, and reversing it again gives the double word back. -/
theorem byteSwap_8_props (x : Nat) (hx : x < 18446744073709551616) :
    byteSwap 8 x < 18446744073709551616
    ∧ (∀ i, i < 8 → byteSwap 8 x / 256 ^ i % 256 = x / 256 ^ (7 - i) % 256)
    ∧ byteSwap 8 (byteSwap 8 x) = x := by
  obtain ⟨b0, b1, b2, b3, b4, b5, b6, b7, h0, h1, h2, h3, h4, h5, h6, h7, rfl⟩ :=
    bytes_of_dual x hx
  rw [byteSwap_8_bytes _ _ _ _ _ _ _ _ h0 h1 h2 h3 h4 h5 h6 h7,
    byteSwap_8_bytes _ _ _ _ _ _ _ _ h7 h6 h5 h4 h3 h2 h1 h0]
  refine ⟨by omega, fun i hi => ?_, rfl⟩
  obtain ⟨l0, l1, l2, l3, l4, l5, l6, l7⟩ := dual_bytes b7 b6 b5 b4 b3 b2 b1 b0 h7 h6 h5 h4
    h3 h2 h1 h0
  obtain ⟨r0, r1, r2, r3, r4, r5, r6, r7⟩ := dual_bytes b0 b1 b2 b3 b4 b5 b6 b7 h0 h1 h2 h3
    h4 h5 h6 h7
  interval_cases i <;>
    simp only [Nat.reducePow, Nat.reduceSub, Nat.div_one, l0, l1, l2, l3, l4, l5, l6, l7,
      r0, r1, r2, r3, r4, r5, r6, r7]

/-- Value of `EmitByteReverseWord`. -/
theorem ByteReverseWord_value (inst : Inst) (result : HostLoc) (s : X64State) :
    (EmitByteReverseWord inst result s).valueOf .inst 32
      = some (byteSwap 4 (inst.arg0.raw % 2 ^ 32)) := by
  have hx : inst.arg0.raw % 18446744073709551616 % 4294967296 = inst.arg0.raw % 4294967296 := by
    omega
  have hlt := (byteSwap_4_props (inst.arg0.raw % 4294967296) (Nat.mod_lt _ (by norm_num))).1
  unfold EmitByteReverseWord
  rw [DefineValue_valueOf]
  refine congrArg some ?_
  simp only [bswap_eff, if_true, X64State.readGpr, UseScratchGpr_eff, regWrite_32,
    Nat.reducePow, Nat.reduceDiv, Nat.mod_mod, hx]
  exact Nat.mod_eq_of_lt hlt

/-- Value of `EmitByteReverseDual`. -/
theorem ByteReverseDual_value (inst : Inst) (result : HostLoc) (s : X64State) :
    (EmitByteReverseDual inst result s).valueOf .inst 64
      = some (byteSwap 8 (inst.arg0.raw % 2 ^ 64)) := by
  have hlt := (byteSwap_8_props (inst.arg0.raw % 18446744073709551616)
    (Nat.mod_lt _ (by norm_num))).1
  unfold EmitByteReverseDual
  rw [DefineValue_valueOf]
  refine congrArg some ?_
  simp only [bswap_eff, if_true, X64State.readGpr, UseScratchGpr_eff, regWrite_64,
    Nat.reducePow, Nat.reduceDiv, Nat.mod_mod]
  exact Nat.mod_eq_of_lt hlt

/-- A half-word rotated by eight places has its two bytes exchanged; exchanging them
again gives the half-word back. -/
theorem half_swap (h : Nat) (hh : h < 65536) :
    (h * 256 % 65536 + h / 256) % 65536 = h % 256 * 256 + h / 256
    ∧ (h % 256 * 256 + h / 256) % 256 * 256 + (h % 256 * 256 + h / 256) / 256 = h := by
  obtain ⟨b, y, hb, hy, rfl⟩ := low_byte_split h 256 (by omega)
  have e1 : (b + 256 * y) * 256 % 65536 = b * 256 := by omega
  have e2 : (b + 256 * y) / 256 = y := by omega
  have e3 : (b + 256 * y) % 256 = b := by omega
  have e4 : (b * 256 + y) % 256 = y := by omega
  have e5 : (b * 256 + y) / 256 = b := by omega
  rw [e1, e2, e3, e4, e5]
  omega

/-- Value of `EmitByteReverseHalf`: the two bytes of the low half-word exchanged. -/
theorem ByteReverseHalf_value (inst : Inst) (result : HostLoc) (s : X64State) :
    (EmitByteReverseHalf inst result s).valueOf .inst 16
      = some (inst.arg0.raw % 2 ^ 16 % 2 ^ 8 * 2 ^ 8 + inst.arg0.raw % 2 ^ 16 / 2 ^ 8) := by
  unfold EmitByteReverseHalf
  rw [DefineValue_valueOf]
  refine congrArg some ?_
  simp only [rol_eff, code.countMask, Nat.reduceEqDiff, if_false, Nat.reduceMod, if_true,
    X64State.readGpr, UseScratchGpr_eff, Nat.reducePow, regWrite_16_low, rotateLeft,
    Nat.reduceSub]
  have hx : inst.arg0.raw % 18446744073709551616 % 65536 = inst.arg0.raw % 65536 := by omega
  rw [hx]
  exact (half_swap _ (Nat.mod_lt _ (by norm_num))).1

/-- C31: byte reversal reverses the byte order and is an involution.  For every
16-bit `h`, ByteReverseHalf (`rol reg16, 8`) yields `((h mod 2^8) << 8) | (h >> 8)`
in the low 16 bits; ByteReverseWord and ByteReverseDual (`bswap`) yield the value
whose byte `i` is byte `3 - i`, respectively `7 - i`, of the operand; applying any of
the three to its own result returns the original value. -/
theorem ByteReverse_reverses_and_involutive (inst inst2 : Inst) (result result2 : HostLoc)
    (s t : X64State) :
    (EmitByteReverseHalf inst result s).valueOf .inst 16
        = some (((inst.arg0.raw % 2 ^ 16 % 2 ^ 8) <<< 8) ||| ((inst.arg0.raw % 2 ^ 16) >>> 8))
    ∧ (∃ r, (EmitByteReverseWord inst result s).valueOf .inst 32 = some r ∧ r < 2 ^ 32
        ∧ ∀ i, i < 4 → r / 256 ^ i % 256 = inst.arg0.raw % 2 ^ 32 / 256 ^ (3 - i) % 256)
    ∧ (∃ r, (EmitByteReverseDual inst result s).valueOf .inst 64 = some r ∧ r < 2 ^ 64
        ∧ ∀ i, i < 8 → r / 256 ^ i % 256 = inst.arg0.raw % 2 ^ 64 / 256 ^ (7 - i) % 256)
    ∧ ((EmitByteReverseHalf inst result s).valueOf .inst 16 = some (inst2.arg0.raw % 2 ^ 16) →
        (EmitByteReverseHalf inst2 result2 t).valueOf .inst 16
          = some (inst.arg0.raw % 2 ^ 16))
    ∧ ((EmitByteReverseWord inst result s).valueOf .inst 32 = some (inst2.arg0.raw % 2 ^ 32) →
        (EmitByteReverseWord inst2 result2 t).valueOf .inst 32
          = some (inst.arg0.raw % 2 ^ 32))
    ∧ ((EmitByteReverseDual inst result s).valueOf .inst 64 = some (inst2.arg0.raw % 2 ^ 64) →
        (EmitByteReverseDual inst2 result2 t).valueOf .inst 64
          = some (inst.arg0.raw % 2 ^ 64)) := by
  obtain ⟨w1, w2, w3⟩ := byteSwap_4_props (inst.arg0.raw % 2 ^ 32) (Nat.mod_lt _ (by norm_num))
  obtain ⟨d1, d2, d3⟩ := byteSwap_8_props (inst.arg0.raw % 2 ^ 64) (Nat.mod_lt _ (by norm_num))
  refine ⟨?_, ⟨_, ByteReverseWord_value inst result s, w1, w2⟩,
    ⟨_, ByteReverseDual_value inst result s, d1, d2⟩, fun h => ?_, fun h => ?_, fun h => ?_⟩
  · rw [ByteReverseHalf_value]
    refine congrArg some ?_
    rw [Nat.shiftLeft_eq, Nat.shiftRight_eq_div_pow, Nat.mul_comm,
      ← Nat.mul_add_lt_is_or (by omega)]
  · rw [ByteReverseHalf_value] at h
    rw [ByteReverseHalf_value, ← Option.some.inj h]
    exact congrArg some (half_swap _ (Nat.mod_lt _ (by norm_num))).2
  · rw [ByteReverseWord_value] at h
    rw [ByteReverseWord_value, ← Option.some.inj h, w3]
  · rw [ByteReverseDual_value] at h
    rw [ByteReverseDual_value, ← Option.some.inj h, d3]

/-- C31, on `0x1234`, `0x11223344` and `0x1122334455667788`: the reversals are
`0x3412`, `0x44332211` and `0x8877665544332211`, and reversing these gives the
operands back. -/
theorem ByteReverse_reverses_and_involutive_witness :
    (EmitByteReverseHalf ⟨.val .U16 0x3412, .val .U1 0, .val .U1 0, false, false, false⟩
        .RBX X64State.zero).valueOf .inst 16 = some 0x1234
    ∧ (EmitByteReverseWord ⟨.val .U32 0x44332211, .val .U1 0, .val .U1 0, false, false, false⟩
        .RBX X64State.zero).valueOf .inst 32 = some 0x11223344
    ∧ (EmitByteReverseDual ⟨.val .U64 0x8877665544332211, .val .U1 0, .val .U1 0,
        false, false, false⟩ .RBX X64State.zero).valueOf .inst 64
        = some 0x1122334455667788 := by
  have h16 := (ByteReverse_reverses_and_involutive
    ⟨.val .U16 0x1234, .val .U1 0, .val .U1 0, false, false, false⟩
    ⟨.val .U16 0x3412, .val .U1 0, .val .U1 0, false, false, false⟩
    .RBX .RBX X64State.zero X64State.zero).2.2.2.1 (by decide)
  have h32 := (ByteReverse_reverses_and_involutive
    ⟨.val .U32 0x11223344, .val .U1 0, .val .U1 0, false, false, false⟩
    ⟨.val .U32 0x44332211, .val .U1 0, .val .U1 0, false, false, false⟩
    .RBX .RBX X64State.zero X64State.zero).2.2.2.2.1 (by decide)
  have h64 := (ByteReverse_reverses_and_involutive
    ⟨.val .U64 0x1122334455667788, .val .U1 0, .val .U1 0, false, false, false⟩
    ⟨.val .U64 0x8877665544332211, .val .U1 0, .val .U1 0, false, false, false⟩
    .RBX .RBX X64State.zero X64State.zero).2.2.2.2.2 (by decide)
  exact ⟨h16.trans (by decide), h32.trans (by decide), h64.trans (by decide)⟩

/-! ## Most significant word, with or without carry-out -/

/-- Carry-out of `EmitMostSignificantWord`: the last bit shifted out. -/
theorem MostSignificantWord_carry (inst : Inst) (result carry : HostLoc) (s : X64State)
    (hci : inst.carry_inst = true) (hra : result ≠ carry) :
    (EmitMostSignificantWord inst result carry s).valueOf .carry_inst 8
      = some (inst.arg0.raw % 2 ^ 64 / 2 ^ 31 % 2) := by
  have e1 := regs_ne hra
  unfold EmitMostSignificantWord
  simp only [hci, if_true]
  refine (shiftOutputs_values result carry _).2.trans (congrArg some ?_)
  simp only [setcc_eff, shr_eff, UseScratchGpr_eff, e1, if_true, if_false, code.countMask,
    Nat.reduceMod, Nat.reduceEqDiff, X64State.readGpr, regWrite_8_low, CC.holds, bit_toNat_eq,
    Nat.reducePow, Nat.reduceSub, toNat_mod_256, Nat.mod_mod]
  omega

/-- C32: for every 64-bit input `x`, the MostSignificantWord sequence yields
`x >> 32`, whose upper 32 bits are zero; when a GetCarryFromOp pseudo-operation is
attached the low byte of its value is bit 31 of `x`; the result is the same whether
or not the pseudo-operation is attached. -/
theorem MostSignificantWord_result_carry (inst : Inst) (result carry : HostLoc)
    (s t : X64State) (hra : result ≠ carry) :
    (EmitMostSignificantWord inst result carry s).valueOf .inst 64
      = some ((inst.arg0.raw % 2 ^ 64) >>> 32)
    ∧ (inst.arg0.raw % 2 ^ 64) >>> 32 < 2 ^ 32
    ∧ (inst.carry_inst = true →
        (EmitMostSignificantWord inst result carry s).valueOf .carry_inst 8
          = some (bit (inst.arg0.raw % 2 ^ 64) 31).toNat)
    ∧ (EmitMostSignificantWord { inst with carry_inst := true } result carry s).valueOf
          .inst 64
        = (EmitMostSignificantWord { inst with carry_inst := false } result carry t).valueOf
          .inst 64 := by
  refine ⟨?_, ?_, fun hci => ?_, ?_⟩
  · rw [MostSignificantWord_value inst result carry s hra, Nat.shiftRight_eq_div_pow]
  · rw [Nat.shiftRight_eq_div_pow]
    omega
  · rw [MostSignificantWord_carry inst result carry s hci hra, bit_toNat_eq]
  · rw [MostSignificantWord_value _ result carry s hra,
      MostSignificantWord_value _ result carry t hra]

/-- C32, on `x = 0x1234567880000001`: the result is `0x12345678` with and without
the carry pseudo-operation, and the carry-out is 1. -/
theorem MostSignificantWord_result_carry_witness :
    (EmitMostSignificantWord ⟨.val .U64 0x1234567880000001, .val .U1 0, .val .U1 0,
        true, false, false⟩ .RBX .RSI X64State.zero).valueOf .inst 64 = some 0x12345678
    ∧ (EmitMostSignificantWord ⟨.val .U64 0x1234567880000001, .val .U1 0, .val .U1 0,
        true, false, false⟩ .RBX .RSI X64State.zero).valueOf .carry_inst 8 = some 1
    ∧ (EmitMostSignificantWord ⟨.val .U64 0x1234567880000001, .val .U1 0, .val .U1 0,
        false, false, false⟩ .RBX .RSI X64State.zero).valueOf .inst 64 = some 0x12345678 := by
  have h := MostSignificantWord_result_carry
    ⟨.val .U64 0x1234567880000001, .val .U1 0, .val .U1 0, true, false, false⟩
    .RBX .RSI X64State.zero X64State.zero (by decide)
  exact ⟨h.1.trans (by decide), (h.2.2.1 rfl).trans (by decide),
    h.2.2.2.symm.trans (h.1.trans (by decide))⟩

/-! ## Bit test -/

/-- C33: EmitTestBit requires its second operand to be an immediate: the assertion
fails exactly when it is not; for every 64-bit operand `x` and immediate bit index
`i < 64` the emitter completes and the low byte of the defined result is 1 if bit `i`
of `x` is set and 0 otherwise. -/
theorem TestBit_value (inst : Inst) (result : HostLoc) (s : X64State) :
    (EmitTestBit inst result s = none ↔ inst.arg1.IsImmediate = false)
    ∧ (inst.arg1.IsImmediate = true → inst.arg1.GetImmediateU8 < 64 →
        ∃ s', EmitTestBit inst result s = some s'
          ∧ s'.valueOf .inst 8
              = some (if bit (inst.arg0.raw % 2 ^ 64) inst.arg1.GetImmediateU8 then 1 else 0)) := by
  unfold EmitTestBit
  constructor
  · cases h : inst.arg1.IsImmediate <;> simp
  · intro himm hi
    simp only [himm, Bool.not_true, Bool.false_eq_true, if_false]
    refine ⟨_, rfl, ?_⟩
    rw [DefineValue_valueOf]
    refine congrArg some ?_
    simp only [setcc_eff, bt_eff, UseScratchGpr_eff, if_true, X64State.readGpr, CC.holds,
      Nat.reducePow, regWrite_8_low, toNat_mod_256, Nat.mod_eq_of_lt hi, Nat.mod_mod]
    cases bit (inst.arg0.raw % 18446744073709551616) inst.arg1.GetImmediateU8 <;> rfl

/-- C33, on `x = 0x8000000000000005`: bit 2 and bit 63 read 1, bit 1 reads 0, and a
bit index that is not an immediate fails the assertion. -/
theorem TestBit_value_witness :
    (∃ s', EmitTestBit ⟨.val .U64 0x8000000000000005, .imm .U8 63, .val .U1 0,
        false, false, false⟩ .RBX X64State.zero = some s' ∧ s'.valueOf .inst 8 = some 1)
    ∧ (∃ s', EmitTestBit ⟨.val .U64 0x8000000000000005, .imm .U8 1, .val .U1 0,
        false, false, false⟩ .RBX X64State.zero = some s' ∧ s'.valueOf .inst 8 = some 0)
    ∧ EmitTestBit ⟨.val .U64 0x8000000000000005, .val .U8 2, .val .U1 0,
        false, false, false⟩ .RBX X64State.zero = none := by
  obtain ⟨s1, a1, b1⟩ := (TestBit_value ⟨.val .U64 0x8000000000000005, .imm .U8 63, .val .U1 0,
    false, false, false⟩ .RBX X64State.zero).2 rfl (by decide)
  obtain ⟨s2, a2, b2⟩ := (TestBit_value ⟨.val .U64 0x8000000000000005, .imm .U8 1, .val .U1 0,
    false, false, false⟩ .RBX X64State.zero).2 rfl (by decide)
  exact ⟨⟨s1, a1, b1.trans (by decide)⟩, ⟨s2, a2, b2.trans (by decide)⟩,
    (TestBit_value ⟨.val .U64 0x8000000000000005, .val .U8 2, .val .U1 0,
      false, false, false⟩ .RBX X64State.zero).1.2 rfl⟩

/-! ## Signed division -/

/-- Range of the two's-complement reading. -/
theorem toSigned_range (w x : Nat) (hw : w = 32 ∨ w = 64) :
    -(2 ^ (w - 1) : Int) ≤ toSigned w x ∧ toSigned w x < 2 ^ (w - 1) := by
  unfold toSigned
  rcases hw with rfl | rfl <;> simp only [Nat.reducePow, Nat.reduceSub] <;> norm_num <;>
    split <;> omega

/-- The double-width dividend built by `cdq`/`cqo` reads as the signed dividend. -/
theorem signExtended_dividend (w a : Nat) (hw : w = 32 ∨ w = 64) (ha : a < 2 ^ w) :
    toSigned (2 * w) ((if msb w a then 2 ^ w - 1 else 0) % 2 ^ w * 2 ^ w + a) = toSigned w a := by
  unfold toSigned msb
  rcases hw with rfl | rfl <;>
    simp only [Nat.reducePow, Nat.reduceSub, Nat.reduceMul, decide_eq_true_eq] at ha ⊢ <;>
    norm_num <;> split <;> split <;> split <;> omega

/-- Truncated division of non-negative numbers and its sign rules. -/
theorem tdiv_bounds (n d H : Int) (hn1 : -H ≤ n) (hn2 : n < H) (hd : d ≠ 0) :
    -H ≤ Int.tdiv n d ∧ Int.tdiv n d ≤ H ∧ (Int.tdiv n d = H ↔ n = -H ∧ d = -1) := by
  have key : ∀ m k : Int, 0 ≤ m → 0 < k → 0 ≤ Int.tdiv m k ∧ Int.tdiv m k ≤ m
      ∧ (1 < k → 0 < m → Int.tdiv m k < m) := by
    intro m k hm hk
    rw [Int.tdiv_eq_ediv hm (le_of_lt hk)]
    refine ⟨Int.ediv_nonneg hm (le_of_lt hk), Int.ediv_le_self _ hm, fun h1 h0 => ?_⟩
    exact Int.ediv_lt_of_lt_mul hk (by nlinarith)
  rcases lt_or_gt_of_ne hd with hneg | hpos
  · have e : d = -(-d) := by omega
    rcases lt_or_le n 0 with hn | hn
    · have e2 : n = -(-n) := by omega
      obtain ⟨k1, k2, k3⟩ := key (-n) (-d) (by omega) (by omega)
      have hq : Int.tdiv n d = Int.tdiv (-n) (-d) := by
        rw [Int.tdiv_neg, Int.neg_tdiv, neg_neg]
      rw [hq]
      refine ⟨by omega, by omega, ⟨fun h => ?_, fun h => ?_⟩⟩
      · by_cases h1 : 1 < -d
        · have := k3 h1 (by omega)
          omega
        · omega
      · obtain ⟨rfl, rfl⟩ := h
        simp only [neg_neg, Int.tdiv_one]
    · obtain ⟨k1, k2, k3⟩ := key n (-d) hn (by omega)
      have hq : Int.tdiv n d = -Int.tdiv n (-d) := by
        rw [Int.tdiv_neg, neg_neg]
      rw [hq]
      refine ⟨by omega, by omega, ⟨fun h => by omega, fun h => by omega⟩⟩
  · rcases lt_or_le n 0 with hn | hn
    · obtain ⟨k1, k2, k3⟩ := key (-n) d (by omega) hpos
      have hq : Int.tdiv n d = -Int.tdiv (-n) d := by
        rw [Int.neg_tdiv, neg_neg]
      rw [hq]
      refine ⟨by omega, by omega, ⟨fun h => by omega, fun h => by omega⟩⟩
    · obtain ⟨k1, k2, k3⟩ := key n d hn hpos
      refine ⟨by omega, by omega, ⟨fun h => by omega, fun h => by omega⟩⟩

/-- The overflowing pair in signed terms. -/
theorem sdivOverflows_iff (w a d : Nat) (hw : w = 32 ∨ w = 64) :
    sdivOverflows w a d = true
      ↔ toSigned w a = -(2 ^ (w - 1) : Int) ∧ toSigned w d = -1 := by
  unfold sdivOverflows toSigned
  rcases hw with rfl | rfl <;>
    simp only [Nat.reducePow, Nat.reduceSub, decide_eq_true_eq, Bool.decide_and,
      Bool.and_eq_true] <;>
    norm_num <;> constructor <;> intro h <;> (try split at h) <;> (try split at h) <;>
    (try split) <;> (try split) <;> omega

/-- The non-zero path of the signed division emitters: the zero test falls through,
the dividend is sign-extended into RDX:RAX, and `idiv` either raises a divide error,
for the most negative dividend and the divisor minus one, or completes with the
truncated quotient and remainder. -/
theorem sdiv_nonzero_path (w : Nat) (hw : w = 32 ∨ w = 64) (inst : Inst)
    (dividend divisor : HostLoc) (s : X64State) (hra : DivAlloc inst dividend divisor)
    (hnz : inst.arg1.raw % 2 ^ w ≠ 0) :
    CC.z.holds (code.test w divisor (.reg divisor) (code.xor_ 32 .RAX (.reg .RAX)
        (UseGpr inst.arg1 divisor (UseGpr inst.arg0 dividend s)))) = false
    ∧ code.idiv w divisor (code.signExtendAcc w (code.mov w .RAX (.reg dividend)
        (code.test w divisor (.reg divisor) (code.xor_ 32 .RAX (.reg .RAX)
          (UseGpr inst.arg1 divisor (UseGpr inst.arg0 dividend s))))))
      = if sdivOverflows w (inst.arg0.raw % 2 ^ w) (inst.arg1.raw % 2 ^ w) = true then none
        else some (code.divWrite w
          (Int.tdiv (toSigned w (inst.arg0.raw % 2 ^ w)) (toSigned w (inst.arg1.raw % 2 ^ w))
            % 2 ^ w).toNat
          (Int.tmod (toSigned w (inst.arg0.raw % 2 ^ w)) (toSigned w (inst.arg1.raw % 2 ^ w))
            % 2 ^ w).toNat
          (code.signExtendAcc w (code.mov w .RAX (.reg dividend)
            (code.test w divisor (.reg divisor) (code.xor_ 32 .RAX (.reg .RAX)
              (UseGpr inst.arg1 divisor (UseGpr inst.arg0 dividend s))))))) := by
  obtain ⟨h1, h2, h3, h4, h5⟩ := hra
  have e1 := regs_ne h1; have e2 := regs_ne h2; have e3 := regs_ne h3; have e4 := regs_ne h4
  have hm : ∀ x : Nat, x % 18446744073709551616 % 2 ^ w = x % 2 ^ w := fun x => by
    rcases hw with rfl | rfl <;> omega
  have hmm : ∀ x y : Nat, regWrite w x y % 2 ^ w = y % 2 ^ w :=
    fun x y => regWrite_mod_self w hw x y
  have hdd : (if dividend = divisor then inst.arg1.raw % 18446744073709551616
      else inst.arg0.raw % 18446744073709551616) = inst.arg0.raw % 18446744073709551616 := by
    by_cases h : dividend = divisor
    · rw [if_pos h, h5 h]
    · rw [if_neg h]
  constructor
  · simp only [CC.holds, test_eff, xor_eff, UseGpr_eff, X64State.readOp, X64State.readGpr,
      e2, if_true, if_false, Nat.and_self, Nat.reducePow, hm, Nat.mod_mod, hnz, decide_False]
  · have hsx := signExtended_dividend w (inst.arg0.raw % 2 ^ w) hw (Nat.mod_lt _ (by positivity))
    obtain ⟨ra1, ra2⟩ := toSigned_range w (inst.arg0.raw % 2 ^ w) hw
    have hdz : toSigned w (inst.arg1.raw % 2 ^ w) ≠ 0 := by
      unfold toSigned
      rcases hw with rfl | rfl <;> simp only [Nat.reducePow, Nat.reduceSub, Nat.mod_mod] at hnz ⊢ <;>
        norm_num <;> split <;> omega
    obtain ⟨b1, b2, b3⟩ := tdiv_bounds _ _ _ ra1 ra2 hdz
    have hov := sdivOverflows_iff w (inst.arg0.raw % 2 ^ w) (inst.arg1.raw % 2 ^ w) hw
    unfold code.idiv
    simp only [signExtendAcc_eff, mov_eff, test_eff, xor_eff, UseGpr_eff, X64State.readOp,
      X64State.readGpr, e1, e2, e3, e4, if_true, if_false, Nat.reducePow, hm, hmm, hdd,
      reduceCtorEq, Nat.mod_mod, hsx, hdz]
    by_cases hO : sdivOverflows w (inst.arg0.raw % 2 ^ w) (inst.arg1.raw % 2 ^ w) = true
    · rw [if_pos hO, if_pos (Or.inr (le_of_eq (b3.2 (hov.1 hO)).symm))]
    · have hne := fun h => hO (hov.2 (b3.1 h))
      rw [if_neg hO, if_neg (by
        intro h
        rcases h with h | h
        · exact absurd b1 (not_le.2 h)
        · exact hne (le_antisymm b2 h))]

/-- A value in the signed range is recovered from its two's-complement pattern. -/
theorem toSigned_of_pattern (w : Nat) (hw : w = 32 ∨ w = 64) (q : Int)
    (h1 : -(2 ^ (w - 1) : Int) ≤ q) (h2 : q < 2 ^ (w - 1)) :
    (q % 2 ^ w).toNat < 2 ^ w ∧ toSigned w (q % 2 ^ w).toNat = q := by
  unfold toSigned
  rcases hw with rfl | rfl <;> simp only [Nat.reducePow, Nat.reduceSub] at h1 h2 ⊢ <;>
    norm_num at h1 h2 ⊢ <;> refine ⟨by omega, ?_⟩ <;> split <;> omega

/-- Unless the operands are the overflowing pair, the pattern `idiv` leaves reads as
the truncated quotient. -/
theorem sdiv_quotient_signed (w : Nat) (hw : w = 32 ∨ w = 64) (a d : Nat)
    (hd : d % 2 ^ w ≠ 0) (hno : sdivOverflows w a d = false) :
    (Int.tdiv (toSigned w a) (toSigned w d) % 2 ^ w).toNat < 2 ^ w
    ∧ toSigned w (Int.tdiv (toSigned w a) (toSigned w d) % 2 ^ w).toNat
        = Int.tdiv (toSigned w a) (toSigned w d) := by
  obtain ⟨ra1, ra2⟩ := toSigned_range w a hw
  have hdz : toSigned w d ≠ 0 := by
    unfold toSigned
    rcases hw with rfl | rfl <;> simp only [Nat.reducePow, Nat.reduceSub] at hd ⊢ <;>
      norm_num <;> split <;> omega
  obtain ⟨b1, b2, b3⟩ := tdiv_bounds _ _ _ ra1 ra2 hdz
  have hov := sdivOverflows_iff w a d hw
  have hne : Int.tdiv (toSigned w a) (toSigned w d) ≠ 2 ^ (w - 1) := fun h => by
    have := hov.2 (b3.1 h)
    rw [hno] at this
    exact Bool.false_ne_true this
  exact toSigned_of_pattern w hw _ b1 (lt_of_le_of_ne b2 hne)

/-- Outcome of a signed division emitter on a non-zero divisor, for either width:
`run` is the emitter seen as the composition that `sdiv_nonzero_path` describes. -/
theorem sdiv_outcome (w : Nat) (hw : w = 32 ∨ w = 64) (inst : Inst)
    (dividend divisor : HostLoc) (s : X64State) (hra : DivAlloc inst dividend divisor)
    (hnz : inst.arg1.raw % 2 ^ w ≠ 0) (run : Option X64State)
    (hrun : run = (if CC.z.holds (code.test w divisor (.reg divisor)
          (code.xor_ 32 .RAX (.reg .RAX) (UseGpr inst.arg1 divisor
            (UseGpr inst.arg0 dividend s)))) = true
        then some (code.test w divisor (.reg divisor) (code.xor_ 32 .RAX (.reg .RAX)
          (UseGpr inst.arg1 divisor (UseGpr inst.arg0 dividend s))))
        else code.idiv w divisor (code.signExtendAcc w (code.mov w .RAX (.reg dividend)
          (code.test w divisor (.reg divisor) (code.xor_ 32 .RAX (.reg .RAX)
            (UseGpr inst.arg1 divisor (UseGpr inst.arg0 dividend s))))))).map
        (DefineValue .inst .RAX)) :
    (sdivOverflows w (inst.arg0.raw % 2 ^ w) (inst.arg1.raw % 2 ^ w) = true → run = none)
    ∧ (sdivOverflows w (inst.arg0.raw % 2 ^ w) (inst.arg1.raw % 2 ^ w) = false →
        ∃ s', run = some s'
          ∧ s'.valueOf .inst w = some (Int.tdiv (toSigned w (inst.arg0.raw % 2 ^ w))
              (toSigned w (inst.arg1.raw % 2 ^ w)) % 2 ^ w).toNat
          ∧ toSigned w (Int.tdiv (toSigned w (inst.arg0.raw % 2 ^ w))
              (toSigned w (inst.arg1.raw % 2 ^ w)) % 2 ^ w).toNat
            = Int.tdiv (toSigned w (inst.arg0.raw % 2 ^ w))
              (toSigned w (inst.arg1.raw % 2 ^ w))
          ∧ s'.divs = s.divs + 1) := by
  obtain ⟨p1, p2⟩ := sdiv_nonzero_path w hw inst dividend divisor s hra hnz
  rw [p1, p2] at hrun
  simp only [Bool.false_eq_true, if_false] at hrun
  constructor
  · intro hO
    rw [hrun, if_pos hO]
    rfl
  · intro hO
    have hmm : inst.arg1.raw % 2 ^ w % 2 ^ w ≠ 0 := by rw [Nat.mod_mod]; exact hnz
    obtain ⟨q1, q2⟩ := sdiv_quotient_signed w hw _ _ hmm hO
    rw [hO] at hrun
    simp only [Bool.false_eq_true, if_false, Option.map_some'] at hrun
    refine ⟨_, hrun, ?_, q2, ?_⟩
    · rw [DefineValue_valueOf]
      refine congrArg some ?_
      simp only [divWrite_eff, reduceCtorEq, if_true, if_false]
      rw [regWrite_mod_self w hw]
      exact Nat.mod_eq_of_lt q1
    · simp only [DefineValue_eff, divWrite_eff, signExtendAcc_eff, mov_eff, test_eff, xor_eff,
        UseGpr_eff]

/-- C34 (as the code behaves): for width 32 or 64 and every non-zero divisor, the
SignedDiv sequence divides the sign-extended dividend; for the most negative
dividend and the divisor minus one the quotient `2^(w-1)` does not fit and the host
`idiv` raises a divide error; in every other case the emitter completes, executes
one `idiv` and defines the quotient truncated toward zero. -/
theorem SignedDiv_quotient_or_fault (inst : Inst) (dividend divisor : HostLoc) (s : X64State)
    (hra : DivAlloc inst dividend divisor) :
    (inst.arg1.raw % 2 ^ 32 ≠ 0 →
      (sdivOverflows 32 (inst.arg0.raw % 2 ^ 32) (inst.arg1.raw % 2 ^ 32) = true →
        EmitSignedDiv32 inst dividend divisor s = none)
      ∧ (sdivOverflows 32 (inst.arg0.raw % 2 ^ 32) (inst.arg1.raw % 2 ^ 32) = false →
        ∃ s', EmitSignedDiv32 inst dividend divisor s = some s'
          ∧ s'.valueOf .inst 32 = some (Int.tdiv (toSigned 32 (inst.arg0.raw % 2 ^ 32))
              (toSigned 32 (inst.arg1.raw % 2 ^ 32)) % 2 ^ 32).toNat
          ∧ toSigned 32 (Int.tdiv (toSigned 32 (inst.arg0.raw % 2 ^ 32))
              (toSigned 32 (inst.arg1.raw % 2 ^ 32)) % 2 ^ 32).toNat
            = Int.tdiv (toSigned 32 (inst.arg0.raw % 2 ^ 32))
              (toSigned 32 (inst.arg1.raw % 2 ^ 32))
          ∧ s'.divs = s.divs + 1))
    ∧ (inst.arg1.raw % 2 ^ 64 ≠ 0 →
      (sdivOverflows 64 (inst.arg0.raw % 2 ^ 64) (inst.arg1.raw % 2 ^ 64) = true →
        EmitSignedDiv64 inst dividend divisor s = none)
      ∧ (sdivOverflows 64 (inst.arg0.raw % 2 ^ 64) (inst.arg1.raw % 2 ^ 64) = false →
        ∃ s', EmitSignedDiv64 inst dividend divisor s = some s'
          ∧ s'.valueOf .inst 64 = some (Int.tdiv (toSigned 64 (inst.arg0.raw % 2 ^ 64))
              (toSigned 64 (inst.arg1.raw % 2 ^ 64)) % 2 ^ 64).toNat
          ∧ toSigned 64 (Int.tdiv (toSigned 64 (inst.arg0.raw % 2 ^ 64))
              (toSigned 64 (inst.arg1.raw % 2 ^ 64)) % 2 ^ 64).toNat
            = Int.tdiv (toSigned 64 (inst.arg0.raw % 2 ^ 64))
              (toSigned 64 (inst.arg1.raw % 2 ^ 64))
          ∧ s'.divs = s.divs + 1)) := by
  exact ⟨fun hnz => sdiv_outcome 32 (Or.inl rfl) inst dividend divisor s hra hnz _ rfl,
    fun hnz => sdiv_outcome 64 (Or.inr rfl) inst dividend divisor s hra hnz _ rfl⟩

/-- C34, on SDIV32: `0x80000000 / 0xFFFFFFFF` (the most negative value by minus one)
ends in a host divide error, while `0xFFFFFFF9 / 2` (minus seven by two) completes
with `0xFFFFFFFD` (minus three). -/
theorem SignedDiv_quotient_or_fault_witness :
    EmitSignedDiv32 ⟨.val .U32 0x80000000, .val .U32 0xFFFFFFFF, .imm .U1 0,
        false, false, false⟩ .RBX .RSI X64State.zero = none
    ∧ ∃ s', EmitSignedDiv32 ⟨.val .U32 0xFFFFFFF9, .val .U32 2, .imm .U1 0,
        false, false, false⟩ .RBX .RSI X64State.zero = some s'
      ∧ s'.valueOf .inst 32 = some 0xFFFFFFFD ∧ s'.divs = 1 := by
  have h1 := ((SignedDiv_quotient_or_fault ⟨.val .U32 0x80000000, .val .U32 0xFFFFFFFF,
    .imm .U1 0, false, false, false⟩ .RBX .RSI X64State.zero
    (by unfold DivAlloc; decide)).1 (by decide)).1 (by decide)
  obtain ⟨s', a, b, -, d⟩ := ((SignedDiv_quotient_or_fault ⟨.val .U32 0xFFFFFFF9,
    .val .U32 2, .imm .U1 0, false, false, false⟩ .RBX .RSI X64State.zero
    (by unfold DivAlloc; decide)).1 (by decide)).2 (by decide)
  exact ⟨h1, s', a, b.trans (by decide), d⟩

/-! ## Zero test -/

/-- C35: for every 64-bit register value `r`, EmitIsZero32 leaves 1 if the low 32
bits of `r` are all zero and 0 otherwise, whatever the upper 32 bits of `r`;
EmitIsZero64 leaves 1 if all 64 bits of `r` are zero and 0 otherwise; in both cases
the whole 64-bit result register is that 0 or 1, so every bit above bit 0 is zero. -/
theorem IsZero_value (inst : Inst) (result : HostLoc) (s : X64State) :
    (EmitIsZero32 inst result s).valueOf .inst 64
        = some (if inst.arg0.raw % 2 ^ 64 % 2 ^ 32 = 0 then 1 else 0)
    ∧ (EmitIsZero64 inst result s).valueOf .inst 64
        = some (if inst.arg0.raw % 2 ^ 64 = 0 then 1 else 0)
    ∧ (∀ upper : Nat, (EmitIsZero32 ⟨Argument.val IRType.U32
          (upper * 2 ^ 32 + inst.arg0.raw % 2 ^ 32), inst.arg1, inst.arg2, inst.carry_inst,
          inst.overflow_inst, inst.nzcv_inst⟩ result s).valueOf .inst 64
        = (EmitIsZero32 inst result s).valueOf .inst 64) := by
  have key32 : ∀ i : Inst, (EmitIsZero32 i result s).valueOf .inst 64
      = some (if i.arg0.raw % 2 ^ 64 % 2 ^ 32 = 0 then 1 else 0) := by
    intro i
    unfold EmitIsZero32
    rw [DefineValue_valueOf]
    refine congrArg some ?_
    simp only [movzx_eff, setcc_eff, test_eff, UseScratchGpr_eff, if_true, X64State.readGpr,
      X64State.readOp, CC.holds, Nat.and_self, Nat.reducePow, regWrite_8_low, regWrite_32,
      toNat_mod_256, Nat.mod_mod]
    by_cases h : i.arg0.raw % 18446744073709551616 % 4294967296 = 0 <;> simp [h]
  refine ⟨key32 inst, ?_, fun upper => ?_⟩
  · unfold EmitIsZero64
    rw [DefineValue_valueOf]
    refine congrArg some ?_
    simp only [movzx_eff, setcc_eff, test_eff, UseScratchGpr_eff, if_true, X64State.readGpr,
      X64State.readOp, CC.holds, Nat.and_self, Nat.reducePow, regWrite_8_low, regWrite_64,
      toNat_mod_256, Nat.mod_mod]
    by_cases h : inst.arg0.raw % 18446744073709551616 = 0 <;> simp [h]
  · rw [key32, key32]
    refine congrArg some ?_
    have e : (Argument.val IRType.U32 (upper * 2 ^ 32 + inst.arg0.raw % 2 ^ 32)).raw % 2 ^ 64 % 2 ^ 32
        = inst.arg0.raw % 2 ^ 64 % 2 ^ 32 := by
      simp only [Argument.raw]
      omega
    rw [e]

/-! ## Host feature detection from the auxiliary vector -/

/-- Bit test of one bit: `(value >> b) & 1` is non-zero exactly when bit `b` is set. -/
theorem shift_and_one (x b : Nat) : ((x >>> b) &&& 1 != 0) = bit x b := by
  unfold bit
  rw [Nat.shiftRight_eq_div_pow, Nat.and_one_is_mod]
  rcases Nat.mod_two_eq_zero_or_one (x / 2 ^ b) with h | h <;> simp [h]

/-- The fold of `bit_test`: every listed bit is set. -/
theorem bit_test_iff (bits : List Nat) (value : Nat) :
    oaknut.bit_test bits value = true ↔ ∀ b ∈ bits, bit (value % 2 ^ 64) b = true := by
  unfold oaknut.bit_test
  simp only [List.all_eq_true, shift_and_one]

/-- Membership after one detection step. -/
theorem OAKNUT_DETECT_CAP_apply (feat : oaknut.CpuFeature) (bits : List Nat) (cap : Nat)
    (result : oaknut.CpuFeatures) (g : oaknut.CpuFeature) :
    oaknut.OAKNUT_DETECT_CAP feat bits cap result g
      = ((decide (g = feat) && oaknut.bit_test bits cap) || result g) := by
  unfold oaknut.OAKNUT_DETECT_CAP oaknut.CpuFeatures.add
  cases oaknut.bit_test bits cap <;> simp

/-- A feature is reported exactly when all of its listed bits are set in its word. -/
theorem detect_features_mem (hwcap hwcap2 : Nat) (f : oaknut.CpuFeature) :
    oaknut.detect_features_via_hwcap hwcap hwcap2 f
      = oaknut.bit_test (oaknut.listedBits f) (if oaknut.inHwcap2 f then hwcap2 else hwcap) := by
  unfold oaknut.detect_features_via_hwcap
  simp only [OAKNUT_DETECT_CAP_apply, oaknut.CpuFeatures.empty, Function.comp, Bool.or_false]
  cases f <;>
    simp only [reduceCtorEq, decide_False, decide_True, Bool.false_and, Bool.true_and,
      Bool.false_or, Bool.or_false, oaknut.listedBits, oaknut.inHwcap2, if_true, if_false,
      Bool.false_eq_true]

/-- The listed bits avoid bits 2 and 11 of `hwcap` and stay below bit 45 of `hwcap2`. -/
theorem listedBits_range (f : oaknut.CpuFeature) (b : Nat) (hb : b ∈ oaknut.listedBits f) :
    (oaknut.inHwcap2 f = true → b < 45)
    ∧ (oaknut.inHwcap2 f = false → b < 64 ∧ b ≠ 2 ∧ b ≠ 11) := by
  cases f <;>
    simp only [oaknut.listedBits, List.mem_cons, List.mem_singleton, List.not_mem_nil,
      or_false] at hb <;>
    simp only [oaknut.inHwcap2, reduceCtorEq, false_implies, true_implies, true_and, and_true,
      Bool.false_eq_true, Bool.true_eq_false] <;>
    omega

/-- Every feature other than FP16 and FP16Conv lists a single bit. -/
theorem listedBits_single (f : oaknut.CpuFeature) (h1 : f ≠ .FP16) (h2 : f ≠ .FP16Conv) :
    ∃ b, oaknut.listedBits f = [b] := by
  cases f <;> first | exact absurd rfl h1 | exact absurd rfl h2 | exact ⟨_, rfl⟩

/-- C36: for every pair of 64-bit words `hwcap`, `hwcap2`, `bit_test` holds exactly
when every listed bit is set, and `detect_features_via_hwcap` reports a feature
exactly when all of its listed bits are set in its word: FP16 and FP16Conv each
exactly when bits 9 and 10 of `hwcap` are both set, every other feature exactly when
its single bit is set (FP: `hwcap` bit 0, HBC: `hwcap2` bit 44); bits 2 and 11 of
`hwcap` and bits 45..63 of `hwcap2` never change the result, and the result for
(0, 0) is the empty set. -/
theorem detect_features_via_hwcap_spec (hwcap hwcap2 : Nat) :
    (∀ bits v, oaknut.bit_test bits v = true ↔ ∀ b ∈ bits, bit (v % 2 ^ 64) b = true)
    ∧ (∀ f, oaknut.detect_features_via_hwcap hwcap hwcap2 f = true
        ↔ ∀ b ∈ oaknut.listedBits f,
            bit ((if oaknut.inHwcap2 f then hwcap2 else hwcap) % 2 ^ 64) b = true)
    ∧ (oaknut.detect_features_via_hwcap hwcap hwcap2 .FP16 = true
        ↔ bit (hwcap % 2 ^ 64) 9 = true ∧ bit (hwcap % 2 ^ 64) 10 = true)
    ∧ (oaknut.detect_features_via_hwcap hwcap hwcap2 .FP16Conv = true
        ↔ bit (hwcap % 2 ^ 64) 9 = true ∧ bit (hwcap % 2 ^ 64) 10 = true)
    ∧ (∀ f, f ≠ .FP16 → f ≠ .FP16Conv → ∃ b, oaknut.listedBits f = [b]
        ∧ (oaknut.detect_features_via_hwcap hwcap hwcap2 f = true
          ↔ bit ((if oaknut.inHwcap2 f then hwcap2 else hwcap) % 2 ^ 64) b = true))
    ∧ (oaknut.detect_features_via_hwcap hwcap hwcap2 .FP = true
        ↔ bit (hwcap % 2 ^ 64) 0 = true)
    ∧ (oaknut.detect_features_via_hwcap hwcap hwcap2 .HBC = true
        ↔ bit (hwcap2 % 2 ^ 64) 44 = true)
    ∧ (∀ other other2 : Nat,
        (∀ b, b < 64 → b ≠ 2 → b ≠ 11 → bit (other % 2 ^ 64) b = bit (hwcap % 2 ^ 64) b) →
        (∀ b, b < 45 → bit (other2 % 2 ^ 64) b = bit (hwcap2 % 2 ^ 64) b) →
        oaknut.detect_features_via_hwcap other other2
          = oaknut.detect_features_via_hwcap hwcap hwcap2)
    ∧ oaknut.detect_features_via_hwcap 0 0 = oaknut.CpuFeatures.empty := by
  have mem : ∀ (h h2 : Nat) (f : oaknut.CpuFeature),
      oaknut.detect_features_via_hwcap h h2 f = true
        ↔ ∀ b ∈ oaknut.listedBits f,
            bit ((if oaknut.inHwcap2 f then h2 else h) % 2 ^ 64) b = true := by
    intro h h2 f
    rw [detect_features_mem, bit_test_iff]
  refine ⟨bit_test_iff, mem hwcap hwcap2, ?_, ?_, fun f h1 h2 => ?_, ?_, ?_,
    fun other other2 H H2 => ?_, ?_⟩
  · rw [mem]
    simp only [oaknut.listedBits, oaknut.inHwcap2, List.mem_cons, List.mem_singleton,
      List.not_mem_nil, or_false, forall_eq_or_imp, forall_eq, Bool.false_eq_true, if_false]
  · rw [mem]
    simp only [oaknut.listedBits, oaknut.inHwcap2, List.mem_cons, List.mem_singleton,
      List.not_mem_nil, or_false, forall_eq_or_imp, forall_eq, Bool.false_eq_true, if_false]
  · obtain ⟨b, hb⟩ := listedBits_single f h1 h2
    refine ⟨b, hb, ?_⟩
    rw [mem, hb]
    simp only [List.mem_singleton, forall_eq]
  · rw [mem]
    simp only [oaknut.listedBits, oaknut.inHwcap2, List.mem_singleton, forall_eq,
      Bool.false_eq_true, if_false]
  · rw [mem]
    simp only [oaknut.listedBits, oaknut.inHwcap2, List.mem_singleton, forall_eq, if_true]
  · funext f
    rw [Bool.eq_iff_iff, mem, mem]
    cases hf : oaknut.inHwcap2 f
    · simp only [Bool.false_eq_true, if_false]
      constructor
      · intro h b hb
        obtain ⟨r1, r2, r3⟩ := (listedBits_range f b hb).2 hf
        rw [← H b r1 r2 r3]
        exact h b hb
      · intro h b hb
        obtain ⟨r1, r2, r3⟩ := (listedBits_range f b hb).2 hf
        rw [H b r1 r2 r3]
        exact h b hb
    · simp only [if_true]
      constructor
      · intro h b hb
        rw [← H2 b ((listedBits_range f b hb).1 hf)]
        exact h b hb
      · intro h b hb
        rw [H2 b ((listedBits_range f b hb).1 hf)]
        exact h b hb
  · funext f
    rw [detect_features_mem]
    cases f <;> rfl

/-- C36, on `hwcap = 2^9 + 2^10 + 2^2 + 2^11` and `hwcap2 = 2^44 + 2^45 + 2^63`: the
result is that of `hwcap = 2^9 + 2^10`, `hwcap2 = 2^44`; FP16, FP16Conv and HBC are
reported, FP is not, and with bit 9 alone FP16 is not reported. -/
theorem detect_features_via_hwcap_spec_witness :
    oaknut.detect_features_via_hwcap (2 ^ 9 + 2 ^ 10 + 2 ^ 2 + 2 ^ 11) (2 ^ 44 + 2 ^ 45 + 2 ^ 63)
        = oaknut.detect_features_via_hwcap (2 ^ 9 + 2 ^ 10) (2 ^ 44)
    ∧ oaknut.detect_features_via_hwcap (2 ^ 9 + 2 ^ 10) (2 ^ 44) .FP16 = true
    ∧ oaknut.detect_features_via_hwcap (2 ^ 9 + 2 ^ 10) (2 ^ 44) .FP16Conv = true
    ∧ oaknut.detect_features_via_hwcap (2 ^ 9 + 2 ^ 10) (2 ^ 44) .HBC = true
    ∧ oaknut.detect_features_via_hwcap (2 ^ 9 + 2 ^ 10) (2 ^ 44) .FP = false
    ∧ oaknut.detect_features_via_hwcap (2 ^ 9) 0 .FP16 = false := by
  have h := (detect_features_via_hwcap_spec (2 ^ 9 + 2 ^ 10) (2 ^ 44)).2.2.2.2.2.2.2.1
    (2 ^ 9 + 2 ^ 10 + 2 ^ 2 + 2 ^ 11) (2 ^ 44 + 2 ^ 45 + 2 ^ 63) (by decide) (by decide)
  exact ⟨h, by decide, by decide, by decide, by decide, by decide⟩

end Dynarmic.BackendX64
